import Mathlib

/-! # HLO diff: the computation graph matcher

A shallow embedding of `hlo_computation_graph_matcher.cc`.

* Pointers to instructions, nodes and call-graph nodes are modelled by the records
  they point to; two pointers are equal when the records are.
* An `absl::flat_hash_set` is modelled by the list of its elements in the order
  in which a range-for enumerates it.  A set handed to a function is an arbitrary
  list (theorems assume `List.Nodup` where it matters); a set built by the code
  enumerates in insertion order.  An `absl::flat_hash_map` is an association list
  in insertion order.
* A similarity score is a finite `double`; the code only compares scores, so the
  scores are modelled by rational numbers (every finite `double` is one, with the
  same order).
* `HloGumgraphMappings` carries one specification-only field, `requests`: the
  history of the calls of `MapInstructionsIfAbsent`.  No function reads it.
-/

namespace HloDiff

/-! ## Data model -/

/-- Opcodes of HLO instructions; the matcher only compares them for equality
and asks whether an instruction is a constant. -/
inductive HloOpcode where
  | kParameter
  | kConstant
  | kCall
  | kWhile
  | kTuple
  | kAdd
  | kOther (code : Nat)
deriving DecidableEq, Repr

/-- The part of an `HloInstruction` the matcher reads: `opcode()`,
`shape().ToString(/*print_layout=*/false)` and `metadata().op_name()`.
`unique_id` stands for the identity of the instruction. -/
structure HloInstruction where
  unique_id : Nat
  opcode : HloOpcode
  shape_string : String
  op_name : String
deriving DecidableEq, Repr

/-- `HloInstruction::IsConstant()`. -/
def HloInstruction.IsConstant (instruction : HloInstruction) : Bool :=
  instruction.opcode == HloOpcode.kConstant

/-- A node of the diff graph; it wraps one instruction. -/
structure HloInstructionNode where
  instruction : HloInstruction
  unique_node_index : Nat
deriving DecidableEq, Repr

/-- The part of an `HloComputation` the matcher reads.  `MakeInstructionPostOrder`
is the list that the method of that name returns. -/
structure HloComputation where
  name : String
  instructions : List HloInstruction
  parameter_instructions : List HloInstruction
  root_instruction : HloInstruction
  MakeInstructionPostOrder : List HloInstruction
deriving DecidableEq, Repr

/-- A call site: the calling instruction. -/
structure CallSite where
  instruction : HloInstruction
deriving DecidableEq, Repr

/-- A node of the call graph: a computation and the call sites that call it. -/
structure CallGraphNode where
  computation : HloComputation
  caller_callsites : List CallSite
deriving DecidableEq, Repr

/-- The diff graph of one module; the matcher only uses `GetNode`. -/
structure HloGumgraph where
  GetNode : HloInstruction → HloInstructionNode

/-- Provenance of an instruction mapping. -/
inductive MatcherType where
  | kManual
  | kComputationGraphExactFingerprintMatcher
  | kComputationGraphExactSignatureMatcher
deriving DecidableEq, Repr

/-- How two computations were found to correspond. -/
inductive ComputationMatchType where
  | kExact
  | kSignature
deriving DecidableEq, Repr

/-- Properties attached to a pair of matched computations. -/
structure HloCallGraphNodeMappingProps where
  computation_match_type : ComputationMatchType
deriving DecidableEq, Repr

/-- One entry of `left_to_right_computation_map`. -/
structure ComputationMapping where
  left : CallGraphNode
  right : CallGraphNode
  info : HloCallGraphNodeMappingProps
deriving DecidableEq, Repr

/-- One instruction mapping: a left node, a right node and the matcher that
produced the pair. -/
structure InstructionMapping where
  left : HloInstructionNode
  right : HloInstructionNode
  matcher_type : MatcherType
deriving DecidableEq, Repr

/-- The mapping store.  `requests` is specification-only: the history of the
calls of `MapInstructionsIfAbsent`, oldest first. -/
structure HloGumgraphMappings where
  left_to_right_computation_map : List ComputationMapping
  left_to_right_instruction_map : List InstructionMapping
  requests : List InstructionMapping
deriving DecidableEq, Repr

/-- Modelled from the spec: `HloGumgraphMappings::MapInstructionsIfAbsent` is
declared in `hlo_gumgraph_mappings.h`, which is not part of the sources at hand.
The spec describes it as a write-once try-insert on a bidirectional map, with at
most one mapping per left instruction and per right instruction (first writer
wins): the pair is added unless the left node or the right node already has a
mapping.  The call is also appended to `requests`. -/
def HloGumgraphMappings.MapInstructionsIfAbsent (mappings : HloGumgraphMappings)
    (left right : HloInstructionNode) (matcher_type : MatcherType) :
    HloGumgraphMappings :=
  { mappings with
    left_to_right_instruction_map :=
      if mappings.left_to_right_instruction_map.any
          (fun e => decide (e.left = left) || decide (e.right = right)) then
        mappings.left_to_right_instruction_map
      else
        mappings.left_to_right_instruction_map ++ [⟨left, right, matcher_type⟩]
    requests := mappings.requests ++ [⟨left, right, matcher_type⟩] }

/-- The type of the similarity functions, `double(node, node)`. -/
abbrev PropertyMatchesFn := HloInstructionNode → HloInstructionNode → ℚ

/-- The call `set.insert(x)` on a hash set. -/
def hashSetInsert (set : List HloInstructionNode) (x : HloInstructionNode) :
    List HloInstructionNode :=
  if x ∈ set then set else set ++ [x]

/-! ## `MatchInstructionsWithMultipleCandidates` -/

/-- The body of the inner loop over `right_instructions`; the state is
`(max_match_score, right_candidates)`. -/
def MatchInstructionsWithMultipleCandidates.step (property_matches_fn : PropertyMatchesFn)
    (left : HloInstructionNode) (st : ℚ × List HloInstructionNode)
    (right : HloInstructionNode) : ℚ × List HloInstructionNode :=
  let similarity := property_matches_fn left right
  if similarity > st.1 then
    (similarity, [right])
  else if similarity = st.1 then
    (st.1, st.2 ++ [right])
  else
    st

/-- The list `right_candidates` at the end of the inner loop, for one `left`. -/
def MatchInstructionsWithMultipleCandidates.right_candidates
    (property_matches_fn : PropertyMatchesFn) (left : HloInstructionNode)
    (right_instructions : List HloInstructionNode) : List HloInstructionNode :=
  (right_instructions.foldl
    (MatchInstructionsWithMultipleCandidates.step property_matches_fn left) (0, [])).2

/-- The body of the outer loop, for one `left`. -/
def MatchInstructionsWithMultipleCandidates.outer_step
    (right_instructions : List HloInstructionNode) (property_matches_fn : PropertyMatchesFn)
    (matcher_type : MatcherType) (mappings : HloGumgraphMappings)
    (left : HloInstructionNode) : HloGumgraphMappings :=
  match MatchInstructionsWithMultipleCandidates.right_candidates
      property_matches_fn left right_instructions with
  | [candidate] => mappings.MapInstructionsIfAbsent left candidate matcher_type
  | _ => mappings

/-- Match instructions with multiple match candidates using similarity measures. -/
def MatchInstructionsWithMultipleCandidates
    (left_instructions right_instructions : List HloInstructionNode)
    (mappings : HloGumgraphMappings) (property_matches_fn : PropertyMatchesFn)
    (matcher_type : MatcherType) : HloGumgraphMappings :=
  left_instructions.foldl
    (MatchInstructionsWithMultipleCandidates.outer_step right_instructions
      property_matches_fn matcher_type)
    mappings

/-! ## `MatchLeafInstructions` -/

/-- The test `same_shape && same_op_name` of phase 1. -/
def MatchLeafInstructions.same_shape_and_op_name
    (left_instruction right_instruction : HloInstructionNode) : Bool :=
  let same_shape :=
    decide (left_instruction.instruction.shape_string
      = right_instruction.instruction.shape_string)
  let same_op_name :=
    decide (left_instruction.instruction.op_name = right_instruction.instruction.op_name)
  same_shape && same_op_name

/-- The inner loop of phase 1; the state is `(candidates_found, candidate)`, with
`none` for the null pointer.  (`candidates_found` is an `int` in the source; it
counts elements of one set and is modelled without overflow.) -/
def MatchLeafInstructions.find_candidates (left_instruction : HloInstructionNode)
    (right_instructions : List HloInstructionNode) : Nat × Option HloInstructionNode :=
  right_instructions.foldl
    (fun st right_instruction =>
      if MatchLeafInstructions.same_shape_and_op_name left_instruction right_instruction then
        (st.1 + 1, some right_instruction)
      else
        st)
    (0, none)

/-- The body of the loop of phase 1 for one left instruction; the state is
`(mappings, matched_instructions)`. -/
def MatchLeafInstructions.phase1_step (right_instructions : List HloInstructionNode)
    (matcher_type : MatcherType) (st : HloGumgraphMappings × List HloInstructionNode)
    (left_instruction : HloInstructionNode) :
    HloGumgraphMappings × List HloInstructionNode :=
  if left_instruction.instruction.op_name = "" then
    st
  else
    match MatchLeafInstructions.find_candidates left_instruction right_instructions with
    | (1, some candidate) =>
      (st.1.MapInstructionsIfAbsent left_instruction candidate matcher_type,
        hashSetInsert (hashSetInsert st.2 left_instruction) candidate)
    | _ => st

/-- Phase 1 of `MatchLeafInstructions`: the loop over `left_instructions`,
started with no matched instruction. -/
def MatchLeafInstructions.phase1
    (left_instructions right_instructions : List HloInstructionNode)
    (mappings : HloGumgraphMappings) (matcher_type : MatcherType) :
    HloGumgraphMappings × List HloInstructionNode :=
  left_instructions.foldl (MatchLeafInstructions.phase1_step right_instructions matcher_type)
    (mappings, [])

/-- The statement `by_shape[shape string of instruction].insert(instruction)`. -/
def MatchLeafInstructions.insert_by_shape
    (by_shape : List (String × List HloInstructionNode))
    (instruction : HloInstructionNode) : List (String × List HloInstructionNode) :=
  let shape := instruction.instruction.shape_string
  if by_shape.any (fun e => decide (e.1 = shape)) then
    by_shape.map (fun e => if e.1 = shape then (e.1, hashSetInsert e.2 instruction) else e)
  else
    by_shape ++ [(shape, [instruction])]

/-- The body of the loops that build `left_instructions_by_shape` and
`right_instructions_by_shape`. -/
def MatchLeafInstructions.by_shape_step (matched_instructions : List HloInstructionNode)
    (by_shape : List (String × List HloInstructionNode))
    (instruction : HloInstructionNode) : List (String × List HloInstructionNode) :=
  if instruction ∈ matched_instructions then
    by_shape
  else
    MatchLeafInstructions.insert_by_shape by_shape instruction

/-- The loops that build `left_instructions_by_shape` and
`right_instructions_by_shape`: the instructions not in `matched_instructions`,
grouped by shape string. -/
def MatchLeafInstructions.instructions_by_shape
    (matched_instructions instructions : List HloInstructionNode) :
    List (String × List HloInstructionNode) :=
  instructions.foldl (MatchLeafInstructions.by_shape_step matched_instructions) []

/-- The body of the last loop of `MatchLeafInstructions`, for one entry
`[shape, shape_left_instructions]` of `left_instructions_by_shape`. -/
def MatchLeafInstructions.phase2_step
    (right_instructions_by_shape : List (String × List HloInstructionNode))
    (property_matches_fn : PropertyMatchesFn) (matcher_type : MatcherType)
    (mappings : HloGumgraphMappings) (entry : String × List HloInstructionNode) :
    HloGumgraphMappings :=
  match right_instructions_by_shape.find? (fun e => decide (e.1 = entry.1)) with
  | none => mappings
  | some it =>
    match entry.2, it.2 with
    | [l], [r] => mappings.MapInstructionsIfAbsent l r matcher_type
    | shape_left_instructions, shape_right_instructions =>
      MatchInstructionsWithMultipleCandidates shape_left_instructions
        shape_right_instructions mappings property_matches_fn matcher_type

/-- The last loop of `MatchLeafInstructions`, over `left_instructions_by_shape`. -/
def MatchLeafInstructions.phase2
    (left_instructions_by_shape right_instructions_by_shape :
      List (String × List HloInstructionNode))
    (mappings : HloGumgraphMappings) (property_matches_fn : PropertyMatchesFn)
    (matcher_type : MatcherType) : HloGumgraphMappings :=
  left_instructions_by_shape.foldl
    (MatchLeafInstructions.phase2_step right_instructions_by_shape property_matches_fn
      matcher_type)
    mappings

/-- Find optimal matches between the left and right leaf instructions. -/
def MatchLeafInstructions
    (left_instructions right_instructions : List HloInstructionNode)
    (mappings : HloGumgraphMappings) (property_matches_fn : PropertyMatchesFn)
    (matcher_type : MatcherType) : HloGumgraphMappings :=
  if left_instructions.length = 1 ∧ right_instructions.length = 1 then
    match left_instructions.head?, right_instructions.head? with
    | some l, some r => mappings.MapInstructionsIfAbsent l r matcher_type
    | _, _ => mappings
  else
    let st := MatchLeafInstructions.phase1 left_instructions right_instructions
      mappings matcher_type
    MatchLeafInstructions.phase2
      (MatchLeafInstructions.instructions_by_shape st.2 left_instructions)
      (MatchLeafInstructions.instructions_by_shape st.2 right_instructions)
      st.1 property_matches_fn matcher_type

/-! ## Parameters, constants, call sites, and the entry point -/

/-- Match parameter instructions between the left and right computations.
`ParamPropertySimilarity` is declared in `similarity.h` and is a parameter here. -/
def MatchComputationParams (left right : HloGumgraph)
    (left_computation right_computation : CallGraphNode)
    (mappings : HloGumgraphMappings) (matcher_type : MatcherType)
    (ParamPropertySimilarity : PropertyMatchesFn) : HloGumgraphMappings :=
  let left_params :=
    left_computation.computation.parameter_instructions.foldl
      (fun set param => hashSetInsert set (left.GetNode param)) []
  let right_params :=
    right_computation.computation.parameter_instructions.foldl
      (fun set param => hashSetInsert set (right.GetNode param)) []
  MatchLeafInstructions left_params right_params mappings ParamPropertySimilarity
    matcher_type

/-- Match constant instructions between the left and right computations.
`ConstantPropertySimilarity` is declared in `similarity.h` and is a parameter
here. -/
def MatchComputationConstants (left right : HloGumgraph)
    (left_computation right_computation : CallGraphNode)
    (mappings : HloGumgraphMappings) (matcher_type : MatcherType)
    (ConstantPropertySimilarity : PropertyMatchesFn) : HloGumgraphMappings :=
  let left_constants :=
    left_computation.computation.instructions.foldl
      (fun set instruction =>
        if instruction.IsConstant then hashSetInsert set (left.GetNode instruction) else set)
      []
  let right_constants :=
    right_computation.computation.instructions.foldl
      (fun set instruction =>
        if instruction.IsConstant then hashSetInsert set (right.GetNode instruction) else set)
      []
  MatchLeafInstructions left_constants right_constants mappings
    ConstantPropertySimilarity matcher_type

/-- Match the call site instruction for a matched left and right computation. -/
def MatchCallSites (left right : HloGumgraph)
    (left_computation right_computation : CallGraphNode)
    (mappings : HloGumgraphMappings) : HloGumgraphMappings :=
  if left_computation.caller_callsites.length ≠ 1 ∨
      right_computation.caller_callsites.length ≠ 1 then
    mappings
  else
    match left_computation.caller_callsites.head?,
        right_computation.caller_callsites.head? with
    | some left_call_site, some right_call_site =>
      mappings.MapInstructionsIfAbsent (left.GetNode left_call_site.instruction)
        (right.GetNode right_call_site.instruction)
        MatcherType.kComputationGraphExactSignatureMatcher
    | _, _ => mappings

/-- The loop `for i < left_instructions.size()` of the exact case; it runs only
when the two lists have the same length, so it visits the positions of the
zipped list. -/
def MatchComputationGraphs.map_post_order (left right : HloGumgraph)
    (left_instructions right_instructions : List HloInstruction)
    (mappings : HloGumgraphMappings) : HloGumgraphMappings :=
  (left_instructions.zip right_instructions).foldl
    (fun mappings p =>
      mappings.MapInstructionsIfAbsent (left.GetNode p.1) (right.GetNode p.2)
        MatcherType.kComputationGraphExactFingerprintMatcher)
    mappings

/-- The entry point of the matcher. -/
def MatchComputationGraphs (left right : HloGumgraph)
    (left_computation right_computation : CallGraphNode)
    (mappings : HloGumgraphMappings)
    (ParamPropertySimilarity ConstantPropertySimilarity : PropertyMatchesFn) :
    HloGumgraphMappings :=
  match mappings.left_to_right_computation_map.find?
      (fun e => decide (e.left = left_computation)) with
  | none => mappings
  | some it =>
    let mappings := MatchCallSites left right left_computation right_computation mappings
    if it.info.computation_match_type = ComputationMatchType.kExact then
      let left_instructions := left_computation.computation.MakeInstructionPostOrder
      let right_instructions := right_computation.computation.MakeInstructionPostOrder
      if left_instructions.length ≠ right_instructions.length then
        mappings
      else
        MatchComputationGraphs.map_post_order left right left_instructions
          right_instructions mappings
    else
      let mappings := MatchComputationParams left right left_computation
        right_computation mappings MatcherType.kComputationGraphExactSignatureMatcher
        ParamPropertySimilarity
      let mappings := MatchComputationConstants left right left_computation
        right_computation mappings MatcherType.kComputationGraphExactSignatureMatcher
        ConstantPropertySimilarity
      if left_computation.computation.root_instruction.opcode =
          right_computation.computation.root_instruction.opcode then
        mappings.MapInstructionsIfAbsent
          (left.GetNode left_computation.computation.root_instruction)
          (right.GetNode right_computation.computation.root_instruction)
          MatcherType.kComputationGraphExactSignatureMatcher
      else
        mappings

/-! ## Specification vocabulary -/

/-- No node is the left member of two mappings, and none is the right member of
two mappings. -/
def OneToOne (m : HloGumgraphMappings) : Prop :=
  (m.left_to_right_instruction_map.map (fun e => e.left)).Nodup ∧
  (m.left_to_right_instruction_map.map (fun e => e.right)).Nodup

/-- The state of the inner loop after the prefix `pre` of the right instructions:
the running maximum is at least 0, is 0 or the score of a visited instruction,
bounds every visited score, and the candidates are the visited instructions that
score exactly the running maximum. -/
def TournamentInv (fn : PropertyMatchesFn) (l : HloInstructionNode)
    (pre : List HloInstructionNode) (st : ℚ × List HloInstructionNode) : Prop :=
  0 ≤ st.1 ∧ (st.1 = 0 ∨ ∃ r ∈ pre, fn l r = st.1) ∧ (∀ r ∈ pre, fn l r ≤ st.1) ∧
    st.2 = pre.filter (fun r => decide (fn l r = st.1))

/-- The candidate that phase 1 of `MatchLeafInstructions` maps a left instruction
to, if it maps it: the left instruction has a non-empty op-name and exactly one
candidate was counted. -/
def MatchLeafInstructions.phase1_candidate (right_instructions : List HloInstructionNode)
    (l : HloInstructionNode) : Option HloInstructionNode :=
  if l.instruction.op_name = "" then none
  else
    match MatchLeafInstructions.find_candidates l right_instructions with
    | (1, some c) => some c
    | _ => none

/-- The pairs that phase 1 of `MatchLeafInstructions` maps, in order. -/
def MatchLeafInstructions.phase1_pairs
    (left_instructions right_instructions : List HloInstructionNode) :
    List (HloInstructionNode × HloInstructionNode) :=
  left_instructions.filterMap (fun l =>
    (MatchLeafInstructions.phase1_candidate right_instructions l).map (fun c => (l, c)))

/-- The state of a grouping loop after the prefix `pre` of the instructions:
every group is duplicate-free and holds exactly the unmatched instructions of
`pre` with the shape string of its key, and every unmatched instruction of `pre`
has a group under its shape string. -/
def ByShapeInv (matched_instructions pre : List HloInstructionNode)
    (by_shape : List (String × List HloInstructionNode)) : Prop :=
  (∀ e ∈ by_shape, e.2.Nodup ∧
    ∀ x, x ∈ e.2 ↔ (x ∈ pre ∧ x ∉ matched_instructions ∧ x.instruction.shape_string = e.1)) ∧
  (∀ x ∈ pre, x ∉ matched_instructions →
    ∃ g, (x.instruction.shape_string, g) ∈ by_shape)

/-! ## Example inputs -/

/-- The diff graph whose node of an instruction is the instruction with its own
id as node index. -/
def exampleGraph : HloGumgraph :=
  ⟨fun instruction => ⟨instruction, instruction.unique_id⟩⟩

/-- An instruction of shape `f32[10]` without op-name. -/
def exampleInstruction (id : Nat) (opcode : HloOpcode) : HloInstruction :=
  ⟨id, opcode, "f32[10]", ""⟩

/-- A leaf node with the given id, shape string and op-name. -/
def exampleLeaf (id : Nat) (shape op_name : String) : HloInstructionNode :=
  ⟨⟨id, HloOpcode.kParameter, shape, op_name⟩, id⟩

/-- A computation with the one instruction `1`, called from the call
instruction `100`. -/
def exampleLeftComputation : CallGraphNode :=
  ⟨⟨"left", [exampleInstruction 1 HloOpcode.kParameter],
      [exampleInstruction 1 HloOpcode.kParameter],
      exampleInstruction 1 HloOpcode.kParameter,
      [exampleInstruction 1 HloOpcode.kParameter]⟩,
    [⟨exampleInstruction 100 HloOpcode.kCall⟩]⟩

/-- A computation with the one instruction `11`, called from the call
instruction `110`. -/
def exampleRightComputation : CallGraphNode :=
  ⟨⟨"right", [exampleInstruction 11 HloOpcode.kParameter],
      [exampleInstruction 11 HloOpcode.kParameter],
      exampleInstruction 11 HloOpcode.kParameter,
      [exampleInstruction 11 HloOpcode.kParameter]⟩,
    [⟨exampleInstruction 110 HloOpcode.kCall⟩]⟩

/-- A computation with the two instructions `11` and `12`, called from the call
instruction `110`. -/
def exampleLongerRightComputation : CallGraphNode :=
  ⟨⟨"right", [exampleInstruction 11 HloOpcode.kParameter, exampleInstruction 12 HloOpcode.kAdd],
      [exampleInstruction 11 HloOpcode.kParameter],
      exampleInstruction 12 HloOpcode.kAdd,
      [exampleInstruction 11 HloOpcode.kParameter, exampleInstruction 12 HloOpcode.kAdd]⟩,
    [⟨exampleInstruction 110 HloOpcode.kCall⟩]⟩

/-- A store without any mapping. -/
def exampleEmptyMappings : HloGumgraphMappings := ⟨[], [], []⟩

/-- A store that records `exampleLeftComputation` and the given right computation
as a pair with the given match type, and holds no instruction mapping. -/
def exampleMappings (right_computation : CallGraphNode) (match_type : ComputationMatchType) :
    HloGumgraphMappings :=
  ⟨[⟨exampleLeftComputation, right_computation, ⟨match_type⟩⟩], [], []⟩

/-- A similarity function that scores the right node `11` with `high` and every
other right node with `low`. -/
def exampleSimilarity (high low : ℚ) : PropertyMatchesFn :=
  fun _ right => if right.unique_node_index = 11 then high else low

/-! ## Specification vocabulary for the signature case and for determinism -/

/-- The pairs of nodes that `MatchComputationGraphs` may map for a Signature
match: the two call sites, a left with a right parameter, a left with a right
constant, or the two roots when they have the same opcode. -/
def SignaturePair (left right : HloGumgraph) (left_computation right_computation : CallGraphNode)
    (l r : HloInstructionNode) : Prop :=
  (∃ a b, left_computation.caller_callsites = [a] ∧ right_computation.caller_callsites = [b] ∧
    l = left.GetNode a.instruction ∧ r = right.GetNode b.instruction) ∨
  (∃ p ∈ left_computation.computation.parameter_instructions,
    ∃ q ∈ right_computation.computation.parameter_instructions,
      l = left.GetNode p ∧ r = right.GetNode q) ∨
  (∃ p ∈ left_computation.computation.instructions,
    ∃ q ∈ right_computation.computation.instructions,
      p.IsConstant = true ∧ q.IsConstant = true ∧ l = left.GetNode p ∧ r = right.GetNode q) ∨
  (l = left.GetNode left_computation.computation.root_instruction ∧
    r = right.GetNode right_computation.computation.root_instruction ∧
    left_computation.computation.root_instruction.opcode
      = right_computation.computation.root_instruction.opcode)

/-- The requests that the last loop of `MatchLeafInstructions` makes for a left
group and the right group of the same shape string: the pair of two singleton
groups, or otherwise a left instruction with its only candidate of the
tournament. -/
def GroupRequest (fn : PropertyMatchesFn) (t : MatcherType)
    (shape_left_instructions shape_right_instructions : List HloInstructionNode)
    (x : InstructionMapping) : Prop :=
  x.matcher_type = t ∧
    ((shape_left_instructions = [x.left] ∧ shape_right_instructions = [x.right]) ∨
      (¬ (shape_left_instructions.length = 1 ∧ shape_right_instructions.length = 1) ∧
        x.left ∈ shape_left_instructions ∧
        MatchInstructionsWithMultipleCandidates.right_candidates fn x.left
          shape_right_instructions = [x.right]))

/-- A similarity function for which both left nodes `1` and `2` score the right
node `11` highest, without any tie. -/
def exampleCompetingSimilarity : PropertyMatchesFn :=
  fun left right =>
    if left.unique_node_index = 1 then (if right.unique_node_index = 11 then 2 else 1)
    else (if right.unique_node_index = 11 then 4 else 3)

/-- A similarity function for which the left node `i` scores the right node
`i + 10` highest, without any tie. -/
def exampleDiagonalSimilarity : PropertyMatchesFn :=
  fun left right => if right.unique_node_index = left.unique_node_index + 10 then 2 else 1

/-- The store after the requests `xs` are made one after the other. -/
def HloGumgraphMappings.replay (m : HloGumgraphMappings) (xs : List InstructionMapping) :
    HloGumgraphMappings :=
  xs.foldl (fun m x => m.MapInstructionsIfAbsent x.left x.right x.matcher_type) m

end HloDiff

/-! # Host offloader

A shallow embedding of `host_offloader.cc`.

* A pointer to an instruction or a computation is modelled by a number, its id;
  the module is an arena: the list of its instructions, each with the id of its
  parent computation.
* A fallible function returns `Except Failure`.  A failed `CHECK` is the failure
  `check_failed`.  A loop over a work queue takes a bound `fuel` on its number
  of iterations and fails with `out_of_fuel` when the bound is reached.
* Logging (`VLOG`, `LOG`, `PrintTrace` and the map `previous` that only feeds it)
  is left out.
* The functions of `host_offload_utils`, of `ShapeUtil`, of the call graph, of
  the alias analysis and the CSE pass that the file calls are not part of the
  sources at hand; they are the fields of `Collaborators`.
-/

namespace HostOffload

/-! ## Data model -/

/-- `Layout::kDefaultMemorySpace`, the device memory space. -/
def kDefaultMemorySpace : Int := 0

/-- `Layout::kHostMemorySpace`. -/
def kHostMemorySpace : Int := 5

/-- `memory_annotations::kMoveToHostCustomCallTarget`. -/
def kMoveToHostCustomCallTarget : String := "MoveToHost"

/-- `memory_annotations::kMoveToDeviceCustomCallTarget`. -/
def kMoveToDeviceCustomCallTarget : String := "MoveToDevice"

/-- How a function fails: with an error status, with a failed `CHECK`, or (in
the model only) by using up the fuel of a loop. -/
inductive Failure where
  | InvalidArgument (message : String)
  | Internal (message : String)
  | FailedPrecondition (message : String)
  | check_failed (message : String)
  | out_of_fuel
deriving DecidableEq, Repr

/-- The layout of an array shape; only the memory space matters here. -/
structure Layout where
  memory_space : Int
deriving DecidableEq, Repr

/-- A shape: an array with an optional layout, or a tuple of shapes. -/
inductive Shape where
  | array (element_type : Nat) (dimensions : List Int) (layout : Option Layout)
  | tuple (tuple_shapes : List Shape)
deriving Repr

mutual
/-- Equality of shapes is decidable. -/
def Shape.decEq : (a b : Shape) → Decidable (a = b)
  | .array t d l, .array t' d' l' =>
    if h : t = t' ∧ d = d' ∧ l = l' then
      isTrue (by obtain ⟨h1, h2, h3⟩ := h; rw [h1, h2, h3])
    else
      isFalse (by intro e; cases e; exact h ⟨rfl, rfl, rfl⟩)
  | .tuple es, .tuple es' =>
    match Shape.decEqList es es' with
    | isTrue h => isTrue (by rw [h])
    | isFalse h => isFalse (by intro e; cases e; exact h rfl)
  | .array _ _ _, .tuple _ => isFalse (by intro e; cases e)
  | .tuple _, .array _ _ _ => isFalse (by intro e; cases e)
/-- Equality of lists of shapes is decidable. -/
def Shape.decEqList : (as bs : List Shape) → Decidable (as = bs)
  | [], [] => isTrue rfl
  | a :: as, b :: bs =>
    match Shape.decEq a b, Shape.decEqList as bs with
    | isTrue h1, isTrue h2 => isTrue (by rw [h1, h2])
    | isFalse h, _ => isFalse (by intro e; cases e; exact h rfl)
    | _, isFalse h => isFalse (by intro e; cases e; exact h rfl)
  | [], _ :: _ => isFalse (by intro e; cases e)
  | _ :: _, [] => isFalse (by intro e; cases e)
end

instance : DecidableEq Shape := Shape.decEq

/-- A path of tuple indices into a shape. -/
abbrev ShapeIndex := List Nat

/-- `Shape::has_layout()`. -/
def Shape.has_layout : Shape → Bool
  | .array _ _ (some _) => true
  | _ => false

/-- The memory space `shape.layout().memory_space()`; `Shape::layout()` checks
`has_layout()`. -/
def Shape.memory_space : Shape → Except Failure Int
  | .array _ _ (some l) => .ok l.memory_space
  | _ => .error (.check_failed "has_layout()")

/-- The test `shape.has_layout() && shape.layout().memory_space() == color`. -/
def Shape.has_memory_space (shape : Shape) (color : Int) : Bool :=
  match shape with
  | .array _ _ (some l) => decide (l.memory_space = color)
  | _ => false

/-- `ShapeUtil::GetSubshape`; an index that does not lead to a subshape fails a
`CHECK`. -/
def Shape.GetSubshape : Shape → ShapeIndex → Except Failure Shape
  | s, [] => .ok s
  | .tuple es, i :: rest =>
    match es[i]? with
    | some e => e.GetSubshape rest
    | none => .error (.check_failed "index out of bounds")
  | .array _ _ _, _ :: _ => .error (.check_failed "IsTuple()")

/-- Replace the subshape at `index` by the result of `f` on it
(`ShapeUtil::GetMutableSubshape` followed by an update in place). -/
def Shape.UpdateSubshape (f : Shape → Except Failure Shape) :
    Shape → ShapeIndex → Except Failure Shape
  | s, [] => f s
  | .tuple es, i :: rest =>
    match es[i]? with
    | some e =>
      match e.UpdateSubshape f rest with
      | .ok e' => .ok (.tuple (es.set i e'))
      | .error err => .error err
    | none => .error (.check_failed "index out of bounds")
  | .array _ _ _, _ :: _ => .error (.check_failed "IsTuple()")

mutual
/-- Every subshape with its index, the shape itself first
(`ShapeUtil::ForEachSubshape`). -/
def Shape.subshapes : Shape → List (ShapeIndex × Shape)
  | .array t d l => [([], .array t d l)]
  | .tuple es => ([], .tuple es) :: Shape.subshapes_of_elements 0 es
/-- The subshapes of the tuple elements `es`, the first of which has index
`i`. -/
def Shape.subshapes_of_elements : Nat → List Shape → List (ShapeIndex × Shape)
  | _, [] => []
  | i, e :: es =>
    (Shape.subshapes e).map (fun p => (i :: p.1, p.2))
      ++ Shape.subshapes_of_elements (i + 1) es
end

mutual
/-- The leaf (non-tuple) subshapes with their indices
(`ShapeUtil::ForEachLeafShape`). -/
def Shape.leaves : Shape → List (ShapeIndex × Shape)
  | .array t d l => [([], .array t d l)]
  | .tuple es => Shape.leaves_of_elements 0 es
/-- The leaves of the tuple elements `es`, the first of which has index `i`. -/
def Shape.leaves_of_elements : Nat → List Shape → List (ShapeIndex × Shape)
  | _, [] => []
  | i, e :: es =>
    (Shape.leaves e).map (fun p => (i :: p.1, p.2)) ++ Shape.leaves_of_elements (i + 1) es
end

/-- Opcodes; the pass names the ones listed, every other one is `kOther`. -/
inductive HloOpcode where
  | kParameter
  | kConstant
  | kCustomCall
  | kDynamicUpdateSlice
  | kDynamicSlice
  | kSlice
  | kAsyncStart
  | kAsyncUpdate
  | kAsyncDone
  | kBitcast
  | kCopy
  | kReshape
  | kReduce
  | kBroadcast
  | kTuple
  | kGetTupleElement
  | kWhile
  | kCall
  | kOther (code : Nat)
deriving DecidableEq, Repr

/-- A node of the dataflow graph: an instruction and a shape index. -/
structure InstructionAndShapeIndex where
  instruction : Nat
  shape_index : ShapeIndex
deriving DecidableEq, Repr

/-- The part of an instruction the pass reads or writes.  `host_compute` is the
frontend attribute that `SetHostComputeFrontendAttribute` sets; for a `kWhile`
the called computations are the body and the condition, for an async
instruction the wrapped computation. -/
structure HloInstruction where
  id : Nat
  name : String
  opcode : HloOpcode
  shape : Shape
  operands : List Nat
  parent : Nat
  custom_call_target : String := ""
  parameter_number : Nat := 0
  called_computations : List Nat := []
  slice_starts : List Int := []
  slice_limits : List Int := []
  dynamic_slice_sizes : List Int := []
  literal : Option Int := none
  host_compute : Bool := false
deriving DecidableEq, Repr

/-- A computation; its instructions are those of the module whose `parent` it
is. -/
structure HloComputation where
  id : Nat
  name : String
  root_instruction : Nat
deriving DecidableEq, Repr

/-- The layout of the entry computation: `parameter_shape(i)` and
`result_shape()`. -/
structure ComputationLayout where
  parameter_shapes : List Shape
  result_shape : Shape
deriving DecidableEq, Repr

/-- A module: the arena of instructions, the computations, the entry
computation and its layout.  `next_instruction_id` is the id that the next
added instruction gets. -/
structure HloModule where
  computations : List HloComputation
  instructions : List HloInstruction
  entry_computation : Nat
  entry_computation_layout : ComputationLayout
  next_instruction_id : Nat
deriving DecidableEq, Repr

/-- The pass object, with the module it works on and the bookkeeping members
of the class. -/
structure HostOffloader where
  module : HloModule
  already_visited_move_to_host_custom_calls_ : List Nat
  dynamic_update_slices_seen_ : List Nat
  dynamic_update_slices_seen_with_annotation_ : List Nat
  dynamic_update_slices_already_allocated_ : List Nat
  already_inserted_copy_before_ : List InstructionAndShapeIndex
  copies_created_after_ : List (Nat × Nat)
  move_to_device_custom_calls_to_remove_ : List Nat
deriving DecidableEq, Repr

/-- The result of `HloAliasAnalysis::Run` as far as the pass uses it: for an
instruction, the instructions at the positions of the values of its buffers. -/
structure HloAliasAnalysis where
  position_instructions : Nat → List Nat

/-- The functions that `host_offloader.cc` calls and whose code is not part of
the sources at hand: `host_offload_utils`, `ShapeUtil`, the traversal orders of
module and computation, the alias analysis and the CSE pass. -/
structure Collaborators where
  GetSuccessors : HloModule → InstructionAndShapeIndex →
    Except Failure (List InstructionAndShapeIndex)
  GetPredecessors : HloModule → InstructionAndShapeIndex → List InstructionAndShapeIndex
  IsValidDuringPureMemoryOffload : HloModule → HloInstruction → Bool
  IsHostAsyncStart : HloModule → HloInstruction → Bool
  ReshapeIsBitcast : Shape → Shape → Bool
  TrueNumDimensions : Shape → Nat
  MakeInstructionPostOrder : HloModule → Nat → List Nat
  MakeComputationPostOrder : HloModule → List String → List Nat
  MakeNonfusionComputations : HloModule → List String → List Nat
  HloAliasAnalysis_Run : HloModule → Except Failure HloAliasAnalysis
  HloCSE_Run : HloModule → List String → Except Failure (Bool × HloModule)

/-! ## Reading the module -/

/-- The instruction with the given id, if it is in the module. -/
def HloModule.instruction? (m : HloModule) (id : Nat) : Option HloInstruction :=
  m.instructions.find? (fun i => decide (i.id = id))

/-- Follow a pointer to an instruction; a pointer to an instruction that is not
in the module cannot be followed. -/
def HloModule.get (m : HloModule) (id : Nat) : Except Failure HloInstruction :=
  match m.instruction? id with
  | some i => .ok i
  | none => .error (.check_failed "no such instruction")

/-- The computation with the given id, if it is in the module. -/
def HloModule.computation? (m : HloModule) (id : Nat) : Option HloComputation :=
  m.computations.find? (fun c => decide (c.id = id))

/-- `computation->instructions()`. -/
def HloModule.instructions_of (m : HloModule) (computation : Nat) : List HloInstruction :=
  m.instructions.filter (fun i => decide (i.parent = computation))

/-- `computation->parameter_instruction(i)`. -/
def HloModule.parameter_instruction (m : HloModule) (computation i : Nat) :
    Except Failure HloInstruction :=
  match (m.instructions_of computation).find?
      (fun p => decide (p.opcode = HloOpcode.kParameter) && decide (p.parameter_number = i)) with
  | some p => .ok p
  | none => .error (.check_failed "no such parameter")

/-- `computation->parameter_instructions()`, as ids. -/
def HloModule.parameter_instructions (m : HloModule) (computation : Nat) : List Nat :=
  ((m.instructions_of computation).filter
    (fun p => decide (p.opcode = HloOpcode.kParameter))).map (fun p => p.id)

/-- `instruction->users()`: the instructions that have it as an operand. -/
def HloModule.users (m : HloModule) (id : Nat) : List HloInstruction :=
  m.instructions.filter (fun i => decide (id ∈ i.operands))

/-- `instruction->IsRoot()`. -/
def HloModule.IsRoot (m : HloModule) (i : HloInstruction) : Bool :=
  match m.computation? i.parent with
  | some c => decide (c.root_instruction = i.id)
  | none => false

/-- `computation->IsEntryComputation()`. -/
def HloModule.IsEntryComputation (m : HloModule) (computation : Nat) : Bool :=
  decide (m.entry_computation = computation)

/-- `instruction->IsCustomCall(target)`. -/
def HloInstruction.IsCustomCall (i : HloInstruction) (target : String) : Bool :=
  decide (i.opcode = HloOpcode.kCustomCall) && decide (i.custom_call_target = target)

/-- `instruction->operand(i)`, as an id. -/
def HloInstruction.operand (i : HloInstruction) (n : Nat) : Except Failure Nat :=
  match i.operands[n]? with
  | some o => .ok o
  | none => .error (.check_failed "no such operand")

/-- `user->OperandIndices(operand)`. -/
def HloInstruction.OperandIndices (user : HloInstruction) (operand : Nat) : List Nat :=
  (List.range user.operands.length).filter (fun n => decide (user.operands[n]? = some operand))

/-- Modelled from the spec: `CallGraph::GetComputationCallers` is not part of
the sources at hand; the spec has the call graph answer "callers of a
computation, by instruction": the instructions that call the computation. -/
def HloModule.GetComputationCallers (m : HloModule) (computation : Nat) :
    List HloInstruction :=
  m.instructions.filter (fun i => decide (computation ∈ i.called_computations))

/-! ## Writing the module -/

/-- Apply `f` to the instruction with the given id. -/
def HloModule.update (m : HloModule) (id : Nat) (f : HloInstruction → HloInstruction) :
    HloModule :=
  { m with instructions := m.instructions.map (fun i => if i.id = id then f i else i) }

/-- Modelled from the spec: `host_offload_utils::SetHostComputeFrontendAttribute`
is not part of the sources at hand; the spec has it tag a node for host
execution without changing its memory space. -/
def SetHostComputeFrontendAttribute (m : HloModule) (id : Nat) : HloModule :=
  m.update id (fun i => { i with host_compute := true })

/-- `SetMemorySpace`: checks that the shape has a layout and sets the memory
space of the layout. -/
def SetMemorySpace (shape : Shape) (memory_space_color : Int) : Except Failure Shape :=
  match shape with
  | .array t d (some _) => .ok (.array t d (some ⟨memory_space_color⟩))
  | _ => .error (.check_failed "shape->has_layout()")

/-- The statement
`SetMemorySpace(ShapeUtil::GetMutableSubshape(instruction->mutable_shape(), index), color)`. -/
def SetSubshapeMemorySpace (m : HloModule) (node : InstructionAndShapeIndex)
    (memory_space_color : Int) : Except Failure HloModule :=
  match m.get node.instruction with
  | .error e => .error e
  | .ok i =>
    match i.shape.UpdateSubshape (fun s => SetMemorySpace s memory_space_color)
        node.shape_index with
    | .error e => .error e
    | .ok shape => .ok (m.update node.instruction (fun i => { i with shape := shape }))

/-- Modelled from the spec: `HloComputation::AddInstruction` is not part of the
sources at hand; the new instruction gets a fresh id and joins the arena as an
instruction of `parent`.  Returns the module and the id. -/
def HloModule.AddInstruction (m : HloModule) (parent : Nat) (i : HloInstruction) :
    HloModule × Nat :=
  ({ m with
      instructions := m.instructions ++
        [{ i with id := m.next_instruction_id, parent := parent }]
      next_instruction_id := m.next_instruction_id + 1 },
    m.next_instruction_id)

/-- Modelled from the spec: `HloInstruction::ReplaceOperandWith` is not part of
the sources at hand; operand `n` of `user` becomes `new_operand`, and an operand
number out of range is an error. -/
def HloModule.ReplaceOperandWith (m : HloModule) (user n new_operand : Nat) :
    Except Failure HloModule :=
  match m.get user with
  | .error e => .error e
  | .ok u =>
    if n < u.operands.length then
      .ok (m.update user (fun i => { i with operands := i.operands.set n new_operand }))
    else
      .error (.Internal "operand_num < operand_count()")

/-- Modelled from the spec: `HloInstruction::ReplaceAllUsesWith` is not part of
the sources at hand; every use of `old` as an operand becomes a use of
`new_producer`, and a computation whose root is `old` gets the root
`new_producer`. -/
def HloModule.ReplaceAllUsesWith (m : HloModule) (old new_producer : Nat) :
    Except Failure HloModule :=
  .ok { m with
    instructions := m.instructions.map (fun i =>
      { i with operands := i.operands.map (fun o => if o = old then new_producer else o) })
    computations := m.computations.map (fun c =>
      if c.root_instruction = old then { c with root_instruction := new_producer } else c) }

/-- Modelled from the spec: `HloComputation::RemoveInstruction` is not part of
the sources at hand; the instruction leaves the arena, and it is an error to
remove a root, a parameter or an instruction that still has users. -/
def HloModule.RemoveInstruction (m : HloModule) (id : Nat) : Except Failure HloModule :=
  match m.get id with
  | .error e => .error e
  | .ok i =>
    if m.IsRoot i then .error (.Internal "cannot remove the root instruction")
    else if i.opcode = HloOpcode.kParameter then
      .error (.Internal "cannot remove a parameter")
    else if (m.users id).length ≠ 0 then
      .error (.Internal "cannot remove an instruction with users")
    else
      .ok { m with instructions := m.instructions.filter (fun j => decide (j.id ≠ id)) }

/-- The call `set.insert(x)` on a hash set of pointers. -/
def setInsert {α : Type} [DecidableEq α] (set : List α) (x : α) : List α :=
  if x ∈ set then set else set ++ [x]

/-! ## The functions of `host_offloader.cc` -/

/-- `SetBuffersToMemorySpaceColor`: set the memory space of each saved buffer and
report whether there was one. -/
def SetBuffersToMemorySpaceColor (m : HloModule) :
    List InstructionAndShapeIndex → Int → Except Failure (Bool × HloModule)
  | [], _ => .ok (false, m)
  | instr_and_shape :: rest, memory_space_color =>
    match SetSubshapeMemorySpace m instr_and_shape memory_space_color with
    | .error e => .error e
    | .ok m' =>
      match SetBuffersToMemorySpaceColor m' rest memory_space_color with
      | .error e => .error e
      | .ok r => .ok (true, r.2)

/-- `HostOffloader::InstructionIsAllowedBetweenMoveToHostAndDus`. -/
def InstructionIsAllowedBetweenMoveToHostAndDus (u : Collaborators) (m : HloModule)
    (instruction : HloInstruction) : Except Failure Bool :=
  if instruction.opcode = HloOpcode.kReshape then
    match instruction.operand 0 with
    | .error e => .error e
    | .ok o =>
      match m.get o with
      | .error e => .error e
      | .ok operand => .ok (u.ReshapeIsBitcast operand.shape instruction.shape)
  else
    .ok (decide (instruction.opcode = HloOpcode.kBitcast) ||
      decide (instruction.opcode = HloOpcode.kCopy))

/-- `HostOffloader::InstructionIsAllowedBetweenDsAndMoveToDevice`. -/
def InstructionIsAllowedBetweenDsAndMoveToDevice (u : Collaborators) (m : HloModule)
    (instruction : HloInstruction) : Except Failure Bool :=
  if instruction.opcode = HloOpcode.kReduce then
    match instruction.operand 0 with
    | .error e => .error e
    | .ok o =>
      match m.get o with
      | .error e => .error e
      | .ok operand =>
        .ok (decide (u.TrueNumDimensions operand.shape = u.TrueNumDimensions instruction.shape))
  else if instruction.opcode = HloOpcode.kReshape then
    match instruction.operand 0 with
    | .error e => .error e
    | .ok o =>
      match m.get o with
      | .error e => .error e
      | .ok operand => .ok (u.ReshapeIsBitcast operand.shape instruction.shape)
  else
    .ok (decide (instruction.opcode = HloOpcode.kBitcast) ||
      decide (instruction.opcode = HloOpcode.kCopy))

/-- The loop `while (!queue.empty())` of `SliceLeadsToMoveToDeviceCustomCall`. -/
def SliceLeadsToMoveToDeviceCustomCall.loop (u : Collaborators) (m : HloModule) :
    Nat → List InstructionAndShapeIndex → Except Failure Bool
  | _, [] => .ok true
  | 0, _ :: _ => .error .out_of_fuel
  | fuel + 1, instruction_and_shape :: queue =>
    match m.get instruction_and_shape.instruction with
    | .error e => .error e
    | .ok current_instruction =>
      if current_instruction.IsCustomCall kMoveToDeviceCustomCallTarget then
        SliceLeadsToMoveToDeviceCustomCall.loop u m fuel queue
      else
        match InstructionIsAllowedBetweenDsAndMoveToDevice u m current_instruction with
        | .error e => .error e
        | .ok false => .ok false
        | .ok true =>
          match u.GetSuccessors m instruction_and_shape with
          | .error e => .error e
          | .ok successors =>
            SliceLeadsToMoveToDeviceCustomCall.loop u m fuel (queue ++ successors)

/-- `HostOffloader::SliceLeadsToMoveToDeviceCustomCall`. -/
def SliceLeadsToMoveToDeviceCustomCall (u : Collaborators) (fuel : Nat) (m : HloModule)
    (slice : Nat) : Except Failure Bool :=
  match m.get slice with
  | .error e => .error e
  | .ok s =>
    if ¬ (s.opcode = HloOpcode.kDynamicSlice ∨ s.opcode = HloOpcode.kSlice) then
      .error (.check_failed "This function must only be called with a slice or dynamic slice.")
    else
      match u.GetSuccessors m ⟨slice, []⟩ with
      | .error e => .error e
      | .ok successors_of_slice =>
        SliceLeadsToMoveToDeviceCustomCall.loop u m fuel successors_of_slice

/-- `HloInstruction::CreateUnary(shape, opcode, operand)`, before it is added to
a computation. -/
def CreateUnary (shape : Shape) (opcode : HloOpcode) (operand : Nat) : HloInstruction :=
  { id := 0, name := "copy", opcode := opcode, shape := shape, operands := [operand],
    parent := 0 }

/-- The body of the last loop of `InsertCopyBetween`, for one instruction to
insert a copy before; the state is `(changed, offloader)`. -/
def InsertCopyBetween.insert_copy (before_instruction_and_index : InstructionAndShapeIndex)
    (st : Bool × HostOffloader) (instruction_and_index : InstructionAndShapeIndex) :
    Except Failure (Bool × HostOffloader) :=
  if instruction_and_index ∈ st.2.already_inserted_copy_before_ then
    .ok st
  else
    let data_to_copy := before_instruction_and_index.instruction
    let created : Except Failure (HostOffloader × Nat) :=
      match st.2.copies_created_after_.find? (fun p => decide (p.1 = data_to_copy)) with
      | none =>
        match st.2.module.get data_to_copy with
        | .error e => .error e
        | .ok d =>
          let added := st.2.module.AddInstruction d.parent
            (CreateUnary d.shape HloOpcode.kCopy data_to_copy)
          match SetSubshapeMemorySpace added.1 ⟨added.2, []⟩ kHostMemorySpace with
          | .error e => .error e
          | .ok m =>
            .ok ({ st.2 with
                module := m
                copies_created_after_ := st.2.copies_created_after_ ++ [(data_to_copy, added.2)] },
              added.2)
      | some it => .ok (st.2, it.2)
    match created with
    | .error e => .error e
    | .ok (o, copy_to_host) =>
      let operand_index :=
        match instruction_and_index.shape_index with
        | [] => 0
        | front :: _ => front
      match o.module.ReplaceOperandWith instruction_and_index.instruction operand_index
          copy_to_host with
      | .error e => .error e
      | .ok m =>
        .ok (true, { o with
          module := m
          already_inserted_copy_before_ :=
            setInsert o.already_inserted_copy_before_ instruction_and_index })

/-- `HostOffloader::InsertCopyBetween`. -/
def InsertCopyBetween (o : HostOffloader)
    (before_instruction_and_index after_instruction_and_index : InstructionAndShapeIndex) :
    Except Failure (Bool × HostOffloader) :=
  match o.module.get after_instruction_and_index.instruction with
  | .error e => .error e
  | .ok after_instruction =>
    let instructions_to_insert_copies_before : List InstructionAndShapeIndex :=
      if after_instruction.opcode = HloOpcode.kParameter then
        (o.module.GetComputationCallers after_instruction.parent).flatMap (fun caller =>
          (caller.OperandIndices before_instruction_and_index.instruction).map
            (fun index => (⟨caller.id, [index]⟩ : InstructionAndShapeIndex)))
      else
        [after_instruction_and_index]
    instructions_to_insert_copies_before.foldlM
      (InsertCopyBetween.insert_copy before_instruction_and_index) (false, o)

/-- The element type `S32`. -/
def S32 : Nat := 4

/-- The value of `static_cast<int32_t>(x)` for a 64-bit `x`. -/
def wrap_int32 (x : Int) : Int :=
  (x + 2 ^ 31) % 2 ^ 32 - 2 ^ 31

/-- The first loop of `DynamifySlice`: one scalar `int32` constant for each slice
start; returns the module and the ids of the constants. -/
def DynamifySlice.add_start_constants (parent : Nat) :
    HloModule → List Int → HloModule × List Nat
  | m, [] => (m, [])
  | m, start :: rest =>
    let added := m.AddInstruction parent
      { id := 0, name := "constant", opcode := HloOpcode.kConstant,
        shape := Shape.array S32 [] (some ⟨kDefaultMemorySpace⟩), operands := [],
        parent := 0, literal := some (wrap_int32 start) }
    let r := DynamifySlice.add_start_constants parent added.1 rest
    (r.1, added.2 :: r.2)

/-- `HostOffloader::DynamifySlice`. -/
def DynamifySlice (m : HloModule) (slice : Nat) : Except Failure HloModule :=
  match m.get slice with
  | .error e => .error e
  | .ok s =>
    let constants := DynamifySlice.add_start_constants s.parent m s.slice_starts
    let slice_sizes := List.zipWith (fun limit start => limit - start) s.slice_limits
      s.slice_starts
    match s.operand 0 with
    | .error e => .error e
    | .ok operand0 =>
      let added := constants.1.AddInstruction s.parent
        { id := 0, name := "dynamic-slice", opcode := HloOpcode.kDynamicSlice,
          shape := s.shape, operands := operand0 :: constants.2, parent := 0,
          dynamic_slice_sizes := slice_sizes }
      match added.1.ReplaceAllUsesWith slice added.2 with
      | .error e => .error e
      | .ok m1 => m1.RemoveInstruction slice

/-- The local variables of `WalkDownHostMemoryOffloadPaths` during its loop,
together with the pass object. -/
structure WalkState where
  offloader : HostOffloader
  queue : List InstructionAndShapeIndex
  mth_custom_calls_to_remove : List Nat
  slices_to_dynamify : List Nat
  custom_calls_to_insert_copies_before : List Nat
  x64_split_instructions : List Nat
  buffers_to_set_to_host_memory : List InstructionAndShapeIndex
deriving DecidableEq, Repr

/-- How the chain of `if`s at the head of the loop body ends: with `continue`, or
with the two flags set for the rest of the body. -/
inductive Classification where
  | next_node (w : WalkState)
  | rest_of_body (w : WalkState)
      (already_saved_buffer need_to_wrap_instruction_as_host_compute : Bool)
deriving DecidableEq, Repr

/-- The chain of `if`s at the head of the loop body of
`WalkDownHostMemoryOffloadPaths`, for the node `instruction_and_shape_index`
taken from the queue. -/
def WalkDownHostMemoryOffloadPaths.classify (u : Collaborators) (fuel : Nat)
    (starting_instruction : Nat) (w : WalkState)
    (instruction_and_shape_index : InstructionAndShapeIndex) (instruction : HloInstruction) :
    Except Failure Classification :=
  let m := w.offloader.module
  if instruction.opcode = HloOpcode.kCustomCall ∧
      instruction.custom_call_target = kMoveToHostCustomCallTarget then
    .ok (.rest_of_body
      { w with
        offloader := { w.offloader with
          already_visited_move_to_host_custom_calls_ :=
            setInsert w.offloader.already_visited_move_to_host_custom_calls_ instruction.id }
        mth_custom_calls_to_remove := setInsert w.mth_custom_calls_to_remove instruction.id }
      false false)
  else if instruction.opcode = HloOpcode.kCustomCall ∧
      instruction.custom_call_target = kMoveToDeviceCustomCallTarget then
    .ok (.next_node
      { w with
        custom_calls_to_insert_copies_before :=
          setInsert w.custom_calls_to_insert_copies_before instruction.id })
  else if instruction.opcode = HloOpcode.kDynamicUpdateSlice then
    let seen := setInsert w.offloader.dynamic_update_slices_seen_ instruction.id
    let seen_with_annotation :=
      if instruction.id = starting_instruction then
        setInsert w.offloader.dynamic_update_slices_seen_with_annotation_ instruction.id
      else
        w.offloader.dynamic_update_slices_seen_with_annotation_
    .ok (.rest_of_body
      { w with
        offloader := { w.offloader with
          dynamic_update_slices_seen_ := seen
          dynamic_update_slices_seen_with_annotation_ := seen_with_annotation } }
      false false)
  else if u.IsValidDuringPureMemoryOffload m instruction then
    if instruction.opcode = HloOpcode.kAsyncStart then
      .ok (.rest_of_body w true false)
    else if instruction.opcode = HloOpcode.kAsyncDone then
      match instruction.operand 0 with
      | .error e => .error e
      | .ok async_start =>
        .ok (.rest_of_body
          { w with
            buffers_to_set_to_host_memory :=
              w.buffers_to_set_to_host_memory ++ [⟨async_start, [1]⟩] }
          false false)
    else if instruction.opcode = HloOpcode.kParameter then
      let callers := m.GetComputationCallers instruction.parent
      let saved := (callers.filter (fun caller => decide (caller.opcode = HloOpcode.kAsyncStart))).map
        (fun caller => (⟨caller.id,
          0 :: instruction.parameter_number :: instruction_and_shape_index.shape_index⟩ :
            InstructionAndShapeIndex))
      .ok (.rest_of_body
        { w with buffers_to_set_to_host_memory := w.buffers_to_set_to_host_memory ++ saved }
        false false)
    else
      .ok (.rest_of_body w false false)
  else if instruction.opcode = HloOpcode.kDynamicSlice then
    match SliceLeadsToMoveToDeviceCustomCall u fuel m instruction.id with
    | .error e => .error e
    | .ok true => .ok (.next_node w)
    | .ok false => .ok (.rest_of_body w false true)
  else if instruction.opcode = HloOpcode.kSlice then
    match SliceLeadsToMoveToDeviceCustomCall u fuel m instruction.id with
    | .error e => .error e
    | .ok true =>
      .ok (.next_node
        { w with slices_to_dynamify := setInsert w.slices_to_dynamify instruction.id })
    | .ok false => .ok (.rest_of_body w false true)
  else
    .ok (.rest_of_body w false true)

/-- The loop over the successors at the end of the loop body: a successor whose
subshape already has host memory space is not pushed onto the queue. -/
def WalkDownHostMemoryOffloadPaths.push_successors (m : HloModule) :
    List InstructionAndShapeIndex → List InstructionAndShapeIndex →
      Except Failure (List InstructionAndShapeIndex)
  | queue, [] => .ok queue
  | queue, successor :: rest =>
    match m.get successor.instruction with
    | .error e => .error e
    | .ok s =>
      match s.shape.GetSubshape successor.shape_index with
      | .error e => .error e
      | .ok successor_shape =>
        if successor_shape.has_memory_space kHostMemorySpace then
          WalkDownHostMemoryOffloadPaths.push_successors m queue rest
        else
          WalkDownHostMemoryOffloadPaths.push_successors m (queue ++ [successor]) rest

/-- The loop body of `WalkDownHostMemoryOffloadPaths` after the chain of `if`s,
for a node that did not end with `continue` there. -/
def WalkDownHostMemoryOffloadPaths.rest_of_body (u : Collaborators)
    (starting_instruction : Nat) (w : WalkState)
    (instruction_and_shape_index : InstructionAndShapeIndex) (instruction : HloInstruction)
    (already_saved_buffer need_to_wrap_instruction_as_host_compute : Bool) :
    Except Failure WalkState :=
  let x64_split_instructions :=
    (w.offloader.module.users instruction.id).foldl
      (fun set user =>
        if user.opcode = HloOpcode.kCustomCall ∧
            (user.custom_call_target = "X64SplitLow" ∨
              user.custom_call_target = "X64SplitHigh") then
          setInsert set user.id
        else set)
      w.x64_split_instructions
  let m :=
    if need_to_wrap_instruction_as_host_compute then
      SetHostComputeFrontendAttribute w.offloader.module instruction.id
    else w.offloader.module
  let buffers_to_set_to_host_memory :=
    if ¬ already_saved_buffer ∧ instruction.opcode ≠ HloOpcode.kDynamicUpdateSlice then
      w.buffers_to_set_to_host_memory ++ [instruction_and_shape_index]
    else w.buffers_to_set_to_host_memory
  let w1 : WalkState :=
    { w with
      offloader := { w.offloader with module := m }
      x64_split_instructions := x64_split_instructions
      buffers_to_set_to_host_memory := buffers_to_set_to_host_memory }
  if m.IsRoot instruction ∧ m.IsEntryComputation instruction.parent then
    match m.entry_computation_layout.result_shape.GetSubshape
        instruction_and_shape_index.shape_index with
    | .error e => .error e
    | .ok output_shape =>
      if ¬ output_shape.has_layout then
        .error (.check_failed "Expecting output shape of entry computation to have a layout.")
      else if output_shape.has_memory_space kHostMemorySpace then
        .ok w1
      else
        match m.get starting_instruction with
        | .error e => .error e
        | .ok s =>
          .error (.InvalidArgument
            ("Tensor which is moved to host (starting from " ++ s.name ++
              ") is returned from the entry computation but the layout for this output " ++
              "is not set to host memory."))
  else
    match u.GetSuccessors m instruction_and_shape_index with
    | .error e => .error e
    | .ok successors =>
      match WalkDownHostMemoryOffloadPaths.push_successors m w1.queue successors with
      | .error e => .error e
      | .ok queue => .ok { w1 with queue := queue }

/-- One iteration of the loop of `WalkDownHostMemoryOffloadPaths`: the node
`instruction_and_shape_index` has been taken from the queue, and `w.queue` is
what is left of it. -/
def WalkDownHostMemoryOffloadPaths.visit (u : Collaborators) (fuel : Nat)
    (starting_instruction : Nat) (w : WalkState)
    (instruction_and_shape_index : InstructionAndShapeIndex) : Except Failure WalkState :=
  match w.offloader.module.get instruction_and_shape_index.instruction with
  | .error e => .error e
  | .ok instruction =>
    match WalkDownHostMemoryOffloadPaths.classify u fuel starting_instruction w
        instruction_and_shape_index instruction with
    | .error e => .error e
    | .ok (.next_node w') => .ok w'
    | .ok (.rest_of_body w' already_saved_buffer need_to_wrap) =>
      WalkDownHostMemoryOffloadPaths.rest_of_body u starting_instruction w'
        instruction_and_shape_index instruction already_saved_buffer need_to_wrap

/-- The loop `while (!queue.empty())` of `WalkDownHostMemoryOffloadPaths`; `fuel`
bounds the number of iterations and is also the fuel of each slice probe. -/
def WalkDownHostMemoryOffloadPaths.loop (u : Collaborators) (probe_fuel : Nat)
    (starting_instruction : Nat) : Nat → WalkState → Except Failure WalkState
  | 0, w =>
    match w.queue with
    | [] => .ok w
    | _ :: _ => .error .out_of_fuel
  | fuel + 1, w =>
    match w.queue with
    | [] => .ok w
    | instruction_and_shape_index :: queue =>
      match WalkDownHostMemoryOffloadPaths.visit u probe_fuel starting_instruction
          { w with queue := queue } instruction_and_shape_index with
      | .error e => .error e
      | .ok w' => WalkDownHostMemoryOffloadPaths.loop u probe_fuel starting_instruction fuel w'

/-- The body of the loop "Insert copies to move to device"; the state is
`(changed, module)`. -/
def WalkDownHostMemoryOffloadPaths.insert_copy_to_device (st : Bool × HloModule)
    (custom_call : Nat) : Except Failure (Bool × HloModule) :=
  match st.2.get custom_call with
  | .error e => .error e
  | .ok c =>
    match c.operand 0 with
    | .error e => .error e
    | .ok data_to_copy =>
      match st.2.get data_to_copy with
      | .error e => .error e
      | .ok d =>
        let added := st.2.AddInstruction d.parent (CreateUnary d.shape HloOpcode.kCopy data_to_copy)
        match SetSubshapeMemorySpace added.1 ⟨added.2, []⟩ kDefaultMemorySpace with
        | .error e => .error e
        | .ok m1 =>
          match m1.ReplaceAllUsesWith custom_call added.2 with
          | .error e => .error e
          | .ok m2 => .ok (true, m2)

/-- The body of the loop over `x64_split_instructions`. -/
def WalkDownHostMemoryOffloadPaths.insert_copy_before_x64_split (m : HloModule)
    (x64_split_instruction : Nat) : Except Failure HloModule :=
  match m.get x64_split_instruction with
  | .error e => .error e
  | .ok x =>
    match x.operand 0 with
    | .error e => .error e
    | .ok data_to_copy =>
      match m.get data_to_copy with
      | .error e => .error e
      | .ok d =>
        let added := m.AddInstruction d.parent (CreateUnary d.shape HloOpcode.kCopy data_to_copy)
        match SetSubshapeMemorySpace added.1 ⟨added.2, []⟩ kDefaultMemorySpace with
        | .error e => .error e
        | .ok m1 => m1.ReplaceOperandWith x64_split_instruction 0 added.2

/-- The body of the loop that removes the `MoveToHost` custom calls; the state
is `(changed, module)`. -/
def WalkDownHostMemoryOffloadPaths.remove_move_to_host (st : Bool × HloModule)
    (custom_call : Nat) : Except Failure (Bool × HloModule) :=
  match st.2.get custom_call with
  | .error e => .error e
  | .ok c =>
    match c.operand 0 with
    | .error e => .error e
    | .ok operand0 =>
      match st.2.ReplaceAllUsesWith custom_call operand0 with
      | .error e => .error e
      | .ok m1 =>
        match m1.RemoveInstruction custom_call with
        | .error e => .error e
        | .ok m2 => .ok (true, m2)

/-- The body of the loop over `slices_to_dynamify`; the state is
`(changed, module)`. -/
def WalkDownHostMemoryOffloadPaths.dynamify (st : Bool × HloModule) (slice : Nat) :
    Except Failure (Bool × HloModule) :=
  match DynamifySlice st.2 slice with
  | .error e => .error e
  | .ok m => .ok (true, m)

/-- The part of `WalkDownHostMemoryOffloadPaths` after its loop: "Finished
walking all host memory paths. Now we'll make all the necessary changes." -/
def WalkDownHostMemoryOffloadPaths.apply_changes (u : Collaborators) (w : WalkState)
    (starting_instruction_and_index : InstructionAndShapeIndex) (insert_copy_before : Bool) :
    Except Failure (Bool × HostOffloader) :=
  match SetBuffersToMemorySpaceColor w.offloader.module w.buffers_to_set_to_host_memory
      kHostMemorySpace with
  | .error e => .error e
  | .ok (set_buffers_changed, m0) =>
    let o0 : HostOffloader := { w.offloader with module := m0 }
    let copied : Except Failure (Bool × HostOffloader) :=
      if insert_copy_before then
        match u.GetPredecessors m0 starting_instruction_and_index with
        | [predecessor] =>
          match InsertCopyBetween o0 predecessor starting_instruction_and_index with
          | .error e => .error e
          | .ok (inserted_copy, o) => .ok (set_buffers_changed || inserted_copy, o)
        | _ => .error (.check_failed "predecessors.size() == 1")
      else .ok (set_buffers_changed, o0)
    match copied with
    | .error e => .error e
    | .ok (changed1, o1) =>
      match w.custom_calls_to_insert_copies_before.foldlM
          WalkDownHostMemoryOffloadPaths.insert_copy_to_device (changed1, o1.module) with
      | .error e => .error e
      | .ok (changed2, m2) =>
        match w.x64_split_instructions.foldlM
            WalkDownHostMemoryOffloadPaths.insert_copy_before_x64_split m2 with
        | .error e => .error e
        | .ok m3 =>
          match w.mth_custom_calls_to_remove.foldlM
              WalkDownHostMemoryOffloadPaths.remove_move_to_host (changed2, m3) with
          | .error e => .error e
          | .ok (changed4, m4) =>
            match w.slices_to_dynamify.foldlM WalkDownHostMemoryOffloadPaths.dynamify
                (changed4, m4) with
            | .error e => .error e
            | .ok (changed5, m5) => .ok (changed5, { o1 with module := m5 })

/-- `HostOffloader::WalkDownHostMemoryOffloadPaths`. -/
def WalkDownHostMemoryOffloadPaths (u : Collaborators) (fuel : Nat) (o : HostOffloader)
    (starting_instruction_and_index : InstructionAndShapeIndex) (insert_copy_before : Bool) :
    Except Failure (Bool × HostOffloader) :=
  match WalkDownHostMemoryOffloadPaths.loop u fuel starting_instruction_and_index.instruction
      fuel
      { offloader := o, queue := [starting_instruction_and_index],
        mth_custom_calls_to_remove := [], slices_to_dynamify := [],
        custom_calls_to_insert_copies_before := [], x64_split_instructions := [],
        buffers_to_set_to_host_memory := [] } with
  | .error e => .error e
  | .ok w =>
    WalkDownHostMemoryOffloadPaths.apply_changes u w starting_instruction_and_index
      insert_copy_before

/-- The body of the callback of `HandleInputStreaming`, for the subshape `p` of
the layout of entry parameter `i`; the state is `(changed, offloader)`. -/
def HandleInputStreaming.visit_subshape (u : Collaborators) (fuel : Nat)
    (entry_computation i : Nat) (st : Bool × HostOffloader) (p : ShapeIndex × Shape) :
    Except Failure (Bool × HostOffloader) :=
  if p.2.has_memory_space kHostMemorySpace then
    match st.2.module.parameter_instruction entry_computation i with
    | .error e => .error e
    | .ok parameter_instruction =>
      match WalkDownHostMemoryOffloadPaths u fuel st.2 ⟨parameter_instruction.id, p.1⟩ false with
      | .error e => .error e
      | .ok (result, o) => .ok (st.1 || result, o)
  else
    .ok st

/-- `HostOffloader::HandleInputStreaming`. -/
def HandleInputStreaming (u : Collaborators) (fuel : Nat) (o : HostOffloader)
    (entry_computation : Nat) : Except Failure (Bool × HostOffloader) :=
  let entry_computation_layout := o.module.entry_computation_layout
  ((List.range entry_computation_layout.parameter_shapes.length).zip
      entry_computation_layout.parameter_shapes).foldlM
    (fun st p =>
      p.2.subshapes.foldlM
        (HandleInputStreaming.visit_subshape u fuel entry_computation p.1) st)
    (false, o)

/-- The loop `while (!queue.empty())` of `GetStartingInstructions`; the state is
the queue and `result`. -/
def GetStartingInstructions.loop (u : Collaborators) (m : HloModule) :
    Nat → List InstructionAndShapeIndex → List InstructionAndShapeIndex →
      Except Failure (List InstructionAndShapeIndex)
  | _, [], result => .ok result
  | 0, _ :: _, _ => .error .out_of_fuel
  | fuel + 1, instruction_and_shape :: queue, result =>
    match m.get instruction_and_shape.instruction with
    | .error e => .error e
    | .ok current_instruction =>
      if current_instruction.opcode = HloOpcode.kDynamicUpdateSlice then
        GetStartingInstructions.loop u m fuel queue (result ++ [instruction_and_shape])
      else
        match InstructionIsAllowedBetweenMoveToHostAndDus u m current_instruction with
        | .error e => .error e
        | .ok false =>
          GetStartingInstructions.loop u m fuel queue (result ++ [instruction_and_shape])
        | .ok true =>
          match u.GetSuccessors m instruction_and_shape with
          | .error e => .error e
          | .ok successors =>
            GetStartingInstructions.loop u m fuel (queue ++ successors) result

/-- `HostOffloader::GetStartingInstructions`. -/
def GetStartingInstructions (u : Collaborators) (fuel : Nat) (m : HloModule)
    (custom_call_instruction : Nat) : Except Failure (List InstructionAndShapeIndex) :=
  match u.GetSuccessors m ⟨custom_call_instruction, []⟩ with
  | .error e => .error e
  | .ok successors_of_custom_call =>
    GetStartingInstructions.loop u m fuel successors_of_custom_call []

/-- The case of `HandleMoveToHostCustomCall` in which there is no starting
instruction and the custom call is the root of the entry computation: a copy to
host replaces it. -/
def HandleMoveToHostCustomCall.copy_root_to_host (m : HloModule)
    (custom_call_instruction : Nat) : Except Failure HloModule :=
  match m.get custom_call_instruction with
  | .error e => .error e
  | .ok c =>
    match c.operand 0 with
    | .error e => .error e
    | .ok data_to_copy =>
      match m.get data_to_copy with
      | .error e => .error e
      | .ok d =>
        let added := m.AddInstruction d.parent (CreateUnary d.shape HloOpcode.kCopy data_to_copy)
        match SetSubshapeMemorySpace added.1 ⟨added.2, []⟩ kHostMemorySpace with
        | .error e => .error e
        | .ok m1 => m1.ReplaceAllUsesWith custom_call_instruction added.2

/-- The body of the loop "Walk down the graph from each starting instruction". -/
def HandleMoveToHostCustomCall.walk (u : Collaborators) (fuel : Nat) (o : HostOffloader)
    (starting_instruction_and_shape : InstructionAndShapeIndex) : Except Failure HostOffloader :=
  match o.module.get starting_instruction_and_shape.instruction with
  | .error e => .error e
  | .ok s =>
    let should_insert_copy_before_instruction :=
      decide (s.opcode ≠ HloOpcode.kDynamicUpdateSlice)
    match WalkDownHostMemoryOffloadPaths u fuel o starting_instruction_and_shape
        should_insert_copy_before_instruction with
    | .error e => .error e
    | .ok r => .ok r.2

/-- `HostOffloader::HandleMoveToHostCustomCall`. -/
def HandleMoveToHostCustomCall (u : Collaborators) (fuel : Nat) (o : HostOffloader)
    (custom_call_instruction : Nat) : Except Failure (Bool × HostOffloader) :=
  if custom_call_instruction ∈ o.already_visited_move_to_host_custom_calls_ then
    .ok (false, o)
  else
    match GetStartingInstructions u fuel o.module custom_call_instruction with
    | .error e => .error e
    | .ok starting_instruction_and_shapes =>
      let copied : Except Failure HloModule :=
        if starting_instruction_and_shapes = [] ∧
            (o.module.computation? o.module.entry_computation).map
              (fun c => c.root_instruction) = some custom_call_instruction then
          HandleMoveToHostCustomCall.copy_root_to_host o.module custom_call_instruction
        else
          .ok o.module
      match copied with
      | .error e => .error e
      | .ok m0 =>
        match starting_instruction_and_shapes.foldlM (HandleMoveToHostCustomCall.walk u fuel)
            { o with module := m0 } with
        | .error e => .error e
        | .ok o1 =>
          let o2 : HostOffloader :=
            { o1 with
              already_visited_move_to_host_custom_calls_ :=
                setInsert o1.already_visited_move_to_host_custom_calls_ custom_call_instruction }
          match o2.module.get custom_call_instruction with
          | .error e => .error e
          | .ok c =>
            match c.operand 0 with
            | .error e => .error e
            | .ok operand0 =>
              match o2.module.ReplaceAllUsesWith custom_call_instruction operand0 with
              | .error e => .error e
              | .ok m1 =>
                match m1.RemoveInstruction custom_call_instruction with
                | .error e => .error e
                | .ok m2 => .ok (true, { o2 with module := m2 })

/-- `HostOffloader::HandleMoveToDeviceCustomCall`. -/
def HandleMoveToDeviceCustomCall (o : HostOffloader) (custom_call_instruction : Nat) :
    Except Failure (Bool × HostOffloader) :=
  match o.module.get custom_call_instruction with
  | .error e => .error e
  | .ok c =>
    match c.operand 0 with
    | .error e => .error e
    | .ok operand0 =>
      match o.module.ReplaceAllUsesWith custom_call_instruction operand0 with
      | .error e => .error e
      | .ok m1 =>
        match m1.RemoveInstruction custom_call_instruction with
        | .error e => .error e
        | .ok m2 =>
          .ok (true, { o with
            module := m2
            move_to_device_custom_calls_to_remove_ :=
              setInsert o.move_to_device_custom_calls_to_remove_ custom_call_instruction })

/-- The loop over `nested_queue` in `CreateAllocateBufferForDynamicUpdateSlice`:
the walk down from the parameter of the while condition. -/
def CreateAllocateBufferForDynamicUpdateSlice.nested_loop (u : Collaborators) :
    Nat → HloModule → List InstructionAndShapeIndex → Except Failure HloModule
  | _, m, [] => .ok m
  | 0, _, _ :: _ => .error .out_of_fuel
  | fuel + 1, m, nested_instruction_and_shape :: nested_queue =>
    match m.get nested_instruction_and_shape.instruction with
    | .error e => .error e
    | .ok nested_instruction =>
      if ¬ u.IsValidDuringPureMemoryOffload m nested_instruction then
        .error (.InvalidArgument
          ("Tensor which is moved to host is used by an invalid instruction (\x22" ++
            nested_instruction.name ++ "\x22) during while condition body."))
      else
        match SetSubshapeMemorySpace m nested_instruction_and_shape kHostMemorySpace with
        | .error e => .error e
        | .ok m1 =>
          match u.GetSuccessors m1 nested_instruction_and_shape with
          | .error e => .error e
          | .ok successors =>
            CreateAllocateBufferForDynamicUpdateSlice.nested_loop u fuel m1
              (nested_queue ++ successors)

/-- The body of the loop over the callers of the computation of a parameter. -/
def CreateAllocateBufferForDynamicUpdateSlice.handle_caller (u : Collaborators) (fuel : Nat)
    (instruction_and_shape : InstructionAndShapeIndex) (instruction : HloInstruction)
    (m : HloModule) (caller : HloInstruction) : Except Failure HloModule :=
  if caller.opcode = HloOpcode.kWhile then
    if caller.called_computations[0]? ≠ some instruction.parent then
      .error (.check_failed "We assume that we're starting from the while body")
    else
      match caller.called_computations[1]? with
      | none => .error (.check_failed "no while condition")
      | some while_condition_computation =>
        if (m.parameter_instructions while_condition_computation).length ≠ 1 then
          .error (.check_failed "Expecting While to have just 1 parameter")
        else
          match m.parameter_instruction while_condition_computation 0 with
          | .error e => .error e
          | .ok while_condition_parameter =>
            match SetSubshapeMemorySpace m
                ⟨while_condition_parameter.id, instruction_and_shape.shape_index⟩
                kHostMemorySpace with
            | .error e => .error e
            | .ok m1 =>
              CreateAllocateBufferForDynamicUpdateSlice.nested_loop u fuel m1
                [⟨while_condition_parameter.id, instruction_and_shape.shape_index⟩]
  else
    .ok m

/-- `HloInstruction::CreateCustomCall(shape, {}, "AllocateBuffer")`, before it is
added to a computation. -/
def CreateAllocateBufferCustomCall (shape : Shape) : HloInstruction :=
  { id := 0, name := "custom-call", opcode := HloOpcode.kCustomCall, shape := shape,
    operands := [], parent := 0, custom_call_target := "AllocateBuffer" }

/-- The body of the loop over the predecessors of the node
`instruction_and_shape`; the state is the module, the queue and
`found_broadcast`. -/
def CreateAllocateBufferForDynamicUpdateSlice.handle_predecessor
    (instruction_and_shape : InstructionAndShapeIndex)
    (st : HloModule × List InstructionAndShapeIndex × Bool)
    (predecessor : InstructionAndShapeIndex) :
    Except Failure (HloModule × List InstructionAndShapeIndex × Bool) :=
  match st.1.get predecessor.instruction with
  | .error e => .error e
  | .ok predecessor_instruction =>
    if predecessor_instruction.opcode = HloOpcode.kBroadcast then
      let added := st.1.AddInstruction predecessor_instruction.parent
        (CreateAllocateBufferCustomCall predecessor_instruction.shape)
      match SetSubshapeMemorySpace added.1 ⟨added.2, []⟩ kHostMemorySpace with
      | .error e => .error e
      | .ok m1 =>
        match m1.get instruction_and_shape.instruction with
        | .error e => .error e
        | .ok broadcast_user =>
          let replaced : Except Failure HloModule :=
            match instruction_and_shape.shape_index with
            | [index] =>
              if broadcast_user.opcode ≠ HloOpcode.kTuple then
                .error (.check_failed "Expecting a tuple when shape index has ndim>0")
              else
                m1.ReplaceOperandWith broadcast_user.id index added.2
            | [] =>
              match broadcast_user.OperandIndices predecessor.instruction with
              | [operand_index] => m1.ReplaceOperandWith broadcast_user.id operand_index added.2
              | _ => .error (.check_failed "Only a single use it currently supported")
            | _ :: _ :: _ => .error (.check_failed "Only other supported shape index ndim is 0")
          match replaced with
          | .error e => .error e
          | .ok m2 =>
            if (m2.users predecessor.instruction).length = 0 then
              match m2.RemoveInstruction predecessor.instruction with
              | .error e => .error e
              | .ok m3 => .ok (m3, st.2.1, true)
            else
              .ok (m2, st.2.1, true)
    else
      .ok (st.1, st.2.1 ++ [predecessor], st.2.2)

/-- The loop `while (!queue.empty())` of
`CreateAllocateBufferForDynamicUpdateSlice` together with the end of the
function; the state is the pass object, the queue and `found_broadcast`. -/
def CreateAllocateBufferForDynamicUpdateSlice.loop (u : Collaborators) (probe_fuel : Nat)
    (dynamic_update_slice_name : String) :
    Nat → HostOffloader → List InstructionAndShapeIndex → Bool → Except Failure HostOffloader
  | _, o, [], found_broadcast =>
    if ¬ found_broadcast then
      .error (.InvalidArgument
        ("DynamicUpdateSlice \x22" ++ dynamic_update_slice_name ++
          "\x22\x27s first operand is not the result of a broadcast."))
    else
      .ok o
  | 0, _, _ :: _, _ => .error .out_of_fuel
  | fuel + 1, o, instruction_and_shape :: queue, found_broadcast =>
    match SetSubshapeMemorySpace o.module instruction_and_shape kHostMemorySpace with
    | .error e => .error e
    | .ok m1 =>
      match m1.get instruction_and_shape.instruction with
      | .error e => .error e
      | .ok instruction =>
        let branch : Except Failure (Bool × HostOffloader) :=
          if instruction.opcode = HloOpcode.kParameter then
            match (m1.GetComputationCallers instruction.parent).foldlM
                (CreateAllocateBufferForDynamicUpdateSlice.handle_caller u probe_fuel
                  instruction_and_shape instruction) m1 with
            | .error e => .error e
            | .ok m2 => .ok (false, { o with module := m2 })
          else if instruction.opcode = HloOpcode.kDynamicUpdateSlice then
            .ok (false, { o with
              module := m1
              dynamic_update_slices_already_allocated_ :=
                setInsert o.dynamic_update_slices_already_allocated_ instruction.id })
          else if instruction.IsCustomCall "AllocateBuffer" then
            .ok (true, { o with module := m1 })
          else
            .ok (false, { o with module := m1 })
        match branch with
        | .error e => .error e
        | .ok (true, o2) => .ok o2
        | .ok (false, o2) =>
          match (u.GetPredecessors o2.module instruction_and_shape).foldlM
              (CreateAllocateBufferForDynamicUpdateSlice.handle_predecessor instruction_and_shape)
              (o2.module, queue, found_broadcast) with
          | .error e => .error e
          | .ok st =>
            CreateAllocateBufferForDynamicUpdateSlice.loop u probe_fuel
              dynamic_update_slice_name fuel { o2 with module := st.1 } st.2.1 st.2.2

/-- `HostOffloader::CreateAllocateBufferForDynamicUpdateSlice`. -/
def CreateAllocateBufferForDynamicUpdateSlice (u : Collaborators) (fuel : Nat)
    (o : HostOffloader) (dynamic_update_slice : Nat) : Except Failure HostOffloader :=
  if dynamic_update_slice ∈ o.dynamic_update_slices_already_allocated_ then
    .ok o
  else
    match o.module.get dynamic_update_slice with
    | .error e => .error e
    | .ok d =>
      CreateAllocateBufferForDynamicUpdateSlice.loop u fuel d.name fuel o
        [⟨dynamic_update_slice, []⟩] false

/-- The body of the inner loop of `ApplySchedulingFix`, for one instruction of a
computation that is not the entry computation; the state is
`(changed, module)`. -/
def ApplySchedulingFix.visit (alias_analysis : HloAliasAnalysis) (st : Bool × HloModule)
    (instruction : Nat) : Except Failure (Bool × HloModule) :=
  match st.2.get instruction with
  | .error e => .error e
  | .ok i =>
    if i.opcode ≠ HloOpcode.kDynamicUpdateSlice then .ok st
    else
      match i.shape.memory_space with
      | .error e => .error e
      | .ok memory_space =>
        if memory_space ≠ kHostMemorySpace then .ok st
        else
          match i.operand 1 with
          | .error e => .error e
          | .ok operand =>
            match st.2.get operand with
            | .error e => .error e
            | .ok hlo =>
              let uses_parameter_buffer :=
                (alias_analysis.position_instructions operand).any
                  (fun p => decide (p ∈ st.2.parameter_instructions hlo.parent))
              if uses_parameter_buffer then
                let added := st.2.AddInstruction i.parent
                  (CreateUnary hlo.shape HloOpcode.kCopy operand)
                match added.1.ReplaceOperandWith instruction 1 added.2 with
                | .error e => .error e
                | .ok m => .ok (true, m)
              else .ok st

/-- `HostOffloader::ApplySchedulingFix`. -/
def ApplySchedulingFix (u : Collaborators) (m : HloModule) (execution_threads : List String) :
    Except Failure (Bool × HloModule) :=
  match u.HloAliasAnalysis_Run m with
  | .error e => .error e
  | .ok alias_analysis =>
    (u.MakeComputationPostOrder m execution_threads).foldlM
      (fun st computation =>
        if computation = st.2.entry_computation then .ok st
        else
          (u.MakeInstructionPostOrder st.2 computation).foldlM
            (ApplySchedulingFix.visit alias_analysis) st)
      (false, m)

/-- `ValidateAsyncComputationStructure`: every instruction is a parameter or the
root. -/
def ValidateAsyncComputationStructure (m : HloModule) (computation : Nat) :
    Except Failure Unit :=
  match (m.instructions_of computation).find?
      (fun instr => ¬ (instr.opcode = HloOpcode.kParameter ∨ m.IsRoot instr)) with
  | some instr =>
    .error (.Internal ("Unexpected instruction found in async computation: " ++ instr.name))
  | none => .ok ()

/-- A `ShapeTree<std::vector<InstructionAndShapeIndex>>`: one list of nodes for
every subshape index, in the order in which the tree is enumerated. -/
abbrev HostInstrsTree := List (ShapeIndex × List InstructionAndShapeIndex)

/-- The body of the loop over the nodes of one tree element in
`UpdateMemorySpaceForHostOffloadedOutputs`; the state is the module and
`to_replace`. -/
def UpdateMemorySpaceForHostOffloadedOutputs.visit_node
    (st : HloModule × List InstructionAndShapeIndex) (instr_and_shape : InstructionAndShapeIndex) :
    Except Failure (HloModule × List InstructionAndShapeIndex) :=
  match st.1.get instr_and_shape.instruction with
  | .error e => .error e
  | .ok i =>
    if i.IsCustomCall kMoveToHostCustomCallTarget then
      .ok (st.1, st.2 ++ [instr_and_shape])
    else
      match SetSubshapeMemorySpace st.1 instr_and_shape kHostMemorySpace with
      | .error e => .error e
      | .ok m => .ok (m, st.2)

/-- The callback of `ForEachMutableElement` in
`UpdateMemorySpaceForHostOffloadedOutputs`, for one tree element. -/
def UpdateMemorySpaceForHostOffloadedOutputs.visit_element (root : Nat)
    (st : HloModule × List InstructionAndShapeIndex)
    (element : ShapeIndex × List InstructionAndShapeIndex) :
    Except Failure (HloModule × List InstructionAndShapeIndex) :=
  match element.2.foldlM UpdateMemorySpaceForHostOffloadedOutputs.visit_node st with
  | .error e => .error e
  | .ok st1 =>
    if element.2 ≠ [] then
      match SetSubshapeMemorySpace st1.1 ⟨root, element.1⟩ kHostMemorySpace with
      | .error e => .error e
      | .ok m => .ok (m, st1.2)
    else
      .ok st1

/-- The body of the loop "Remove MoveToHost usage"; the state is
`(modified, module)`. -/
def UpdateMemorySpaceForHostOffloadedOutputs.replace (st : Bool × HloModule)
    (instr_and_shape : InstructionAndShapeIndex) : Except Failure (Bool × HloModule) :=
  match st.2.get instr_and_shape.instruction with
  | .error e => .error e
  | .ok i =>
    match i.operand 0 with
    | .error e => .error e
    | .ok pred =>
      match st.2.ReplaceAllUsesWith instr_and_shape.instruction pred with
      | .error e => .error e
      | .ok m => .ok (true, m)

/-- `UpdateMemorySpaceForHostOffloadedOutputs`. -/
def UpdateMemorySpaceForHostOffloadedOutputs (m : HloModule) (call_start : Nat)
    (host_instrs_tree : HostInstrsTree) : Except Failure (Bool × HloModule) :=
  match m.get call_start with
  | .error e => .error e
  | .ok start =>
    match start.called_computations[0]? with
    | none => .error (.check_failed "no async wrapped computation")
    | some called_computation =>
      match ValidateAsyncComputationStructure m called_computation with
      | .error e => .error e
      | .ok _ =>
        match m.computation? called_computation with
        | none => .error (.check_failed "no such computation")
        | some c =>
          match host_instrs_tree.foldlM
              (UpdateMemorySpaceForHostOffloadedOutputs.visit_element c.root_instruction)
              (m, []) with
          | .error e => .error e
          | .ok (m1, to_replace) =>
            to_replace.foldlM UpdateMemorySpaceForHostOffloadedOutputs.replace (false, m1)

/-- `ExtraCheckForValidUsageOnHostForHostOffloadedOutputs`. -/
def ExtraCheckForValidUsageOnHostForHostOffloadedOutputs (m : HloModule)
    (entry_computation_shape : Shape) (instruction_and_shape_index : InstructionAndShapeIndex)
    (instruction : HloInstruction) : Except Failure Bool :=
  let rest : Bool :=
    if instruction.opcode = HloOpcode.kCustomCall ∧
        instruction.custom_call_target ≠ kMoveToHostCustomCallTarget then false
    else if instruction.opcode = HloOpcode.kAsyncStart ∨
        instruction.opcode = HloOpcode.kAsyncDone then false
    else true
  if m.IsRoot instruction ∧ m.IsEntryComputation instruction.parent then
    match entry_computation_shape.GetSubshape instruction_and_shape_index.shape_index with
    | .error e => .error e
    | .ok subshape =>
      match subshape.memory_space with
      | .error e => .error e
      | .ok memory_space =>
        if memory_space ≠ kHostMemorySpace then .ok false else .ok rest
  else
    .ok rest

/-- The local variables of the walk of `HandleRedundantCopiesBackToHost` for one
output index: `host_only`, `entry_compute_output`, the queue, and the element of
`host_instrs_tree` at the index. -/
structure RedundantCopiesWalk where
  host_only : Bool
  entry_compute_output : Bool
  queue : List InstructionAndShapeIndex
  host_instrs : List InstructionAndShapeIndex
deriving DecidableEq, Repr

/-- The loop over the successors of a node in `HandleRedundantCopiesBackToHost`,
which a successor that needs to be on device ends. -/
def HandleRedundantCopiesBackToHost.visit_successors (u : Collaborators) (m : HloModule)
    (entry_computation_shape : Shape) :
    RedundantCopiesWalk → List InstructionAndShapeIndex → Except Failure RedundantCopiesWalk
  | w, [] => .ok w
  | w, successor :: rest =>
    match m.get successor.instruction with
    | .error e => .error e
    | .ok s =>
      if ¬ u.IsValidDuringPureMemoryOffload m s then
        .ok { w with host_only := false }
      else
        match ExtraCheckForValidUsageOnHostForHostOffloadedOutputs m entry_computation_shape
            successor s with
        | .error e => .error e
        | .ok false => .ok { w with host_only := false }
        | .ok true =>
          HandleRedundantCopiesBackToHost.visit_successors u m entry_computation_shape
            { w with
              entry_compute_output := w.entry_compute_output ||
                (m.IsRoot s && m.IsEntryComputation s.parent)
              queue := w.queue ++ [successor]
              host_instrs := w.host_instrs ++ [successor] }
            rest

/-- The loop `while (!queue.empty() && host_only)` of
`HandleRedundantCopiesBackToHost`. -/
def HandleRedundantCopiesBackToHost.loop (u : Collaborators) (m : HloModule)
    (entry_computation_shape : Shape) : Nat → RedundantCopiesWalk → Except Failure RedundantCopiesWalk
  | 0, w =>
    match w.queue with
    | [] => .ok w
    | _ :: _ => if w.host_only then .error .out_of_fuel else .ok w
  | fuel + 1, w =>
    match w.queue with
    | [] => .ok w
    | instruction_and_shape_index :: queue =>
      if ¬ w.host_only then .ok w
      else
        match m.get instruction_and_shape_index.instruction with
        | .error e => .error e
        | .ok i =>
          let host_only :=
            ¬ (m.users i.id).any (fun user => decide (user.opcode = HloOpcode.kAsyncStart))
          match u.GetSuccessors m instruction_and_shape_index with
          | .error e => .error e
          | .ok successors =>
            match HandleRedundantCopiesBackToHost.visit_successors u m entry_computation_shape
                { w with host_only := host_only, queue := queue } successors with
            | .error e => .error e
            | .ok w' =>
              HandleRedundantCopiesBackToHost.loop u m entry_computation_shape fuel w'

/-- The callback of `ForEachMutableLeafShapeWithStatus` in
`HandleRedundantCopiesBackToHost`, for the leaf of the shape of `call_done` at
`output_shape_index`. -/
def HandleRedundantCopiesBackToHost.visit_leaf (u : Collaborators) (fuel : Nat)
    (m : HloModule) (call_start call_done : Nat) (entry_computation_shape : Shape)
    (host_instrs_tree : HostInstrsTree) (leaf : ShapeIndex × Shape) :
    Except Failure HostInstrsTree :=
  let output_shape_index := leaf.1
  let element :=
    (host_instrs_tree.filter (fun e => decide (e.1 = output_shape_index))).flatMap (fun e => e.2)
  match HandleRedundantCopiesBackToHost.loop u m entry_computation_shape fuel
      { host_only := true, entry_compute_output := false,
        queue := [⟨call_done, output_shape_index⟩],
        host_instrs := element ++
          [⟨call_start, 1 :: output_shape_index⟩, ⟨call_done, output_shape_index⟩] } with
  | .error e => .error e
  | .ok w =>
    let host_instrs :=
      if ¬ w.host_only ∨ ¬ w.entry_compute_output then [] else w.host_instrs
    .ok (host_instrs_tree.map (fun e =>
      if e.1 = output_shape_index then (e.1, host_instrs) else e))

/-- `HostOffloader::HandleRedundantCopiesBackToHost`. -/
def HandleRedundantCopiesBackToHost (u : Collaborators) (fuel : Nat) (m : HloModule)
    (instruction : Nat) : Except Failure (Bool × HloModule) :=
  match m.get instruction with
  | .error e => .error e
  | .ok call_start =>
    if ¬ (call_start.opcode = HloOpcode.kAsyncStart ∨ call_start.opcode = HloOpcode.kAsyncUpdate ∨
        call_start.opcode = HloOpcode.kAsyncDone) then
      .error (.check_failed "Cast<HloAsyncInstruction>")
    else
      match m.users call_start.id with
      | [call_done] =>
        let entry_computation_shape := m.entry_computation_layout.result_shape
        let done_shape := call_done.shape
        match done_shape.leaves.foldlM
            (HandleRedundantCopiesBackToHost.visit_leaf u fuel m call_start.id call_done.id
              entry_computation_shape)
            (done_shape.subshapes.map (fun p => (p.1, []))) with
        | .error e => .error e
        | .ok host_instrs_tree =>
          UpdateMemorySpaceForHostOffloadedOutputs m call_start.id host_instrs_tree
      | _ => .error (.check_failed "call_start->users().size() == 1")

mutual
/-- The callback of `ForEachMutableLeafShape` in
`RemoveHostMemorySpaceFromAllShapes`, applied to every leaf of a shape: the new
shape, and whether a leaf was in host memory space. -/
def Shape.RemoveHostMemorySpace : Shape → Shape × Bool
  | .array t d (some l) =>
    if l.memory_space = kHostMemorySpace then
      (.array t d (some ⟨kDefaultMemorySpace⟩), true)
    else
      (.array t d (some l), false)
  | .array t d none => (.array t d none, false)
  | .tuple es =>
    let r := Shape.RemoveHostMemorySpace_of_elements es
    (.tuple r.1, r.2)
/-- The same for the elements of a tuple shape. -/
def Shape.RemoveHostMemorySpace_of_elements : List Shape → List Shape × Bool
  | [] => ([], false)
  | e :: es =>
    let a := Shape.RemoveHostMemorySpace e
    let b := Shape.RemoveHostMemorySpace_of_elements es
    (a.1 :: b.1, a.2 || b.2)
end

/-- The body of the inner loop of `RemoveHostMemorySpaceFromAllShapes`, for one
instruction; the state is `(changed, module)`. -/
def RemoveHostMemorySpaceFromAllShapes.visit (st : Bool × HloModule)
    (instruction : HloInstruction) : Bool × HloModule :=
  (st.1 || (Shape.RemoveHostMemorySpace instruction.shape).2,
    st.2.update instruction.id
      (fun i => { i with shape := (Shape.RemoveHostMemorySpace i.shape).1 }))

/-- `RemoveHostMemorySpaceFromAllShapes`. -/
def RemoveHostMemorySpaceFromAllShapes (m : HloModule) : Bool × HloModule :=
  m.computations.foldl
    (fun st computation =>
      (st.2.instructions_of computation.id).foldl RemoveHostMemorySpaceFromAllShapes.visit st)
    (false, m)

/-- The loop over the called computations of an instruction in
`ProcessNextMoveToHostInstr`; `recurse` is the recursive call. -/
def ProcessNextMoveToHostInstr.over_called_computations
    (recurse : HostOffloader → Nat → Except Failure (Bool × HostOffloader)) :
    HostOffloader → List Nat → Except Failure (Bool × HostOffloader)
  | o, [] => .ok (false, o)
  | o, called_comp :: rest =>
    match recurse o called_comp with
    | .error e => .error e
    | .ok (true, o1) => .ok (true, o1)
    | .ok (false, o1) => ProcessNextMoveToHostInstr.over_called_computations recurse o1 rest

/-- The loop over the instructions of a computation in
`ProcessNextMoveToHostInstr`; `recurse` is the recursive call. -/
def ProcessNextMoveToHostInstr.over_instructions (u : Collaborators) (fuel : Nat)
    (recurse : HostOffloader → Nat → Except Failure (Bool × HostOffloader)) :
    HostOffloader → List Nat → Except Failure (Bool × HostOffloader)
  | o, [] => .ok (false, o)
  | o, instruction :: rest =>
    match o.module.get instruction with
    | .error e => .error e
    | .ok i =>
      let handled : Except Failure (Bool × HostOffloader) :=
        if i.IsCustomCall kMoveToHostCustomCallTarget then
          HandleMoveToHostCustomCall u fuel o instruction
        else .ok (false, o)
      match handled with
      | .error e => .error e
      | .ok (true, o1) => .ok (true, o1)
      | .ok (false, o1) =>
        match ProcessNextMoveToHostInstr.over_called_computations recurse o1
            i.called_computations with
        | .error e => .error e
        | .ok (true, o2) => .ok (true, o2)
        | .ok (false, o2) => ProcessNextMoveToHostInstr.over_instructions u fuel recurse o2 rest

/-- `HostOffloader::ProcessNextMoveToHostInstr`; `depth` bounds the depth of the
recursion into called computations. -/
def ProcessNextMoveToHostInstr (u : Collaborators) (fuel : Nat) :
    Nat → HostOffloader → Nat → Except Failure (Bool × HostOffloader)
  | 0, _, _ => .error .out_of_fuel
  | depth + 1, o, computation =>
    ProcessNextMoveToHostInstr.over_instructions u fuel (ProcessNextMoveToHostInstr u fuel depth)
      o (u.MakeInstructionPostOrder o.module computation)

/-- The body of the loop of `HandleDynamicUpdateSlices`, for one
dynamic-update-slice of `dynamic_update_slices_seen_`; the state is
`(changed, offloader)`. -/
def HandleDynamicUpdateSlices.visit (u : Collaborators) (fuel : Nat)
    (st : Bool × HostOffloader) (dus : Nat) : Except Failure (Bool × HostOffloader) :=
  match st.2.module.get dus with
  | .error e => .error e
  | .ok d =>
    match d.operand 0 with
    | .error e => .error e
    | .ok operand0 =>
      match st.2.module.get operand0 with
      | .error e => .error e
      | .ok operand =>
        match operand.shape.memory_space with
        | .error e => .error e
        | .ok operand_memory_space =>
          match d.operand 1 with
          | .error e => .error e
          | .ok operand1 =>
            match st.2.module.get operand1 with
            | .error e => .error e
            | .ok update =>
              match update.shape.memory_space with
              | .error e => .error e
              | .ok update_memory_space =>
                let host_to_host := update_memory_space = kHostMemorySpace ∧
                  operand_memory_space = kHostMemorySpace
                let host_to_device := update_memory_space = kHostMemorySpace ∧
                  operand_memory_space = kDefaultMemorySpace
                let device_to_host := update_memory_space = kDefaultMemorySpace ∧
                  operand_memory_space = kHostMemorySpace
                let device_to_device := update_memory_space = kDefaultMemorySpace ∧
                  operand_memory_space = kDefaultMemorySpace
                if host_to_device then
                  .ok (true,
                    { st.2 with module := SetHostComputeFrontendAttribute st.2.module dus })
                else if host_to_host then
                  match SetSubshapeMemorySpace
                      (SetHostComputeFrontendAttribute st.2.module dus) ⟨dus, []⟩
                      kHostMemorySpace with
                  | .error e => .error e
                  | .ok m => .ok (true, { st.2 with module := m })
                else if device_to_host then
                  match SetSubshapeMemorySpace st.2.module ⟨dus, []⟩ kHostMemorySpace with
                  | .error e => .error e
                  | .ok m => .ok (true, { st.2 with module := m })
                else if device_to_device then
                  if dus ∈ st.2.dynamic_update_slices_seen_with_annotation_ then
                    match CreateAllocateBufferForDynamicUpdateSlice u fuel st.2 dus with
                    | .error e => .error e
                    | .ok o => .ok (true, o)
                  else .ok st
                else .ok st

/-- `HostOffloader::HandleDynamicUpdateSlices`. -/
def HandleDynamicUpdateSlices (u : Collaborators) (fuel : Nat) (o : HostOffloader) :
    Except Failure (Bool × HostOffloader) :=
  o.dynamic_update_slices_seen_.foldlM (HandleDynamicUpdateSlices.visit u fuel) (false, o)

/-- The body of the first loop of `Run`, for one instruction; the state is
`(changed, module)`. -/
def Run.handle_async_start (u : Collaborators) (fuel : Nat) (st : Bool × HloModule)
    (instruction : Nat) : Except Failure (Bool × HloModule) :=
  match st.2.get instruction with
  | .error e => .error e
  | .ok i =>
    if u.IsHostAsyncStart st.2 i then
      match HandleRedundantCopiesBackToHost u fuel st.2 instruction with
      | .error e => .error e
      | .ok (changed_in_loop, m) => .ok (st.1 || changed_in_loop, m)
    else .ok st

/-- The loop `do ... while (changed_in_loop)` of `Run`; the state is
`(changed, offloader)`. -/
def Run.move_to_host_loop (u : Collaborators) (fuel : Nat) :
    Nat → Bool × HostOffloader → Except Failure (Bool × HostOffloader)
  | 0, _ => .error .out_of_fuel
  | iterations + 1, st =>
    match ProcessNextMoveToHostInstr u fuel fuel st.2 st.2.module.entry_computation with
    | .error e => .error e
    | .ok (true, o) => Run.move_to_host_loop u fuel iterations (true, o)
    | .ok (false, o) => .ok (st.1, o)

/-- The body of the loop of `Run` that removes the `MoveToDevice` custom calls,
for one instruction; the state is `(changed, offloader)`. -/
def Run.remove_move_to_device (st : Bool × HostOffloader) (instruction : Nat) :
    Except Failure (Bool × HostOffloader) :=
  match st.2.module.get instruction with
  | .error e => .error e
  | .ok i =>
    if i.IsCustomCall kMoveToDeviceCustomCallTarget then
      match HandleMoveToDeviceCustomCall st.2 instruction with
      | .error e => .error e
      | .ok (result, o) => .ok (st.1 || result, o)
    else .ok st

/-- `HostOffloader::Run`, on the module of the pass object `o`. -/
def Run (u : Collaborators) (fuel : Nat) (o : HostOffloader) (execution_threads : List String) :
    Except Failure (Bool × HostOffloader) :=
  let removed := RemoveHostMemorySpaceFromAllShapes o.module
  match (u.MakeNonfusionComputations removed.2 execution_threads).foldlM
      (fun st computation =>
        ((st.2.instructions_of computation).map (fun i => i.id)).foldlM
          (Run.handle_async_start u fuel) st)
      removed with
  | .error e => .error e
  | .ok (changed1, m1) =>
    match HandleInputStreaming u fuel { o with module := m1 } m1.entry_computation with
    | .error e => .error e
    | .ok (input_streaming_changed_module, o2) =>
      match Run.move_to_host_loop u fuel fuel
          (changed1 || input_streaming_changed_module, o2) with
      | .error e => .error e
      | .ok (changed3, o3) =>
        match HandleDynamicUpdateSlices u fuel o3 with
        | .error e => .error e
        | .ok (any_dus_changed, o4) =>
          match (u.MakeComputationPostOrder o4.module execution_threads).foldlM
              (fun st computation =>
                (u.MakeInstructionPostOrder st.2.module computation).foldlM
                  Run.remove_move_to_device st)
              (changed3 || any_dus_changed, o4) with
          | .error e => .error e
          | .ok (changed5, o5) =>
            match ApplySchedulingFix u o5.module execution_threads with
            | .error e => .error e
            | .ok (applied_scheduling_fix, m6) =>
              match u.HloCSE_Run m6 execution_threads with
              | .error e => .error e
              | .ok (cse_changed, m7) =>
                .ok (changed5 || applied_scheduling_fix || cse_changed,
                  { o5 with module := m7 })

/-! ## Example inputs -/

/-- An instance of the functions that are not part of the sources at hand: the
successors of a node are the users of its instruction at the same shape index,
the predecessors are its operands, the traversal orders are the order of the
module, the alias analysis finds no positions, and CSE changes nothing. -/
def exampleCollaborators : Collaborators where
  GetSuccessors := fun m node =>
    .ok ((m.users node.instruction).map (fun user => ⟨user.id, node.shape_index⟩))
  GetPredecessors := fun m node =>
    match m.instruction? node.instruction with
    | some i => i.operands.map (fun operand => ⟨operand, node.shape_index⟩)
    | none => []
  IsValidDuringPureMemoryOffload := fun _ i =>
    decide (i.opcode ∈ [HloOpcode.kGetTupleElement, HloOpcode.kBitcast, HloOpcode.kTuple,
      HloOpcode.kCall, HloOpcode.kWhile, HloOpcode.kParameter, HloOpcode.kAsyncStart,
      HloOpcode.kAsyncDone, HloOpcode.kCustomCall])
  IsHostAsyncStart := fun _ i => decide (i.opcode = HloOpcode.kAsyncStart)
  ReshapeIsBitcast := fun _ _ => true
  TrueNumDimensions := fun shape =>
    match shape with
    | .array _ dimensions _ => (dimensions.filter (fun d => decide (d ≠ 1))).length
    | .tuple _ => 0
  MakeInstructionPostOrder := fun m computation =>
    (m.instructions_of computation).map (fun i => i.id)
  MakeComputationPostOrder := fun m _ => m.computations.map (fun c => c.id)
  MakeNonfusionComputations := fun m _ => m.computations.map (fun c => c.id)
  HloAliasAnalysis_Run := fun _ => .ok ⟨fun _ => []⟩
  HloCSE_Run := fun m _ => .ok (false, m)

/-- The shape `f32[10]` with a layout of the given memory space. -/
def exampleShape (memory_space : Int) : Shape :=
  .array 11 [10] (some ⟨memory_space⟩)

/-- A module with one computation, the entry computation `0`, with the given
instructions and root, one entry parameter in device memory, and an entry
result layout of the given memory space. -/
def exampleModule (instructions : List HloInstruction) (root : Nat)
    (result_memory_space : Int) : HloModule where
  computations := [⟨0, "main", root⟩]
  instructions := instructions
  entry_computation := 0
  entry_computation_layout :=
    ⟨[exampleShape kDefaultMemorySpace], exampleShape result_memory_space⟩
  next_instruction_id := 10

/-- A pass object that has not run yet. -/
def exampleOffloader (m : HloModule) : HostOffloader :=
  ⟨m, [], [], [], [], [], [], []⟩

/-- The entry parameter `p0`, with id `1`. -/
def exampleParameter (memory_space : Int) : HloInstruction :=
  { id := 1, name := "p0", opcode := HloOpcode.kParameter, shape := exampleShape memory_space,
    operands := [], parent := 0 }

/-- A custom call with the given target on one operand. -/
def exampleCustomCall (id : Nat) (target : String) (operand : Nat) : HloInstruction :=
  { id := id, name := "custom-call", opcode := HloOpcode.kCustomCall,
    shape := exampleShape kDefaultMemorySpace, operands := [operand], parent := 0,
    custom_call_target := target }

/-- A scalar `s32` constant `0` with id `4`, the start index of the slices of
the examples. -/
def exampleIndex : HloInstruction :=
  { id := 4, name := "zero", opcode := HloOpcode.kConstant,
    shape := .array S32 [] (some ⟨kDefaultMemorySpace⟩), operands := [], parent := 0,
    literal := some 0 }

/-- The module `p0 -> MoveToHost`, the custom call being the root, with the
entry result in host memory. -/
def exampleMoveToHostRootModule : HloModule :=
  exampleModule
    [exampleParameter kDefaultMemorySpace, exampleCustomCall 2 kMoveToHostCustomCallTarget 1]
    2 kHostMemorySpace

/-- The copy that `Run` adds to `exampleMoveToHostRootModule`, with a layout of
the given memory space. -/
def exampleCopy (memory_space : Int) : HloInstruction :=
  { id := 10, name := "copy", opcode := HloOpcode.kCopy, shape := exampleShape memory_space,
    operands := [1], parent := 0 }

/-- The module `p0 -> copy`, the copy being the root, with the entry result in
host memory and the copy in the given memory space. -/
def exampleOffloadedModule (memory_space : Int) : HloModule :=
  { exampleModule [exampleParameter kDefaultMemorySpace, exampleCopy memory_space] 10
      kHostMemorySpace with next_instruction_id := 11 }

/-- The module `p0 -> MoveToHost -> MoveToDevice`, the last custom call being
the root, with the entry result in device memory. -/
def exampleRoundTripModule : HloModule :=
  exampleModule
    [exampleParameter kDefaultMemorySpace, exampleCustomCall 2 kMoveToHostCustomCallTarget 1,
      exampleCustomCall 3 kMoveToDeviceCustomCallTarget 2]
    3 kDefaultMemorySpace

/-- The module `p0 -> MoveToHost -> bitcast`, the bitcast being the root, with
the entry result layout in the given memory space. -/
def exampleOffloadToRootModule (result_memory_space : Int) : HloModule :=
  exampleModule
    [exampleParameter kDefaultMemorySpace, exampleCustomCall 2 kMoveToHostCustomCallTarget 1,
      { id := 3, name := "bitcast", opcode := HloOpcode.kBitcast,
        shape := exampleShape kDefaultMemorySpace, operands := [2], parent := 0 }]
    3 result_memory_space

/-- The module `p0 -> dynamic-slice -> bitcast`, the bitcast being the root and
without users; `p0` is in host memory. -/
def exampleDeadEndSliceModule : HloModule :=
  exampleModule
    [exampleParameter kHostMemorySpace, exampleIndex,
      { id := 2, name := "dynamic-slice", opcode := HloOpcode.kDynamicSlice,
        shape := exampleShape kDefaultMemorySpace, operands := [1, 4], parent := 0,
        dynamic_slice_sizes := [10] },
      { id := 3, name := "bitcast", opcode := HloOpcode.kBitcast,
        shape := exampleShape kDefaultMemorySpace, operands := [2], parent := 0 }]
    3 kDefaultMemorySpace

/-- The dynamic-update-slice `dus(p0, p1, zero)` with id `3`: operand `0` is the
buffer that is updated, operand `1` is the update. -/
def exampleDynamicUpdateSlice : HloInstruction :=
  { id := 3, name := "dynamic-update-slice", opcode := HloOpcode.kDynamicUpdateSlice,
    shape := exampleShape kDefaultMemorySpace, operands := [1, 2, 4], parent := 0 }

/-- The module `dus(p0, p1, zero)` with the two operands in the given memory
spaces and the given dynamic-update-slice. -/
def exampleDusModuleWith (operand_memory_space update_memory_space : Int)
    (dynamic_update_slice : HloInstruction) : HloModule :=
  exampleModule
    [exampleParameter operand_memory_space,
      { id := 2, name := "p1", opcode := HloOpcode.kParameter,
        shape := exampleShape update_memory_space, operands := [], parent := 0,
        parameter_number := 1 },
      exampleIndex, dynamic_update_slice]
    3 kDefaultMemorySpace

/-- The module `dus(p0, p1, zero)` with the two operands in the given memory
spaces. -/
def exampleDusModule (operand_memory_space update_memory_space : Int) : HloModule :=
  exampleDusModuleWith operand_memory_space update_memory_space exampleDynamicUpdateSlice

/-- A pass object that has seen the dynamic-update-slice of `exampleDusModule`,
with or without a `MoveToHost` annotation on its update. -/
def exampleDusOffloader (operand_memory_space update_memory_space : Int)
    (annotated : Bool) : HostOffloader :=
  { exampleOffloader (exampleDusModule operand_memory_space update_memory_space) with
    dynamic_update_slices_seen_ := [3]
    dynamic_update_slices_seen_with_annotation_ := if annotated then [3] else [] }

/-- As `exampleCollaborators`, but the predecessor of a node is operand `0` of
its instruction alone, as it is for a dynamic-update-slice. -/
def exampleFirstOperandCollaborators : Collaborators :=
  { exampleCollaborators with
    GetPredecessors := fun m node =>
      match m.instruction? node.instruction with
      | some i => (i.operands.take 1).map (fun operand => ⟨operand, node.shape_index⟩)
      | none => [] }

/-- A scalar `f32` constant with id `6`. -/
def exampleScalar : HloInstruction :=
  { id := 6, name := "scalar", opcode := HloOpcode.kConstant,
    shape := .array 11 [] (some ⟨kDefaultMemorySpace⟩), operands := [], parent := 0,
    literal := some 0 }

/-- The broadcast of `exampleScalar` to `f32[10]`, with id `5`. -/
def exampleBroadcast : HloInstruction :=
  { id := 5, name := "broadcast", opcode := HloOpcode.kBroadcast,
    shape := exampleShape kDefaultMemorySpace, operands := [6], parent := 0 }

/-- The dynamic-update-slice `dus(broadcast, p0, zero)` with id `3`. -/
def exampleBroadcastDus : HloInstruction :=
  { id := 3, name := "dynamic-update-slice", opcode := HloOpcode.kDynamicUpdateSlice,
    shape := exampleShape kDefaultMemorySpace, operands := [5, 1, 4], parent := 0 }

/-- The module `dus(broadcast(scalar), p0, zero)`, the dynamic-update-slice being
the root. -/
def exampleBroadcastDusModule : HloModule :=
  exampleModule
    [exampleScalar, exampleBroadcast, exampleParameter kDefaultMemorySpace, exampleIndex,
      exampleBroadcastDus]
    3 kDefaultMemorySpace

/-- An `AllocateBuffer` custom call in host memory space, with id `5`. -/
def exampleAllocateBuffer : HloInstruction :=
  { id := 5, name := "custom-call", opcode := HloOpcode.kCustomCall,
    shape := exampleShape kHostMemorySpace, operands := [], parent := 0,
    custom_call_target := "AllocateBuffer" }

/-- The module `dus(AllocateBuffer, p0, zero)`, without any broadcast. -/
def exampleAllocatedDusModule : HloModule :=
  exampleModule
    [exampleAllocateBuffer, exampleParameter kDefaultMemorySpace, exampleIndex,
      exampleBroadcastDus]
    3 kDefaultMemorySpace

/-- The module `p0 -> MoveToHost -> add`, where `add` has the two operands
`MoveToHost(p0)` and `p0` and is the root, with the entry result in host
memory. -/
def exampleTwoPredecessorsModule : HloModule :=
  exampleModule
    [exampleParameter kDefaultMemorySpace, exampleCustomCall 2 kMoveToHostCustomCallTarget 1,
      { id := 3, name := "add", opcode := HloOpcode.kOther 1,
        shape := exampleShape kDefaultMemorySpace, operands := [2, 1], parent := 0 }]
    3 kHostMemorySpace

/-- A slice of ten elements that starts at element `2 ^ 31` of its operand, with
id `2`. -/
def exampleBigSlice : HloInstruction :=
  { id := 2, name := "slice", opcode := HloOpcode.kSlice,
    shape := .array 8 [10] (some ⟨kDefaultMemorySpace⟩), operands := [1], parent := 0,
    slice_starts := [2147483648], slice_limits := [2147483658] }

/-- The module `p0 -> slice -> MoveToDevice`, where `p0` is `u8[4294967296]` in
host memory and the slice is `exampleBigSlice`. -/
def exampleBigSliceModule : HloModule :=
  { exampleModule
      [{ id := 1, name := "p0", opcode := HloOpcode.kParameter,
          shape := .array 8 [4294967296] (some ⟨kHostMemorySpace⟩), operands := [],
          parent := 0 },
        exampleBigSlice,
        { exampleCustomCall 3 kMoveToDeviceCustomCallTarget 2 with
          shape := .array 8 [10] (some ⟨kDefaultMemorySpace⟩) }]
      3 kDefaultMemorySpace with
    entry_computation_layout :=
      ⟨[.array 8 [4294967296] (some ⟨kHostMemorySpace⟩)],
        .array 8 [10] (some ⟨kDefaultMemorySpace⟩)⟩ }

/-- The module `MoveToDevice(p0)`, the custom call being the root. -/
def exampleMoveToDeviceModule : HloModule :=
  exampleModule
    [exampleParameter kDefaultMemorySpace, exampleCustomCall 3 kMoveToDeviceCustomCallTarget 1]
    3 kDefaultMemorySpace

/-- The module `p0 -> add -> bitcast`, the bitcast being the root, with the entry
result layout in the given memory space; the `add` stands for device compute. -/
def exampleComputeBeforeRootModule (result_memory_space : Int) : HloModule :=
  exampleModule
    [exampleParameter kDefaultMemorySpace,
      { id := 2, name := "add", opcode := HloOpcode.kOther 1,
        shape := exampleShape kDefaultMemorySpace, operands := [1], parent := 0 },
      { id := 3, name := "bitcast", opcode := HloOpcode.kBitcast,
        shape := exampleShape kDefaultMemorySpace, operands := [2], parent := 0 }]
    3 result_memory_space

/-- The local variables of `WalkDownHostMemoryOffloadPaths` before its loop, for
the pass object `o` and the start node `start`. -/
def exampleWalkState (o : HostOffloader) (start : InstructionAndShapeIndex) : WalkState :=
  { offloader := o, queue := [start], mth_custom_calls_to_remove := [],
    slices_to_dynamify := [], custom_calls_to_insert_copies_before := [],
    x64_split_instructions := [], buffers_to_set_to_host_memory := [] }

/-- The module `p0 -> bitcast -> (bitcast.1, bitcast.2) -> add`: the `add`, which
is the root, reads both bitcasts of the bitcast `2`; the entry result layout is
in host memory space. -/
def exampleDiamondModule : HloModule :=
  exampleModule
    [exampleParameter kDefaultMemorySpace,
      { id := 2, name := "bitcast", opcode := HloOpcode.kBitcast,
        shape := exampleShape kDefaultMemorySpace, operands := [1], parent := 0 },
      { id := 3, name := "bitcast.1", opcode := HloOpcode.kBitcast,
        shape := exampleShape kDefaultMemorySpace, operands := [2], parent := 0 },
      { id := 4, name := "bitcast.2", opcode := HloOpcode.kBitcast,
        shape := exampleShape kDefaultMemorySpace, operands := [2], parent := 0 },
      { id := 5, name := "add", opcode := HloOpcode.kOther 1,
        shape := exampleShape kDefaultMemorySpace, operands := [3, 4], parent := 0 }]
    5 kHostMemorySpace

/-- The module `dus(p0, p1, zero) -> MoveToDevice`, the custom call being the
root. -/
def exampleDusToDeviceModule : HloModule :=
  exampleModule
    [exampleParameter kDefaultMemorySpace,
      { id := 2, name := "p1", opcode := HloOpcode.kParameter,
        shape := exampleShape kDefaultMemorySpace, operands := [], parent := 0,
        parameter_number := 1 },
      exampleIndex, exampleDynamicUpdateSlice,
      exampleCustomCall 5 kMoveToDeviceCustomCallTarget 3]
    5 kDefaultMemorySpace

/-- A module with a host computation: the entry computation `0` holds `p0`,
`async-start(p0)`, `async-done(async-start)` and a bitcast of the async-done,
which is the root; the host computation `1` holds its parameter, which is its
root.  The entry result layout is in the given memory space. -/
def exampleHostComputeModule (result_memory_space : Int) : HloModule where
  computations := [⟨0, "main", 4⟩, ⟨1, "host_computation", 5⟩]
  instructions :=
    [exampleParameter kDefaultMemorySpace,
      { id := 2, name := "async-start", opcode := HloOpcode.kAsyncStart,
        shape := .tuple [.tuple [exampleShape kDefaultMemorySpace],
          exampleShape kDefaultMemorySpace, .array S32 [] (some ⟨kDefaultMemorySpace⟩)],
        operands := [1], parent := 0, called_computations := [1] },
      { id := 3, name := "async-done", opcode := HloOpcode.kAsyncDone,
        shape := exampleShape kDefaultMemorySpace, operands := [2], parent := 0,
        called_computations := [1] },
      { id := 4, name := "bitcast", opcode := HloOpcode.kBitcast,
        shape := exampleShape kDefaultMemorySpace, operands := [3], parent := 0 },
      { id := 5, name := "host_parameter", opcode := HloOpcode.kParameter,
        shape := exampleShape kDefaultMemorySpace, operands := [], parent := 1 }]
  entry_computation := 0
  entry_computation_layout :=
    ⟨[exampleShape kDefaultMemorySpace], exampleShape result_memory_space⟩
  next_instruction_id := 10

/-- The number of `MoveToHost` custom calls among the instructions of the
module. -/
def HloModule.move_to_host_count (m : HloModule) : Nat :=
  (m.instructions.filter (fun i => i.IsCustomCall kMoveToHostCustomCallTarget)).length

/-- From `m` to `m'` no `MoveToHost` custom call has come into the module, and
one that `m` holds under an id is held by `m'` under the id unless the number
of them has gone down. -/
def NoNewMoveToHost (m m' : HloModule) : Prop :=
  m'.move_to_host_count ≤ m.move_to_host_count ∧
  ∀ c i, m.instruction? c = some i → i.IsCustomCall kMoveToHostCustomCallTarget = true →
    (∃ i', m'.instruction? c = some i' ∧
      i'.IsCustomCall kMoveToHostCustomCallTarget = true) ∨
    m'.move_to_host_count < m.move_to_host_count

/-- A count for the proofs about the loop of `GetStartingInstructions`, not a
function of the pass: the number of iterations of the loop that a queued node
costs when the walk is followed for `depth` steps from it, namely one for the
node and, for a node that the walk passes, those of its successors. -/
def GetStartingInstructions.iterations (u : Collaborators) (m : HloModule) :
    Nat → InstructionAndShapeIndex → Nat
  | 0, _ => 1
  | depth + 1, instruction_and_shape =>
    match m.get instruction_and_shape.instruction with
    | .error _ => 1
    | .ok current_instruction =>
      if current_instruction.opcode = HloOpcode.kDynamicUpdateSlice then 1
      else
        match InstructionIsAllowedBetweenMoveToHostAndDus u m current_instruction with
        | .ok true =>
          match u.GetSuccessors m instruction_and_shape with
          | .ok successors =>
            1 + (successors.map (GetStartingInstructions.iterations u m depth)).sum
          | .error _ => 1
        | _ => 1

/-- The module `p0 -> MoveToHost -> (bitcast, copy) -> add`: the `add`, which is
the root, reads the bitcast and the copy of the custom call. -/
def exampleMoveToHostDiamondModule : HloModule :=
  exampleModule
    [exampleParameter kDefaultMemorySpace, exampleCustomCall 2 kMoveToHostCustomCallTarget 1,
      { id := 3, name := "bitcast", opcode := HloOpcode.kBitcast,
        shape := exampleShape kDefaultMemorySpace, operands := [2], parent := 0 },
      { id := 4, name := "copy", opcode := HloOpcode.kCopy,
        shape := exampleShape kDefaultMemorySpace, operands := [2], parent := 0 },
      { id := 5, name := "add", opcode := HloOpcode.kOther 1,
        shape := exampleShape kDefaultMemorySpace, operands := [3, 4], parent := 0 }]
    5 kHostMemorySpace

end HostOffload

namespace HloDiff

/-! ## Generic facts about loops -/

/-- An invariant of the loop body is an invariant of the loop. -/
theorem foldl_invariant {α β : Type} (f : β → α → β) (Q : β → Prop) (xs : List α)
    (hstep : ∀ b a, a ∈ xs → Q b → Q (f b a)) : ∀ b, Q b → Q (xs.foldl f b) := by
  induction xs with
  | nil => intro b hb; simpa using hb
  | cons x xs ih =>
    intro b hb
    simp only [List.foldl_cons]
    apply ih
    · intro b' a ha hq
      exact hstep b' a (List.mem_cons_of_mem _ ha) hq
    · exact hstep b x (List.mem_cons_self _ _) hb

/-- A property that one iteration establishes and every iteration keeps holds at
the end of the loop. -/
theorem foldl_reaches {α β : Type} (f : β → α → β) (Q : β → Prop) (xs : List α) (e : α)
    (he : e ∈ xs) (hkeep : ∀ b a, Q b → Q (f b a)) (hset : ∀ b, Q (f b e)) :
    ∀ b, Q (xs.foldl f b) := by
  induction xs with
  | nil => simp at he
  | cons x xs ih =>
    intro b
    simp only [List.foldl_cons]
    rcases List.mem_cons.1 he with h | h
    · subst h
      exact foldl_invariant f Q xs (fun b a _ hq => hkeep b a hq) _ (hset b)
    · exact ih h _

theorem eq_singleton_of_nodup {α : Type} {xs : List α} {a : α} (hn : xs.Nodup)
    (ha : a ∈ xs) (hall : ∀ x ∈ xs, x = a) : xs = [a] := by
  match xs, hn, ha, hall with
  | [x], _, ha, _ => rw [List.mem_singleton.1 ha]
  | x :: y :: rest, hn, _, hall =>
    have hx : x = a := hall x (by simp)
    have hy : y = a := hall y (by simp)
    subst hx; subst hy
    simp at hn

/-! ## The mapping store -/

@[simp]
theorem MapInstructionsIfAbsent_requests (m : HloGumgraphMappings)
    (l r : HloInstructionNode) (t : MatcherType) :
    (m.MapInstructionsIfAbsent l r t).requests = m.requests ++ [⟨l, r, t⟩] := rfl

@[simp]
theorem MapInstructionsIfAbsent_computation_map (m : HloGumgraphMappings)
    (l r : HloInstructionNode) (t : MatcherType) :
    (m.MapInstructionsIfAbsent l r t).left_to_right_computation_map
      = m.left_to_right_computation_map := rfl

theorem MapInstructionsIfAbsent_fresh (m : HloGumgraphMappings)
    (l r : HloInstructionNode) (t : MatcherType)
    (hl : l ∉ m.left_to_right_instruction_map.map (fun e => e.left))
    (hr : r ∉ m.left_to_right_instruction_map.map (fun e => e.right)) :
    (m.MapInstructionsIfAbsent l r t).left_to_right_instruction_map
      = m.left_to_right_instruction_map ++ [⟨l, r, t⟩] := by
  unfold HloGumgraphMappings.MapInstructionsIfAbsent
  have h : m.left_to_right_instruction_map.any
      (fun e => decide (e.left = l) || decide (e.right = r)) = false := by
    rw [List.any_eq_false]
    intro e he
    simp only [List.mem_map, not_exists, not_and] at hl hr
    have h1 := hl e he
    have h2 := hr e he
    simp [h1, h2]
  simp [h]

theorem MapInstructionsIfAbsent_oneToOne (m : HloGumgraphMappings)
    (l r : HloInstructionNode) (t : MatcherType) (h : OneToOne m) :
    OneToOne (m.MapInstructionsIfAbsent l r t) := by
  unfold HloGumgraphMappings.MapInstructionsIfAbsent OneToOne
  by_cases hany : m.left_to_right_instruction_map.any
      (fun e => decide (e.left = l) || decide (e.right = r)) = true
  · simpa [hany] using h
  · have hany2 := hany
    simp only [Bool.not_eq_true, List.any_eq_false] at hany2
    simp only [hany, Bool.false_eq_true, if_false, List.map_append, List.map_cons, List.map_nil]
    have hl : l ∉ m.left_to_right_instruction_map.map (fun e => e.left) := by
      simp only [List.mem_map, not_exists, not_and]
      intro e he heq
      have := hany2 e he
      simp [heq] at this
    have hr : r ∉ m.left_to_right_instruction_map.map (fun e => e.right) := by
      simp only [List.mem_map, not_exists, not_and]
      intro e he heq
      have := hany2 e he
      simp [heq] at this
    constructor
    · refine List.Nodup.append h.1 (by simp) ?_
      intro x hx hx2
      simp only [List.mem_singleton] at hx2
      subst hx2
      exact hl hx
    · refine List.Nodup.append h.2 (by simp) ?_
      intro x hx hx2
      simp only [List.mem_singleton] at hx2
      subst hx2
      exact hr hx

/-! ## The similarity tournament -/

theorem tournament_step_inv (fn : PropertyMatchesFn) (l x : HloInstructionNode)
    (pre : List HloInstructionNode) (st : ℚ × List HloInstructionNode)
    (h : TournamentInv fn l pre st) :
    TournamentInv fn l (pre ++ [x]) (MatchInstructionsWithMultipleCandidates.step fn l st x) := by
  obtain ⟨h0, hatt, hle, hc⟩ := h
  simp only [MatchInstructionsWithMultipleCandidates.step]
  by_cases hgt : fn l x > st.1
  · rw [if_pos hgt]
    refine ⟨le_of_lt (lt_of_le_of_lt h0 hgt), Or.inr ⟨x, by simp, rfl⟩, ?_, ?_⟩
    · intro r hr
      rcases List.mem_append.1 hr with hr | hr
      · exact le_of_lt (lt_of_le_of_lt (hle r hr) hgt)
      · rw [List.mem_singleton.1 hr]
    · have hnil : pre.filter (fun r => decide (fn l r = fn l x)) = [] := by
        rw [List.filter_eq_nil_iff]
        intro r hr
        have := lt_of_le_of_lt (hle r hr) hgt
        simp [ne_of_lt this]
      simp [List.filter_append, hnil]
  · by_cases heq : fn l x = st.1
    · rw [if_neg hgt, if_pos heq]
      refine ⟨h0, ?_, ?_, ?_⟩
      · rcases hatt with h | ⟨r, hr, hrs⟩
        · exact Or.inl h
        · exact Or.inr ⟨r, List.mem_append_left _ hr, hrs⟩
      · intro r hr
        rcases List.mem_append.1 hr with hr | hr
        · exact hle r hr
        · rw [List.mem_singleton.1 hr, heq]
      · simp [List.filter_append, hc, heq]
    · rw [if_neg hgt, if_neg heq]
      refine ⟨h0, ?_, ?_, ?_⟩
      · rcases hatt with h | ⟨r, hr, hrs⟩
        · exact Or.inl h
        · exact Or.inr ⟨r, List.mem_append_left _ hr, hrs⟩
      · intro r hr
        rcases List.mem_append.1 hr with hr | hr
        · exact hle r hr
        · rw [List.mem_singleton.1 hr]
          exact le_of_not_lt hgt
      · simp [List.filter_append, hc, heq]

theorem tournament_loop_inv (fn : PropertyMatchesFn) (l : HloInstructionNode)
    (rs : List HloInstructionNode) :
    ∀ (pre : List HloInstructionNode) (st : ℚ × List HloInstructionNode),
      TournamentInv fn l pre st →
      TournamentInv fn l (pre ++ rs)
        (rs.foldl (MatchInstructionsWithMultipleCandidates.step fn l) st) := by
  induction rs with
  | nil => intro pre st h; simpa using h
  | cons x rs ih =>
    intro pre st h
    have h2 := ih (pre ++ [x]) _ (tournament_step_inv fn l x pre st h)
    simpa using h2

/-- The candidates at the end of the inner loop: the right instructions whose
score is at least 0 and at least every other score. -/
theorem mem_right_candidates (fn : PropertyMatchesFn) (l r : HloInstructionNode)
    (rs : List HloInstructionNode) :
    r ∈ MatchInstructionsWithMultipleCandidates.right_candidates fn l rs ↔
      r ∈ rs ∧ 0 ≤ fn l r ∧ ∀ r' ∈ rs, fn l r' ≤ fn l r := by
  have h := tournament_loop_inv fn l rs [] (0, []) ⟨le_refl _, Or.inl rfl, by simp, by simp⟩
  obtain ⟨h0, hatt, hle, hc⟩ := h
  simp only [List.nil_append] at hatt hle hc
  unfold MatchInstructionsWithMultipleCandidates.right_candidates
  rw [hc]
  simp only [List.mem_filter, decide_eq_true_eq]
  constructor
  · rintro ⟨hr, heq⟩
    refine ⟨hr, by rw [heq]; exact h0, ?_⟩
    intro r' hr'
    rw [heq]
    exact hle r' hr'
  · rintro ⟨hr, hr0, hmax⟩
    refine ⟨hr, le_antisymm (hle r hr) ?_⟩
    rcases hatt with h | ⟨r', hr', hrs⟩
    · rw [h]; exact hr0
    · rw [← hrs]; exact hmax r' hr'

theorem right_candidates_sublist (fn : PropertyMatchesFn) (l : HloInstructionNode)
    (rs : List HloInstructionNode) :
    (MatchInstructionsWithMultipleCandidates.right_candidates fn l rs).Sublist rs := by
  have h := tournament_loop_inv fn l rs [] (0, []) ⟨le_refl _, Or.inl rfl, by simp, by simp⟩
  obtain ⟨_, _, _, hc⟩ := h
  simp only [List.nil_append] at hc
  unfold MatchInstructionsWithMultipleCandidates.right_candidates
  rw [hc]
  exact List.filter_sublist _

/-- With a duplicate-free right set, the candidate list is the singleton `[c]`
exactly when `c` scores at least 0 and strictly more than every other right
instruction. -/
theorem right_candidates_eq_singleton (fn : PropertyMatchesFn) (l c : HloInstructionNode)
    (rs : List HloInstructionNode) (hn : rs.Nodup) :
    MatchInstructionsWithMultipleCandidates.right_candidates fn l rs = [c] ↔
      c ∈ rs ∧ 0 ≤ fn l c ∧ ∀ r' ∈ rs, r' ≠ c → fn l r' < fn l c := by
  constructor
  · intro h
    have hc : c ∈ MatchInstructionsWithMultipleCandidates.right_candidates fn l rs := by
      rw [h]; simp
    obtain ⟨hcr, hc0, hmax⟩ := (mem_right_candidates fn l c rs).1 hc
    refine ⟨hcr, hc0, ?_⟩
    intro r' hr' hne
    rcases lt_or_eq_of_le (hmax r' hr') with hlt | heq
    · exact hlt
    · exfalso
      have hr'c : r' ∈ MatchInstructionsWithMultipleCandidates.right_candidates fn l rs := by
        rw [mem_right_candidates]
        refine ⟨hr', by rw [heq]; exact hc0, ?_⟩
        intro r'' hr''
        rw [heq]
        exact hmax r'' hr''
      rw [h] at hr'c
      exact hne (List.mem_singleton.1 hr'c)
  · rintro ⟨hcr, hc0, hlt⟩
    apply eq_singleton_of_nodup ((right_candidates_sublist fn l rs).nodup hn)
    · rw [mem_right_candidates]
      refine ⟨hcr, hc0, ?_⟩
      intro r' hr'
      by_cases hne : r' = c
      · rw [hne]
      · exact le_of_lt (hlt r' hr' hne)
    · intro x hx
      obtain ⟨hxr, _, hxmax⟩ := (mem_right_candidates fn l x rs).1 hx
      by_contra hne
      exact absurd (hxmax c hcr) (not_le_of_lt (hlt x hxr hne))

theorem outer_step_of_singleton (right_instructions : List HloInstructionNode)
    (fn : PropertyMatchesFn) (t : MatcherType) (m : HloGumgraphMappings)
    (l c : HloInstructionNode)
    (h : MatchInstructionsWithMultipleCandidates.right_candidates fn l right_instructions = [c]) :
    MatchInstructionsWithMultipleCandidates.outer_step right_instructions fn t m l
      = m.MapInstructionsIfAbsent l c t := by
  simp [MatchInstructionsWithMultipleCandidates.outer_step, h]

theorem outer_step_of_not_singleton (right_instructions : List HloInstructionNode)
    (fn : PropertyMatchesFn) (t : MatcherType) (m : HloGumgraphMappings)
    (l : HloInstructionNode)
    (h : ∀ c, MatchInstructionsWithMultipleCandidates.right_candidates fn l right_instructions
      ≠ [c]) :
    MatchInstructionsWithMultipleCandidates.outer_step right_instructions fn t m l = m := by
  unfold MatchInstructionsWithMultipleCandidates.outer_step
  split
  · rename_i c hc
    exact absurd hc (h c)
  · rfl

/-- The requests of the tournament: the old ones, then one for each left
instruction whose candidate list is a singleton. -/
theorem tournament_requests (left_instructions right_instructions : List HloInstructionNode)
    (fn : PropertyMatchesFn) (t : MatcherType) :
    ∀ m : HloGumgraphMappings, ∃ new : List InstructionMapping,
      (MatchInstructionsWithMultipleCandidates left_instructions right_instructions m fn
        t).requests = m.requests ++ new ∧
      ∀ x, x ∈ new ↔ x.matcher_type = t ∧ x.left ∈ left_instructions ∧
        MatchInstructionsWithMultipleCandidates.right_candidates fn x.left right_instructions
          = [x.right] := by
  unfold MatchInstructionsWithMultipleCandidates
  induction left_instructions with
  | nil => intro m; exact ⟨[], by simp, by simp⟩
  | cons l ls ih =>
    intro m
    simp only [List.foldl_cons]
    by_cases hc : ∃ c, MatchInstructionsWithMultipleCandidates.right_candidates fn l
        right_instructions = [c]
    · obtain ⟨c, hc⟩ := hc
      rw [outer_step_of_singleton right_instructions fn t m l c hc]
      obtain ⟨new, h1, h2⟩ := ih (m.MapInstructionsIfAbsent l c t)
      refine ⟨⟨l, c, t⟩ :: new, by rw [h1]; simp, ?_⟩
      intro x
      simp only [List.mem_cons, h2]
      constructor
      · rintro (h | ⟨ht, hl, hx⟩)
        · subst h; exact ⟨rfl, Or.inl rfl, hc⟩
        · exact ⟨ht, Or.inr hl, hx⟩
      · rintro ⟨ht, hl | hl, hx⟩
        · left
          rw [hl, hc] at hx
          cases x
          simp only [List.cons.injEq, and_true] at hx
          simp_all
        · exact Or.inr ⟨ht, hl, hx⟩
    · have hc2 : ∀ c, MatchInstructionsWithMultipleCandidates.right_candidates fn l
          right_instructions ≠ [c] := fun c h => hc ⟨c, h⟩
      rw [outer_step_of_not_singleton right_instructions fn t m l hc2]
      obtain ⟨new, h1, h2⟩ := ih m
      refine ⟨new, h1, ?_⟩
      intro x
      rw [h2]
      simp only [List.mem_cons]
      constructor
      · rintro ⟨ht, hl, hx⟩
        exact ⟨ht, Or.inr hl, hx⟩
      · rintro ⟨ht, hl | hl, hx⟩
        · rw [hl] at hx
          exact absurd hx (hc2 _)
        · exact ⟨ht, hl, hx⟩

/-- The tournament changes the store only through `MapInstructionsIfAbsent`, on
pairs of a left and a right instruction. -/
theorem tournament_induct (left_instructions right_instructions : List HloInstructionNode)
    (fn : PropertyMatchesFn) (t : MatcherType) (P : HloGumgraphMappings → Prop)
    (hP : ∀ m l r, l ∈ left_instructions → r ∈ right_instructions → P m →
      P (m.MapInstructionsIfAbsent l r t))
    (m : HloGumgraphMappings) (hm : P m) :
    P (MatchInstructionsWithMultipleCandidates left_instructions right_instructions m fn t) := by
  unfold MatchInstructionsWithMultipleCandidates
  apply foldl_invariant _ P left_instructions _ m hm
  intro b l hl hb
  unfold MatchInstructionsWithMultipleCandidates.outer_step
  split
  · rename_i c hc
    apply hP b l c hl _ hb
    have : c ∈ MatchInstructionsWithMultipleCandidates.right_candidates fn l right_instructions := by
      rw [hc]; simp
    exact ((mem_right_candidates fn l c right_instructions).1 this).1
  · exact hb

/-! ## Phase 1 of `MatchLeafInstructions` -/

theorem mem_hashSetInsert (s : List HloInstructionNode) (x y : HloInstructionNode) :
    x ∈ hashSetInsert s y ↔ x ∈ s ∨ x = y := by
  unfold hashSetInsert
  by_cases h : y ∈ s
  · simp only [h, if_true]
    constructor
    · exact Or.inl
    · rintro (h1 | h1)
      · exact h1
      · rw [h1]; exact h
  · simp [h]

theorem hashSetInsert_nodup (s : List HloInstructionNode) (y : HloInstructionNode)
    (hs : s.Nodup) : (hashSetInsert s y).Nodup := by
  unfold hashSetInsert
  by_cases h : y ∈ s
  · simpa [h] using hs
  · simp only [h, if_false]
    refine List.Nodup.append hs (by simp) ?_
    intro x hx hx2
    rw [List.mem_singleton.1 hx2] at hx
    exact h hx

theorem find_candidates_loop (l : HloInstructionNode) (rs : List HloInstructionNode) :
    ∀ (n : Nat) (c : Option HloInstructionNode),
      rs.foldl
        (fun st right_instruction =>
          if MatchLeafInstructions.same_shape_and_op_name l right_instruction then
            (st.1 + 1, some right_instruction)
          else st) (n, c)
      = (n + (rs.filter (MatchLeafInstructions.same_shape_and_op_name l)).length,
          ((rs.filter (MatchLeafInstructions.same_shape_and_op_name l)).getLast?).or c) := by
  induction rs with
  | nil => intro n c; simp
  | cons x rs ih =>
    intro n c
    simp only [List.foldl_cons]
    by_cases hx : MatchLeafInstructions.same_shape_and_op_name l x = true
    · simp only [hx, if_true, List.filter_cons_of_pos]
      rw [ih]
      cases hf : rs.filter (MatchLeafInstructions.same_shape_and_op_name l) with
      | nil => simp
      | cons y ys =>
        simp only [List.length_cons, List.getLast?_cons_cons]
        refine Prod.ext (by simp; omega) ?_
        simp only
        cases hg : (y :: ys).getLast? with
        | none => simp at hg
        | some z => simp
    · simp only [hx, Bool.false_eq_true, if_false]
      rw [ih]
      simp [hx]

/-- The inner loop of phase 1 counts the right instructions with the shape
string and op-name of `l`, and keeps the last of them. -/
theorem find_candidates_eq (l : HloInstructionNode) (rs : List HloInstructionNode) :
    MatchLeafInstructions.find_candidates l rs
      = ((rs.filter (MatchLeafInstructions.same_shape_and_op_name l)).length,
          (rs.filter (MatchLeafInstructions.same_shape_and_op_name l)).getLast?) := by
  unfold MatchLeafInstructions.find_candidates
  rw [find_candidates_loop]
  simp

theorem find_candidates_some (l c : HloInstructionNode) (rs : List HloInstructionNode) (n : Nat)
    (h : MatchLeafInstructions.find_candidates l rs = (n, some c)) :
    c ∈ rs ∧ MatchLeafInstructions.same_shape_and_op_name l c = true ∧
      (rs.filter (MatchLeafInstructions.same_shape_and_op_name l)).length = n := by
  rw [find_candidates_eq] at h
  have h1 := (Prod.ext_iff.1 h).1
  have h2 := (Prod.ext_iff.1 h).2
  simp only at h1 h2
  have hmem := List.mem_of_getLast?_eq_some h2
  rw [List.mem_filter] at hmem
  exact ⟨hmem.1, hmem.2, h1⟩

theorem find_candidates_unique (l r : HloInstructionNode) (rs : List HloInstructionNode)
    (hn : rs.Nodup) (hr : r ∈ rs)
    (hsame : MatchLeafInstructions.same_shape_and_op_name l r = true)
    (huniq : ∀ r' ∈ rs, MatchLeafInstructions.same_shape_and_op_name l r' = true → r' = r) :
    MatchLeafInstructions.find_candidates l rs = (1, some r) := by
  have hf : rs.filter (MatchLeafInstructions.same_shape_and_op_name l) = [r] := by
    apply eq_singleton_of_nodup (hn.filter _)
    · exact List.mem_filter.2 ⟨hr, hsame⟩
    · intro x hx
      rw [List.mem_filter] at hx
      exact huniq x hx.1 hx.2
  rw [find_candidates_eq, hf]
  rfl

/-- The candidate of phase 1: the op-name is not empty and exactly one candidate
was counted. -/
theorem phase1_candidate_eq_some (right_instructions : List HloInstructionNode)
    (l c : HloInstructionNode) :
    MatchLeafInstructions.phase1_candidate right_instructions l = some c ↔
      l.instruction.op_name ≠ "" ∧
        MatchLeafInstructions.find_candidates l right_instructions = (1, some c) := by
  unfold MatchLeafInstructions.phase1_candidate
  by_cases hname : l.instruction.op_name = ""
  · simp [hname]
  · simp only [hname, if_false, ne_eq, not_false_eq_true, true_and]
    constructor
    · intro h
      split at h
      · rename_i c' hc'
        rw [hc']
        simp only [Option.some.injEq] at h
        rw [h]
      · simp at h
    · intro h
      rw [h]

theorem phase1_step_of_some (right_instructions : List HloInstructionNode) (t : MatcherType)
    (st : HloGumgraphMappings × List HloInstructionNode) (l c : HloInstructionNode)
    (h : MatchLeafInstructions.phase1_candidate right_instructions l = some c) :
    MatchLeafInstructions.phase1_step right_instructions t st l
      = (st.1.MapInstructionsIfAbsent l c t, hashSetInsert (hashSetInsert st.2 l) c) := by
  obtain ⟨hname, hc⟩ := (phase1_candidate_eq_some right_instructions l c).1 h
  unfold MatchLeafInstructions.phase1_step
  rw [if_neg hname, hc]

theorem phase1_step_of_none (right_instructions : List HloInstructionNode) (t : MatcherType)
    (st : HloGumgraphMappings × List HloInstructionNode) (l : HloInstructionNode)
    (h : MatchLeafInstructions.phase1_candidate right_instructions l = none) :
    MatchLeafInstructions.phase1_step right_instructions t st l = st := by
  unfold MatchLeafInstructions.phase1_step
  by_cases hname : l.instruction.op_name = ""
  · rw [if_pos hname]
  · rw [if_neg hname]
    split
    · rename_i c hc
      have := (phase1_candidate_eq_some right_instructions l c).2 ⟨hname, hc⟩
      rw [h] at this
      simp at this
    · rfl

/-- The loop of phase 1: the requests it adds and the instructions it marks as
matched are those of `phase1_pairs`. -/
theorem phase1_loop (right_instructions : List HloInstructionNode) (t : MatcherType)
    (ls : List HloInstructionNode) :
    ∀ st : HloGumgraphMappings × List HloInstructionNode,
      ((ls.foldl (MatchLeafInstructions.phase1_step right_instructions t) st).1.requests
        = st.1.requests ++
            (MatchLeafInstructions.phase1_pairs ls right_instructions).map
              (fun p => (⟨p.1, p.2, t⟩ : InstructionMapping))) ∧
      ∀ x, x ∈ (ls.foldl (MatchLeafInstructions.phase1_step right_instructions t) st).2 ↔
        (x ∈ st.2 ∨ ∃ p ∈ MatchLeafInstructions.phase1_pairs ls right_instructions,
          x = p.1 ∨ x = p.2) := by
  induction ls with
  | nil => intro st; simp [MatchLeafInstructions.phase1_pairs]
  | cons l ls ih =>
    intro st
    simp only [List.foldl_cons]
    cases hc : MatchLeafInstructions.phase1_candidate right_instructions l with
    | none =>
      have hp : MatchLeafInstructions.phase1_pairs (l :: ls) right_instructions
          = MatchLeafInstructions.phase1_pairs ls right_instructions := by
        simp [MatchLeafInstructions.phase1_pairs, hc]
      rw [hp, phase1_step_of_none right_instructions t st l hc]
      exact ih st
    | some c =>
      have hp : MatchLeafInstructions.phase1_pairs (l :: ls) right_instructions
          = (l, c) :: MatchLeafInstructions.phase1_pairs ls right_instructions := by
        simp [MatchLeafInstructions.phase1_pairs, hc]
      rw [hp, phase1_step_of_some right_instructions t st l c hc]
      obtain ⟨ih1, ih2⟩ := ih (st.1.MapInstructionsIfAbsent l c t,
        hashSetInsert (hashSetInsert st.2 l) c)
      constructor
      · rw [ih1]; simp
      · intro x
        rw [ih2]
        simp only [mem_hashSetInsert, List.mem_cons, exists_eq_or_imp]
        constructor
        · rintro ((h | h) | h)
          · rcases h with h | h
            · exact Or.inl h
            · exact Or.inr (Or.inl (Or.inl h))
          · exact Or.inr (Or.inl (Or.inr h))
          · exact Or.inr (Or.inr h)
        · rintro (h | (h | h) | h)
          · exact Or.inl (Or.inl (Or.inl h))
          · exact Or.inl (Or.inl (Or.inr h))
          · exact Or.inl (Or.inr h)
          · exact Or.inr h

theorem phase1_requests (left_instructions right_instructions : List HloInstructionNode)
    (m : HloGumgraphMappings) (t : MatcherType) :
    (MatchLeafInstructions.phase1 left_instructions right_instructions m t).1.requests
      = m.requests ++
          (MatchLeafInstructions.phase1_pairs left_instructions right_instructions).map
            (fun p => (⟨p.1, p.2, t⟩ : InstructionMapping)) :=
  (phase1_loop right_instructions t left_instructions (m, [])).1

theorem mem_phase1_matched (left_instructions right_instructions : List HloInstructionNode)
    (m : HloGumgraphMappings) (t : MatcherType) (x : HloInstructionNode) :
    x ∈ (MatchLeafInstructions.phase1 left_instructions right_instructions m t).2 ↔
      ∃ p ∈ MatchLeafInstructions.phase1_pairs left_instructions right_instructions,
        x = p.1 ∨ x = p.2 := by
  have h := (phase1_loop right_instructions t left_instructions (m, [])).2 x
  simpa [MatchLeafInstructions.phase1] using h

/-- A pair of phase 1: the left instruction has a non-empty op-name and the
right instruction is its only candidate. -/
theorem mem_phase1_pairs (left_instructions right_instructions : List HloInstructionNode)
    (l c : HloInstructionNode) :
    (l, c) ∈ MatchLeafInstructions.phase1_pairs left_instructions right_instructions ↔
      l ∈ left_instructions ∧ l.instruction.op_name ≠ "" ∧
        MatchLeafInstructions.find_candidates l right_instructions = (1, some c) := by
  simp only [MatchLeafInstructions.phase1_pairs, List.mem_filterMap, Option.map_eq_some']
  constructor
  · rintro ⟨a, ha, c', hc', h⟩
    simp only [Prod.mk.injEq] at h
    obtain ⟨h1, h2⟩ := h
    subst h1; subst h2
    obtain ⟨hname, hc⟩ := (phase1_candidate_eq_some right_instructions a c').1 hc'
    exact ⟨ha, hname, hc⟩
  · rintro ⟨hl, hname, hc⟩
    exact ⟨l, hl, c, (phase1_candidate_eq_some right_instructions l c).2 ⟨hname, hc⟩, rfl⟩

/-- Phase 1 changes the store only through `MapInstructionsIfAbsent`, on pairs of
a left and a right instruction. -/
theorem phase1_induct (left_instructions right_instructions : List HloInstructionNode)
    (t : MatcherType) (P : HloGumgraphMappings → Prop)
    (hP : ∀ m l r, l ∈ left_instructions → r ∈ right_instructions → P m →
      P (m.MapInstructionsIfAbsent l r t))
    (m : HloGumgraphMappings) (hm : P m) :
    P (MatchLeafInstructions.phase1 left_instructions right_instructions m t).1 := by
  unfold MatchLeafInstructions.phase1
  apply foldl_invariant (MatchLeafInstructions.phase1_step right_instructions t)
    (fun st => P st.1) left_instructions _ (m, []) hm
  intro b l hl hb
  cases hc : MatchLeafInstructions.phase1_candidate right_instructions l with
  | none => rw [phase1_step_of_none right_instructions t b l hc]; exact hb
  | some c =>
    rw [phase1_step_of_some right_instructions t b l c hc]
    obtain ⟨_, hfc⟩ := (phase1_candidate_eq_some right_instructions l c).1 hc
    exact hP b.1 l c hl (find_candidates_some l c right_instructions 1 hfc).1 hb

/-! ## Grouping by shape -/

theorem insert_by_shape_inv (matched pre : List HloInstructionNode)
    (acc : List (String × List HloInstructionNode)) (x : HloInstructionNode)
    (hx : x ∉ matched) (h : ByShapeInv matched pre acc) :
    ByShapeInv matched (pre ++ [x]) (MatchLeafInstructions.insert_by_shape acc x) := by
  obtain ⟨hgroups, hkeys⟩ := h
  unfold MatchLeafInstructions.insert_by_shape
  simp only
  by_cases hany : acc.any (fun e => decide (e.1 = x.instruction.shape_string)) = true
  · rw [if_pos hany]
    constructor
    · intro e he
      rw [List.mem_map] at he
      obtain ⟨e0, he0, hee⟩ := he
      obtain ⟨hnd, hmem⟩ := hgroups e0 he0
      by_cases hk : e0.1 = x.instruction.shape_string
      · rw [if_pos hk] at hee
        subst hee
        refine ⟨hashSetInsert_nodup _ _ hnd, ?_⟩
        intro y
        simp only [mem_hashSetInsert, hmem, List.mem_append, List.mem_singleton]
        constructor
        · rintro (⟨h1, h2, h3⟩ | h)
          · exact ⟨Or.inl h1, h2, h3⟩
          · subst h; exact ⟨Or.inr rfl, hx, hk.symm⟩
        · rintro ⟨h1 | h1, h2, h3⟩
          · exact Or.inl ⟨h1, h2, h3⟩
          · exact Or.inr h1
      · rw [if_neg hk] at hee
        subst hee
        refine ⟨hnd, ?_⟩
        intro y
        simp only [hmem, List.mem_append, List.mem_singleton]
        constructor
        · rintro ⟨h1, h2, h3⟩
          exact ⟨Or.inl h1, h2, h3⟩
        · rintro ⟨h1 | h1, h2, h3⟩
          · exact ⟨h1, h2, h3⟩
          · subst h1; exact absurd h3.symm hk
    · intro y hy hym
      have hex : ∃ g, (y.instruction.shape_string, g) ∈ acc := by
        rcases List.mem_append.1 hy with hy | hy
        · exact hkeys y hy hym
        · rw [List.mem_singleton.1 hy]
          rw [List.any_eq_true] at hany
          obtain ⟨e, he, hek⟩ := hany
          simp only [decide_eq_true_eq] at hek
          exact ⟨e.2, by rw [← hek]; exact he⟩
      obtain ⟨g, hg⟩ := hex
      by_cases hk : y.instruction.shape_string = x.instruction.shape_string
      · refine ⟨hashSetInsert g x, ?_⟩
        rw [List.mem_map]
        exact ⟨(y.instruction.shape_string, g), hg, by simp [hk]⟩
      · refine ⟨g, ?_⟩
        rw [List.mem_map]
        exact ⟨(y.instruction.shape_string, g), hg, by simp [hk]⟩
  · rw [if_neg hany]
    have hnone : ∀ e ∈ acc, e.1 ≠ x.instruction.shape_string := by
      intro e he hek
      apply hany
      rw [List.any_eq_true]
      exact ⟨e, he, by simp [hek]⟩
    constructor
    · intro e he
      rcases List.mem_append.1 he with he1 | he1
      · obtain ⟨hnd, hmem⟩ := hgroups e he1
        have hne := hnone e he1
        refine ⟨hnd, ?_⟩
        intro y
        simp only [hmem, List.mem_append, List.mem_singleton]
        constructor
        · rintro ⟨h1, h2, h3⟩
          exact ⟨Or.inl h1, h2, h3⟩
        · rintro ⟨h1 | h1, h2, h3⟩
          · exact ⟨h1, h2, h3⟩
          · rw [h1] at h3; exact absurd h3.symm hne
      · rw [List.mem_singleton.1 he1]
        refine ⟨by simp, ?_⟩
        intro y
        simp only [List.mem_singleton, List.mem_append]
        constructor
        · intro h; subst h; exact ⟨Or.inr rfl, hx, rfl⟩
        · rintro ⟨h1 | h1, h2, h3⟩
          · obtain ⟨g, hg⟩ := hkeys y h1 h2
            exact absurd h3 (hnone _ hg)
          · exact h1
    · intro y hy hym
      rcases List.mem_append.1 hy with hy | hy
      · obtain ⟨g, hg⟩ := hkeys y hy hym
        exact ⟨g, List.mem_append_left _ hg⟩
      · rw [List.mem_singleton.1 hy]
        exact ⟨[x], List.mem_append_right _ (by simp)⟩

theorem by_shape_step_inv (matched pre : List HloInstructionNode)
    (acc : List (String × List HloInstructionNode)) (x : HloInstructionNode)
    (h : ByShapeInv matched pre acc) :
    ByShapeInv matched (pre ++ [x]) (MatchLeafInstructions.by_shape_step matched acc x) := by
  unfold MatchLeafInstructions.by_shape_step
  by_cases hx : x ∈ matched
  · rw [if_pos hx]
    obtain ⟨hgroups, hkeys⟩ := h
    constructor
    · intro e he
      obtain ⟨hnd, hmem⟩ := hgroups e he
      refine ⟨hnd, ?_⟩
      intro y
      simp only [hmem, List.mem_append, List.mem_singleton]
      constructor
      · rintro ⟨h1, h2, h3⟩
        exact ⟨Or.inl h1, h2, h3⟩
      · rintro ⟨h1 | h1, h2, h3⟩
        · exact ⟨h1, h2, h3⟩
        · subst h1; exact absurd hx h2
    · intro y hy hym
      rcases List.mem_append.1 hy with hy | hy
      · exact hkeys y hy hym
      · rw [List.mem_singleton.1 hy] at hym
        exact absurd hx hym
  · rw [if_neg hx]
    exact insert_by_shape_inv matched pre acc x hx h

theorem by_shape_loop_inv (matched : List HloInstructionNode) (xs : List HloInstructionNode) :
    ∀ (pre : List HloInstructionNode) (acc : List (String × List HloInstructionNode)),
      ByShapeInv matched pre acc →
      ByShapeInv matched (pre ++ xs)
        (xs.foldl (MatchLeafInstructions.by_shape_step matched) acc) := by
  induction xs with
  | nil => intro pre acc h; simpa using h
  | cons x xs ih =>
    intro pre acc h
    have h2 := ih (pre ++ [x]) _ (by_shape_step_inv matched pre acc x h)
    simpa using h2

theorem instructions_by_shape_inv (matched xs : List HloInstructionNode) :
    ByShapeInv matched xs (MatchLeafInstructions.instructions_by_shape matched xs) := by
  have h := by_shape_loop_inv matched xs [] [] ⟨by simp, by simp⟩
  simpa [MatchLeafInstructions.instructions_by_shape] using h

/-- A group holds exactly the unmatched instructions with the shape string of
its key. -/
theorem mem_group (matched xs : List HloInstructionNode) (e : String × List HloInstructionNode)
    (he : e ∈ MatchLeafInstructions.instructions_by_shape matched xs) (x : HloInstructionNode) :
    x ∈ e.2 ↔ (x ∈ xs ∧ x ∉ matched ∧ x.instruction.shape_string = e.1) :=
  ((instructions_by_shape_inv matched xs).1 e he).2 x

/-- Looking up the shape string of an unmatched instruction finds its group. -/
theorem find_group (matched xs : List HloInstructionNode) (x : HloInstructionNode)
    (hx : x ∈ xs) (hxm : x ∉ matched) :
    ∃ it, (MatchLeafInstructions.instructions_by_shape matched xs).find?
        (fun e => decide (e.1 = x.instruction.shape_string)) = some it ∧
      it ∈ MatchLeafInstructions.instructions_by_shape matched xs ∧
      it.1 = x.instruction.shape_string := by
  obtain ⟨g, hg⟩ := (instructions_by_shape_inv matched xs).2 x hx hxm
  cases hf : (MatchLeafInstructions.instructions_by_shape matched xs).find?
      (fun e => decide (e.1 = x.instruction.shape_string)) with
  | none =>
    rw [List.find?_eq_none] at hf
    have := hf _ hg
    simp at this
  | some it =>
    refine ⟨it, rfl, List.mem_of_find?_eq_some hf, ?_⟩
    have := List.find?_some hf
    simpa using this

/-- The group of a shape string that exactly one instruction has, when that
instruction is unmatched. -/
theorem group_eq_singleton (matched xs : List HloInstructionNode)
    (e : String × List HloInstructionNode)
    (he : e ∈ MatchLeafInstructions.instructions_by_shape matched xs) (x : HloInstructionNode)
    (hx : x ∈ xs) (hxm : x ∉ matched) (hk : x.instruction.shape_string = e.1)
    (huniq : ∀ y ∈ xs, y.instruction.shape_string = e.1 → y = x) : e.2 = [x] := by
  apply eq_singleton_of_nodup ((instructions_by_shape_inv matched xs).1 e he).1
  · exact (mem_group matched xs e he x).2 ⟨hx, hxm, hk⟩
  · intro y hy
    obtain ⟨h1, _, h3⟩ := (mem_group matched xs e he y).1 hy
    exact huniq y h1 h3

/-! ## The last loop of `MatchLeafInstructions`, and the function as a whole -/

theorem mem_requests_MapInstructionsIfAbsent (x : InstructionMapping) (m : HloGumgraphMappings)
    (l r : HloInstructionNode) (t : MatcherType) (h : x ∈ m.requests) :
    x ∈ (m.MapInstructionsIfAbsent l r t).requests := by
  rw [MapInstructionsIfAbsent_requests]
  exact List.mem_append_left _ h

theorem phase2_step_induct (rgs : List (String × List HloInstructionNode))
    (fn : PropertyMatchesFn) (t : MatcherType) (P : HloGumgraphMappings → Prop)
    (entry : String × List HloInstructionNode) (R : List HloInstructionNode)
    (hR : ∀ e ∈ rgs, ∀ x ∈ e.2, x ∈ R)
    (hP : ∀ m l r, l ∈ entry.2 → r ∈ R → P m → P (m.MapInstructionsIfAbsent l r t))
    (m : HloGumgraphMappings) (hm : P m) :
    P (MatchLeafInstructions.phase2_step rgs fn t m entry) := by
  unfold MatchLeafInstructions.phase2_step
  split
  · exact hm
  · rename_i it hit
    have hmem := List.mem_of_find?_eq_some hit
    split
    · rename_i l r hl hr
      exact hP m l r (by rw [hl]; simp) (hR it hmem r (by rw [hr]; simp)) hm
    · exact tournament_induct entry.2 it.2 fn t P
        (fun m' l r hl hr hp => hP m' l r hl (hR it hmem r hr) hp) m hm

/-- The last loop changes the store only through `MapInstructionsIfAbsent`, on
pairs of an instruction of a left group and an instruction of a right group. -/
theorem phase2_induct (lgs rgs : List (String × List HloInstructionNode))
    (fn : PropertyMatchesFn) (t : MatcherType) (P : HloGumgraphMappings → Prop)
    (L R : List HloInstructionNode)
    (hL : ∀ e ∈ lgs, ∀ x ∈ e.2, x ∈ L) (hR : ∀ e ∈ rgs, ∀ x ∈ e.2, x ∈ R)
    (hP : ∀ m l r, l ∈ L → r ∈ R → P m → P (m.MapInstructionsIfAbsent l r t))
    (m : HloGumgraphMappings) (hm : P m) :
    P (MatchLeafInstructions.phase2 lgs rgs m fn t) := by
  unfold MatchLeafInstructions.phase2
  apply foldl_invariant _ P lgs _ m hm
  intro b entry he hb
  exact phase2_step_induct rgs fn t P entry R hR
    (fun m' l r hl hr hp => hP m' l r (hL entry he l hl) hr hp) b hb

/-- A left group `[l]` whose shape string has the right group `[r]` makes the
last loop request the pair. -/
theorem phase2_requests_singletons (lgs rgs : List (String × List HloInstructionNode))
    (fn : PropertyMatchesFn) (t : MatcherType) (m : HloGumgraphMappings)
    (entry it : String × List HloInstructionNode) (l r : HloInstructionNode)
    (he : entry ∈ lgs) (hl : entry.2 = [l])
    (hfind : rgs.find? (fun e => decide (e.1 = entry.1)) = some it) (hr : it.2 = [r]) :
    (⟨l, r, t⟩ : InstructionMapping) ∈ (MatchLeafInstructions.phase2 lgs rgs m fn t).requests := by
  unfold MatchLeafInstructions.phase2
  refine foldl_reaches (MatchLeafInstructions.phase2_step rgs fn t)
    (fun b => (⟨l, r, t⟩ : InstructionMapping) ∈ b.requests) lgs entry he ?_ ?_ m
  · intro b a hb
    exact phase2_step_induct rgs fn t (fun b => (⟨l, r, t⟩ : InstructionMapping) ∈ b.requests)
      a (rgs.flatMap (fun e => e.2))
      (fun e he' x hx => List.mem_flatMap.2 ⟨e, he', hx⟩)
      (fun m' l' r' _ _ hp => mem_requests_MapInstructionsIfAbsent _ m' l' r' t hp) b hb
  · intro b
    simp only [MatchLeafInstructions.phase2_step, hfind, hl, hr,
      MapInstructionsIfAbsent_requests]
    simp

/-- `MatchLeafInstructions` changes the store only through
`MapInstructionsIfAbsent`, on pairs of a left and a right leaf. -/
theorem MatchLeafInstructions_induct (left_instructions right_instructions : List HloInstructionNode)
    (fn : PropertyMatchesFn) (t : MatcherType) (P : HloGumgraphMappings → Prop)
    (hP : ∀ m l r, l ∈ left_instructions → r ∈ right_instructions → P m →
      P (m.MapInstructionsIfAbsent l r t))
    (m : HloGumgraphMappings) (hm : P m) :
    P (MatchLeafInstructions left_instructions right_instructions m fn t) := by
  unfold MatchLeafInstructions
  split
  · split
    · rename_i l r hl hr
      exact hP m l r (List.mem_of_mem_head? hl) (List.mem_of_mem_head? hr) hm
    · exact hm
  · simp only
    apply phase2_induct _ _ fn t P left_instructions right_instructions
    · intro e he x hx
      exact ((mem_group _ _ e he x).1 hx).1
    · intro e he x hx
      exact ((mem_group _ _ e he x).1 hx).1
    · exact hP
    · exact phase1_induct left_instructions right_instructions t P hP m hm

/-- Every request made so far is still recorded after `MatchLeafInstructions`. -/
theorem MatchLeafInstructions_requests_mono (left_instructions right_instructions :
    List HloInstructionNode) (fn : PropertyMatchesFn) (t : MatcherType)
    (m : HloGumgraphMappings) (x : InstructionMapping) (hx : x ∈ m.requests) :
    x ∈ (MatchLeafInstructions left_instructions right_instructions m fn t).requests :=
  MatchLeafInstructions_induct left_instructions right_instructions fn t
    (fun m' => x ∈ m'.requests)
    (fun m' l r _ _ hp => mem_requests_MapInstructionsIfAbsent x m' l r t hp) m hx

/-! ## Call sites and the entry point -/

theorem MatchCallSites_of_single (left right : HloGumgraph)
    (left_computation right_computation : CallGraphNode) (m : HloGumgraphMappings)
    (a b : CallSite) (ha : left_computation.caller_callsites = [a])
    (hb : right_computation.caller_callsites = [b]) :
    MatchCallSites left right left_computation right_computation m
      = m.MapInstructionsIfAbsent (left.GetNode a.instruction) (right.GetNode b.instruction)
          MatcherType.kComputationGraphExactSignatureMatcher := by
  simp [MatchCallSites, ha, hb]

theorem MatchCallSites_of_not_single (left right : HloGumgraph)
    (left_computation right_computation : CallGraphNode) (m : HloGumgraphMappings)
    (h : ¬ (left_computation.caller_callsites.length = 1 ∧
      right_computation.caller_callsites.length = 1)) :
    MatchCallSites left right left_computation right_computation m = m := by
  unfold MatchCallSites
  rw [if_pos]
  by_contra hc
  simp only [not_or, not_not] at hc
  exact h hc

theorem MatchCallSites_induct (left right : HloGumgraph)
    (left_computation right_computation : CallGraphNode) (P : HloGumgraphMappings → Prop)
    (hP : ∀ m l r t, P m → P (m.MapInstructionsIfAbsent l r t))
    (m : HloGumgraphMappings) (hm : P m) :
    P (MatchCallSites left right left_computation right_computation m) := by
  unfold MatchCallSites
  split
  · exact hm
  · split
    · exact hP _ _ _ _ hm
    · exact hm

theorem map_post_order_induct (left right : HloGumgraph)
    (left_instructions right_instructions : List HloInstruction)
    (P : HloGumgraphMappings → Prop)
    (hP : ∀ m l r t, P m → P (m.MapInstructionsIfAbsent l r t))
    (m : HloGumgraphMappings) (hm : P m) :
    P (MatchComputationGraphs.map_post_order left right left_instructions right_instructions
      m) := by
  unfold MatchComputationGraphs.map_post_order
  apply foldl_invariant _ P _ _ m hm
  intro b a _ hb
  exact hP _ _ _ _ hb

theorem MatchComputationParams_induct (left right : HloGumgraph)
    (left_computation right_computation : CallGraphNode) (t : MatcherType)
    (fn : PropertyMatchesFn) (P : HloGumgraphMappings → Prop)
    (hP : ∀ m l r t, P m → P (m.MapInstructionsIfAbsent l r t))
    (m : HloGumgraphMappings) (hm : P m) :
    P (MatchComputationParams left right left_computation right_computation m t fn) := by
  unfold MatchComputationParams
  exact MatchLeafInstructions_induct _ _ fn t P (fun m' l r _ _ hp => hP m' l r t hp) m hm

theorem MatchComputationConstants_induct (left right : HloGumgraph)
    (left_computation right_computation : CallGraphNode) (t : MatcherType)
    (fn : PropertyMatchesFn) (P : HloGumgraphMappings → Prop)
    (hP : ∀ m l r t, P m → P (m.MapInstructionsIfAbsent l r t))
    (m : HloGumgraphMappings) (hm : P m) :
    P (MatchComputationConstants left right left_computation right_computation m t fn) := by
  unfold MatchComputationConstants
  exact MatchLeafInstructions_induct _ _ fn t P (fun m' l r _ _ hp => hP m' l r t hp) m hm

/-- The steps of `MatchComputationGraphs` after the call-site matcher change the
store only through `MapInstructionsIfAbsent`. -/
theorem MatchComputationGraphs_induct (left right : HloGumgraph)
    (left_computation right_computation : CallGraphNode)
    (ps cs : PropertyMatchesFn) (P : HloGumgraphMappings → Prop)
    (hP : ∀ m l r t, P m → P (m.MapInstructionsIfAbsent l r t))
    (m : HloGumgraphMappings) (hm : P m) :
    P (MatchComputationGraphs left right left_computation right_computation m ps cs) := by
  unfold MatchComputationGraphs
  split
  · exact hm
  · simp only
    have h1 := MatchCallSites_induct left right left_computation right_computation P hP m hm
    split
    · split
      · exact h1
      · exact map_post_order_induct left right _ _ P hP _ h1
    · have h2 := MatchComputationParams_induct left right left_computation right_computation
        MatcherType.kComputationGraphExactSignatureMatcher ps P hP _ h1
      have h3 := MatchComputationConstants_induct left right left_computation
        right_computation MatcherType.kComputationGraphExactSignatureMatcher cs P hP _ h2
      split
      · exact hP _ _ _ _ h3
      · exact h3

/-- The steps of `MatchComputationGraphs` that follow the call-site matcher, as a
function of the store the call-site matcher leaves and of the match type. -/
theorem MatchComputationGraphs_after_call_sites (left right : HloGumgraph)
    (left_computation right_computation : CallGraphNode)
    (ps cs : PropertyMatchesFn) (m : HloGumgraphMappings) (it : ComputationMapping)
    (hrec : m.left_to_right_computation_map.find?
      (fun e => decide (e.left = left_computation)) = some it) :
    ∃ rest, (MatchComputationGraphs left right left_computation right_computation m ps
        cs).requests
      = (MatchCallSites left right left_computation right_computation m).requests ++ rest := by
  have key : ∀ (P : HloGumgraphMappings → Prop),
      (∀ m' l r t, P m' → P (m'.MapInstructionsIfAbsent l r t)) →
      P (MatchCallSites left right left_computation right_computation m) →
      P (MatchComputationGraphs left right left_computation right_computation m ps cs) := by
    intro P hP h1
    unfold MatchComputationGraphs
    rw [hrec]
    simp only
    split
    · split
      · exact h1
      · exact map_post_order_induct left right _ _ P hP _ h1
    · have h2 := MatchComputationParams_induct left right left_computation right_computation
        MatcherType.kComputationGraphExactSignatureMatcher ps P hP _ h1
      have h3 := MatchComputationConstants_induct left right left_computation
        right_computation MatcherType.kComputationGraphExactSignatureMatcher cs P hP _ h2
      split
      · exact hP _ _ _ _ h3
      · exact h3
  apply key (fun m' => ∃ rest, m'.requests
    = (MatchCallSites left right left_computation right_computation m).requests ++ rest)
  · rintro m' l r t ⟨rest, hrest⟩
    exact ⟨rest ++ [⟨l, r, t⟩], by rw [MapInstructionsIfAbsent_requests, hrest]; simp⟩
  · exact ⟨[], by simp⟩

/-- The positional loop of the exact case adds every pair when no node it maps
has a mapping yet and no node occurs twice. -/
theorem map_post_order_fresh (left right : HloGumgraph) :
    ∀ (ps : List (HloInstruction × HloInstruction)) (m : HloGumgraphMappings),
      (m.left_to_right_instruction_map.map (fun e => e.left)
        ++ ps.map (fun p => left.GetNode p.1)).Nodup →
      (m.left_to_right_instruction_map.map (fun e => e.right)
        ++ ps.map (fun p => right.GetNode p.2)).Nodup →
      (ps.foldl
        (fun mappings p =>
          mappings.MapInstructionsIfAbsent (left.GetNode p.1) (right.GetNode p.2)
            MatcherType.kComputationGraphExactFingerprintMatcher) m).left_to_right_instruction_map
        = m.left_to_right_instruction_map ++ ps.map (fun p =>
            (⟨left.GetNode p.1, right.GetNode p.2,
              MatcherType.kComputationGraphExactFingerprintMatcher⟩ : InstructionMapping)) := by
  intro ps
  induction ps with
  | nil => intro m _ _; simp
  | cons p ps ih =>
    intro m hl hr
    simp only [List.foldl_cons]
    have hl1 : left.GetNode p.1 ∉ m.left_to_right_instruction_map.map (fun e => e.left) := by
      intro hmem
      rw [List.nodup_append] at hl
      exact hl.2.2 hmem (by simp)
    have hr1 : right.GetNode p.2 ∉ m.left_to_right_instruction_map.map (fun e => e.right) := by
      intro hmem
      rw [List.nodup_append] at hr
      exact hr.2.2 hmem (by simp)
    have hfresh := MapInstructionsIfAbsent_fresh m (left.GetNode p.1) (right.GetNode p.2)
      MatcherType.kComputationGraphExactFingerprintMatcher hl1 hr1
    rw [ih, hfresh]
    · simp
    · rw [hfresh]
      simpa using hl
    · rw [hfresh]
      simpa using hr

/-! ## The entry point: exact matches, call sites, one-to-one mappings -/

/-- C1, as stated, fails: a computation pair recorded as an Exact match, with one
instruction on each side (N = 1) and exactly one caller call site on each side,
started on a store without instruction mappings, ends with 2 mappings, not 1. -/
theorem c1_exact_match_counterexample :
    (exampleMappings exampleRightComputation ComputationMatchType.kExact).left_to_right_instruction_map
        = [] ∧
      exampleLeftComputation.computation.MakeInstructionPostOrder.length = 1 ∧
      exampleRightComputation.computation.MakeInstructionPostOrder.length = 1 ∧
      (MatchComputationGraphs exampleGraph exampleGraph exampleLeftComputation
        exampleRightComputation
        (exampleMappings exampleRightComputation ComputationMatchType.kExact)
        (exampleSimilarity 1 0) (exampleSimilarity 1 0)).left_to_right_instruction_map.length
        = 2 := by
  decide

/-- C1 (amended): for a computation pair recorded as an Exact match whose
post-order lists both have length N, hold no instruction twice and do not hold
the calling instructions, `MatchComputationGraphs` started on a store without
instruction mappings maps, for every i < N, the i-th left post-order instruction
to the i-th right one; it leaves N + 1 mappings (the N index-aligned ones and the
call-site pair) when each computation has exactly one caller call site, and
exactly N mappings otherwise. -/
theorem c1_exact_match_maps_post_order (left right : HloGumgraph)
    (left_computation right_computation : CallGraphNode) (m : HloGumgraphMappings)
    (ps cs : PropertyMatchesFn) (it : ComputationMapping)
    (hrec : m.left_to_right_computation_map.find?
      (fun e => decide (e.left = left_computation)) = some it)
    (hexact : it.info.computation_match_type = ComputationMatchType.kExact)
    (hempty : m.left_to_right_instruction_map = [])
    (hlen : left_computation.computation.MakeInstructionPostOrder.length
      = right_computation.computation.MakeInstructionPostOrder.length)
    (hln : (left_computation.computation.MakeInstructionPostOrder.map left.GetNode).Nodup)
    (hrn : (right_computation.computation.MakeInstructionPostOrder.map right.GetNode).Nodup)
    (hlc : ∀ c ∈ left_computation.caller_callsites, left.GetNode c.instruction ∉
      left_computation.computation.MakeInstructionPostOrder.map left.GetNode)
    (hrc : ∀ c ∈ right_computation.caller_callsites, right.GetNode c.instruction ∉
      right_computation.computation.MakeInstructionPostOrder.map right.GetNode) :
    (MatchComputationGraphs left right left_computation right_computation m ps
        cs).left_to_right_instruction_map.length
      = left_computation.computation.MakeInstructionPostOrder.length
        + (if left_computation.caller_callsites.length = 1 ∧
            right_computation.caller_callsites.length = 1 then 1 else 0) ∧
    (∀ a b, left_computation.caller_callsites = [a] → right_computation.caller_callsites = [b] →
      (⟨left.GetNode a.instruction, right.GetNode b.instruction,
        MatcherType.kComputationGraphExactSignatureMatcher⟩ : InstructionMapping) ∈
        (MatchComputationGraphs left right left_computation right_computation m ps
          cs).left_to_right_instruction_map) ∧
    ∀ (i : Nat) a b, left_computation.computation.MakeInstructionPostOrder[i]? = some a →
      right_computation.computation.MakeInstructionPostOrder[i]? = some b →
      (⟨left.GetNode a, right.GetNode b,
        MatcherType.kComputationGraphExactFingerprintMatcher⟩ : InstructionMapping) ∈
        (MatchComputationGraphs left right left_computation right_computation m ps
          cs).left_to_right_instruction_map := by
  have hfst : (left_computation.computation.MakeInstructionPostOrder.zip
      right_computation.computation.MakeInstructionPostOrder).map (fun p => left.GetNode p.1)
      = left_computation.computation.MakeInstructionPostOrder.map left.GetNode := by
    rw [← List.map_fst_zip _ _ (le_of_eq hlen), List.map_map, List.map_fst_zip _ _ (le_of_eq hlen)]
    rfl
  have hsnd : (left_computation.computation.MakeInstructionPostOrder.zip
      right_computation.computation.MakeInstructionPostOrder).map (fun p => right.GetNode p.2)
      = right_computation.computation.MakeInstructionPostOrder.map right.GetNode := by
    rw [← List.map_snd_zip _ _ (le_of_eq hlen.symm), List.map_map,
      List.map_snd_zip _ _ (le_of_eq hlen.symm)]
    rfl
  have hmem : ∀ (start : List InstructionMapping) (i : Nat) a b,
      left_computation.computation.MakeInstructionPostOrder[i]? = some a →
      right_computation.computation.MakeInstructionPostOrder[i]? = some b →
      (⟨left.GetNode a, right.GetNode b,
        MatcherType.kComputationGraphExactFingerprintMatcher⟩ : InstructionMapping) ∈
        start ++ (left_computation.computation.MakeInstructionPostOrder.zip
          right_computation.computation.MakeInstructionPostOrder).map (fun p =>
            (⟨left.GetNode p.1, right.GetNode p.2,
              MatcherType.kComputationGraphExactFingerprintMatcher⟩ : InstructionMapping)) := by
    intro start i a b ha hb
    apply List.mem_append_right
    rw [List.mem_map]
    refine ⟨(a, b), ?_, rfl⟩
    exact List.getElem?_mem (List.getElem?_zip_eq_some.2 ⟨ha, hb⟩)
  have hres : MatchComputationGraphs left right left_computation right_computation m ps cs
      = MatchComputationGraphs.map_post_order left right
          left_computation.computation.MakeInstructionPostOrder
          right_computation.computation.MakeInstructionPostOrder
          (MatchCallSites left right left_computation right_computation m) := by
    unfold MatchComputationGraphs
    rw [hrec]
    simp only [hexact, if_true]
    rw [if_neg (not_not.2 hlen)]
  rw [hres]
  unfold MatchComputationGraphs.map_post_order
  by_cases hsingle : left_computation.caller_callsites.length = 1 ∧
      right_computation.caller_callsites.length = 1
  · obtain ⟨a, ha⟩ := List.length_eq_one.1 hsingle.1
    obtain ⟨b, hb⟩ := List.length_eq_one.1 hsingle.2
    have hstart : (MatchCallSites left right left_computation right_computation
        m).left_to_right_instruction_map
        = [⟨left.GetNode a.instruction, right.GetNode b.instruction,
            MatcherType.kComputationGraphExactSignatureMatcher⟩] := by
      rw [MatchCallSites_of_single left right left_computation right_computation m a b ha hb,
        MapInstructionsIfAbsent_fresh _ _ _ _ (by simp [hempty]) (by simp [hempty]), hempty]
      rfl
    have hla := hlc a (by rw [ha]; simp)
    have hrb := hrc b (by rw [hb]; simp)
    rw [map_post_order_fresh left right _ _
      (by rw [hstart, hfst]; exact List.nodup_cons.2 ⟨hla, hln⟩)
      (by rw [hstart, hsnd]; exact List.nodup_cons.2 ⟨hrb, hrn⟩), hstart]
    refine ⟨?_, ?_, ?_⟩
    · simp [hsingle, hlen]
    · intro a' b' ha' hb'
      rw [ha] at ha'
      rw [hb] at hb'
      simp only [List.cons.injEq, and_true] at ha' hb'
      subst ha'; subst hb'
      simp
    · exact hmem _
  · have hstart : MatchCallSites left right left_computation right_computation m = m :=
      MatchCallSites_of_not_single left right left_computation right_computation m hsingle
    rw [hstart, map_post_order_fresh left right _ _
      (by rw [hempty, hfst]; simpa using hln) (by rw [hempty, hsnd]; simpa using hrn), hempty]
    refine ⟨?_, ?_, ?_⟩
    · simp [hsingle, hlen]
    · intro a' b' ha' hb'
      exact absurd ⟨by rw [ha']; rfl, by rw [hb']; rfl⟩ hsingle
    · exact hmem _

/-- Witness for C1 (amended): one instruction on each side, one caller each. -/
theorem c1_exact_match_maps_post_order_witness :
    (MatchComputationGraphs exampleGraph exampleGraph exampleLeftComputation
        exampleRightComputation
        (exampleMappings exampleRightComputation ComputationMatchType.kExact)
        (exampleSimilarity 1 0) (exampleSimilarity 1 0)).left_to_right_instruction_map.length
      = exampleLeftComputation.computation.MakeInstructionPostOrder.length
        + (if exampleLeftComputation.caller_callsites.length = 1 ∧
            exampleRightComputation.caller_callsites.length = 1 then 1 else 0) ∧
    (∀ a b, exampleLeftComputation.caller_callsites = [a] →
      exampleRightComputation.caller_callsites = [b] →
      (⟨exampleGraph.GetNode a.instruction, exampleGraph.GetNode b.instruction,
        MatcherType.kComputationGraphExactSignatureMatcher⟩ : InstructionMapping) ∈
        (MatchComputationGraphs exampleGraph exampleGraph exampleLeftComputation
          exampleRightComputation
          (exampleMappings exampleRightComputation ComputationMatchType.kExact)
          (exampleSimilarity 1 0) (exampleSimilarity 1 0)).left_to_right_instruction_map) ∧
    ∀ (i : Nat) a b, exampleLeftComputation.computation.MakeInstructionPostOrder[i]? = some a →
      exampleRightComputation.computation.MakeInstructionPostOrder[i]? = some b →
      (⟨exampleGraph.GetNode a, exampleGraph.GetNode b,
        MatcherType.kComputationGraphExactFingerprintMatcher⟩ : InstructionMapping) ∈
        (MatchComputationGraphs exampleGraph exampleGraph exampleLeftComputation
          exampleRightComputation
          (exampleMappings exampleRightComputation ComputationMatchType.kExact)
          (exampleSimilarity 1 0) (exampleSimilarity 1 0)).left_to_right_instruction_map :=
  c1_exact_match_maps_post_order exampleGraph exampleGraph exampleLeftComputation
    exampleRightComputation
    (exampleMappings exampleRightComputation ComputationMatchType.kExact)
    (exampleSimilarity 1 0) (exampleSimilarity 1 0)
    ⟨exampleLeftComputation, exampleRightComputation, ⟨ComputationMatchType.kExact⟩⟩
    (by decide) (by decide) (by decide) (by decide) (by decide) (by decide)
    (by decide) (by decide)

/-- C2: for a computation pair with a recorded correspondence, the call-site
matcher requests the pair (left caller, right caller) when each computation has
exactly one caller call site, and changes nothing (requests and adds nothing)
when either has zero or several; for every match type the requests of
`MatchComputationGraphs` begin with those of the call-site matcher, so the request
is made before, and whatever the outcome of, every other step. -/
theorem c2_call_sites_matched_first (left right : HloGumgraph)
    (left_computation right_computation : CallGraphNode) (m : HloGumgraphMappings)
    (ps cs : PropertyMatchesFn) (it : ComputationMapping)
    (hrec : m.left_to_right_computation_map.find?
      (fun e => decide (e.left = left_computation)) = some it) :
    (left_computation.caller_callsites.length = 1 ∧
        right_computation.caller_callsites.length = 1 →
      ∃ a b, left_computation.caller_callsites = [a] ∧
        right_computation.caller_callsites = [b] ∧
        (MatchCallSites left right left_computation right_computation m).requests
          = m.requests ++ [⟨left.GetNode a.instruction, right.GetNode b.instruction,
              MatcherType.kComputationGraphExactSignatureMatcher⟩]) ∧
    (¬ (left_computation.caller_callsites.length = 1 ∧
        right_computation.caller_callsites.length = 1) →
      MatchCallSites left right left_computation right_computation m = m) ∧
    ∃ rest, (MatchComputationGraphs left right left_computation right_computation m ps
        cs).requests
      = (MatchCallSites left right left_computation right_computation m).requests ++ rest := by
  refine ⟨?_, ?_, ?_⟩
  · rintro ⟨h1, h2⟩
    obtain ⟨a, ha⟩ := List.length_eq_one.1 h1
    obtain ⟨b, hb⟩ := List.length_eq_one.1 h2
    refine ⟨a, b, ha, hb, ?_⟩
    rw [MatchCallSites_of_single left right left_computation right_computation m a b ha hb]
    rfl
  · exact MatchCallSites_of_not_single left right left_computation right_computation m
  · exact MatchComputationGraphs_after_call_sites left right left_computation
      right_computation ps cs m it hrec

/-- Witness for C2: a Signature pair, each computation with one caller. -/
theorem c2_call_sites_matched_first_witness :
    (exampleLeftComputation.caller_callsites.length = 1 ∧
        exampleRightComputation.caller_callsites.length = 1 →
      ∃ a b, exampleLeftComputation.caller_callsites = [a] ∧
        exampleRightComputation.caller_callsites = [b] ∧
        (MatchCallSites exampleGraph exampleGraph exampleLeftComputation
          exampleRightComputation
          (exampleMappings exampleRightComputation ComputationMatchType.kSignature)).requests
          = (exampleMappings exampleRightComputation ComputationMatchType.kSignature).requests
            ++ [⟨exampleGraph.GetNode a.instruction, exampleGraph.GetNode b.instruction,
              MatcherType.kComputationGraphExactSignatureMatcher⟩]) ∧
    (¬ (exampleLeftComputation.caller_callsites.length = 1 ∧
        exampleRightComputation.caller_callsites.length = 1) →
      MatchCallSites exampleGraph exampleGraph exampleLeftComputation exampleRightComputation
        (exampleMappings exampleRightComputation ComputationMatchType.kSignature)
        = exampleMappings exampleRightComputation ComputationMatchType.kSignature) ∧
    ∃ rest, (MatchComputationGraphs exampleGraph exampleGraph exampleLeftComputation
        exampleRightComputation
        (exampleMappings exampleRightComputation ComputationMatchType.kSignature)
        (exampleSimilarity 1 0) (exampleSimilarity 1 0)).requests
      = (MatchCallSites exampleGraph exampleGraph exampleLeftComputation
          exampleRightComputation
          (exampleMappings exampleRightComputation ComputationMatchType.kSignature)).requests
        ++ rest :=
  c2_call_sites_matched_first exampleGraph exampleGraph exampleLeftComputation
    exampleRightComputation
    (exampleMappings exampleRightComputation ComputationMatchType.kSignature)
    (exampleSimilarity 1 0) (exampleSimilarity 1 0)
    ⟨exampleLeftComputation, exampleRightComputation, ⟨ComputationMatchType.kSignature⟩⟩
    (by decide)

/-- C3: `MatchComputationGraphs` keeps the instruction mappings one-to-one: if no
node is the left member of two mappings and none the right member of two before
the call, the same holds after it, for every input. -/
theorem c3_one_to_one_preserved (left right : HloGumgraph)
    (left_computation right_computation : CallGraphNode) (m : HloGumgraphMappings)
    (ps cs : PropertyMatchesFn) (h : OneToOne m) :
    OneToOne (MatchComputationGraphs left right left_computation right_computation m ps cs) :=
  MatchComputationGraphs_induct left right left_computation right_computation ps cs OneToOne
    (fun m' l r t hm' => MapInstructionsIfAbsent_oneToOne m' l r t hm') m h

/-- Witness for C3: a Signature pair on a store without instruction mappings. -/
theorem c3_one_to_one_preserved_witness :
    OneToOne (exampleMappings exampleRightComputation ComputationMatchType.kSignature) ∧
    OneToOne (MatchComputationGraphs exampleGraph exampleGraph exampleLeftComputation
      exampleRightComputation
      (exampleMappings exampleRightComputation ComputationMatchType.kSignature)
      (exampleSimilarity 1 0) (exampleSimilarity 1 0)) :=
  ⟨⟨by decide, by decide⟩,
    c3_one_to_one_preserved exampleGraph exampleGraph exampleLeftComputation
      exampleRightComputation
      (exampleMappings exampleRightComputation ComputationMatchType.kSignature)
      (exampleSimilarity 1 0) (exampleSimilarity 1 0) ⟨by decide, by decide⟩⟩

/-! ## The leaf matcher: tournament, op-names, shape groups -/

/-- The requests of the tournament: a pair is requested exactly when the right
instruction scores at least 0 against the left one and strictly more than every
other right instruction. -/
theorem tournament_new_requests (left_instructions right_instructions : List HloInstructionNode)
    (m : HloGumgraphMappings) (fn : PropertyMatchesFn) (t : MatcherType)
    (hn : right_instructions.Nodup) :
    ∃ new : List InstructionMapping,
      (MatchInstructionsWithMultipleCandidates left_instructions right_instructions m fn
        t).requests = m.requests ++ new ∧
      ∀ l r t', (⟨l, r, t'⟩ : InstructionMapping) ∈ new ↔
        (t' = t ∧ l ∈ left_instructions ∧ r ∈ right_instructions ∧ 0 ≤ fn l r ∧
          ∀ r' ∈ right_instructions, r' ≠ r → fn l r' < fn l r) := by
  obtain ⟨new, h1, h2⟩ := tournament_requests left_instructions right_instructions fn t m
  refine ⟨new, h1, ?_⟩
  intro l r t'
  rw [h2]
  simp only
  rw [right_candidates_eq_singleton fn l r right_instructions hn]

/-- With a similarity function that is never negative, a pair is requested
exactly when the right instruction alone attains the maximum score. -/
theorem tournament_new_requests_of_nonneg
    (left_instructions right_instructions : List HloInstructionNode)
    (m : HloGumgraphMappings) (fn : PropertyMatchesFn) (t : MatcherType)
    (hn : right_instructions.Nodup) (hfn : ∀ l r, 0 ≤ fn l r) :
    ∃ new : List InstructionMapping,
      (MatchInstructionsWithMultipleCandidates left_instructions right_instructions m fn
        t).requests = m.requests ++ new ∧
      ∀ l r t', (⟨l, r, t'⟩ : InstructionMapping) ∈ new ↔
        (t' = t ∧ l ∈ left_instructions ∧ r ∈ right_instructions ∧
          ∀ r' ∈ right_instructions, r' ≠ r → fn l r' < fn l r) := by
  obtain ⟨new, h1, h2⟩ := tournament_new_requests left_instructions right_instructions m fn t hn
  refine ⟨new, h1, ?_⟩
  intro l r t'
  rw [h2]
  constructor
  · rintro ⟨a, b, c, _, e⟩
    exact ⟨a, b, c, e⟩
  · rintro ⟨a, b, c, e⟩
    exact ⟨a, b, c, hfn l r, e⟩

/-- C4: in the similarity tournament over a duplicate-free right group and with a
similarity function that is never negative, the mapping of a left instruction of
the group to a right instruction is requested if and only if that right
instruction alone attains the maximum score against the left instruction (every
other right instruction scores strictly less); and when two different right
instructions tie for the maximum, no mapping is requested for that left
instruction. -/
theorem c4_tournament_requests_unique_maximum
    (left_instructions right_instructions : List HloInstructionNode)
    (m : HloGumgraphMappings) (fn : PropertyMatchesFn) (t : MatcherType)
    (hn : right_instructions.Nodup) (hfn : ∀ l r, 0 ≤ fn l r) :
    ∃ new : List InstructionMapping,
      (MatchInstructionsWithMultipleCandidates left_instructions right_instructions m fn
        t).requests = m.requests ++ new ∧
      (∀ l r t', (⟨l, r, t'⟩ : InstructionMapping) ∈ new ↔
        (t' = t ∧ l ∈ left_instructions ∧ r ∈ right_instructions ∧
          ∀ r' ∈ right_instructions, r' ≠ r → fn l r' < fn l r)) ∧
      (∀ l r1 r2, r1 ∈ right_instructions → r2 ∈ right_instructions → r1 ≠ r2 →
        fn l r1 = fn l r2 → (∀ r' ∈ right_instructions, fn l r' ≤ fn l r1) →
        ∀ r t', (⟨l, r, t'⟩ : InstructionMapping) ∉ new) := by
  obtain ⟨new, h1, h2⟩ :=
    tournament_new_requests_of_nonneg left_instructions right_instructions m fn t hn hfn
  refine ⟨new, h1, h2, ?_⟩
  intro l r1 r2 hr1 hr2 hne htie hmax r t' hmem
  obtain ⟨_, _, hr, hlt⟩ := (h2 l r t').1 hmem
  by_cases h : r1 = r
  · subst h
    have h3 := hlt r2 hr2 (fun e => hne e.symm)
    rw [htie] at h3
    exact lt_irrefl _ h3
  · exact absurd (hlt r1 hr1 h) (not_lt.2 (hmax r hr))

/-- Witness for C4: one left instruction and two right instructions, of which
the right instruction `11` scores 2 and the right instruction `12` scores 1. -/
theorem c4_tournament_requests_unique_maximum_witness :
    [exampleLeaf 11 "f32[]" "x", exampleLeaf 12 "f32[]" "x"].Nodup ∧
    (∀ l r, 0 ≤ exampleSimilarity 2 1 l r) ∧
    ∃ new : List InstructionMapping,
      (MatchInstructionsWithMultipleCandidates [exampleLeaf 1 "f32[]" "x"]
        [exampleLeaf 11 "f32[]" "x", exampleLeaf 12 "f32[]" "x"] exampleEmptyMappings
        (exampleSimilarity 2 1) MatcherType.kComputationGraphExactSignatureMatcher).requests
        = exampleEmptyMappings.requests ++ new ∧
      (∀ l r t', (⟨l, r, t'⟩ : InstructionMapping) ∈ new ↔
        (t' = MatcherType.kComputationGraphExactSignatureMatcher ∧
          l ∈ [exampleLeaf 1 "f32[]" "x"] ∧
          r ∈ [exampleLeaf 11 "f32[]" "x", exampleLeaf 12 "f32[]" "x"] ∧
          ∀ r' ∈ [exampleLeaf 11 "f32[]" "x", exampleLeaf 12 "f32[]" "x"], r' ≠ r →
            exampleSimilarity 2 1 l r' < exampleSimilarity 2 1 l r)) ∧
      (∀ l r1 r2, r1 ∈ [exampleLeaf 11 "f32[]" "x", exampleLeaf 12 "f32[]" "x"] →
        r2 ∈ [exampleLeaf 11 "f32[]" "x", exampleLeaf 12 "f32[]" "x"] → r1 ≠ r2 →
        exampleSimilarity 2 1 l r1 = exampleSimilarity 2 1 l r2 →
        (∀ r' ∈ [exampleLeaf 11 "f32[]" "x", exampleLeaf 12 "f32[]" "x"],
          exampleSimilarity 2 1 l r' ≤ exampleSimilarity 2 1 l r1) →
        ∀ r t', (⟨l, r, t'⟩ : InstructionMapping) ∉ new) :=
  ⟨by decide,
    fun _ r => by
      unfold exampleSimilarity
      split <;> norm_num,
    c4_tournament_requests_unique_maximum [exampleLeaf 1 "f32[]" "x"]
      [exampleLeaf 11 "f32[]" "x", exampleLeaf 12 "f32[]" "x"] exampleEmptyMappings
      (exampleSimilarity 2 1) MatcherType.kComputationGraphExactSignatureMatcher (by decide)
      (fun _ r => by
        unfold exampleSimilarity
        split <;> norm_num)⟩

theorem same_shape_of_same (l c : HloInstructionNode)
    (h : MatchLeafInstructions.same_shape_and_op_name l c = true) :
    l.instruction.shape_string = c.instruction.shape_string := by
  simp only [MatchLeafInstructions.same_shape_and_op_name, Bool.and_eq_true,
    decide_eq_true_eq] at h
  exact h.1

/-- When the leaf sets are not both singletons, `MatchLeafInstructions` is phase 1
followed by the loop over the shape groups of the unmatched instructions. -/
theorem MatchLeafInstructions_of_not_singletons
    (left_instructions right_instructions : List HloInstructionNode)
    (m : HloGumgraphMappings) (fn : PropertyMatchesFn) (t : MatcherType)
    (hs : ¬ (left_instructions.length = 1 ∧ right_instructions.length = 1)) :
    MatchLeafInstructions left_instructions right_instructions m fn t
      = MatchLeafInstructions.phase2
          (MatchLeafInstructions.instructions_by_shape
            (MatchLeafInstructions.phase1 left_instructions right_instructions m t).2
            left_instructions)
          (MatchLeafInstructions.instructions_by_shape
            (MatchLeafInstructions.phase1 left_instructions right_instructions m t).2
            right_instructions)
          (MatchLeafInstructions.phase1 left_instructions right_instructions m t).1 fn t := by
  unfold MatchLeafInstructions
  rw [if_neg hs]

theorem phase2_requests_mono (lgs rgs : List (String × List HloInstructionNode))
    (fn : PropertyMatchesFn) (t : MatcherType) (m : HloGumgraphMappings)
    (x : InstructionMapping) (hx : x ∈ m.requests) :
    x ∈ (MatchLeafInstructions.phase2 lgs rgs m fn t).requests :=
  phase2_induct lgs rgs fn t (fun m' => x ∈ m'.requests)
    (lgs.flatMap (fun e => e.2)) (rgs.flatMap (fun e => e.2))
    (fun e he _ hy => List.mem_flatMap.2 ⟨e, he, hy⟩)
    (fun e he _ hy => List.mem_flatMap.2 ⟨e, he, hy⟩)
    (fun m' l r _ _ hp => mem_requests_MapInstructionsIfAbsent x m' l r t hp) m hx

/-- A pair of phase 1 is requested by `MatchLeafInstructions`. -/
theorem phase1_pair_requested (left_instructions right_instructions : List HloInstructionNode)
    (m : HloGumgraphMappings) (fn : PropertyMatchesFn) (t : MatcherType)
    (hs : ¬ (left_instructions.length = 1 ∧ right_instructions.length = 1))
    (l r : HloInstructionNode)
    (hp : (l, r) ∈ MatchLeafInstructions.phase1_pairs left_instructions right_instructions) :
    (⟨l, r, t⟩ : InstructionMapping) ∈
      (MatchLeafInstructions left_instructions right_instructions m fn t).requests := by
  rw [MatchLeafInstructions_of_not_singletons left_instructions right_instructions m fn t hs]
  apply phase2_requests_mono
  rw [phase1_requests]
  apply List.mem_append_right
  rw [List.mem_map]
  exact ⟨(l, r), hp, rfl⟩

/-- C5, as stated, fails: the left leaf `1` has the op-name `x`, and the two right
leaves `11` and `12` have its shape string and its op-name; the similarity
tournament of the shape-grouping phase still maps the left leaf to the candidate
`11`, which scores higher. -/
theorem c5_op_name_tie_counterexample :
    (exampleLeaf 1 "f32[]" "x").instruction.op_name ≠ "" ∧
    exampleLeaf 11 "f32[]" "x" ≠ exampleLeaf 12 "f32[]" "x" ∧
    MatchLeafInstructions.same_shape_and_op_name (exampleLeaf 1 "f32[]" "x")
      (exampleLeaf 11 "f32[]" "x") = true ∧
    MatchLeafInstructions.same_shape_and_op_name (exampleLeaf 1 "f32[]" "x")
      (exampleLeaf 12 "f32[]" "x") = true ∧
    (MatchLeafInstructions [exampleLeaf 1 "f32[]" "x"]
      [exampleLeaf 11 "f32[]" "x", exampleLeaf 12 "f32[]" "x"] exampleEmptyMappings
      (exampleSimilarity 2 1)
      MatcherType.kComputationGraphExactSignatureMatcher).left_to_right_instruction_map
      = [⟨exampleLeaf 1 "f32[]" "x", exampleLeaf 11 "f32[]" "x",
          MatcherType.kComputationGraphExactSignatureMatcher⟩] := by
  decide

/-- C5 (amended): in `MatchLeafInstructions`, for a left leaf with a non-empty
op-name for which two or more right leaves have the same layout-insensitive shape
string and the same op-name, the op-name phase requests no mapping of that left
leaf and does not mark it as matched; the leaf then takes part in the
shape-grouping phase (it is in the group of its shape string), where the
similarity tournament may still map it to one of those candidates. -/
theorem c5_op_name_tie_defers_to_shape_groups
    (left_instructions right_instructions : List HloInstructionNode)
    (m : HloGumgraphMappings) (fn : PropertyMatchesFn) (t : MatcherType)
    (l r₁ r₂ : HloInstructionNode)
    (hl : l ∈ left_instructions) (_hname : l.instruction.op_name ≠ "")
    (h₁ : r₁ ∈ right_instructions) (h₂ : r₂ ∈ right_instructions) (hne : r₁ ≠ r₂)
    (hs₁ : MatchLeafInstructions.same_shape_and_op_name l r₁ = true)
    (hs₂ : MatchLeafInstructions.same_shape_and_op_name l r₂ = true) :
    (∃ new : List InstructionMapping,
      (MatchLeafInstructions.phase1 left_instructions right_instructions m t).1.requests
        = m.requests ++ new ∧ ∀ x ∈ new, x.left ≠ l) ∧
    l ∉ (MatchLeafInstructions.phase1 left_instructions right_instructions m t).2 ∧
    (∃ g, (l.instruction.shape_string, g) ∈
        MatchLeafInstructions.instructions_by_shape
          (MatchLeafInstructions.phase1 left_instructions right_instructions m t).2
          left_instructions ∧ l ∈ g) ∧
    MatchLeafInstructions left_instructions right_instructions m fn t
      = MatchLeafInstructions.phase2
          (MatchLeafInstructions.instructions_by_shape
            (MatchLeafInstructions.phase1 left_instructions right_instructions m t).2
            left_instructions)
          (MatchLeafInstructions.instructions_by_shape
            (MatchLeafInstructions.phase1 left_instructions right_instructions m t).2
            right_instructions)
          (MatchLeafInstructions.phase1 left_instructions right_instructions m t).1 fn t := by
  -- the candidates of a left leaf with the shape string and op-name of `l`
  have hcount : ∀ l' c, MatchLeafInstructions.find_candidates l' right_instructions
      = (1, some c) → l'.instruction.shape_string = l.instruction.shape_string →
      l'.instruction.op_name = l.instruction.op_name → False := by
    intro l' c hc hshape hop
    have hlen := (find_candidates_some l' c right_instructions 1 hc).2.2
    obtain ⟨a, ha⟩ := List.length_eq_one.1 hlen
    have hsame : ∀ r, MatchLeafInstructions.same_shape_and_op_name l r = true →
        MatchLeafInstructions.same_shape_and_op_name l' r = true := by
      intro r hr
      simp only [MatchLeafInstructions.same_shape_and_op_name, Bool.and_eq_true,
        decide_eq_true_eq] at hr ⊢
      exact ⟨by rw [hshape]; exact hr.1, by rw [hop]; exact hr.2⟩
    have m₁ : r₁ ∈ right_instructions.filter (MatchLeafInstructions.same_shape_and_op_name l') :=
      List.mem_filter.2 ⟨h₁, hsame r₁ hs₁⟩
    have m₂ : r₂ ∈ right_instructions.filter (MatchLeafInstructions.same_shape_and_op_name l') :=
      List.mem_filter.2 ⟨h₂, hsame r₂ hs₂⟩
    rw [ha] at m₁ m₂
    exact hne ((List.mem_singleton.1 m₁).trans (List.mem_singleton.1 m₂).symm)
  have hnopair : ∀ p ∈ MatchLeafInstructions.phase1_pairs left_instructions right_instructions,
      l ≠ p.1 ∧ l ≠ p.2 := by
    intro p hp
    obtain ⟨_, _, hc⟩ := (mem_phase1_pairs left_instructions right_instructions p.1 p.2).1 hp
    constructor
    · intro h
      exact hcount p.1 p.2 hc (by rw [← h]) (by rw [← h])
    · intro h
      have hsame := (find_candidates_some p.1 p.2 right_instructions 1 hc).2.1
      simp only [MatchLeafInstructions.same_shape_and_op_name, Bool.and_eq_true,
        decide_eq_true_eq] at hsame
      exact hcount p.1 p.2 hc (by rw [h]; exact hsame.1) (by rw [h]; exact hsame.2)
  have hunmatched :
      l ∉ (MatchLeafInstructions.phase1 left_instructions right_instructions m t).2 := by
    intro hmem
    obtain ⟨p, hp, h | h⟩ := (mem_phase1_matched left_instructions right_instructions m t l).1 hmem
    · exact (hnopair p hp).1 h
    · exact (hnopair p hp).2 h
  have hnotsingle : ¬ (left_instructions.length = 1 ∧ right_instructions.length = 1) := by
    rintro ⟨_, h⟩
    obtain ⟨a, ha⟩ := List.length_eq_one.1 h
    rw [ha] at h₁ h₂
    exact hne ((List.mem_singleton.1 h₁).trans (List.mem_singleton.1 h₂).symm)
  refine ⟨⟨_, phase1_requests left_instructions right_instructions m t, ?_⟩, hunmatched, ?_,
    MatchLeafInstructions_of_not_singletons left_instructions right_instructions m fn t
      hnotsingle⟩
  · intro x hx
    rw [List.mem_map] at hx
    obtain ⟨p, hp, hpx⟩ := hx
    rw [← hpx]
    exact fun h => (hnopair p hp).1 h.symm
  · obtain ⟨g, hg⟩ := (instructions_by_shape_inv _ left_instructions).2 l hl hunmatched
    exact ⟨g, hg, (mem_group _ left_instructions _ hg l).2 ⟨hl, hunmatched, rfl⟩⟩

/-- Witness for C5 (amended): one left leaf, two right leaves with its shape
string and op-name. -/
theorem c5_op_name_tie_defers_to_shape_groups_witness :
    (∃ new : List InstructionMapping,
      (MatchLeafInstructions.phase1 [exampleLeaf 1 "f32[]" "x"]
        [exampleLeaf 11 "f32[]" "x", exampleLeaf 12 "f32[]" "x"] exampleEmptyMappings
        MatcherType.kComputationGraphExactSignatureMatcher).1.requests
        = exampleEmptyMappings.requests ++ new ∧
      ∀ x ∈ new, x.left ≠ exampleLeaf 1 "f32[]" "x") ∧
    exampleLeaf 1 "f32[]" "x" ∉
      (MatchLeafInstructions.phase1 [exampleLeaf 1 "f32[]" "x"]
        [exampleLeaf 11 "f32[]" "x", exampleLeaf 12 "f32[]" "x"] exampleEmptyMappings
        MatcherType.kComputationGraphExactSignatureMatcher).2 ∧
    (∃ g, ((exampleLeaf 1 "f32[]" "x").instruction.shape_string, g) ∈
        MatchLeafInstructions.instructions_by_shape
          (MatchLeafInstructions.phase1 [exampleLeaf 1 "f32[]" "x"]
            [exampleLeaf 11 "f32[]" "x", exampleLeaf 12 "f32[]" "x"] exampleEmptyMappings
            MatcherType.kComputationGraphExactSignatureMatcher).2
          [exampleLeaf 1 "f32[]" "x"] ∧ exampleLeaf 1 "f32[]" "x" ∈ g) ∧
    MatchLeafInstructions [exampleLeaf 1 "f32[]" "x"]
        [exampleLeaf 11 "f32[]" "x", exampleLeaf 12 "f32[]" "x"] exampleEmptyMappings
        (exampleSimilarity 2 1) MatcherType.kComputationGraphExactSignatureMatcher
      = MatchLeafInstructions.phase2
          (MatchLeafInstructions.instructions_by_shape
            (MatchLeafInstructions.phase1 [exampleLeaf 1 "f32[]" "x"]
              [exampleLeaf 11 "f32[]" "x", exampleLeaf 12 "f32[]" "x"] exampleEmptyMappings
              MatcherType.kComputationGraphExactSignatureMatcher).2
            [exampleLeaf 1 "f32[]" "x"])
          (MatchLeafInstructions.instructions_by_shape
            (MatchLeafInstructions.phase1 [exampleLeaf 1 "f32[]" "x"]
              [exampleLeaf 11 "f32[]" "x", exampleLeaf 12 "f32[]" "x"] exampleEmptyMappings
              MatcherType.kComputationGraphExactSignatureMatcher).2
            [exampleLeaf 11 "f32[]" "x", exampleLeaf 12 "f32[]" "x"])
          (MatchLeafInstructions.phase1 [exampleLeaf 1 "f32[]" "x"]
            [exampleLeaf 11 "f32[]" "x", exampleLeaf 12 "f32[]" "x"] exampleEmptyMappings
            MatcherType.kComputationGraphExactSignatureMatcher).1
          (exampleSimilarity 2 1) MatcherType.kComputationGraphExactSignatureMatcher :=
  c5_op_name_tie_defers_to_shape_groups [exampleLeaf 1 "f32[]" "x"]
    [exampleLeaf 11 "f32[]" "x", exampleLeaf 12 "f32[]" "x"] exampleEmptyMappings
    (exampleSimilarity 2 1) MatcherType.kComputationGraphExactSignatureMatcher
    (exampleLeaf 1 "f32[]" "x") (exampleLeaf 11 "f32[]" "x") (exampleLeaf 12 "f32[]" "x")
    (by decide) (by decide) (by decide) (by decide) (by decide) (by decide) (by decide)

/-- C6: in `MatchLeafInstructions` on leaf sets that are not both singletons, for a
left leaf with a non-empty op-name for which exactly one right leaf has the same
layout-insensitive shape string and the same op-name, the mapping of the left
leaf to that right leaf is requested, and neither of the two is in any group of
`left_instructions_by_shape` or of `right_instructions_by_shape`. -/
theorem c6_unique_op_name_candidate_mapped
    (left_instructions right_instructions : List HloInstructionNode)
    (m : HloGumgraphMappings) (fn : PropertyMatchesFn) (t : MatcherType)
    (l r : HloInstructionNode)
    (hs : ¬ (left_instructions.length = 1 ∧ right_instructions.length = 1))
    (hn : right_instructions.Nodup)
    (hl : l ∈ left_instructions) (hname : l.instruction.op_name ≠ "")
    (hr : r ∈ right_instructions)
    (hsame : MatchLeafInstructions.same_shape_and_op_name l r = true)
    (huniq : ∀ r' ∈ right_instructions,
      MatchLeafInstructions.same_shape_and_op_name l r' = true → r' = r) :
    (⟨l, r, t⟩ : InstructionMapping) ∈
      (MatchLeafInstructions left_instructions right_instructions m fn t).requests ∧
    ∀ e, (e ∈ MatchLeafInstructions.instructions_by_shape
            (MatchLeafInstructions.phase1 left_instructions right_instructions m t).2
            left_instructions ∨
          e ∈ MatchLeafInstructions.instructions_by_shape
            (MatchLeafInstructions.phase1 left_instructions right_instructions m t).2
            right_instructions) →
      l ∉ e.2 ∧ r ∉ e.2 := by
  have hc := find_candidates_unique l r right_instructions hn hr hsame huniq
  have hp : (l, r) ∈ MatchLeafInstructions.phase1_pairs left_instructions right_instructions :=
    (mem_phase1_pairs left_instructions right_instructions l r).2 ⟨hl, hname, hc⟩
  have hlm : l ∈ (MatchLeafInstructions.phase1 left_instructions right_instructions m t).2 :=
    (mem_phase1_matched left_instructions right_instructions m t l).2 ⟨(l, r), hp, Or.inl rfl⟩
  have hrm : r ∈ (MatchLeafInstructions.phase1 left_instructions right_instructions m t).2 :=
    (mem_phase1_matched left_instructions right_instructions m t r).2 ⟨(l, r), hp, Or.inr rfl⟩
  refine ⟨phase1_pair_requested left_instructions right_instructions m fn t hs l r hp, ?_⟩
  rintro e (he | he)
  · exact ⟨fun h => ((mem_group _ _ e he l).1 h).2.1 hlm,
      fun h => ((mem_group _ _ e he r).1 h).2.1 hrm⟩
  · exact ⟨fun h => ((mem_group _ _ e he l).1 h).2.1 hlm,
      fun h => ((mem_group _ _ e he r).1 h).2.1 hrm⟩

/-- Witness for C6: the left leaf `1` and the right leaf `11` share the op-name
`a`; the other leaves of the same shape have other op-names. -/
theorem c6_unique_op_name_candidate_mapped_witness :
    (⟨exampleLeaf 1 "f32[10]" "a", exampleLeaf 11 "f32[10]" "a",
        MatcherType.kComputationGraphExactSignatureMatcher⟩ : InstructionMapping) ∈
      (MatchLeafInstructions [exampleLeaf 1 "f32[10]" "a", exampleLeaf 2 "f32[10]" ""]
        [exampleLeaf 11 "f32[10]" "a", exampleLeaf 12 "f32[10]" "b"] exampleEmptyMappings
        (exampleSimilarity 0 1) MatcherType.kComputationGraphExactSignatureMatcher).requests ∧
    ∀ e, (e ∈ MatchLeafInstructions.instructions_by_shape
            (MatchLeafInstructions.phase1
              [exampleLeaf 1 "f32[10]" "a", exampleLeaf 2 "f32[10]" ""]
              [exampleLeaf 11 "f32[10]" "a", exampleLeaf 12 "f32[10]" "b"]
              exampleEmptyMappings MatcherType.kComputationGraphExactSignatureMatcher).2
            [exampleLeaf 1 "f32[10]" "a", exampleLeaf 2 "f32[10]" ""] ∨
          e ∈ MatchLeafInstructions.instructions_by_shape
            (MatchLeafInstructions.phase1
              [exampleLeaf 1 "f32[10]" "a", exampleLeaf 2 "f32[10]" ""]
              [exampleLeaf 11 "f32[10]" "a", exampleLeaf 12 "f32[10]" "b"]
              exampleEmptyMappings MatcherType.kComputationGraphExactSignatureMatcher).2
            [exampleLeaf 11 "f32[10]" "a", exampleLeaf 12 "f32[10]" "b"]) →
      exampleLeaf 1 "f32[10]" "a" ∉ e.2 ∧ exampleLeaf 11 "f32[10]" "a" ∉ e.2 :=
  c6_unique_op_name_candidate_mapped
    [exampleLeaf 1 "f32[10]" "a", exampleLeaf 2 "f32[10]" ""]
    [exampleLeaf 11 "f32[10]" "a", exampleLeaf 12 "f32[10]" "b"] exampleEmptyMappings
    (exampleSimilarity 0 1) MatcherType.kComputationGraphExactSignatureMatcher
    (exampleLeaf 1 "f32[10]" "a") (exampleLeaf 11 "f32[10]" "a")
    (by decide) (by decide) (by decide) (by decide) (by decide) (by decide) (by decide)

/-- C7: if exactly one left leaf and exactly one right leaf have a given
layout-insensitive shape string, `MatchLeafInstructions` requests the mapping of
that pair, whatever the similarity function and the op-names. -/
theorem c7_unique_shape_pair_mapped
    (left_instructions right_instructions : List HloInstructionNode)
    (m : HloGumgraphMappings) (fn : PropertyMatchesFn) (t : MatcherType)
    (l r : HloInstructionNode)
    (hl : l ∈ left_instructions) (hr : r ∈ right_instructions)
    (hshape : l.instruction.shape_string = r.instruction.shape_string)
    (hlu : ∀ l' ∈ left_instructions,
      l'.instruction.shape_string = l.instruction.shape_string → l' = l)
    (hru : ∀ r' ∈ right_instructions,
      r'.instruction.shape_string = l.instruction.shape_string → r' = r) :
    (⟨l, r, t⟩ : InstructionMapping) ∈
      (MatchLeafInstructions left_instructions right_instructions m fn t).requests := by
  by_cases hs : left_instructions.length = 1 ∧ right_instructions.length = 1
  · obtain ⟨a, ha⟩ := List.length_eq_one.1 hs.1
    obtain ⟨b, hb⟩ := List.length_eq_one.1 hs.2
    rw [ha] at hl
    rw [hb] at hr
    rw [List.mem_singleton.1 hl, List.mem_singleton.1 hr, ha, hb]
    simp [MatchLeafInstructions]
  · -- a pair of phase 1 that involves `l` or `r` is the pair `(l, r)`
    have hpair : ∀ p ∈ MatchLeafInstructions.phase1_pairs left_instructions right_instructions,
        (p.1 = l ∨ p.2 = r ∨ p.1 = r ∨ p.2 = l) → p = (l, r) := by
      intro p hp hcase
      obtain ⟨hpl, _, hc⟩ := (mem_phase1_pairs left_instructions right_instructions p.1 p.2).1 hp
      obtain ⟨hpr, hsame, _⟩ := find_candidates_some p.1 p.2 right_instructions 1 hc
      have hsh := same_shape_of_same p.1 p.2 hsame
      have h1 : p.1 = l := by
        rcases hcase with h | h | h | h
        · exact h
        · exact hlu p.1 hpl (by rw [hsh, h, hshape])
        · exact hlu p.1 hpl (by rw [h, hshape])
        · exact hlu p.1 hpl (by rw [hsh, h])
      have h2 : p.2 = r := hru p.2 hpr (by rw [← hsh, h1])
      exact Prod.ext h1 h2
    by_cases hp : (l, r) ∈ MatchLeafInstructions.phase1_pairs left_instructions right_instructions
    · exact phase1_pair_requested left_instructions right_instructions m fn t hs l r hp
    · have hlm : l ∉ (MatchLeafInstructions.phase1 left_instructions right_instructions m t).2 := by
        intro hmem
        obtain ⟨p, hpm, h | h⟩ :=
          (mem_phase1_matched left_instructions right_instructions m t l).1 hmem
        · exact hp (by rw [← hpair p hpm (Or.inl h.symm)]; exact hpm)
        · exact hp (by rw [← hpair p hpm (Or.inr (Or.inr (Or.inr h.symm)))]; exact hpm)
      have hrm : r ∉ (MatchLeafInstructions.phase1 left_instructions right_instructions m t).2 := by
        intro hmem
        obtain ⟨p, hpm, h | h⟩ :=
          (mem_phase1_matched left_instructions right_instructions m t r).1 hmem
        · exact hp (by rw [← hpair p hpm (Or.inr (Or.inr (Or.inl h.symm)))]; exact hpm)
        · exact hp (by rw [← hpair p hpm (Or.inr (Or.inl h.symm))]; exact hpm)
      obtain ⟨g, hg⟩ := (instructions_by_shape_inv _ left_instructions).2 l hl hlm
      have hgl : g = [l] :=
        group_eq_singleton _ left_instructions (l.instruction.shape_string, g) hg l hl hlm rfl hlu
      obtain ⟨it, hfind, hit, hk⟩ := find_group _ right_instructions r hr hrm
      have hitr : it.2 = [r] :=
        group_eq_singleton _ right_instructions it hit r hr hrm hk.symm
          (fun y hy hys => hru y hy (by rw [hys, hk, hshape]))
      rw [MatchLeafInstructions_of_not_singletons left_instructions right_instructions m fn t hs]
      exact phase2_requests_singletons _ _ fn t _ (l.instruction.shape_string, g) it l r hg hgl
        (by rw [hshape]; exact hfind) hitr

/-- Witness for C7: the leaves `1` and `11` alone have the shape string `f32[10]`;
their op-names differ. -/
theorem c7_unique_shape_pair_mapped_witness :
    (⟨exampleLeaf 1 "f32[10]" "a", exampleLeaf 11 "f32[10]" "b",
        MatcherType.kComputationGraphExactSignatureMatcher⟩ : InstructionMapping) ∈
      (MatchLeafInstructions [exampleLeaf 1 "f32[10]" "a", exampleLeaf 2 "s32[]" ""]
        [exampleLeaf 11 "f32[10]" "b", exampleLeaf 12 "pred[]" ""] exampleEmptyMappings
        (exampleSimilarity (-1) 1)
        MatcherType.kComputationGraphExactSignatureMatcher).requests :=
  c7_unique_shape_pair_mapped [exampleLeaf 1 "f32[10]" "a", exampleLeaf 2 "s32[]" ""]
    [exampleLeaf 11 "f32[10]" "b", exampleLeaf 12 "pred[]" ""] exampleEmptyMappings
    (exampleSimilarity (-1) 1) MatcherType.kComputationGraphExactSignatureMatcher
    (exampleLeaf 1 "f32[10]" "a") (exampleLeaf 11 "f32[10]" "b")
    (by decide) (by decide) (by decide) (by decide) (by decide)

/-- C8: when the left leaf set and the right leaf set each have exactly one
element, `MatchLeafInstructions` is the single call of `MapInstructionsIfAbsent`
on that pair: it requests the mapping of the pair, whatever the shapes, op-names
and similarity function, and requests nothing else. -/
theorem c8_singleton_sets_mapped_directly
    (left_instructions right_instructions : List HloInstructionNode)
    (m : HloGumgraphMappings) (fn : PropertyMatchesFn) (t : MatcherType)
    (hl : left_instructions.length = 1) (hr : right_instructions.length = 1) :
    ∃ l r, left_instructions = [l] ∧ right_instructions = [r] ∧
      MatchLeafInstructions left_instructions right_instructions m fn t
        = m.MapInstructionsIfAbsent l r t ∧
      (MatchLeafInstructions left_instructions right_instructions m fn t).requests
        = m.requests ++ [⟨l, r, t⟩] := by
  obtain ⟨a, ha⟩ := List.length_eq_one.1 hl
  obtain ⟨b, hb⟩ := List.length_eq_one.1 hr
  have h : MatchLeafInstructions left_instructions right_instructions m fn t
      = m.MapInstructionsIfAbsent a b t := by
    rw [ha, hb]
    simp [MatchLeafInstructions]
  exact ⟨a, b, ha, hb, h, by rw [h]; rfl⟩

/-- Witness for C8: two leaves that differ in shape string and op-name, with a
negative similarity score. -/
theorem c8_singleton_sets_mapped_directly_witness :
    ∃ l r, [exampleLeaf 1 "f32[10]" "a"] = [l] ∧ [exampleLeaf 12 "pred[]" "b"] = [r] ∧
      MatchLeafInstructions [exampleLeaf 1 "f32[10]" "a"] [exampleLeaf 12 "pred[]" "b"]
        exampleEmptyMappings (exampleSimilarity 1 (-1))
        MatcherType.kComputationGraphExactSignatureMatcher
        = exampleEmptyMappings.MapInstructionsIfAbsent l r
            MatcherType.kComputationGraphExactSignatureMatcher ∧
      (MatchLeafInstructions [exampleLeaf 1 "f32[10]" "a"] [exampleLeaf 12 "pred[]" "b"]
        exampleEmptyMappings (exampleSimilarity 1 (-1))
        MatcherType.kComputationGraphExactSignatureMatcher).requests
        = exampleEmptyMappings.requests ++
            [⟨l, r, MatcherType.kComputationGraphExactSignatureMatcher⟩] :=
  c8_singleton_sets_mapped_directly [exampleLeaf 1 "f32[10]" "a"]
    [exampleLeaf 12 "pred[]" "b"] exampleEmptyMappings (exampleSimilarity 1 (-1))
    MatcherType.kComputationGraphExactSignatureMatcher (by decide) (by decide)

/-! ## The entry point: size mismatch and unrecorded computations -/

/-- C9, as stated, fails: for an Exact pair whose post-order lists have lengths 1
and 2, each computation having exactly one caller call site, the instruction
mappings after the call are not those before the call: the call-site pair was
added. -/
theorem c9_size_mismatch_counterexample :
    exampleLeftComputation.computation.MakeInstructionPostOrder.length ≠
      exampleLongerRightComputation.computation.MakeInstructionPostOrder.length ∧
    (MatchComputationGraphs exampleGraph exampleGraph exampleLeftComputation
      exampleLongerRightComputation
      (exampleMappings exampleLongerRightComputation ComputationMatchType.kExact)
      (exampleSimilarity 1 0) (exampleSimilarity 1 0)).left_to_right_instruction_map
      ≠ (exampleMappings exampleLongerRightComputation
          ComputationMatchType.kExact).left_to_right_instruction_map ∧
    (MatchComputationGraphs exampleGraph exampleGraph exampleLeftComputation
      exampleLongerRightComputation
      (exampleMappings exampleLongerRightComputation ComputationMatchType.kExact)
      (exampleSimilarity 1 0) (exampleSimilarity 1 0)).left_to_right_instruction_map
      = [⟨exampleGraph.GetNode (exampleInstruction 100 HloOpcode.kCall),
          exampleGraph.GetNode (exampleInstruction 110 HloOpcode.kCall),
          MatcherType.kComputationGraphExactSignatureMatcher⟩] := by
  decide

/-- C9 (amended): for a computation pair recorded as an Exact match whose
post-order lists differ in length, `MatchComputationGraphs` maps no post-order
instruction: the store after the call is the store that the call-site matcher
leaves, and it is the store before the call when either computation does not
have exactly one caller call site. -/
theorem c9_size_mismatch_only_call_sites (left right : HloGumgraph)
    (left_computation right_computation : CallGraphNode) (m : HloGumgraphMappings)
    (ps cs : PropertyMatchesFn) (it : ComputationMapping)
    (hrec : m.left_to_right_computation_map.find?
      (fun e => decide (e.left = left_computation)) = some it)
    (hexact : it.info.computation_match_type = ComputationMatchType.kExact)
    (hlen : left_computation.computation.MakeInstructionPostOrder.length
      ≠ right_computation.computation.MakeInstructionPostOrder.length) :
    MatchComputationGraphs left right left_computation right_computation m ps cs
      = MatchCallSites left right left_computation right_computation m ∧
    (¬ (left_computation.caller_callsites.length = 1 ∧
        right_computation.caller_callsites.length = 1) →
      MatchComputationGraphs left right left_computation right_computation m ps cs = m) := by
  have hres : MatchComputationGraphs left right left_computation right_computation m ps cs
      = MatchCallSites left right left_computation right_computation m := by
    unfold MatchComputationGraphs
    rw [hrec]
    simp only [hexact, if_true]
    rw [if_pos hlen]
  refine ⟨hres, ?_⟩
  intro hsingle
  rw [hres]
  exact MatchCallSites_of_not_single left right left_computation right_computation m hsingle

/-- Witness for C9 (amended): post-order lists of lengths 1 and 2. -/
theorem c9_size_mismatch_only_call_sites_witness :
    MatchComputationGraphs exampleGraph exampleGraph exampleLeftComputation
      exampleLongerRightComputation
      (exampleMappings exampleLongerRightComputation ComputationMatchType.kExact)
      (exampleSimilarity 1 0) (exampleSimilarity 1 0)
      = MatchCallSites exampleGraph exampleGraph exampleLeftComputation
          exampleLongerRightComputation
          (exampleMappings exampleLongerRightComputation ComputationMatchType.kExact) ∧
    (¬ (exampleLeftComputation.caller_callsites.length = 1 ∧
        exampleLongerRightComputation.caller_callsites.length = 1) →
      MatchComputationGraphs exampleGraph exampleGraph exampleLeftComputation
        exampleLongerRightComputation
        (exampleMappings exampleLongerRightComputation ComputationMatchType.kExact)
        (exampleSimilarity 1 0) (exampleSimilarity 1 0)
        = exampleMappings exampleLongerRightComputation ComputationMatchType.kExact) :=
  c9_size_mismatch_only_call_sites exampleGraph exampleGraph exampleLeftComputation
    exampleLongerRightComputation
    (exampleMappings exampleLongerRightComputation ComputationMatchType.kExact)
    (exampleSimilarity 1 0) (exampleSimilarity 1 0)
    ⟨exampleLeftComputation, exampleLongerRightComputation, ⟨ComputationMatchType.kExact⟩⟩
    (by decide) (by decide) (by decide)

/-- C10: when the left computation has no entry in
`left_to_right_computation_map`, `MatchComputationGraphs` returns the store
unchanged: nothing is mapped and nothing is requested, the call-site pair
included. -/
theorem c10_unrecorded_computation_is_noop (left right : HloGumgraph)
    (left_computation right_computation : CallGraphNode) (m : HloGumgraphMappings)
    (ps cs : PropertyMatchesFn)
    (hrec : m.left_to_right_computation_map.find?
      (fun e => decide (e.left = left_computation)) = none) :
    MatchComputationGraphs left right left_computation right_computation m ps cs = m := by
  unfold MatchComputationGraphs
  rw [hrec]

/-- Witness for C10: a store without any recorded computation pair, and two
computations that each have one caller. -/
theorem c10_unrecorded_computation_is_noop_witness :
    exampleEmptyMappings.left_to_right_computation_map.find?
      (fun e => decide (e.left = exampleLeftComputation)) = none ∧
    MatchComputationGraphs exampleGraph exampleGraph exampleLeftComputation
      exampleRightComputation exampleEmptyMappings (exampleSimilarity 1 0)
      (exampleSimilarity 1 0) = exampleEmptyMappings :=
  ⟨by decide,
    c10_unrecorded_computation_is_noop exampleGraph exampleGraph exampleLeftComputation
      exampleRightComputation exampleEmptyMappings (exampleSimilarity 1 0)
      (exampleSimilarity 1 0) (by decide)⟩

/-! ## The signature case -/

theorem mem_foldl_hashSetInsert {α : Type} (f : α → HloInstructionNode) (x : HloInstructionNode)
    (xs : List α) :
    ∀ init : List HloInstructionNode,
      x ∈ xs.foldl (fun set p => hashSetInsert set (f p)) init ↔
        x ∈ init ∨ ∃ p ∈ xs, f p = x := by
  induction xs with
  | nil => intro init; simp
  | cons a xs ih =>
    intro init
    simp only [List.foldl_cons, ih, mem_hashSetInsert, List.mem_cons, exists_eq_or_imp]
    constructor
    · rintro ((h | h) | h)
      · exact Or.inl h
      · exact Or.inr (Or.inl h.symm)
      · exact Or.inr (Or.inr h)
    · rintro (h | h | h)
      · exact Or.inl (Or.inl h)
      · exact Or.inl (Or.inr h.symm)
      · exact Or.inr h

theorem mem_foldl_constants (f : HloInstruction → HloInstructionNode) (x : HloInstructionNode)
    (xs : List HloInstruction) :
    ∀ init : List HloInstructionNode,
      x ∈ xs.foldl
          (fun set instruction =>
            if instruction.IsConstant then hashSetInsert set (f instruction) else set) init ↔
        x ∈ init ∨ ∃ p ∈ xs, p.IsConstant = true ∧ f p = x := by
  induction xs with
  | nil => intro init; simp
  | cons a xs ih =>
    intro init
    simp only [List.foldl_cons, ih, List.mem_cons, exists_eq_or_imp]
    by_cases ha : a.IsConstant = true
    · simp only [ha, if_true, mem_hashSetInsert, true_and]
      constructor
      · rintro ((h | h) | h)
        · exact Or.inl h
        · exact Or.inr (Or.inl h.symm)
        · exact Or.inr (Or.inr h)
      · rintro (h | h | h)
        · exact Or.inl (Or.inl h)
        · exact Or.inl (Or.inr h.symm)
        · exact Or.inr h
    · simp [ha]

/-- For a Signature match, `MatchComputationGraphs` changes the store only
through `MapInstructionsIfAbsent` on the pairs of `SignaturePair`. -/
theorem MatchComputationGraphs_signature_induct (left right : HloGumgraph)
    (left_computation right_computation : CallGraphNode) (m : HloGumgraphMappings)
    (ps cs : PropertyMatchesFn) (it : ComputationMapping)
    (hrec : m.left_to_right_computation_map.find?
      (fun e => decide (e.left = left_computation)) = some it)
    (hsig : it.info.computation_match_type = ComputationMatchType.kSignature)
    (P : HloGumgraphMappings → Prop)
    (hP : ∀ m' l r t, SignaturePair left right left_computation right_computation l r →
      P m' → P (m'.MapInstructionsIfAbsent l r t))
    (hm : P m) :
    P (MatchComputationGraphs left right left_computation right_computation m ps cs) := by
  unfold MatchComputationGraphs
  rw [hrec]
  simp only [hsig]
  rw [if_neg (by decide)]
  have h1 : P (MatchCallSites left right left_computation right_computation m) := by
    by_cases hsingle : left_computation.caller_callsites.length = 1 ∧
        right_computation.caller_callsites.length = 1
    · obtain ⟨a, ha⟩ := List.length_eq_one.1 hsingle.1
      obtain ⟨b, hb⟩ := List.length_eq_one.1 hsingle.2
      rw [MatchCallSites_of_single left right left_computation right_computation m a b ha hb]
      exact hP _ _ _ _ (Or.inl ⟨a, b, ha, hb, rfl, rfl⟩) hm
    · rw [MatchCallSites_of_not_single left right left_computation right_computation m hsingle]
      exact hm
  have h2 : P (MatchComputationParams left right left_computation right_computation
      (MatchCallSites left right left_computation right_computation m)
      MatcherType.kComputationGraphExactSignatureMatcher ps) := by
    unfold MatchComputationParams
    apply MatchLeafInstructions_induct _ _ ps _ P _ _ h1
    intro m' l r hl hr hp
    rw [mem_foldl_hashSetInsert] at hl hr
    simp only [List.not_mem_nil, false_or] at hl hr
    obtain ⟨p, hp1, hp2⟩ := hl
    obtain ⟨q, hq1, hq2⟩ := hr
    exact hP _ _ _ _ (Or.inr (Or.inl ⟨p, hp1, q, hq1, hp2.symm, hq2.symm⟩)) hp
  have h3 : P (MatchComputationConstants left right left_computation right_computation
      (MatchComputationParams left right left_computation right_computation
        (MatchCallSites left right left_computation right_computation m)
        MatcherType.kComputationGraphExactSignatureMatcher ps)
      MatcherType.kComputationGraphExactSignatureMatcher cs) := by
    unfold MatchComputationConstants
    apply MatchLeafInstructions_induct _ _ cs _ P _ _ h2
    intro m' l r hl hr hp
    rw [mem_foldl_constants] at hl hr
    simp only [List.not_mem_nil, false_or] at hl hr
    obtain ⟨p, hp1, hp2, hp3⟩ := hl
    obtain ⟨q, hq1, hq2, hq3⟩ := hr
    exact hP _ _ _ _ (Or.inr (Or.inr (Or.inl ⟨p, hp1, q, hq1, hp2, hq2, hp3.symm, hq3.symm⟩))) hp
  split
  · rename_i hop
    exact hP _ _ _ _ (Or.inr (Or.inr (Or.inr ⟨rfl, rfl, hop⟩))) h3
  · exact h3

/-- The requests and the mappings that `MatchComputationGraphs` adds for a
Signature match are pairs of `SignaturePair`. -/
theorem signature_pairs_only (left right : HloGumgraph)
    (left_computation right_computation : CallGraphNode) (m : HloGumgraphMappings)
    (ps cs : PropertyMatchesFn) (it : ComputationMapping)
    (hrec : m.left_to_right_computation_map.find?
      (fun e => decide (e.left = left_computation)) = some it)
    (hsig : it.info.computation_match_type = ComputationMatchType.kSignature) :
    (∀ x ∈ (MatchComputationGraphs left right left_computation right_computation m ps
        cs).left_to_right_instruction_map,
      x ∈ m.left_to_right_instruction_map ∨
        SignaturePair left right left_computation right_computation x.left x.right) ∧
    ∃ new, (MatchComputationGraphs left right left_computation right_computation m ps
        cs).requests = m.requests ++ new ∧
      ∀ x ∈ new, SignaturePair left right left_computation right_computation x.left x.right := by
  constructor
  · apply MatchComputationGraphs_signature_induct left right left_computation
      right_computation m ps cs it hrec hsig
      (fun m' => ∀ x ∈ m'.left_to_right_instruction_map,
        x ∈ m.left_to_right_instruction_map ∨
          SignaturePair left right left_computation right_computation x.left x.right)
    · intro m' l r t hpair hm' x hx
      unfold HloGumgraphMappings.MapInstructionsIfAbsent at hx
      simp only at hx
      split at hx
      · exact hm' x hx
      · rcases List.mem_append.1 hx with h | h
        · exact hm' x h
        · rw [List.mem_singleton.1 h]
          exact Or.inr hpair
    · intro x hx
      exact Or.inl hx
  · apply MatchComputationGraphs_signature_induct left right left_computation
      right_computation m ps cs it hrec hsig
      (fun m' => ∃ new, m'.requests = m.requests ++ new ∧
        ∀ x ∈ new, SignaturePair left right left_computation right_computation x.left x.right)
    · rintro m' l r t hpair ⟨new, h1, h2⟩
      refine ⟨new ++ [⟨l, r, t⟩], by rw [MapInstructionsIfAbsent_requests, h1]; simp, ?_⟩
      intro x hx
      rcases List.mem_append.1 hx with h | h
      · exact h2 x h
      · rw [List.mem_singleton.1 h]
        exact hpair
    · exact ⟨[], by simp, by simp⟩

/-- C12: for a computation pair recorded as a Signature match, every instruction
mapping that `MatchComputationGraphs` adds to the store, and every mapping it
requests, pairs the two call-site instructions, a parameter of the left
computation with a parameter of the right one, a constant of the left with a
constant of the right, or the two roots; nothing else is mapped. -/
theorem c12_signature_maps_only_call_sites_leaves_and_roots (left right : HloGumgraph)
    (left_computation right_computation : CallGraphNode) (m : HloGumgraphMappings)
    (ps cs : PropertyMatchesFn) (it : ComputationMapping)
    (hrec : m.left_to_right_computation_map.find?
      (fun e => decide (e.left = left_computation)) = some it)
    (hsig : it.info.computation_match_type = ComputationMatchType.kSignature) :
    (∀ x ∈ (MatchComputationGraphs left right left_computation right_computation m ps
        cs).left_to_right_instruction_map,
      x ∈ m.left_to_right_instruction_map ∨
        SignaturePair left right left_computation right_computation x.left x.right) ∧
    ∃ new, (MatchComputationGraphs left right left_computation right_computation m ps
        cs).requests = m.requests ++ new ∧
      ∀ x ∈ new, SignaturePair left right left_computation right_computation x.left x.right :=
  signature_pairs_only left right left_computation right_computation m ps cs it hrec hsig

/-- Witness for C12: a Signature pair, each computation with one caller. -/
theorem c12_signature_maps_only_call_sites_leaves_and_roots_witness :
    (∀ x ∈ (MatchComputationGraphs exampleGraph exampleGraph exampleLeftComputation
        exampleRightComputation
        (exampleMappings exampleRightComputation ComputationMatchType.kSignature)
        (exampleSimilarity 1 0) (exampleSimilarity 1 0)).left_to_right_instruction_map,
      x ∈ (exampleMappings exampleRightComputation
          ComputationMatchType.kSignature).left_to_right_instruction_map ∨
        SignaturePair exampleGraph exampleGraph exampleLeftComputation exampleRightComputation
          x.left x.right) ∧
    ∃ new, (MatchComputationGraphs exampleGraph exampleGraph exampleLeftComputation
        exampleRightComputation
        (exampleMappings exampleRightComputation ComputationMatchType.kSignature)
        (exampleSimilarity 1 0) (exampleSimilarity 1 0)).requests
        = (exampleMappings exampleRightComputation ComputationMatchType.kSignature).requests
          ++ new ∧
      ∀ x ∈ new, SignaturePair exampleGraph exampleGraph exampleLeftComputation
        exampleRightComputation x.left x.right :=
  c12_signature_maps_only_call_sites_leaves_and_roots exampleGraph exampleGraph
    exampleLeftComputation exampleRightComputation
    (exampleMappings exampleRightComputation ComputationMatchType.kSignature)
    (exampleSimilarity 1 0) (exampleSimilarity 1 0)
    ⟨exampleLeftComputation, exampleRightComputation, ⟨ComputationMatchType.kSignature⟩⟩
    (by decide) (by decide)

/-- For a Signature match whose roots have the same opcode, the last request of
`MatchComputationGraphs` is the pair of the roots. -/
theorem signature_requests_roots (left right : HloGumgraph)
    (left_computation right_computation : CallGraphNode) (m : HloGumgraphMappings)
    (ps cs : PropertyMatchesFn) (it : ComputationMapping)
    (hrec : m.left_to_right_computation_map.find?
      (fun e => decide (e.left = left_computation)) = some it)
    (hsig : it.info.computation_match_type = ComputationMatchType.kSignature)
    (hop : left_computation.computation.root_instruction.opcode
      = right_computation.computation.root_instruction.opcode) :
    (⟨left.GetNode left_computation.computation.root_instruction,
        right.GetNode right_computation.computation.root_instruction,
        MatcherType.kComputationGraphExactSignatureMatcher⟩ : InstructionMapping) ∈
      ((MatchComputationGraphs left right left_computation right_computation m ps
        cs).requests).drop m.requests.length := by
  have hprefix : ∃ rest, (MatchComputationConstants left right left_computation right_computation
      (MatchComputationParams left right left_computation right_computation
        (MatchCallSites left right left_computation right_computation m)
        MatcherType.kComputationGraphExactSignatureMatcher ps)
      MatcherType.kComputationGraphExactSignatureMatcher cs).requests = m.requests ++ rest := by
    apply MatchComputationConstants_induct left right left_computation right_computation _ cs
      (fun m' => ∃ rest, m'.requests = m.requests ++ rest)
    · rintro m' l r t ⟨rest, h⟩
      exact ⟨rest ++ [⟨l, r, t⟩], by rw [MapInstructionsIfAbsent_requests, h]; simp⟩
    · apply MatchComputationParams_induct left right left_computation right_computation _ ps
        (fun m' => ∃ rest, m'.requests = m.requests ++ rest)
      · rintro m' l r t ⟨rest, h⟩
        exact ⟨rest ++ [⟨l, r, t⟩], by rw [MapInstructionsIfAbsent_requests, h]; simp⟩
      · apply MatchCallSites_induct left right left_computation right_computation
          (fun m' => ∃ rest, m'.requests = m.requests ++ rest)
        · rintro m' l r t ⟨rest, h⟩
          exact ⟨rest ++ [⟨l, r, t⟩], by rw [MapInstructionsIfAbsent_requests, h]; simp⟩
        · exact ⟨[], by simp⟩
  obtain ⟨rest, hrest⟩ := hprefix
  unfold MatchComputationGraphs
  rw [hrec]
  simp only [hsig]
  rw [if_neg (by decide), if_pos hop, MapInstructionsIfAbsent_requests, hrest]
  simp

/-- C11: for a computation pair recorded as a Signature match,
`MatchComputationGraphs` requests the mapping of the left root to the right
root if and only if the two roots have the same opcode; when the opcodes
differ, no step of the call requests the pair of the roots, whatever the matcher
type.  (The graphs are well formed: `GetNode` tells the root from every other
instruction, parameters have the parameter opcode, and the left calling
instruction is not the left root.) -/
theorem c11_roots_mapped_iff_same_opcode (left right : HloGumgraph)
    (left_computation right_computation : CallGraphNode) (m : HloGumgraphMappings)
    (ps cs : PropertyMatchesFn) (it : ComputationMapping)
    (hrec : m.left_to_right_computation_map.find?
      (fun e => decide (e.left = left_computation)) = some it)
    (hsig : it.info.computation_match_type = ComputationMatchType.kSignature)
    (hleft : ∀ i, left.GetNode i = left.GetNode left_computation.computation.root_instruction →
      i = left_computation.computation.root_instruction)
    (hright : ∀ i, right.GetNode i
      = right.GetNode right_computation.computation.root_instruction →
      i = right_computation.computation.root_instruction)
    (hlp : ∀ p ∈ left_computation.computation.parameter_instructions,
      p.opcode = HloOpcode.kParameter)
    (hrp : ∀ p ∈ right_computation.computation.parameter_instructions,
      p.opcode = HloOpcode.kParameter)
    (hcs : ∀ c ∈ left_computation.caller_callsites,
      c.instruction ≠ left_computation.computation.root_instruction) :
    ((⟨left.GetNode left_computation.computation.root_instruction,
        right.GetNode right_computation.computation.root_instruction,
        MatcherType.kComputationGraphExactSignatureMatcher⟩ : InstructionMapping) ∈
      ((MatchComputationGraphs left right left_computation right_computation m ps
        cs).requests).drop m.requests.length ↔
      left_computation.computation.root_instruction.opcode
        = right_computation.computation.root_instruction.opcode) ∧
    (left_computation.computation.root_instruction.opcode
        ≠ right_computation.computation.root_instruction.opcode →
      ∀ t, (⟨left.GetNode left_computation.computation.root_instruction,
          right.GetNode right_computation.computation.root_instruction, t⟩ :
            InstructionMapping) ∉
        ((MatchComputationGraphs left right left_computation right_computation m ps
          cs).requests).drop m.requests.length) := by
  obtain ⟨new, hnew, hpairs⟩ := (signature_pairs_only left right left_computation
    right_computation m ps cs it hrec hsig).2
  have hdrop : ((MatchComputationGraphs left right left_computation right_computation m ps
      cs).requests).drop m.requests.length = new := by
    rw [hnew]; simp
  have key : ∀ t, (⟨left.GetNode left_computation.computation.root_instruction,
      right.GetNode right_computation.computation.root_instruction, t⟩ :
        InstructionMapping) ∈ new →
      left_computation.computation.root_instruction.opcode
        = right_computation.computation.root_instruction.opcode := by
    intro t hx
    rcases hpairs _ hx with ⟨a, _, ha, _, hl, _⟩ | ⟨p, hp, q, hq, hl, hr⟩ |
      ⟨p, _, q, _, hpc, hqc, hl, hr⟩ | ⟨_, _, hop⟩
    · exfalso
      simp only at hl
      exact hcs a (by rw [ha]; simp) (hleft _ hl.symm)
    · simp only at hl hr
      rw [← hleft p hl.symm, ← hright q hr.symm, hlp p hp, hrp q hq]
    · simp only at hl hr
      rw [← hleft p hl.symm, ← hright q hr.symm]
      simp only [HloInstruction.IsConstant, beq_iff_eq] at hpc hqc
      rw [hpc, hqc]
    · exact hop
  rw [hdrop]
  refine ⟨⟨key _, ?_⟩, ?_⟩
  · intro hop
    rw [← hdrop]
    exact signature_requests_roots left right left_computation right_computation m ps cs it
      hrec hsig hop
  · intro hne t hx
    exact hne (key t hx)

/-- Witness for C11: a Signature pair whose two roots are parameters. -/
theorem c11_roots_mapped_iff_same_opcode_witness :
    ((⟨exampleGraph.GetNode exampleLeftComputation.computation.root_instruction,
        exampleGraph.GetNode exampleRightComputation.computation.root_instruction,
        MatcherType.kComputationGraphExactSignatureMatcher⟩ : InstructionMapping) ∈
      ((MatchComputationGraphs exampleGraph exampleGraph exampleLeftComputation
        exampleRightComputation
        (exampleMappings exampleRightComputation ComputationMatchType.kSignature)
        (exampleSimilarity 1 0) (exampleSimilarity 1 0)).requests).drop
        (exampleMappings exampleRightComputation
          ComputationMatchType.kSignature).requests.length ↔
      exampleLeftComputation.computation.root_instruction.opcode
        = exampleRightComputation.computation.root_instruction.opcode) ∧
    (exampleLeftComputation.computation.root_instruction.opcode
        ≠ exampleRightComputation.computation.root_instruction.opcode →
      ∀ t, (⟨exampleGraph.GetNode exampleLeftComputation.computation.root_instruction,
          exampleGraph.GetNode exampleRightComputation.computation.root_instruction, t⟩ :
            InstructionMapping) ∉
        ((MatchComputationGraphs exampleGraph exampleGraph exampleLeftComputation
          exampleRightComputation
          (exampleMappings exampleRightComputation ComputationMatchType.kSignature)
          (exampleSimilarity 1 0) (exampleSimilarity 1 0)).requests).drop
          (exampleMappings exampleRightComputation
            ComputationMatchType.kSignature).requests.length) :=
  c11_roots_mapped_iff_same_opcode exampleGraph exampleGraph exampleLeftComputation
    exampleRightComputation
    (exampleMappings exampleRightComputation ComputationMatchType.kSignature)
    (exampleSimilarity 1 0) (exampleSimilarity 1 0)
    ⟨exampleLeftComputation, exampleRightComputation, ⟨ComputationMatchType.kSignature⟩⟩
    (by decide) (by decide)
    (fun i h => by simpa [exampleGraph] using congrArg HloInstructionNode.instruction h)
    (fun i h => by simpa [exampleGraph] using congrArg HloInstructionNode.instruction h)
    (by decide) (by decide) (by decide)

/-! ## Order of enumeration -/

theorem find_candidates_eq_one (l c : HloInstructionNode) (rs : List HloInstructionNode) :
    MatchLeafInstructions.find_candidates l rs = (1, some c) ↔
      rs.filter (MatchLeafInstructions.same_shape_and_op_name l) = [c] := by
  rw [find_candidates_eq]
  constructor
  · intro h
    have h1 := (Prod.ext_iff.1 h).1
    have h2 := (Prod.ext_iff.1 h).2
    simp only at h1 h2
    obtain ⟨a, ha⟩ := List.length_eq_one.1 h1
    rw [ha] at h2 ⊢
    simp only [List.getLast?_singleton, Option.some.injEq] at h2
    rw [h2]
  · intro h
    rw [h]
    rfl

/-- The candidate of phase 1 does not depend on the order of the right set. -/
theorem phase1_candidate_perm (right right' : List HloInstructionNode)
    (hp : right.Perm right') (l : HloInstructionNode) :
    MatchLeafInstructions.phase1_candidate right l
      = MatchLeafInstructions.phase1_candidate right' l := by
  apply Option.ext
  intro c
  simp only [Option.mem_def, phase1_candidate_eq_some, find_candidates_eq_one]
  have hf := hp.filter (MatchLeafInstructions.same_shape_and_op_name l)
  constructor
  · rintro ⟨h1, h2⟩
    rw [h2] at hf
    exact ⟨h1, List.singleton_perm.1 hf |>.symm⟩
  · rintro ⟨h1, h2⟩
    rw [h2] at hf
    exact ⟨h1, List.perm_singleton.1 hf⟩

/-- The pairs of phase 1 are the same, up to their order, for every order of
the two sets. -/
theorem phase1_pairs_perm (left left' right right' : List HloInstructionNode)
    (hl : left.Perm left') (hr : right.Perm right') :
    (MatchLeafInstructions.phase1_pairs left right).Perm
      (MatchLeafInstructions.phase1_pairs left' right') := by
  unfold MatchLeafInstructions.phase1_pairs
  have hfun : (fun l => (MatchLeafInstructions.phase1_candidate right l).map (fun c => (l, c)))
      = (fun l => (MatchLeafInstructions.phase1_candidate right' l).map (fun c => (l, c))) := by
    funext l
    rw [phase1_candidate_perm right right' hr l]
  rw [hfun]
  exact hl.filterMap _

theorem phase1_matched_perm (left left' right right' : List HloInstructionNode)
    (m m' : HloGumgraphMappings) (t : MatcherType)
    (hl : left.Perm left') (hr : right.Perm right') (x : HloInstructionNode) :
    x ∈ (MatchLeafInstructions.phase1 left right m t).2 ↔
      x ∈ (MatchLeafInstructions.phase1 left' right' m' t).2 := by
  rw [mem_phase1_matched, mem_phase1_matched]
  have hp := phase1_pairs_perm left left' right right' hl hr
  constructor
  · rintro ⟨p, h1, h2⟩
    exact ⟨p, hp.mem_iff.1 h1, h2⟩
  · rintro ⟨p, h1, h2⟩
    exact ⟨p, hp.mem_iff.2 h1, h2⟩

/-- Two groups with the same key, from two orders of the same set and two
matched sets with the same members, hold the same instructions. -/
theorem group_perm (matched matched' xs xs' : List HloInstructionNode)
    (hm : ∀ x, x ∈ matched ↔ x ∈ matched') (hx : xs.Perm xs')
    (e e' : String × List HloInstructionNode)
    (he : e ∈ MatchLeafInstructions.instructions_by_shape matched xs)
    (he' : e' ∈ MatchLeafInstructions.instructions_by_shape matched' xs')
    (hk : e'.1 = e.1) : e.2.Perm e'.2 := by
  rw [List.perm_ext_iff_of_nodup ((instructions_by_shape_inv matched xs).1 e he).1
    ((instructions_by_shape_inv matched' xs').1 e' he').1]
  intro a
  rw [mem_group matched xs e he a, mem_group matched' xs' e' he' a, hk, hx.mem_iff, hm a]

theorem right_candidates_perm (fn : PropertyMatchesFn) (l c : HloInstructionNode)
    (rs rs' : List HloInstructionNode) (hn : rs.Nodup) (hp : rs.Perm rs')
    (h : MatchInstructionsWithMultipleCandidates.right_candidates fn l rs = [c]) :
    MatchInstructionsWithMultipleCandidates.right_candidates fn l rs' = [c] := by
  rw [right_candidates_eq_singleton fn l c rs hn] at h
  rw [right_candidates_eq_singleton fn l c rs' (hp.nodup_iff.1 hn)]
  obtain ⟨h1, h2, h3⟩ := h
  exact ⟨hp.mem_iff.1 h1, h2, fun r' hr' hne => h3 r' (hp.mem_iff.2 hr') hne⟩

/-- The requests for a pair of groups do not depend on the order of the
groups. -/
theorem GroupRequest_perm (fn : PropertyMatchesFn) (t : MatcherType)
    (gl gl' gr gr' : List HloInstructionNode) (x : InstructionMapping)
    (hl : gl.Perm gl') (hr : gr.Perm gr') (hn : gr.Nodup)
    (h : GroupRequest fn t gl gr x) : GroupRequest fn t gl' gr' x := by
  obtain ⟨ht, h | ⟨h1, h2, h3⟩⟩ := h
  · refine ⟨ht, Or.inl ⟨?_, ?_⟩⟩
    · rw [h.1] at hl
      exact (List.singleton_perm.1 hl).symm
    · rw [h.2] at hr
      exact (List.singleton_perm.1 hr).symm
  · refine ⟨ht, Or.inr ⟨?_, hl.mem_iff.1 h2, right_candidates_perm fn _ _ gr gr' hn hr h3⟩⟩
    rw [← hl.length_eq, ← hr.length_eq]
    exact h1

/-- The requests of one iteration of the last loop of `MatchLeafInstructions`. -/
theorem phase2_step_new (rgs : List (String × List HloInstructionNode))
    (fn : PropertyMatchesFn) (t : MatcherType) (m : HloGumgraphMappings)
    (entry : String × List HloInstructionNode) :
    ∃ new : List InstructionMapping,
      (MatchLeafInstructions.phase2_step rgs fn t m entry).requests = m.requests ++ new ∧
      ∀ x, x ∈ new ↔ ∃ it, rgs.find? (fun e => decide (e.1 = entry.1)) = some it ∧
        GroupRequest fn t entry.2 it.2 x := by
  unfold MatchLeafInstructions.phase2_step
  cases hfind : rgs.find? (fun e => decide (e.1 = entry.1)) with
  | none => exact ⟨[], by simp, by simp⟩
  | some it =>
    simp only [Option.some.injEq, exists_eq_left']
    split
    · rename_i l r hl hr
      refine ⟨[⟨l, r, t⟩], MapInstructionsIfAbsent_requests m l r t, ?_⟩
      intro x
      rw [List.mem_singleton]
      unfold GroupRequest
      rw [hl, hr]
      constructor
      · intro h
        rw [h]
        exact ⟨rfl, Or.inl ⟨rfl, rfl⟩⟩
      · rintro ⟨ht, ⟨h1, h2⟩ | ⟨h1, _⟩⟩
        · cases x
          simp only [List.cons.injEq, and_true] at h1 h2
          simp only at ht
          rw [h1, h2, ht]
        · exact absurd ⟨rfl, rfl⟩ h1
    · rename_i hns
      obtain ⟨new, h1, h2⟩ := tournament_requests entry.2 it.2 fn t m
      refine ⟨new, h1, ?_⟩
      intro x
      rw [h2]
      unfold GroupRequest
      constructor
      · rintro ⟨ht, hl, hc⟩
        refine ⟨ht, Or.inr ⟨?_, hl, hc⟩⟩
        rintro ⟨hl1, hr1⟩
        obtain ⟨a, ha⟩ := List.length_eq_one.1 hl1
        obtain ⟨b, hb⟩ := List.length_eq_one.1 hr1
        exact hns a b ha hb
      · rintro ⟨ht, ⟨h3, h4⟩ | ⟨_, hl, hc⟩⟩
        · exact absurd h4 (hns _ _ h3)
        · exact ⟨ht, hl, hc⟩

/-- The requests of the last loop of `MatchLeafInstructions`. -/
theorem phase2_new (rgs : List (String × List HloInstructionNode))
    (fn : PropertyMatchesFn) (t : MatcherType)
    (lgs : List (String × List HloInstructionNode)) :
    ∀ m : HloGumgraphMappings, ∃ new : List InstructionMapping,
      (MatchLeafInstructions.phase2 lgs rgs m fn t).requests = m.requests ++ new ∧
      ∀ x, x ∈ new ↔ ∃ entry ∈ lgs, ∃ it,
        rgs.find? (fun e => decide (e.1 = entry.1)) = some it ∧
          GroupRequest fn t entry.2 it.2 x := by
  unfold MatchLeafInstructions.phase2
  induction lgs with
  | nil => intro m; exact ⟨[], by simp, by simp⟩
  | cons entry lgs ih =>
    intro m
    simp only [List.foldl_cons]
    obtain ⟨new1, h1, h2⟩ := phase2_step_new rgs fn t m entry
    obtain ⟨new2, h3, h4⟩ := ih (MatchLeafInstructions.phase2_step rgs fn t m entry)
    refine ⟨new1 ++ new2, ?_, ?_⟩
    · rw [h3, h1, List.append_assoc]
    · intro x
      rw [List.mem_append, h2, h4]
      simp only [List.mem_cons, exists_eq_or_imp]

/-- The requests that `MatchLeafInstructions` adds when the two sets are not
both singletons: the pairs of the first loop, then the requests for the groups
of one shape string. -/
theorem MatchLeafInstructions_new (left right : List HloInstructionNode)
    (m : HloGumgraphMappings) (fn : PropertyMatchesFn) (t : MatcherType)
    (hs : ¬ (left.length = 1 ∧ right.length = 1)) :
    ∃ new : List InstructionMapping,
      (MatchLeafInstructions left right m fn t).requests = m.requests ++ new ∧
      ∀ x, x ∈ new ↔
        (∃ p ∈ MatchLeafInstructions.phase1_pairs left right,
          x = (⟨p.1, p.2, t⟩ : InstructionMapping)) ∨
        ∃ entry ∈ MatchLeafInstructions.instructions_by_shape
            (MatchLeafInstructions.phase1 left right m t).2 left,
          ∃ it, (MatchLeafInstructions.instructions_by_shape
              (MatchLeafInstructions.phase1 left right m t).2 right).find?
                (fun e => decide (e.1 = entry.1)) = some it ∧
            GroupRequest fn t entry.2 it.2 x := by
  rw [MatchLeafInstructions_of_not_singletons left right m fn t hs]
  obtain ⟨new2, h1, h2⟩ := phase2_new
    (MatchLeafInstructions.instructions_by_shape
      (MatchLeafInstructions.phase1 left right m t).2 right) fn t
    (MatchLeafInstructions.instructions_by_shape
      (MatchLeafInstructions.phase1 left right m t).2 left)
    (MatchLeafInstructions.phase1 left right m t).1
  refine ⟨(MatchLeafInstructions.phase1_pairs left right).map
    (fun p => (⟨p.1, p.2, t⟩ : InstructionMapping)) ++ new2, ?_, ?_⟩
  · rw [h1, phase1_requests, List.append_assoc]
  · intro x
    rw [List.mem_append, h2, List.mem_map]
    constructor
    · rintro (⟨p, hp, he⟩ | h)
      · exact Or.inl ⟨p, hp, he.symm⟩
      · exact Or.inr h
    · rintro (⟨p, hp, he⟩ | h)
      · exact Or.inl ⟨p, hp, he.symm⟩
      · exact Or.inr h

/-- The requests that a call adds are the requests after the ones that were
there before. -/
theorem drop_requests_of_append (m result : HloGumgraphMappings) (new : List InstructionMapping)
    (h : result.requests = m.requests ++ new) :
    result.requests.drop m.requests.length = new := by
  rw [h, List.drop_left]

/-- One direction of the independence of the requests from the order of
enumeration. -/
theorem new_requests_subset_of_perm (left left' right right' : List HloInstructionNode)
    (m : HloGumgraphMappings) (fn : PropertyMatchesFn) (t : MatcherType)
    (hl : left.Perm left') (hr : right.Perm right') (x : InstructionMapping)
    (hx : x ∈ (MatchLeafInstructions left right m fn t).requests.drop m.requests.length) :
    x ∈ (MatchLeafInstructions left' right' m fn t).requests.drop m.requests.length := by
  by_cases hs : left.length = 1 ∧ right.length = 1
  · obtain ⟨a, ha⟩ := List.length_eq_one.1 hs.1
    obtain ⟨b, hb⟩ := List.length_eq_one.1 hs.2
    rw [ha] at hl
    rw [hb] at hr
    rw [← List.singleton_perm.1 hl, ← List.singleton_perm.1 hr, ← ha, ← hb]
    exact hx
  · have hs' : ¬ (left'.length = 1 ∧ right'.length = 1) := by
      rw [← hl.length_eq, ← hr.length_eq]; exact hs
    obtain ⟨new, h1, h2⟩ := MatchLeafInstructions_new left right m fn t hs
    obtain ⟨new', h1', h2'⟩ := MatchLeafInstructions_new left' right' m fn t hs'
    rw [drop_requests_of_append m _ new h1] at hx
    rw [drop_requests_of_append m _ new' h1', h2']
    have hm := phase1_matched_perm left left' right right' m m t hl hr
    rcases (h2 x).1 hx with ⟨p, hp1, hp2⟩ | ⟨entry, he, it, hfind, hg⟩
    · left
      exact ⟨p, (phase1_pairs_perm left left' right right' hl hr).mem_iff.1 hp1, hp2⟩
    · right
      have hit := List.mem_of_find?_eq_some hfind
      have hkey : it.1 = entry.1 := by simpa using List.find?_some hfind
      -- the left and the right instruction of the request are in the two groups
      have hxl : x.left ∈ entry.2 := by
        obtain ⟨_, h | ⟨_, h, _⟩⟩ := hg
        · rw [h.1]; simp
        · exact h
      have hxr : x.right ∈ it.2 := by
        obtain ⟨_, h | ⟨_, _, h⟩⟩ := hg
        · rw [h.2]; simp
        · have : x.right ∈ MatchInstructionsWithMultipleCandidates.right_candidates fn x.left
              it.2 := by rw [h]; simp
          exact ((mem_right_candidates fn x.left x.right it.2).1 this).1
      obtain ⟨hl1, hl2, hl3⟩ := (mem_group _ left entry he x.left).1 hxl
      obtain ⟨hr1, hr2, hr3⟩ := (mem_group _ right it hit x.right).1 hxr
      obtain ⟨g', hg'⟩ := (instructions_by_shape_inv
        (MatchLeafInstructions.phase1 left' right' m t).2 left').2 x.left
        (hl.mem_iff.1 hl1) (fun h => hl2 ((hm x.left).2 h))
      obtain ⟨it', hfind', hit', hkey'⟩ := find_group
        (MatchLeafInstructions.phase1 left' right' m t).2 right' x.right
        (hr.mem_iff.1 hr1) (fun h => hr2 ((hm x.right).2 h))
      refine ⟨(x.left.instruction.shape_string, g'), hg', it', ?_, ?_⟩
      · simp only
        rw [hl3, ← hkey, ← hr3]
        exact hfind'
      · apply GroupRequest_perm fn t entry.2 g' it.2 it'.2 x _ _
          ((instructions_by_shape_inv _ right).1 it hit).1 hg
        · exact group_perm _ _ left left' hm hl entry (x.left.instruction.shape_string, g')
            he hg' hl3
        · exact group_perm _ _ right right' hm hr it it' hit hit' (by rw [hkey', hr3])

/-! ### The store as a function of the requests -/

theorem replay_append (m : HloGumgraphMappings) (xs ys : List InstructionMapping) :
    m.replay (xs ++ ys) = (m.replay xs).replay ys := by
  unfold HloGumgraphMappings.replay
  rw [List.foldl_append]

theorem replay_requests (xs : List InstructionMapping) :
    ∀ m : HloGumgraphMappings, (m.replay xs).requests = m.requests ++ xs := by
  unfold HloGumgraphMappings.replay
  induction xs with
  | nil => intro m; simp
  | cons x xs ih =>
    intro m
    simp only [List.foldl_cons]
    rw [ih, MapInstructionsIfAbsent_requests, List.append_assoc]
    rfl

/-- The result of `MatchLeafInstructions` is the start store after the requests
that the call adds. -/
theorem MatchLeafInstructions_eq_replay (left right : List HloInstructionNode)
    (m : HloGumgraphMappings) (fn : PropertyMatchesFn) (t : MatcherType) :
    MatchLeafInstructions left right m fn t
      = m.replay ((MatchLeafInstructions left right m fn t).requests.drop m.requests.length) := by
  have h : ∃ new, MatchLeafInstructions left right m fn t = m.replay new := by
    apply MatchLeafInstructions_induct left right fn t (fun m' => ∃ new, m' = m.replay new)
    · rintro m' l r _ _ ⟨new, hnew⟩
      refine ⟨new ++ [⟨l, r, t⟩], ?_⟩
      rw [replay_append, ← hnew]
      rfl
    · exact ⟨[], rfl⟩
  obtain ⟨new, hnew⟩ := h
  have hreq : (MatchLeafInstructions left right m fn t).requests = m.requests ++ new := by
    rw [hnew, replay_requests]
  rw [drop_requests_of_append m _ new hreq]
  exact hnew

/-- The store after requests of which no two compete for a left or for a right
instruction: the entries of the start store, and every request that no entry of
the start store blocks. -/
theorem mem_replay_of_compatible (xs : List InstructionMapping) :
    ∀ m : HloGumgraphMappings,
      (∀ x ∈ xs, ∀ y ∈ xs, (x.left = y.left ∨ x.right = y.right) → x = y) →
      ∀ e, e ∈ (m.replay xs).left_to_right_instruction_map ↔
        e ∈ m.left_to_right_instruction_map ∨
          (e ∈ xs ∧ ∀ e0 ∈ m.left_to_right_instruction_map,
            e0.left ≠ e.left ∧ e0.right ≠ e.right) := by
  induction xs with
  | nil => intro m _ e; simp [HloGumgraphMappings.replay]
  | cons x xs ih =>
    intro m hc e
    have hc' : ∀ a ∈ xs, ∀ b ∈ xs, (a.left = b.left ∨ a.right = b.right) → a = b :=
      fun a ha b hb => hc a (List.mem_cons_of_mem _ ha) b (List.mem_cons_of_mem _ hb)
    have hstep : m.replay (x :: xs)
        = (m.MapInstructionsIfAbsent x.left x.right x.matcher_type).replay xs := rfl
    rw [hstep, ih _ hc' e]
    by_cases hb : m.left_to_right_instruction_map.any
        (fun e0 => decide (e0.left = x.left) || decide (e0.right = x.right)) = true
    · -- the request is blocked by the start store
      have hmap : (m.MapInstructionsIfAbsent x.left x.right
          x.matcher_type).left_to_right_instruction_map = m.left_to_right_instruction_map := by
        simp only [HloGumgraphMappings.MapInstructionsIfAbsent, hb, if_true]
      rw [hmap]
      constructor
      · rintro (h | ⟨h1, h2⟩)
        · exact Or.inl h
        · exact Or.inr ⟨List.mem_cons_of_mem _ h1, h2⟩
      · rintro (h | ⟨h1, h2⟩)
        · exact Or.inl h
        · rcases List.mem_cons.1 h1 with h1 | h1
          · exfalso
            rw [List.any_eq_true] at hb
            obtain ⟨e0, he0, hor⟩ := hb
            rw [h1] at h2
            have := h2 e0 he0
            simp only [Bool.or_eq_true, decide_eq_true_eq] at hor
            rcases hor with hor | hor
            · exact this.1 hor
            · exact this.2 hor
          · exact Or.inr ⟨h1, h2⟩
    · -- the request is stored
      have hmap : (m.MapInstructionsIfAbsent x.left x.right
          x.matcher_type).left_to_right_instruction_map
            = m.left_to_right_instruction_map ++ [x] := by
        simp only [HloGumgraphMappings.MapInstructionsIfAbsent, hb]
        rfl
      have hfree : ∀ e0 ∈ m.left_to_right_instruction_map,
          e0.left ≠ x.left ∧ e0.right ≠ x.right := by
        intro e0 he0
        constructor
        · intro h
          apply hb
          rw [List.any_eq_true]
          exact ⟨e0, he0, by simp [h]⟩
        · intro h
          apply hb
          rw [List.any_eq_true]
          exact ⟨e0, he0, by simp [h]⟩
      rw [hmap]
      simp only [List.mem_append, List.mem_cons, List.not_mem_nil, or_false]
      constructor
      · rintro ((h | h) | ⟨h1, h2⟩)
        · exact Or.inl h
        · right
          rw [h]
          exact ⟨Or.inl rfl, hfree⟩
        · exact Or.inr ⟨Or.inr h1, fun e0 he0 => h2 e0 (Or.inl he0)⟩
      · rintro (h | ⟨h1 | h1, h2⟩)
        · exact Or.inl (Or.inl h)
        · exact Or.inl (Or.inr h1)
        · by_cases hex : e = x
          · exact Or.inl (Or.inr hex)
          · right
            refine ⟨h1, ?_⟩
            rintro e0 (he0 | he0)
            · exact h2 e0 he0
            · rw [he0]
              constructor
              · intro h
                exact hex (hc x (List.mem_cons_self _ _) e (List.mem_cons_of_mem _ h1)
                  (Or.inl h)).symm
              · intro h
                exact hex (hc x (List.mem_cons_self _ _) e (List.mem_cons_of_mem _ h1)
                  (Or.inr h)).symm

/-- Two lists of compatible requests with the same members give stores with
the same members. -/
theorem replay_map_of_same_members (m : HloGumgraphMappings) (xs ys : List InstructionMapping)
    (hxy : ∀ x, x ∈ xs ↔ x ∈ ys)
    (hc : ∀ x ∈ xs, ∀ y ∈ xs, (x.left = y.left ∨ x.right = y.right) → x = y)
    (e : InstructionMapping) :
    e ∈ (m.replay xs).left_to_right_instruction_map ↔
      e ∈ (m.replay ys).left_to_right_instruction_map := by
  have hc' : ∀ x ∈ ys, ∀ y ∈ ys, (x.left = y.left ∨ x.right = y.right) → x = y :=
    fun x hx y hy => hc x ((hxy x).2 hx) y ((hxy y).2 hy)
  rw [mem_replay_of_compatible xs m hc e, mem_replay_of_compatible ys m hc' e, hxy e]

/-- C13 (amended): for one pair of leaf sets, one start store and one
similarity function, the set of the mappings that `MatchLeafInstructions`
requests is the same for every order in which the two sets are enumerated.  The
set of the mappings that it stores is the same for every order when no two of
the requested mappings compete for the same left or the same right instruction;
otherwise the request made first wins, and the order decides which one that
is. -/
theorem c13_leaf_requests_independent_of_order (left left' right right' : List HloInstructionNode)
    (m : HloGumgraphMappings) (fn : PropertyMatchesFn) (t : MatcherType)
    (hl : left.Perm left') (hr : right.Perm right') :
    (∀ x, x ∈ (MatchLeafInstructions left right m fn t).requests.drop m.requests.length ↔
      x ∈ (MatchLeafInstructions left' right' m fn t).requests.drop m.requests.length) ∧
    ((∀ x ∈ (MatchLeafInstructions left right m fn t).requests.drop m.requests.length,
      ∀ y ∈ (MatchLeafInstructions left right m fn t).requests.drop m.requests.length,
        (x.left = y.left ∨ x.right = y.right) → x = y) →
      ∀ e, e ∈ (MatchLeafInstructions left right m fn t).left_to_right_instruction_map ↔
        e ∈ (MatchLeafInstructions left' right' m fn t).left_to_right_instruction_map) := by
  have hreq : ∀ x,
      x ∈ (MatchLeafInstructions left right m fn t).requests.drop m.requests.length ↔
        x ∈ (MatchLeafInstructions left' right' m fn t).requests.drop m.requests.length :=
    fun x => ⟨new_requests_subset_of_perm left left' right right' m fn t hl hr x,
      new_requests_subset_of_perm left' left right' right m fn t hl.symm hr.symm x⟩
  refine ⟨hreq, ?_⟩
  intro hc e
  rw [MatchLeafInstructions_eq_replay left right m fn t,
    MatchLeafInstructions_eq_replay left' right' m fn t]
  exact replay_map_of_same_members m _ _ hreq hc e

/-- Witness for C13 (amended): two left and two right leaves of one shape, each
left leaf with a right leaf of its own that scores highest, in two orders. -/
theorem c13_leaf_requests_independent_of_order_witness :
    [exampleLeaf 1 "f32[2]" "", exampleLeaf 2 "f32[2]" ""].Perm
      [exampleLeaf 2 "f32[2]" "", exampleLeaf 1 "f32[2]" ""] ∧
    [exampleLeaf 11 "f32[2]" "", exampleLeaf 12 "f32[2]" ""].Perm
      [exampleLeaf 12 "f32[2]" "", exampleLeaf 11 "f32[2]" ""] ∧
    (∀ x, x ∈ (MatchLeafInstructions [exampleLeaf 1 "f32[2]" "", exampleLeaf 2 "f32[2]" ""]
        [exampleLeaf 11 "f32[2]" "", exampleLeaf 12 "f32[2]" ""] exampleEmptyMappings
        exampleDiagonalSimilarity MatcherType.kComputationGraphExactSignatureMatcher).requests.drop
          exampleEmptyMappings.requests.length ↔
      x ∈ (MatchLeafInstructions [exampleLeaf 2 "f32[2]" "", exampleLeaf 1 "f32[2]" ""]
        [exampleLeaf 12 "f32[2]" "", exampleLeaf 11 "f32[2]" ""] exampleEmptyMappings
        exampleDiagonalSimilarity MatcherType.kComputationGraphExactSignatureMatcher).requests.drop
          exampleEmptyMappings.requests.length) ∧
    (∀ e, e ∈ (MatchLeafInstructions [exampleLeaf 1 "f32[2]" "", exampleLeaf 2 "f32[2]" ""]
        [exampleLeaf 11 "f32[2]" "", exampleLeaf 12 "f32[2]" ""] exampleEmptyMappings
        exampleDiagonalSimilarity
        MatcherType.kComputationGraphExactSignatureMatcher).left_to_right_instruction_map ↔
      e ∈ (MatchLeafInstructions [exampleLeaf 2 "f32[2]" "", exampleLeaf 1 "f32[2]" ""]
        [exampleLeaf 12 "f32[2]" "", exampleLeaf 11 "f32[2]" ""] exampleEmptyMappings
        exampleDiagonalSimilarity
        MatcherType.kComputationGraphExactSignatureMatcher).left_to_right_instruction_map) :=
  ⟨List.Perm.swap _ _ _, List.Perm.swap _ _ _,
    (c13_leaf_requests_independent_of_order _ _ _ _ exampleEmptyMappings
      exampleDiagonalSimilarity MatcherType.kComputationGraphExactSignatureMatcher
      (List.Perm.swap _ _ _) (List.Perm.swap _ _ _)).1,
    (c13_leaf_requests_independent_of_order _ _ _ _ exampleEmptyMappings
      exampleDiagonalSimilarity MatcherType.kComputationGraphExactSignatureMatcher
      (List.Perm.swap _ _ _) (List.Perm.swap _ _ _)).2 (by decide)⟩

/-- C13, as stated, fails: the same two left and the same two right leaves, the
same start store and the same similarity function, under which no left leaf
gives two right leaves the same score, enumerated in two orders, give two
different stores, because both left leaves score the right leaf `11` highest
and the request made first wins. -/
theorem c13_leaf_order_counterexample :
    (MatchLeafInstructions [exampleLeaf 1 "f32[2]" "", exampleLeaf 2 "f32[2]" ""]
        [exampleLeaf 11 "f32[2]" "", exampleLeaf 12 "f32[2]" ""] exampleEmptyMappings
        exampleCompetingSimilarity
        MatcherType.kComputationGraphExactSignatureMatcher).left_to_right_instruction_map
      = [⟨exampleLeaf 1 "f32[2]" "", exampleLeaf 11 "f32[2]" "",
          MatcherType.kComputationGraphExactSignatureMatcher⟩] ∧
    (MatchLeafInstructions [exampleLeaf 2 "f32[2]" "", exampleLeaf 1 "f32[2]" ""]
        [exampleLeaf 11 "f32[2]" "", exampleLeaf 12 "f32[2]" ""] exampleEmptyMappings
        exampleCompetingSimilarity
        MatcherType.kComputationGraphExactSignatureMatcher).left_to_right_instruction_map
      = [⟨exampleLeaf 2 "f32[2]" "", exampleLeaf 11 "f32[2]" "",
          MatcherType.kComputationGraphExactSignatureMatcher⟩] ∧
    (∀ l ∈ [exampleLeaf 1 "f32[2]" "", exampleLeaf 2 "f32[2]" ""],
      ∀ r ∈ [exampleLeaf 11 "f32[2]" "", exampleLeaf 12 "f32[2]" ""],
        ∀ r' ∈ [exampleLeaf 11 "f32[2]" "", exampleLeaf 12 "f32[2]" ""],
          exampleCompetingSimilarity l r = exampleCompetingSimilarity l r' → r = r') := by
  decide

/-! ## The shapes of the leaves that `MatchLeafInstructions` pairs -/

/-- C38: unless both leaf sets are singletons, every mapping that
`MatchLeafInstructions` requests pairs a member of the left set with a member of
the right set, and the two have the same shape string: a pair of the op-name
phase has passed the test `same_shape`, and a pair of the shape groups, be it
the pair of two singleton groups or a pair of the tournament, comes from the
left and the right group of one shape string. -/
theorem c38_leaf_requests_pair_equal_shapes
    (left_instructions right_instructions : List HloInstructionNode)
    (m : HloGumgraphMappings) (fn : PropertyMatchesFn) (t : MatcherType)
    (hs : ¬ (left_instructions.length = 1 ∧ right_instructions.length = 1))
    (x : InstructionMapping)
    (hx : x ∈ (MatchLeafInstructions left_instructions right_instructions m fn
      t).requests.drop m.requests.length) :
    x.left ∈ left_instructions ∧ x.right ∈ right_instructions ∧
      x.left.instruction.shape_string = x.right.instruction.shape_string := by
  obtain ⟨new, h1, h2⟩ :=
    MatchLeafInstructions_new left_instructions right_instructions m fn t hs
  rw [drop_requests_of_append m _ new h1, h2] at hx
  rcases hx with ⟨p, hp, hxp⟩ | ⟨entry, hentry, it, hit, hgroup⟩
  · obtain ⟨hl, _, hc⟩ :=
      (mem_phase1_pairs left_instructions right_instructions p.1 p.2).1 hp
    obtain ⟨hr, hsame, _⟩ := find_candidates_some p.1 p.2 right_instructions 1 hc
    rw [hxp]
    exact ⟨hl, hr, same_shape_of_same p.1 p.2 hsame⟩
  · have hitmem := List.mem_of_find?_eq_some hit
    have hkey : it.1 = entry.1 := by
      have := List.find?_some hit
      simpa using this
    obtain ⟨_, hcases⟩ := hgroup
    have hboth : x.left ∈ entry.2 ∧ x.right ∈ it.2 := by
      rcases hcases with ⟨hl, hr⟩ | ⟨_, hl, hc⟩
      · rw [hl, hr]
        exact ⟨List.mem_singleton_self _, List.mem_singleton_self _⟩
      · refine ⟨hl, ?_⟩
        apply (right_candidates_sublist fn x.left it.2).subset
        rw [hc]
        exact List.mem_singleton_self _
    obtain ⟨hl1, _, hl3⟩ := (mem_group _ left_instructions entry hentry x.left).1 hboth.1
    obtain ⟨hr1, _, hr3⟩ := (mem_group _ right_instructions it hitmem x.right).1 hboth.2
    exact ⟨hl1, hr1, by rw [hl3, hr3, hkey]⟩

/-- Witness for C38: two left and two right leaves of the shapes `f32[2]` and
`f32[3]`; both requested pairs are pairs of one shape. -/
theorem c38_leaf_requests_pair_equal_shapes_witness :
    (MatchLeafInstructions [exampleLeaf 1 "f32[2]" "", exampleLeaf 2 "f32[3]" ""]
        [exampleLeaf 11 "f32[3]" "", exampleLeaf 12 "f32[2]" ""] exampleEmptyMappings
        exampleDiagonalSimilarity
        MatcherType.kComputationGraphExactSignatureMatcher).requests.drop
          exampleEmptyMappings.requests.length
      = [⟨exampleLeaf 1 "f32[2]" "", exampleLeaf 12 "f32[2]" "",
            MatcherType.kComputationGraphExactSignatureMatcher⟩,
          ⟨exampleLeaf 2 "f32[3]" "", exampleLeaf 11 "f32[3]" "",
            MatcherType.kComputationGraphExactSignatureMatcher⟩] ∧
    (exampleLeaf 1 "f32[2]" "" ∈ [exampleLeaf 1 "f32[2]" "", exampleLeaf 2 "f32[3]" ""] ∧
      exampleLeaf 12 "f32[2]" "" ∈ [exampleLeaf 11 "f32[3]" "", exampleLeaf 12 "f32[2]" ""] ∧
      (exampleLeaf 1 "f32[2]" "").instruction.shape_string
        = (exampleLeaf 12 "f32[2]" "").instruction.shape_string) :=
  ⟨by decide,
    c38_leaf_requests_pair_equal_shapes [exampleLeaf 1 "f32[2]" "", exampleLeaf 2 "f32[3]" ""]
      [exampleLeaf 11 "f32[3]" "", exampleLeaf 12 "f32[2]" ""] exampleEmptyMappings
      exampleDiagonalSimilarity MatcherType.kComputationGraphExactSignatureMatcher
      (by decide)
      ⟨exampleLeaf 1 "f32[2]" "", exampleLeaf 12 "f32[2]" "",
        MatcherType.kComputationGraphExactSignatureMatcher⟩ (by decide)⟩

end HloDiff

namespace HostOffload

/-! ## Reading a module after an update -/

theorem kDefaultMemorySpace_ne_kHostMemorySpace : kDefaultMemorySpace ≠ kHostMemorySpace := by
  decide

theorem kHostMemorySpace_ne_kDefaultMemorySpace : kHostMemorySpace ≠ kDefaultMemorySpace := by
  decide

/-- The instruction that `get` finds has the id that was asked for. -/
theorem get_id (m : HloModule) (x : Nat) (i : HloInstruction) (h : m.get x = .ok i) :
    i.id = x := by
  unfold HloModule.get at h
  cases hfind : m.instruction? x with
  | none => rw [hfind] at h; cases h
  | some j =>
    rw [hfind] at h
    cases h
    unfold HloModule.instruction? at hfind
    simpa using List.find?_some hfind

/-- After an update that keeps the ids, `instruction?` finds the updated
instruction. -/
theorem instruction?_update (m : HloModule) (id x : Nat) (f : HloInstruction → HloInstruction)
    (hf : ∀ i, (f i).id = i.id) :
    (m.update id f).instruction? x
      = (m.instruction? x).map (fun i => if i.id = id then f i else i) := by
  unfold HloModule.update HloModule.instruction?
  simp only
  rw [List.find?_map]
  congr 1
  congr 1
  funext i
  simp only [Function.comp]
  by_cases h : i.id = id
  · simp only [h, if_true, hf]
  · simp only [h, if_false]

/-- After an update that keeps the ids, `get` finds the updated instruction. -/
theorem get_update (m : HloModule) (id x : Nat) (f : HloInstruction → HloInstruction)
    (hf : ∀ i, (f i).id = i.id) (i : HloInstruction) (h : m.get x = .ok i) :
    (m.update id f).get x = .ok (if i.id = id then f i else i) := by
  unfold HloModule.get at h ⊢
  rw [instruction?_update m id x f hf]
  cases hfind : m.instruction? x with
  | none => rw [hfind] at h; cases h
  | some j =>
    rw [hfind] at h
    cases h
    rfl

/-- The tagged instruction is found with the tag and is otherwise as before. -/
theorem get_SetHostComputeFrontendAttribute (m : HloModule) (id : Nat) (d : HloInstruction)
    (h : m.get id = .ok d) :
    (SetHostComputeFrontendAttribute m id).get id = .ok { d with host_compute := true } := by
  unfold SetHostComputeFrontendAttribute
  rw [get_update m id id (fun i => { i with host_compute := true }) (fun _ => rfl) d h,
    if_pos (get_id m id d h)]

/-- Colouring the whole shape of an instruction that has a layout: the
instruction is found with the coloured shape and is otherwise as before. -/
theorem SetSubshapeMemorySpace_top (m : HloModule) (id : Nat) (d : HloInstruction)
    (element_type : Nat) (dimensions : List Int) (layout : Layout) (color : Int)
    (h : m.get id = .ok d) (hshape : d.shape = .array element_type dimensions (some layout)) :
    ∃ m', SetSubshapeMemorySpace m ⟨id, []⟩ color = .ok m' ∧
      m'.get id = .ok { d with shape := .array element_type dimensions (some ⟨color⟩) } := by
  refine ⟨m.update id (fun i =>
    { i with shape := .array element_type dimensions (some ⟨color⟩) }), ?_, ?_⟩
  · unfold SetSubshapeMemorySpace
    simp only [h, hshape, Shape.UpdateSubshape, SetMemorySpace]
  · rw [get_update m id id
      (fun i => { i with shape := .array element_type dimensions (some ⟨color⟩) })
      (fun _ => rfl) d h, if_pos (get_id m id d h)]

/-! ## The flag `changed` -/

/-- A loop whose body never resets the flag does not reset it. -/
theorem foldlM_flag_mono {α σ : Type} (f : Bool × σ → α → Except Failure (Bool × σ))
    (hf : ∀ st x st', f st x = .ok st' → st.1 = true → st'.1 = true) :
    ∀ (xs : List α) (st r : Bool × σ), xs.foldlM f st = .ok r → st.1 = true → r.1 = true := by
  intro xs
  induction xs with
  | nil =>
    intro st r h hst
    cases h
    exact hst
  | cons x xs ih =>
    intro st r h hst
    rw [List.foldlM_cons] at h
    cases hfx : f st x with
    | error e => rw [hfx] at h; cases h
    | ok st1 =>
      rw [hfx] at h
      exact ih st1 r h (hf st x st1 hfx hst)

/-! ## `HandleDynamicUpdateSlices` -/

/-- The body of the loop of `HandleDynamicUpdateSlices` for a dynamic-update-slice
whose operands are in the memory spaces `operand_memory_space` and
`update_memory_space`. -/
theorem visit_of_memory_spaces (u : Collaborators) (fuel : Nat) (st : Bool × HostOffloader)
    (dus operand0 operand1 : Nat) (d operand update : HloInstruction)
    (operand_memory_space update_memory_space : Int)
    (hd : st.2.module.get dus = .ok d)
    (h0 : d.operand 0 = .ok operand0) (hoperand : st.2.module.get operand0 = .ok operand)
    (h1 : d.operand 1 = .ok operand1) (hupdate : st.2.module.get operand1 = .ok update)
    (hom : operand.shape.memory_space = .ok operand_memory_space)
    (hum : update.shape.memory_space = .ok update_memory_space) :
    HandleDynamicUpdateSlices.visit u fuel st dus =
      if update_memory_space = kHostMemorySpace ∧ operand_memory_space = kDefaultMemorySpace then
        .ok (true, { st.2 with module := SetHostComputeFrontendAttribute st.2.module dus })
      else if update_memory_space = kHostMemorySpace ∧
          operand_memory_space = kHostMemorySpace then
        match SetSubshapeMemorySpace (SetHostComputeFrontendAttribute st.2.module dus) ⟨dus, []⟩
            kHostMemorySpace with
        | .error e => .error e
        | .ok m => .ok (true, { st.2 with module := m })
      else if update_memory_space = kDefaultMemorySpace ∧
          operand_memory_space = kHostMemorySpace then
        match SetSubshapeMemorySpace st.2.module ⟨dus, []⟩ kHostMemorySpace with
        | .error e => .error e
        | .ok m => .ok (true, { st.2 with module := m })
      else if update_memory_space = kDefaultMemorySpace ∧
          operand_memory_space = kDefaultMemorySpace then
        if dus ∈ st.2.dynamic_update_slices_seen_with_annotation_ then
          match CreateAllocateBufferForDynamicUpdateSlice u fuel st.2 dus with
          | .error e => .error e
          | .ok o => .ok (true, o)
        else .ok st
      else .ok st := by
  unfold HandleDynamicUpdateSlices.visit
  simp only [hd, h0, hoperand, h1, hupdate, hom, hum]

/-- The body of the loop of `HandleDynamicUpdateSlices` never resets the flag
`changed`. -/
theorem visit_flag_mono (u : Collaborators) (fuel : Nat) (st : Bool × HostOffloader)
    (dus : Nat) (st' : Bool × HostOffloader)
    (h : HandleDynamicUpdateSlices.visit u fuel st dus = .ok st') (hst : st.1 = true) :
    st'.1 = true := by
  cases hd : st.2.module.get dus with
  | error e => simp only [HandleDynamicUpdateSlices.visit, hd] at h; cases h
  | ok d =>
    cases h0 : d.operand 0 with
    | error e => simp only [HandleDynamicUpdateSlices.visit, hd, h0] at h; cases h
    | ok operand0 =>
      cases hoperand : st.2.module.get operand0 with
      | error e => simp only [HandleDynamicUpdateSlices.visit, hd, h0, hoperand] at h; cases h
      | ok operand =>
        cases hom : operand.shape.memory_space with
        | error e =>
          simp only [HandleDynamicUpdateSlices.visit, hd, h0, hoperand, hom] at h; cases h
        | ok operand_memory_space =>
          cases h1 : d.operand 1 with
          | error e =>
            simp only [HandleDynamicUpdateSlices.visit, hd, h0, hoperand, hom, h1] at h; cases h
          | ok operand1 =>
            cases hupdate : st.2.module.get operand1 with
            | error e =>
              simp only [HandleDynamicUpdateSlices.visit, hd, h0, hoperand, hom, h1,
                hupdate] at h
              cases h
            | ok update =>
              cases hum : update.shape.memory_space with
              | error e =>
                simp only [HandleDynamicUpdateSlices.visit, hd, h0, hoperand, hom, h1, hupdate,
                  hum] at h
                cases h
              | ok update_memory_space =>
                rw [visit_of_memory_spaces u fuel st dus operand0 operand1 d operand update
                  operand_memory_space update_memory_space hd h0 hoperand h1 hupdate hom hum] at h
                split_ifs at h
                · cases h; rfl
                · split at h
                  · cases h
                  · cases h; rfl
                · split at h
                  · cases h
                  · cases h; rfl
                · split at h
                  · cases h
                  · cases h; rfl
                · cases h; exact hst
                · cases h; exact hst

/-- Once the flag `changed` is set, `HandleDynamicUpdateSlices` reports a
change. -/
theorem HandleDynamicUpdateSlices_reports_change (u : Collaborators) (fuel : Nat)
    (o : HostOffloader) (pre post : List Nat) (dus : Nat) (st : Bool × HostOffloader)
    (o' : HostOffloader)
    (hseen : o.dynamic_update_slices_seen_ = pre ++ dus :: post)
    (hpre : pre.foldlM (HandleDynamicUpdateSlices.visit u fuel) (false, o) = .ok st)
    (hvisit : HandleDynamicUpdateSlices.visit u fuel st dus = .ok (true, o'))
    (r : Bool × HostOffloader) (hr : HandleDynamicUpdateSlices u fuel o = .ok r) :
    r.1 = true := by
  unfold HandleDynamicUpdateSlices at hr
  rw [hseen, List.foldlM_append, hpre] at hr
  simp only [bind, Except.bind] at hr
  rw [List.foldlM_cons, hvisit] at hr
  exact foldlM_flag_mono _ (visit_flag_mono u fuel) post (true, o') r hr rfl

/-! ## The first step of `Run` -/

mutual
/-- A shape with a leaf in host memory space sets the flag of
`Shape.RemoveHostMemorySpace`. -/
theorem RemoveHostMemorySpace_flag : ∀ (s : Shape),
    (∃ p ∈ s.leaves, p.2.has_memory_space kHostMemorySpace = true) →
      (Shape.RemoveHostMemorySpace s).2 = true
  | .array t d (some l), h => by
    simp only [Shape.leaves, List.mem_singleton, exists_eq_left, Shape.has_memory_space,
      decide_eq_true_eq] at h
    simp only [Shape.RemoveHostMemorySpace, h, if_true]
  | .array t d none, h => by
    simp only [Shape.leaves, List.mem_singleton, exists_eq_left, Shape.has_memory_space] at h
    cases h
  | .tuple es, h => by
    simp only [Shape.leaves] at h
    simp only [Shape.RemoveHostMemorySpace]
    exact RemoveHostMemorySpace_of_elements_flag 0 es h
/-- The same for the elements of a tuple shape. -/
theorem RemoveHostMemorySpace_of_elements_flag : ∀ (i : Nat) (es : List Shape),
    (∃ p ∈ Shape.leaves_of_elements i es, p.2.has_memory_space kHostMemorySpace = true) →
      (Shape.RemoveHostMemorySpace_of_elements es).2 = true
  | _, [], h => by
    simp only [Shape.leaves_of_elements, List.not_mem_nil, false_and, exists_false] at h
  | i, e :: es, h => by
    simp only [Shape.leaves_of_elements, List.mem_append, List.mem_map] at h
    simp only [Shape.RemoveHostMemorySpace_of_elements, Bool.or_eq_true]
    obtain ⟨p, hp | hp, hmem⟩ := h
    · obtain ⟨q, hq, hqp⟩ := hp
      left
      apply RemoveHostMemorySpace_flag e
      refine ⟨q, hq, ?_⟩
      rw [← hqp] at hmem
      exact hmem
    · right
      exact RemoveHostMemorySpace_of_elements_flag (i + 1) es ⟨p, hp, hmem⟩
end

mutual
/-- A shape that does not set the flag of `Shape.RemoveHostMemorySpace` is left
as it is. -/
theorem RemoveHostMemorySpace_unchanged : ∀ (s : Shape),
    (Shape.RemoveHostMemorySpace s).2 = false → (Shape.RemoveHostMemorySpace s).1 = s
  | .array t d (some l), h => by
    simp only [Shape.RemoveHostMemorySpace] at h ⊢
    split_ifs at h ⊢
    rfl
  | .array t d none, _ => by
    simp only [Shape.RemoveHostMemorySpace]
  | .tuple es, h => by
    simp only [Shape.RemoveHostMemorySpace] at h ⊢
    rw [RemoveHostMemorySpace_of_elements_unchanged es h]
/-- The same for the elements of a tuple shape. -/
theorem RemoveHostMemorySpace_of_elements_unchanged : ∀ (es : List Shape),
    (Shape.RemoveHostMemorySpace_of_elements es).2 = false →
      (Shape.RemoveHostMemorySpace_of_elements es).1 = es
  | [], _ => by
    simp only [Shape.RemoveHostMemorySpace_of_elements]
  | e :: es, h => by
    simp only [Shape.RemoveHostMemorySpace_of_elements, Bool.or_eq_false_iff] at h ⊢
    rw [RemoveHostMemorySpace_unchanged e h.1, RemoveHostMemorySpace_of_elements_unchanged es h.2]
end

/-- The inner loop of `RemoveHostMemorySpaceFromAllShapes` never resets the
flag. -/
theorem RemoveHostMemorySpaceFromAllShapes_visit_mono (instructions : List HloInstruction) :
    ∀ st : Bool × HloModule, st.1 = true →
      (instructions.foldl RemoveHostMemorySpaceFromAllShapes.visit st).1 = true := by
  induction instructions with
  | nil => intro st h; exact h
  | cons i rest ih =>
    intro st h
    rw [List.foldl_cons]
    apply ih
    simp only [RemoveHostMemorySpaceFromAllShapes.visit, h, Bool.true_or]

/-- In a module with unique instruction ids, one step of the inner loop on an
instruction of the module either sets the flag or leaves the module as it
is. -/
theorem RemoveHostMemorySpaceFromAllShapes_visit_unchanged (m : HloModule)
    (hids : (m.instructions.map (fun i => i.id)).Nodup) (i : HloInstruction)
    (hi : i ∈ m.instructions) (b : Bool)
    (hflag : (Shape.RemoveHostMemorySpace i.shape).2 = false) :
    RemoveHostMemorySpaceFromAllShapes.visit (b, m) i = (b, m) := by
  unfold RemoveHostMemorySpaceFromAllShapes.visit
  simp only [hflag, Bool.or_false]
  congr 1
  unfold HloModule.update
  have hmap : m.instructions.map (fun j =>
      if j.id = i.id then { j with shape := (Shape.RemoveHostMemorySpace j.shape).1 } else j)
        = m.instructions := by
    conv_rhs => rw [← List.map_id m.instructions]
    apply List.map_congr_left
    intro j hj
    by_cases hji : j.id = i.id
    · have hjeq : j = i := List.inj_on_of_nodup_map hids hj hi hji
      rw [if_pos hji, hjeq, RemoveHostMemorySpace_unchanged i.shape hflag]
      rfl
    · rw [if_neg hji]
      rfl
  rw [hmap]

/-- The inner loop of `RemoveHostMemorySpaceFromAllShapes` over instructions of
a module with unique instruction ids: the flag is set or the module is as
before, and the flag is set when one of the instructions has a leaf in host
memory space. -/
theorem RemoveHostMemorySpaceFromAllShapes_inner (m : HloModule)
    (hids : (m.instructions.map (fun i => i.id)).Nodup) (instructions : List HloInstruction) :
    (∀ i ∈ instructions, i ∈ m.instructions) →
    ∀ st : Bool × HloModule, (st.1 = true ∨ st.2 = m) →
      ((instructions.foldl RemoveHostMemorySpaceFromAllShapes.visit st).1 = true ∨
        (instructions.foldl RemoveHostMemorySpaceFromAllShapes.visit st).2 = m) ∧
      ((∃ i ∈ instructions, (Shape.RemoveHostMemorySpace i.shape).2 = true) →
        (instructions.foldl RemoveHostMemorySpaceFromAllShapes.visit st).1 = true) := by
  induction instructions with
  | nil =>
    intro _ st h
    exact ⟨h, fun ⟨i, hi, _⟩ => absurd hi (List.not_mem_nil i)⟩
  | cons i rest ih =>
    intro hmem st h
    have hrest : ∀ j ∈ rest, j ∈ m.instructions := fun j hj => hmem j (List.mem_cons_of_mem _ hj)
    rw [List.foldl_cons]
    rcases h with h | h
    · -- the flag is set already
      have h1 : (RemoveHostMemorySpaceFromAllShapes.visit st i).1 = true := by
        simp only [RemoveHostMemorySpaceFromAllShapes.visit, h, Bool.true_or]
      have h2 := RemoveHostMemorySpaceFromAllShapes_visit_mono rest _ h1
      exact ⟨Or.inl h2, fun _ => h2⟩
    · cases hflag : (Shape.RemoveHostMemorySpace i.shape).2 with
      | true =>
        have h1 : (RemoveHostMemorySpaceFromAllShapes.visit st i).1 = true := by
          simp only [RemoveHostMemorySpaceFromAllShapes.visit, hflag, Bool.or_true]
        have h2 := RemoveHostMemorySpaceFromAllShapes_visit_mono rest _ h1
        exact ⟨Or.inl h2, fun _ => h2⟩
      | false =>
        have hst : st = (st.1, m) := by rw [← h]
        have h1 : RemoveHostMemorySpaceFromAllShapes.visit st i = (st.1, m) := by
          rw [hst]
          exact RemoveHostMemorySpaceFromAllShapes_visit_unchanged m hids i
            (hmem i (List.mem_cons_self _ _)) st.1 hflag
        rw [h1]
        obtain ⟨ih1, ih2⟩ := ih hrest (st.1, m) (Or.inr rfl)
        refine ⟨ih1, ?_⟩
        rintro ⟨j, hj, hjflag⟩
        rcases List.mem_cons.1 hj with hj | hj
        · rw [hj, hflag] at hjflag
          cases hjflag
        · exact ih2 ⟨j, hj, hjflag⟩

/-- The loop over the computations in `RemoveHostMemorySpaceFromAllShapes`. -/
theorem RemoveHostMemorySpaceFromAllShapes_outer (m : HloModule)
    (hids : (m.instructions.map (fun i => i.id)).Nodup) (computations : List HloComputation) :
    ∀ st : Bool × HloModule, (st.1 = true ∨ st.2 = m) →
      (st.1 = true ∨ ∃ c ∈ computations, ∃ i ∈ m.instructions_of c.id,
        (Shape.RemoveHostMemorySpace i.shape).2 = true) →
      (computations.foldl
        (fun st computation =>
          (st.2.instructions_of computation.id).foldl RemoveHostMemorySpaceFromAllShapes.visit st)
        st).1 = true := by
  induction computations with
  | nil =>
    intro st _ h
    rcases h with h | ⟨c, hc, _⟩
    · exact h
    · exact absurd hc (List.not_mem_nil c)
  | cons c rest ih =>
    intro st hinv h
    rw [List.foldl_cons]
    rcases hinv with hflag | hmodule
    · -- the flag is set already
      have h1 := RemoveHostMemorySpaceFromAllShapes_visit_mono
        (st.2.instructions_of c.id) st hflag
      exact ih _ (Or.inl h1) (Or.inl h1)
    · have hsub : ∀ i ∈ st.2.instructions_of c.id, i ∈ m.instructions := by
        intro i hi
        rw [hmodule] at hi
        exact (List.mem_filter.1 hi).1
      obtain ⟨h1, h2⟩ := RemoveHostMemorySpaceFromAllShapes_inner m hids
        (st.2.instructions_of c.id) hsub st (Or.inr hmodule)
      rcases h with h | ⟨c', hc', i, hi, hiflag⟩
      · have h3 := RemoveHostMemorySpaceFromAllShapes_visit_mono
          (st.2.instructions_of c.id) st h
        exact ih _ (Or.inl h3) (Or.inl h3)
      · rcases List.mem_cons.1 hc' with hc' | hc'
        · have h3 := h2 ⟨i, by rw [hmodule, ← hc']; exact hi, hiflag⟩
          exact ih _ (Or.inl h3) (Or.inl h3)
        · exact ih _ h1 (Or.inr ⟨c', hc', i, hi, hiflag⟩)

/-- In a module with unique instruction ids that has an instruction with a leaf
in host memory space, `RemoveHostMemorySpaceFromAllShapes` reports a change. -/
theorem RemoveHostMemorySpaceFromAllShapes_reports_change (m : HloModule)
    (hids : (m.instructions.map (fun i => i.id)).Nodup)
    (hhost : ∃ c ∈ m.computations, ∃ i ∈ m.instructions_of c.id,
      ∃ p ∈ i.shape.leaves, p.2.has_memory_space kHostMemorySpace = true) :
    (RemoveHostMemorySpaceFromAllShapes m).1 = true := by
  unfold RemoveHostMemorySpaceFromAllShapes
  apply RemoveHostMemorySpaceFromAllShapes_outer m hids m.computations (false, m) (Or.inr rfl)
  right
  obtain ⟨c, hc, i, hi, hleaf⟩ := hhost
  exact ⟨c, hc, i, hi, RemoveHostMemorySpace_flag i.shape hleaf⟩

/-! ## The flag `changed` of `Run` -/

theorem handle_async_start_mono (u : Collaborators) (fuel : Nat) (st : Bool × HloModule)
    (instruction : Nat) (st' : Bool × HloModule)
    (h : Run.handle_async_start u fuel st instruction = .ok st') (hst : st.1 = true) :
    st'.1 = true := by
  unfold Run.handle_async_start at h
  split at h
  · cases h
  · split_ifs at h
    · split at h
      · cases h
      · cases h
        simp only [hst, Bool.true_or]
    · cases h
      exact hst

theorem remove_move_to_device_mono (st : Bool × HostOffloader) (instruction : Nat)
    (st' : Bool × HostOffloader)
    (h : Run.remove_move_to_device st instruction = .ok st') (hst : st.1 = true) :
    st'.1 = true := by
  unfold Run.remove_move_to_device at h
  split at h
  · cases h
  · split_ifs at h
    · split at h
      · cases h
      · cases h
        simp only [hst, Bool.true_or]
    · cases h
      exact hst

theorem move_to_host_loop_mono (u : Collaborators) (fuel : Nat) :
    ∀ (iterations : Nat) (st r : Bool × HostOffloader),
      Run.move_to_host_loop u fuel iterations st = .ok r → st.1 = true → r.1 = true := by
  intro iterations
  induction iterations with
  | zero =>
    intro st r h _
    simp only [Run.move_to_host_loop] at h
    cases h
  | succ n ih =>
    intro st r h hst
    rw [Run.move_to_host_loop] at h
    split at h
    · cases h
    · exact ih _ r h rfl
    · cases h
      exact hst

/-- When its first step reports a change, `Run` reports a change if it
returns. -/
theorem Run_reports_change_of_first_step (u : Collaborators) (fuel : Nat) (o : HostOffloader)
    (execution_threads : List String) (r : Bool × HostOffloader)
    (h : Run u fuel o execution_threads = .ok r)
    (hfirst : (RemoveHostMemorySpaceFromAllShapes o.module).1 = true) : r.1 = true := by
  unfold Run at h
  simp only at h
  split at h
  · cases h
  · rename_i changed1 m1 h1
    have hc1 : changed1 = true :=
      foldlM_flag_mono _
        (fun st computation st' hst' hst =>
          foldlM_flag_mono _ (handle_async_start_mono u fuel) _ st st' hst' hst)
        _ _ _ h1 hfirst
    split at h
    · cases h
    · rename_i changed2 o2 h2
      split at h
      · cases h
      · rename_i changed3 o3 h3
        have hc3 : changed3 = true :=
          move_to_host_loop_mono u fuel fuel _ _ h3 (by simp only [hc1, Bool.true_or])
        split at h
        · cases h
        · rename_i any_dus_changed o4 h4
          split at h
          · cases h
          · rename_i changed5 o5 h5
            have hc5 : changed5 = true :=
              foldlM_flag_mono _
                (fun st computation st' hst' hst =>
                  foldlM_flag_mono _ remove_move_to_device_mono _ st st' hst' hst)
                _ _ _ h5 (by simp only [hc3, Bool.true_or])
            split at h
            · cases h
            · split at h
              · cases h
              · cases h
                simp only [hc5, Bool.true_or]

/-- C14 (amended): `Run` is not idempotent: its first step removes host
memory space from every instruction shape and counts that as a change.  On a
module with unique instruction ids in which an instruction of a computation has
a leaf shape in host memory space, as the result of a `Run` that moved a buffer
to host has, every `Run` that succeeds reports a change. -/
theorem c14_run_reports_change_on_host_colored_module (u : Collaborators) (fuel : Nat)
    (o : HostOffloader) (execution_threads : List String) (r : Bool × HostOffloader)
    (hids : (o.module.instructions.map (fun i => i.id)).Nodup)
    (hhost : ∃ c ∈ o.module.computations, ∃ i ∈ o.module.instructions_of c.id,
      ∃ p ∈ i.shape.leaves, p.2.has_memory_space kHostMemorySpace = true)
    (hrun : Run u fuel o execution_threads = .ok r) : r.1 = true :=
  Run_reports_change_of_first_step u fuel o execution_threads r hrun
    (RemoveHostMemorySpaceFromAllShapes_reports_change o.module hids hhost)

/-- Witness for C14 (amended): the module `p0 -> copy` with the copy in host
memory space, which a first `Run` leaves. -/
theorem c14_run_reports_change_on_host_colored_module_witness :
    ((exampleOffloader (exampleOffloadedModule kHostMemorySpace)).module.instructions.map
      (fun i => i.id)).Nodup ∧
    (∃ c ∈ (exampleOffloader (exampleOffloadedModule kHostMemorySpace)).module.computations,
      ∃ i ∈ (exampleOffloader (exampleOffloadedModule kHostMemorySpace)).module.instructions_of
        c.id,
        ∃ p ∈ i.shape.leaves, p.2.has_memory_space kHostMemorySpace = true) ∧
    Run exampleCollaborators 10 (exampleOffloader (exampleOffloadedModule kHostMemorySpace)) []
      = .ok (true, exampleOffloader (exampleOffloadedModule kDefaultMemorySpace)) ∧
    (true, exampleOffloader (exampleOffloadedModule kDefaultMemorySpace)).1 = true :=
  ⟨by decide,
    ⟨⟨0, "main", 10⟩, by decide, exampleCopy kHostMemorySpace, by decide,
      ([], exampleShape kHostMemorySpace), by decide, by decide⟩,
    rfl,
    c14_run_reports_change_on_host_colored_module exampleCollaborators 10
      (exampleOffloader (exampleOffloadedModule kHostMemorySpace)) []
      (true, exampleOffloader (exampleOffloadedModule kDefaultMemorySpace))
      (by decide)
      ⟨⟨0, "main", 10⟩, by decide, exampleCopy kHostMemorySpace, by decide,
        ([], exampleShape kHostMemorySpace), by decide, by decide⟩
      rfl⟩

/-- C14, as stated, fails: on the module `p0 -> MoveToHost`
(root) `Run` succeeds and leaves `p0 -> copy` with the copy in host memory; a
second `Run` on that module, by a new pass object or by the same one, reports a
change again, and the copy is back in device memory space. -/
theorem c14_second_run_counterexample :
    Run exampleCollaborators 10 (exampleOffloader exampleMoveToHostRootModule) []
      = .ok (true,
          { exampleOffloader (exampleOffloadedModule kHostMemorySpace) with
            already_visited_move_to_host_custom_calls_ := [2] }) ∧
    Run exampleCollaborators 10 (exampleOffloader (exampleOffloadedModule kHostMemorySpace)) []
      = .ok (true, exampleOffloader (exampleOffloadedModule kDefaultMemorySpace)) ∧
    Run exampleCollaborators 10
        { exampleOffloader (exampleOffloadedModule kHostMemorySpace) with
          already_visited_move_to_host_custom_calls_ := [2] } []
      = .ok (true,
          { exampleOffloader (exampleOffloadedModule kDefaultMemorySpace) with
            already_visited_move_to_host_custom_calls_ := [2] }) ∧
    exampleOffloadedModule kDefaultMemorySpace ≠ exampleOffloadedModule kHostMemorySpace :=
  ⟨rfl, rfl, rfl, by decide⟩

/-! ## The root of the entry computation in `WalkDownHostMemoryOffloadPaths` -/

/-- The chain of `if`s at the head of the loop body changes neither the module
nor the queue. -/
theorem classify_rest_of_body (u : Collaborators) (fuel : Nat) (starting_instruction : Nat)
    (w : WalkState) (node : InstructionAndShapeIndex) (instruction : HloInstruction)
    (w' : WalkState) (already_saved_buffer need_to_wrap : Bool)
    (h : WalkDownHostMemoryOffloadPaths.classify u fuel starting_instruction w node instruction
      = .ok (.rest_of_body w' already_saved_buffer need_to_wrap)) :
    w'.offloader.module = w.offloader.module ∧ w'.queue = w.queue := by
  unfold WalkDownHostMemoryOffloadPaths.classify at h
  simp only at h
  split_ifs at h
  all_goals first
    | (cases h; exact ⟨rfl, rfl⟩)
    | cases h
    | (split at h <;> first | (cases h; exact ⟨rfl, rfl⟩) | cases h)

/-- Tagging an instruction for host compute keeps the instructions that `get`
finds, up to the tag. -/
theorem get_of_tagged (m : HloModule) (need_to_wrap : Bool) (id x : Nat) (s : HloInstruction)
    (h : m.get x = .ok s) :
    ∃ s', (if need_to_wrap = true then SetHostComputeFrontendAttribute m id else m).get x
      = .ok s' ∧ s'.name = s.name := by
  cases need_to_wrap with
  | false => exact ⟨s, h, rfl⟩
  | true =>
    refine ⟨_, get_update m id x (fun i => { i with host_compute := true }) (fun _ => rfl) s h, ?_⟩
    split <;> rfl

/-- The body of the loop after the chain of `if`s, for a node that is the root
of the entry computation: an invalid-argument error when the result layout at
the index of the node is not in host memory space, and no successor on the
queue when it is. -/
theorem rest_of_body_of_entry_root (u : Collaborators) (starting_instruction : Nat)
    (w : WalkState) (node : InstructionAndShapeIndex) (instruction s : HloInstruction)
    (already_saved_buffer need_to_wrap : Bool) (output_shape : Shape)
    (hroot : w.offloader.module.IsRoot instruction = true)
    (hentry : w.offloader.module.IsEntryComputation instruction.parent = true)
    (hsub : w.offloader.module.entry_computation_layout.result_shape.GetSubshape
      node.shape_index = .ok output_shape)
    (hlayout : output_shape.has_layout = true)
    (hstart : w.offloader.module.get starting_instruction = .ok s) :
    (output_shape.has_memory_space kHostMemorySpace = false →
      ∃ message, WalkDownHostMemoryOffloadPaths.rest_of_body u starting_instruction w node
        instruction already_saved_buffer need_to_wrap = .error (.InvalidArgument message)) ∧
    (output_shape.has_memory_space kHostMemorySpace = true →
      ∃ w', WalkDownHostMemoryOffloadPaths.rest_of_body u starting_instruction w node
        instruction already_saved_buffer need_to_wrap = .ok w' ∧ w'.queue = w.queue) := by
  have hroot' : (if need_to_wrap = true then
      SetHostComputeFrontendAttribute w.offloader.module instruction.id
        else w.offloader.module).IsRoot instruction = true := by
    cases need_to_wrap
    · exact hroot
    · exact hroot
  have hentry' : (if need_to_wrap = true then
      SetHostComputeFrontendAttribute w.offloader.module instruction.id
        else w.offloader.module).IsEntryComputation instruction.parent = true := by
    cases need_to_wrap
    · exact hentry
    · exact hentry
  have hsub' : (if need_to_wrap = true then
      SetHostComputeFrontendAttribute w.offloader.module instruction.id
        else w.offloader.module).entry_computation_layout.result_shape.GetSubshape
          node.shape_index = .ok output_shape := by
    cases need_to_wrap
    · exact hsub
    · exact hsub
  obtain ⟨s', hs', _⟩ := get_of_tagged w.offloader.module need_to_wrap instruction.id
    starting_instruction s hstart
  constructor
  · intro hmem
    refine ⟨"Tensor which is moved to host (starting from " ++ s'.name ++
      ") is returned from the entry computation but the layout for this output " ++
      "is not set to host memory.", ?_⟩
    unfold WalkDownHostMemoryOffloadPaths.rest_of_body
    simp only [hroot', hentry', hsub', hlayout, hmem, hs', and_self, if_true, not_true_eq_false,
      if_false, Bool.false_eq_true]
  · intro hmem
    unfold WalkDownHostMemoryOffloadPaths.rest_of_body
    simp only [hroot', hentry', hsub', hlayout, hmem, and_self, if_true, not_true_eq_false,
      if_false]
    exact ⟨_, rfl, rfl⟩

/-- C15 (amended): when the loop of `WalkDownHostMemoryOffloadPaths`
takes from the queue a node that is the root of the entry computation, and the
chain of `if`s at the head of the loop body does not end with `continue` for it
(it does for a `MoveToDevice` custom call and for a slice or dynamic-slice that
leads to one), and the entry result layout at the shape index of the node has a
layout: the walk returns an invalid-argument error if that layout is not in
host memory space; if it is, the iteration succeeds and leaves on the queue
just what was there, without the successors of the node, and the walk goes on
from there. -/
theorem c15_entry_root_needs_host_result_layout (u : Collaborators) (probe_fuel fuel : Nat)
    (starting_instruction : Nat) (w : WalkState) (node : InstructionAndShapeIndex)
    (queue : List InstructionAndShapeIndex) (instruction s : HloInstruction)
    (w1 : WalkState) (already_saved_buffer need_to_wrap : Bool) (output_shape : Shape)
    (hqueue : w.queue = node :: queue)
    (hget : w.offloader.module.get node.instruction = .ok instruction)
    (hclass : WalkDownHostMemoryOffloadPaths.classify u probe_fuel starting_instruction
      { w with queue := queue } node instruction
        = .ok (.rest_of_body w1 already_saved_buffer need_to_wrap))
    (hroot : w.offloader.module.IsRoot instruction = true)
    (hentry : w.offloader.module.IsEntryComputation instruction.parent = true)
    (hsub : w.offloader.module.entry_computation_layout.result_shape.GetSubshape
      node.shape_index = .ok output_shape)
    (hlayout : output_shape.has_layout = true)
    (hstart : w.offloader.module.get starting_instruction = .ok s) :
    (output_shape.has_memory_space kHostMemorySpace = false →
      ∃ message, WalkDownHostMemoryOffloadPaths.loop u probe_fuel starting_instruction
        (fuel + 1) w = .error (.InvalidArgument message)) ∧
    (output_shape.has_memory_space kHostMemorySpace = true →
      ∃ w', WalkDownHostMemoryOffloadPaths.visit u probe_fuel starting_instruction
          { w with queue := queue } node = .ok w' ∧
        w'.queue = queue ∧
        WalkDownHostMemoryOffloadPaths.loop u probe_fuel starting_instruction (fuel + 1) w
          = WalkDownHostMemoryOffloadPaths.loop u probe_fuel starting_instruction fuel w') := by
  obtain ⟨hmodule, hq1⟩ := classify_rest_of_body u probe_fuel starting_instruction
    { w with queue := queue } node instruction w1 already_saved_buffer need_to_wrap hclass
  have hmodule' : w1.offloader.module = w.offloader.module := hmodule
  have hvisit : WalkDownHostMemoryOffloadPaths.visit u probe_fuel starting_instruction
      { w with queue := queue } node
        = WalkDownHostMemoryOffloadPaths.rest_of_body u starting_instruction w1 node instruction
            already_saved_buffer need_to_wrap := by
    unfold WalkDownHostMemoryOffloadPaths.visit
    simp only [hget, hclass]
  have hbody := rest_of_body_of_entry_root u starting_instruction w1 node instruction s
    already_saved_buffer need_to_wrap output_shape (by rw [hmodule']; exact hroot)
    (by rw [hmodule']; exact hentry) (by rw [hmodule']; exact hsub) hlayout
    (by rw [hmodule']; exact hstart)
  have hloop : WalkDownHostMemoryOffloadPaths.loop u probe_fuel starting_instruction (fuel + 1) w
      = match WalkDownHostMemoryOffloadPaths.visit u probe_fuel starting_instruction
          { w with queue := queue } node with
        | .error e => .error e
        | .ok w' =>
          WalkDownHostMemoryOffloadPaths.loop u probe_fuel starting_instruction fuel w' := by
    rw [WalkDownHostMemoryOffloadPaths.loop]
    simp only [hqueue]
  constructor
  · intro hmem
    obtain ⟨message, hmessage⟩ := hbody.1 hmem
    refine ⟨message, ?_⟩
    rw [hloop, hvisit, hmessage]
  · intro hmem
    obtain ⟨w', hw', hq'⟩ := hbody.2 hmem
    refine ⟨w', ?_, ?_, ?_⟩
    · rw [hvisit, hw']
    · rw [hq', hq1]
    · rw [hloop, hvisit, hw']

/-- Witness for C15 (amended): the walk comes to the bitcast that is the root of
`p0 -> MoveToHost -> bitcast`, once with the entry result layout in device
memory space and once with it in host memory space. -/
theorem c15_entry_root_needs_host_result_layout_witness :
    (∃ message, WalkDownHostMemoryOffloadPaths.loop exampleCollaborators 10 3 (0 + 1)
        ⟨exampleOffloader (exampleOffloadToRootModule kDefaultMemorySpace), [⟨3, []⟩], [], [],
          [], [], []⟩ = .error (.InvalidArgument message)) ∧
    (∃ w', WalkDownHostMemoryOffloadPaths.visit exampleCollaborators 10 3
          ⟨exampleOffloader (exampleOffloadToRootModule kHostMemorySpace), [], [], [], [], [],
            []⟩ ⟨3, []⟩ = .ok w' ∧
        w'.queue = [] ∧
        WalkDownHostMemoryOffloadPaths.loop exampleCollaborators 10 3 (0 + 1)
            ⟨exampleOffloader (exampleOffloadToRootModule kHostMemorySpace), [⟨3, []⟩], [], [],
              [], [], []⟩
          = WalkDownHostMemoryOffloadPaths.loop exampleCollaborators 10 3 0 w') :=
  ⟨(c15_entry_root_needs_host_result_layout exampleCollaborators 10 0 3
      ⟨exampleOffloader (exampleOffloadToRootModule kDefaultMemorySpace), [⟨3, []⟩], [], [],
        [], [], []⟩
      ⟨3, []⟩ []
      { id := 3, name := "bitcast", opcode := HloOpcode.kBitcast,
        shape := exampleShape kDefaultMemorySpace, operands := [2], parent := 0 }
      { id := 3, name := "bitcast", opcode := HloOpcode.kBitcast,
        shape := exampleShape kDefaultMemorySpace, operands := [2], parent := 0 }
      ⟨exampleOffloader (exampleOffloadToRootModule kDefaultMemorySpace), [], [], [], [], [],
        []⟩
      false false (exampleShape kDefaultMemorySpace) rfl rfl rfl rfl rfl rfl rfl rfl).1 rfl,
    (c15_entry_root_needs_host_result_layout exampleCollaborators 10 0 3
      ⟨exampleOffloader (exampleOffloadToRootModule kHostMemorySpace), [⟨3, []⟩], [], [],
        [], [], []⟩
      ⟨3, []⟩ []
      { id := 3, name := "bitcast", opcode := HloOpcode.kBitcast,
        shape := exampleShape kDefaultMemorySpace, operands := [2], parent := 0 }
      { id := 3, name := "bitcast", opcode := HloOpcode.kBitcast,
        shape := exampleShape kDefaultMemorySpace, operands := [2], parent := 0 }
      ⟨exampleOffloader (exampleOffloadToRootModule kHostMemorySpace), [], [], [], [], [],
        []⟩
      false false (exampleShape kHostMemorySpace) rfl rfl rfl rfl rfl rfl rfl rfl).2 rfl⟩

/-- C15, as stated, fails: in `p0 -> MoveToHost -> MoveToDevice`
the `MoveToDevice` custom call is the root of the entry computation and the
entry result layout is in device memory; the walk that starts at it, as
`HandleMoveToHostCustomCall` starts it, processes the node and returns without
an error. -/
theorem c15_entry_root_counterexample :
    exampleRoundTripModule.get 3
      = .ok (exampleCustomCall 3 kMoveToDeviceCustomCallTarget 2) ∧
    exampleRoundTripModule.IsRoot (exampleCustomCall 3 kMoveToDeviceCustomCallTarget 2) = true ∧
    exampleRoundTripModule.IsEntryComputation
      (exampleCustomCall 3 kMoveToDeviceCustomCallTarget 2).parent = true ∧
    exampleRoundTripModule.entry_computation_layout.result_shape.GetSubshape []
      = .ok (exampleShape kDefaultMemorySpace) ∧
    (exampleShape kDefaultMemorySpace).has_memory_space kHostMemorySpace = false ∧
    (∃ w, WalkDownHostMemoryOffloadPaths.loop exampleCollaborators 10 3 10
        ⟨exampleOffloader exampleRoundTripModule, [⟨3, []⟩], [], [], [], [], []⟩ = .ok w ∧
      w.custom_calls_to_insert_copies_before = [3]) ∧
    (∃ r, WalkDownHostMemoryOffloadPaths exampleCollaborators 10
        (exampleOffloader exampleRoundTripModule) ⟨3, []⟩ true = .ok r) :=
  ⟨rfl, rfl, rfl, rfl, rfl, ⟨_, rfl, rfl⟩, ⟨_, rfl⟩⟩

/-! ## `SliceLeadsToMoveToDeviceCustomCall` -/

/-- C16, failing input: in `p0 -> dynamic-slice -> bitcast` the bitcast
has no successor and no instruction is a `MoveToDevice` custom call, so the
path from the dynamic-slice does not reach one; all the same
`SliceLeadsToMoveToDeviceCustomCall` returns `true`. -/
theorem c16_dead_end_path_returns_true :
    exampleCollaborators.GetSuccessors exampleDeadEndSliceModule ⟨2, []⟩ = .ok [⟨3, []⟩] ∧
    exampleCollaborators.GetSuccessors exampleDeadEndSliceModule ⟨3, []⟩ = .ok [] ∧
    (∀ i ∈ exampleDeadEndSliceModule.instructions,
      i.IsCustomCall kMoveToDeviceCustomCallTarget = false) ∧
    SliceLeadsToMoveToDeviceCustomCall exampleCollaborators 10 exampleDeadEndSliceModule 2
      = .ok true :=
  ⟨rfl, rfl, by decide, rfl⟩

/-! ## The four cases of `HandleDynamicUpdateSlices` -/

/-- C17: when `HandleDynamicUpdateSlices` comes to an observed
dynamic-update-slice whose update (operand 1) is in host memory space and whose
base operand (operand 0) is in device memory space, the instruction is tagged
for host compute and is otherwise as before, so that the memory space of its
own shape is unchanged, and the function reports a change if it returns. -/
theorem c17_host_to_device_tagged_not_recolored (u : Collaborators) (fuel : Nat)
    (st : Bool × HostOffloader) (dus operand0 operand1 : Nat) (d operand update : HloInstruction)
    (hd : st.2.module.get dus = .ok d)
    (h0 : d.operand 0 = .ok operand0) (hoperand : st.2.module.get operand0 = .ok operand)
    (h1 : d.operand 1 = .ok operand1) (hupdate : st.2.module.get operand1 = .ok update)
    (hum : update.shape.memory_space = .ok kHostMemorySpace)
    (hom : operand.shape.memory_space = .ok kDefaultMemorySpace) :
    ∃ o', HandleDynamicUpdateSlices.visit u fuel st dus = .ok (true, o') ∧
      o'.module.get dus = .ok { d with host_compute := true } ∧
      ∀ (o : HostOffloader) (pre post : List Nat),
        o.dynamic_update_slices_seen_ = pre ++ dus :: post →
        pre.foldlM (HandleDynamicUpdateSlices.visit u fuel) (false, o) = .ok st →
        ∀ r, HandleDynamicUpdateSlices u fuel o = .ok r → r.1 = true := by
  have hvisit := visit_of_memory_spaces u fuel st dus operand0 operand1 d operand update
    kDefaultMemorySpace kHostMemorySpace hd h0 hoperand h1 hupdate hom hum
  rw [if_pos ⟨rfl, rfl⟩] at hvisit
  refine ⟨_, hvisit, get_SetHostComputeFrontendAttribute st.2.module dus d hd, ?_⟩
  intro o pre post hseen hpre r hr
  exact HandleDynamicUpdateSlices_reports_change u fuel o pre post dus st _ hseen hpre hvisit r hr

/-- Witness for C17: `dus(p0, p1, zero)` with `p0` in device and `p1` in host
memory space. -/
theorem c17_host_to_device_tagged_not_recolored_witness :
    ∃ o', HandleDynamicUpdateSlices.visit exampleCollaborators 10
        (false, exampleDusOffloader kDefaultMemorySpace kHostMemorySpace false) 3
          = .ok (true, o') ∧
      o'.module.get 3 = .ok { exampleDynamicUpdateSlice with host_compute := true } ∧
      ∀ (o : HostOffloader) (pre post : List Nat),
        o.dynamic_update_slices_seen_ = pre ++ 3 :: post →
        pre.foldlM (HandleDynamicUpdateSlices.visit exampleCollaborators 10) (false, o)
          = .ok (false, exampleDusOffloader kDefaultMemorySpace kHostMemorySpace false) →
        ∀ r, HandleDynamicUpdateSlices exampleCollaborators 10 o = .ok r → r.1 = true :=
  c17_host_to_device_tagged_not_recolored exampleCollaborators 10
    (false, exampleDusOffloader kDefaultMemorySpace kHostMemorySpace false) 3 1 2
    exampleDynamicUpdateSlice (exampleParameter kDefaultMemorySpace)
    { id := 2, name := "p1", opcode := HloOpcode.kParameter,
      shape := exampleShape kHostMemorySpace, operands := [], parent := 0,
      parameter_number := 1 }
    rfl rfl rfl rfl rfl rfl rfl

/-- C18, as stated, fails: for `dus(p0, p1, zero)` with the base
operand `p0` in host memory space and the update `p1` in device memory space,
`HandleDynamicUpdateSlices` colors the shape of the dynamic-update-slice host
and reports a change, but does not tag it for host compute. -/
theorem c18_device_to_host_counterexample :
    HandleDynamicUpdateSlices exampleCollaborators 10
        (exampleDusOffloader kHostMemorySpace kDefaultMemorySpace false)
      = .ok (true,
          { exampleDusOffloader kHostMemorySpace kDefaultMemorySpace false with
            module := exampleDusModuleWith kHostMemorySpace kDefaultMemorySpace
              { exampleDynamicUpdateSlice with shape := exampleShape kHostMemorySpace } }) ∧
    (exampleDusModuleWith kHostMemorySpace kDefaultMemorySpace
        { exampleDynamicUpdateSlice with shape := exampleShape kHostMemorySpace }).get 3
      = .ok { exampleDynamicUpdateSlice with shape := exampleShape kHostMemorySpace } ∧
    ({ exampleDynamicUpdateSlice with shape := exampleShape kHostMemorySpace } :
      HloInstruction).host_compute = false :=
  ⟨rfl, rfl, rfl⟩

/-- C18 (amended): when `HandleDynamicUpdateSlices` comes to an observed
dynamic-update-slice whose update is in device memory space and whose base
operand is in host memory space, and whose own shape has a layout, the shape of
the instruction is colored host and a change is reported; the instruction is
otherwise as before, so it is not tagged for host compute. -/
theorem c18_device_to_host_recolored_not_tagged (u : Collaborators) (fuel : Nat)
    (st : Bool × HostOffloader) (dus operand0 operand1 : Nat) (d operand update : HloInstruction)
    (element_type : Nat) (dimensions : List Int) (layout : Layout)
    (hd : st.2.module.get dus = .ok d)
    (h0 : d.operand 0 = .ok operand0) (hoperand : st.2.module.get operand0 = .ok operand)
    (h1 : d.operand 1 = .ok operand1) (hupdate : st.2.module.get operand1 = .ok update)
    (hum : update.shape.memory_space = .ok kDefaultMemorySpace)
    (hom : operand.shape.memory_space = .ok kHostMemorySpace)
    (hshape : d.shape = .array element_type dimensions (some layout)) :
    ∃ o', HandleDynamicUpdateSlices.visit u fuel st dus = .ok (true, o') ∧
      o'.module.get dus
        = .ok { d with shape := .array element_type dimensions (some ⟨kHostMemorySpace⟩) } := by
  have hvisit := visit_of_memory_spaces u fuel st dus operand0 operand1 d operand update
    kHostMemorySpace kDefaultMemorySpace hd h0 hoperand h1 hupdate hom hum
  rw [if_neg (fun h => kDefaultMemorySpace_ne_kHostMemorySpace h.1),
    if_neg (fun h => kDefaultMemorySpace_ne_kHostMemorySpace h.1), if_pos ⟨rfl, rfl⟩] at hvisit
  obtain ⟨m', hm', hget⟩ := SetSubshapeMemorySpace_top st.2.module dus d element_type dimensions
    layout kHostMemorySpace hd hshape
  rw [hm'] at hvisit
  exact ⟨_, hvisit, hget⟩

/-- Witness for C18 (amended): `dus(p0, p1, zero)` with `p0` in host and `p1` in
device memory space. -/
theorem c18_device_to_host_recolored_not_tagged_witness :
    ∃ o', HandleDynamicUpdateSlices.visit exampleCollaborators 10
        (false, exampleDusOffloader kHostMemorySpace kDefaultMemorySpace false) 3
          = .ok (true, o') ∧
      o'.module.get 3
        = .ok { exampleDynamicUpdateSlice with
            shape := .array 11 [10] (some ⟨kHostMemorySpace⟩) } :=
  c18_device_to_host_recolored_not_tagged exampleCollaborators 10
    (false, exampleDusOffloader kHostMemorySpace kDefaultMemorySpace false) 3 1 2
    exampleDynamicUpdateSlice (exampleParameter kHostMemorySpace)
    { id := 2, name := "p1", opcode := HloOpcode.kParameter,
      shape := exampleShape kDefaultMemorySpace, operands := [], parent := 0,
      parameter_number := 1 }
    11 [10] ⟨kDefaultMemorySpace⟩ rfl rfl rfl rfl rfl rfl rfl rfl

/-- C19: when `HandleDynamicUpdateSlices` comes to an observed
dynamic-update-slice whose update and whose base operand are both in host
memory space, and whose own shape has a layout, the instruction is tagged for
host compute and its shape is colored host; it is otherwise as before. -/
theorem c19_host_to_host_tagged_and_colored_host (u : Collaborators) (fuel : Nat)
    (st : Bool × HostOffloader) (dus operand0 operand1 : Nat) (d operand update : HloInstruction)
    (element_type : Nat) (dimensions : List Int) (layout : Layout)
    (hd : st.2.module.get dus = .ok d)
    (h0 : d.operand 0 = .ok operand0) (hoperand : st.2.module.get operand0 = .ok operand)
    (h1 : d.operand 1 = .ok operand1) (hupdate : st.2.module.get operand1 = .ok update)
    (hum : update.shape.memory_space = .ok kHostMemorySpace)
    (hom : operand.shape.memory_space = .ok kHostMemorySpace)
    (hshape : d.shape = .array element_type dimensions (some layout)) :
    ∃ o', HandleDynamicUpdateSlices.visit u fuel st dus = .ok (true, o') ∧
      o'.module.get dus
        = .ok { d with
            host_compute := true
            shape := .array element_type dimensions (some ⟨kHostMemorySpace⟩) } := by
  have hvisit := visit_of_memory_spaces u fuel st dus operand0 operand1 d operand update
    kHostMemorySpace kHostMemorySpace hd h0 hoperand h1 hupdate hom hum
  rw [if_neg (fun h => kHostMemorySpace_ne_kDefaultMemorySpace h.2), if_pos ⟨rfl, rfl⟩] at hvisit
  obtain ⟨m', hm', hget⟩ := SetSubshapeMemorySpace_top
    (SetHostComputeFrontendAttribute st.2.module dus) dus { d with host_compute := true }
    element_type dimensions layout kHostMemorySpace
    (get_SetHostComputeFrontendAttribute st.2.module dus d hd) hshape
  rw [hm'] at hvisit
  exact ⟨_, hvisit, hget⟩

/-- Witness for C19: `dus(p0, p1, zero)` with `p0` and `p1` in host memory
space. -/
theorem c19_host_to_host_tagged_and_colored_host_witness :
    ∃ o', HandleDynamicUpdateSlices.visit exampleCollaborators 10
        (false, exampleDusOffloader kHostMemorySpace kHostMemorySpace false) 3
          = .ok (true, o') ∧
      o'.module.get 3
        = .ok { exampleDynamicUpdateSlice with
            host_compute := true
            shape := .array 11 [10] (some ⟨kHostMemorySpace⟩) } :=
  c19_host_to_host_tagged_and_colored_host exampleCollaborators 10
    (false, exampleDusOffloader kHostMemorySpace kHostMemorySpace false) 3 1 2
    exampleDynamicUpdateSlice (exampleParameter kHostMemorySpace)
    { id := 2, name := "p1", opcode := HloOpcode.kParameter,
      shape := exampleShape kHostMemorySpace, operands := [], parent := 0,
      parameter_number := 1 }
    11 [10] ⟨kDefaultMemorySpace⟩ rfl rfl rfl rfl rfl rfl rfl rfl

/-- C20: when `HandleDynamicUpdateSlices` comes to an observed
dynamic-update-slice whose update and whose base operand are both in device
memory space: if the slice is in `dynamic_update_slices_seen_with_annotation_`,
the result is that of `CreateAllocateBufferForDynamicUpdateSlice`, with a change
reported when it succeeds and its error when it fails; if the slice is not in
that list, the pass object, the module and the flag `changed` are left as they
are. -/
theorem c20_device_to_device_allocates_iff_annotated (u : Collaborators) (fuel : Nat)
    (st : Bool × HostOffloader) (dus operand0 operand1 : Nat) (d operand update : HloInstruction)
    (hd : st.2.module.get dus = .ok d)
    (h0 : d.operand 0 = .ok operand0) (hoperand : st.2.module.get operand0 = .ok operand)
    (h1 : d.operand 1 = .ok operand1) (hupdate : st.2.module.get operand1 = .ok update)
    (hum : update.shape.memory_space = .ok kDefaultMemorySpace)
    (hom : operand.shape.memory_space = .ok kDefaultMemorySpace) :
    (dus ∈ st.2.dynamic_update_slices_seen_with_annotation_ →
      HandleDynamicUpdateSlices.visit u fuel st dus =
        match CreateAllocateBufferForDynamicUpdateSlice u fuel st.2 dus with
        | .error e => .error e
        | .ok o => .ok (true, o)) ∧
    (dus ∉ st.2.dynamic_update_slices_seen_with_annotation_ →
      HandleDynamicUpdateSlices.visit u fuel st dus = .ok st) := by
  have hvisit := visit_of_memory_spaces u fuel st dus operand0 operand1 d operand update
    kDefaultMemorySpace kDefaultMemorySpace hd h0 hoperand h1 hupdate hom hum
  rw [if_neg (fun h => kDefaultMemorySpace_ne_kHostMemorySpace h.1),
    if_neg (fun h => kDefaultMemorySpace_ne_kHostMemorySpace h.1),
    if_neg (fun h => kDefaultMemorySpace_ne_kHostMemorySpace h.2), if_pos ⟨rfl, rfl⟩] at hvisit
  constructor
  · intro hmem
    rw [hvisit, if_pos hmem]
  · intro hmem
    rw [hvisit, if_neg hmem]

/-- Witness for C20: `dus(p0, p1, zero)` with `p0` and `p1` in device memory
space, once with the slice in `dynamic_update_slices_seen_with_annotation_` and
once without. -/
theorem c20_device_to_device_allocates_iff_annotated_witness :
    (HandleDynamicUpdateSlices.visit exampleCollaborators 10
        (false, exampleDusOffloader kDefaultMemorySpace kDefaultMemorySpace true) 3 =
      match CreateAllocateBufferForDynamicUpdateSlice exampleCollaborators 10
          (exampleDusOffloader kDefaultMemorySpace kDefaultMemorySpace true) 3 with
      | .error e => .error e
      | .ok o => .ok (true, o)) ∧
    HandleDynamicUpdateSlices.visit exampleCollaborators 10
        (false, exampleDusOffloader kDefaultMemorySpace kDefaultMemorySpace false) 3
      = .ok (false, exampleDusOffloader kDefaultMemorySpace kDefaultMemorySpace false) :=
  ⟨(c20_device_to_device_allocates_iff_annotated exampleCollaborators 10
      (false, exampleDusOffloader kDefaultMemorySpace kDefaultMemorySpace true) 3 1 2
      exampleDynamicUpdateSlice (exampleParameter kDefaultMemorySpace)
      { id := 2, name := "p1", opcode := HloOpcode.kParameter,
        shape := exampleShape kDefaultMemorySpace, operands := [], parent := 0,
        parameter_number := 1 }
      rfl rfl rfl rfl rfl rfl rfl).1 (by decide),
    (c20_device_to_device_allocates_iff_annotated exampleCollaborators 10
      (false, exampleDusOffloader kDefaultMemorySpace kDefaultMemorySpace false) 3 1 2
      exampleDynamicUpdateSlice (exampleParameter kDefaultMemorySpace)
      { id := 2, name := "p1", opcode := HloOpcode.kParameter,
        shape := exampleShape kDefaultMemorySpace, operands := [], parent := 0,
        parameter_number := 1 }
      rfl rfl rfl rfl rfl rfl rfl).2 (by decide)⟩

/-! ## Reading a module after writing it -/

theorem get_eq_ok_iff (m : HloModule) (x : Nat) (i : HloInstruction) :
    m.get x = .ok i ↔ m.instruction? x = some i := by
  unfold HloModule.get
  cases m.instruction? x with
  | none => simp
  | some j => simp

theorem get_eq_error_iff (m : HloModule) (x : Nat) :
    (∃ e, m.get x = .error e) ↔ m.instruction? x = none := by
  unfold HloModule.get
  cases m.instruction? x with
  | none => simp
  | some j => simp

/-- After a map that keeps the ids, `find?` by id finds the mapped
instruction. -/
theorem find?_id_map (instructions : List HloInstruction) (g : HloInstruction → HloInstruction)
    (hg : ∀ i, (g i).id = i.id) (x : Nat) :
    (instructions.map g).find? (fun i => decide (i.id = x))
      = (instructions.find? (fun i => decide (i.id = x))).map g := by
  rw [List.find?_map]
  congr 1
  congr 1
  funext i
  simp only [Function.comp, hg]

/-- After the instructions with the id `c` are filtered out, `find?` by another
id finds what it found before, and `find?` by `c` finds nothing. -/
theorem find?_id_filter (instructions : List HloInstruction) (c x : Nat) :
    (instructions.filter (fun j => decide (j.id ≠ c))).find? (fun i => decide (i.id = x))
      = if x = c then none else instructions.find? (fun i => decide (i.id = x)) := by
  induction instructions with
  | nil => simp
  | cons i rest ih =>
    by_cases hic : i.id = c
    · rw [List.filter_cons_of_neg (by simpa using hic), ih]
      by_cases hxc : x = c
      · rw [if_pos hxc, if_pos hxc]
      · rw [if_neg hxc, if_neg hxc, List.find?_cons_of_neg]
        simp only [decide_eq_true_eq]
        rw [hic]
        exact fun h => hxc h.symm
    · rw [List.filter_cons_of_pos (by simpa using hic)]
      by_cases hix : i.id = x
      · rw [List.find?_cons_of_pos _ (by simpa using hix), if_neg (by rw [← hix]; exact hic),
          List.find?_cons_of_pos _ (by simpa using hix)]
      · rw [List.find?_cons_of_neg _ (by simpa using hix), ih,
          List.find?_cons_of_neg _ (by simpa using hix)]

/-- An instruction that the module holds is found in the module with the added
instruction. -/
theorem get_AddInstruction_of_get (m : HloModule) (parent x : Nat) (i j : HloInstruction)
    (h : m.get x = .ok j) : (m.AddInstruction parent i).1.get x = .ok j := by
  rw [get_eq_ok_iff] at h ⊢
  unfold HloModule.instruction? at h ⊢
  unfold HloModule.AddInstruction
  simp only [List.find?_append, h, Option.or]

/-- The added instruction is found under its id when no instruction had that
id. -/
theorem get_AddInstruction_new (m : HloModule) (parent : Nat) (i : HloInstruction)
    (hfresh : m.instruction? m.next_instruction_id = none) :
    (m.AddInstruction parent i).1.get m.next_instruction_id
      = .ok { i with id := m.next_instruction_id, parent := parent } := by
  rw [get_eq_ok_iff]
  unfold HloModule.instruction? at hfresh ⊢
  unfold HloModule.AddInstruction
  simp only [List.find?_append, hfresh, Option.or, List.find?_cons_of_pos, decide_True]

/-- What `get` finds in the module with the added instruction is what it found
before, or the added instruction. -/
theorem get_AddInstruction_cases (m : HloModule) (parent x : Nat) (i j : HloInstruction)
    (h : (m.AddInstruction parent i).1.get x = .ok j) :
    m.get x = .ok j ∨
      (x = m.next_instruction_id ∧ j = { i with id := m.next_instruction_id, parent := parent }) := by
  rw [get_eq_ok_iff] at h ⊢
  unfold HloModule.instruction? at h ⊢
  unfold HloModule.AddInstruction at h
  simp only [List.find?_append] at h
  cases hfind : m.instructions.find? (fun i => decide (i.id = x)) with
  | some k =>
    rw [hfind] at h
    exact Or.inl h
  | none =>
    rw [hfind] at h
    simp only [Option.or] at h
    right
    have hmem := List.mem_of_find?_eq_some h
    have hid := List.find?_some h
    simp only [List.mem_singleton] at hmem
    simp only [decide_eq_true_eq] at hid
    rw [hmem] at hid
    exact ⟨hid.symm, hmem⟩

/-- `ReplaceAllUsesWith` always succeeds in the model, and what `get` finds after
it is what it found before, with the operands replaced. -/
theorem get_ReplaceAllUsesWith (m : HloModule) (old new_producer : Nat) :
    ∃ m', m.ReplaceAllUsesWith old new_producer = .ok m' ∧
      m'.next_instruction_id = m.next_instruction_id ∧
      m'.entry_computation = m.entry_computation ∧
      m'.computations = m.computations.map (fun c =>
        if c.root_instruction = old then { c with root_instruction := new_producer } else c) ∧
      m'.instructions = m.instructions.map (fun i =>
        { i with operands := i.operands.map (fun o => if o = old then new_producer else o) }) ∧
      ∀ x, m'.instruction? x = (m.instruction? x).map (fun i =>
        { i with operands := i.operands.map (fun o => if o = old then new_producer else o) }) := by
  refine ⟨_, rfl, rfl, rfl, rfl, rfl, ?_⟩
  intro x
  unfold HloModule.instruction?
  exact find?_id_map m.instructions (fun i =>
    { i with operands := i.operands.map (fun o => if o = old then new_producer else o) })
    (fun _ => rfl) x

/-- When `RemoveInstruction` succeeds, the instructions with the id are gone and
every other instruction is found as before. -/
theorem get_RemoveInstruction (m m' : HloModule) (c : Nat)
    (h : m.RemoveInstruction c = .ok m') :
    m'.instructions = m.instructions.filter (fun j => decide (j.id ≠ c)) ∧
      m'.computations = m.computations ∧
      m'.entry_computation = m.entry_computation ∧
      m'.next_instruction_id = m.next_instruction_id ∧
      ∀ x, m'.instruction? x = if x = c then none else m.instruction? x := by
  unfold HloModule.RemoveInstruction at h
  split at h
  · cases h
  · split at h
    · cases h
    · split at h
      · cases h
      · split at h
        · cases h
        · cases h
          refine ⟨rfl, rfl, rfl, rfl, ?_⟩
          intro x
          unfold HloModule.instruction?
          exact find?_id_filter _ c x

/-- `RemoveInstruction` succeeds for an instruction that is not a root, not a
parameter and has no users. -/
theorem RemoveInstruction_ok (m : HloModule) (c : Nat) (i : HloInstruction)
    (hget : m.get c = .ok i) (hroot : m.IsRoot i = false)
    (hparameter : i.opcode ≠ HloOpcode.kParameter) (husers : m.users c = []) :
    m.RemoveInstruction c
      = .ok { m with instructions := m.instructions.filter (fun j => decide (j.id ≠ c)) } := by
  unfold HloModule.RemoveInstruction
  simp only [hget, hroot, Bool.false_eq_true, if_false, hparameter, husers, List.length_nil,
    ne_eq, not_true_eq_false]

theorem instruction?_AddInstruction (m : HloModule) (parent x : Nat) (i : HloInstruction) :
    (m.AddInstruction parent i).1.instruction? x
      = (m.instruction? x).or
          (if m.next_instruction_id = x then
            some { i with id := m.next_instruction_id, parent := parent }
          else none) := by
  unfold HloModule.instruction? HloModule.AddInstruction
  simp only [List.find?_append]
  congr 1
  by_cases h : m.next_instruction_id = x
  · rw [if_pos h, List.find?_cons_of_pos _ (by simpa using h)]
  · rw [if_neg h, List.find?_cons_of_neg _ (by simpa using h), List.find?_nil]

/-- Coloring the whole shape of an instruction that has a layout is an update of
the shape of the instruction. -/
theorem SetSubshapeMemorySpace_top_eq (m : HloModule) (id : Nat) (d : HloInstruction)
    (element_type : Nat) (dimensions : List Int) (layout : Layout) (color : Int)
    (h : m.get id = .ok d) (hshape : d.shape = .array element_type dimensions (some layout)) :
    SetSubshapeMemorySpace m ⟨id, []⟩ color
      = .ok (m.update id (fun i =>
          { i with shape := .array element_type dimensions (some ⟨color⟩) })) := by
  unfold SetSubshapeMemorySpace
  simp only [h, hshape, Shape.UpdateSubshape, SetMemorySpace]

/-- An instruction whose id is the root of no computation is not a root. -/
theorem IsRoot_eq_false (m : HloModule) (i : HloInstruction)
    (h : ∀ c ∈ m.computations, c.root_instruction ≠ i.id) : m.IsRoot i = false := by
  unfold HloModule.IsRoot
  cases hc : m.computation? i.parent with
  | none => rfl
  | some c =>
    simp only [decide_eq_false_iff_not]
    unfold HloModule.computation? at hc
    exact h c (List.mem_of_find?_eq_some hc)

/-- An instruction that is an operand of no instruction has no users. -/
theorem users_eq_nil (m : HloModule) (c : Nat) (h : ∀ j ∈ m.instructions, c ∉ j.operands) :
    m.users c = [] := by
  unfold HloModule.users
  rw [List.filter_eq_nil_iff]
  intro j hj
  simpa using h j hj

/-- After every `c` among the operands is replaced by something else, `c` is no
operand. -/
theorem not_mem_map_replace (operands : List Nat) (c n : Nat) (hn : n ≠ c) :
    c ∉ operands.map (fun o => if o = c then n else o) := by
  intro h
  rw [List.mem_map] at h
  obtain ⟨a, _, ha⟩ := h
  by_cases hac : a = c
  · rw [if_pos hac] at ha
    exact hn ha
  · rw [if_neg hac] at ha
    exact hac ha

/-- Replacing `c` among operands that do not hold `c` changes nothing. -/
theorem map_replace_of_not_mem (operands : List Nat) (c n : Nat) (h : c ∉ operands) :
    operands.map (fun o => if o = c then n else o) = operands := by
  conv_rhs => rw [← List.map_id operands]
  apply List.map_congr_left
  intro a ha
  by_cases hac : a = c
  · rw [hac] at ha
    exact absurd ha h
  · rw [if_neg hac]
    rfl

/-- After the roots `old` are replaced, the root of the computation that is found
is the replaced root. -/
theorem find?_computation_map (computations : List HloComputation)
    (g : HloComputation → HloComputation) (hg : ∀ c, (g c).id = c.id) (x : Nat) :
    (computations.map g).find? (fun c => decide (c.id = x))
      = (computations.find? (fun c => decide (c.id = x))).map g := by
  rw [List.find?_map]
  congr 1
  congr 1
  funext c
  simp only [Function.comp, hg]

theorem mem_setInsert {α : Type} [DecidableEq α] (set : List α) (x y : α) :
    y ∈ setInsert set x ↔ y ∈ set ∨ y = x := by
  unfold setInsert
  split_ifs with h
  · constructor
    · exact Or.inl
    · rintro (h1 | h1)
      · exact h1
      · rw [h1]; exact h
  · simp

/-- Coloring a subshape keeps every instruction that `get` finds, up to its
shape. -/
theorem get_SetSubshapeMemorySpace (m m1 : HloModule) (node : InstructionAndShapeIndex)
    (color : Int) (x : Nat) (i : HloInstruction)
    (h : SetSubshapeMemorySpace m node color = .ok m1) (hx : m.get x = .ok i) :
    ∃ shape, m1.get x = .ok (if i.id = node.instruction then { i with shape := shape } else i) := by
  unfold SetSubshapeMemorySpace at h
  split at h
  · cases h
  · split at h
    · cases h
    · rename_i shape _
      cases h
      exact ⟨shape, get_update m node.instruction x (fun i => { i with shape := shape })
        (fun _ => rfl) i hx⟩

/-- Coloring a subshape keeps the opcode and the id of every instruction. -/
theorem get_SetSubshapeMemorySpace_opcode (m m1 : HloModule) (node : InstructionAndShapeIndex)
    (color : Int) (x : Nat) (i : HloInstruction)
    (h : SetSubshapeMemorySpace m node color = .ok m1) (hx : m.get x = .ok i) :
    ∃ i1, m1.get x = .ok i1 ∧ i1.opcode = i.opcode ∧ i1.id = i.id ∧ i1.name = i.name ∧
      i1.parent = i.parent ∧ i1.operands = i.operands ∧
      i1.custom_call_target = i.custom_call_target := by
  obtain ⟨shape, hs⟩ := get_SetSubshapeMemorySpace m m1 node color x i h hx
  refine ⟨_, hs, ?_⟩
  split_ifs <;> exact ⟨rfl, rfl, rfl, rfl, rfl, rfl⟩

/-- A loop in the `Except` monad whose body keeps a quantity keeps it. -/
theorem foldlM_preserves {α σ β : Type} (f : σ → α → Except Failure σ) (q : σ → β)
    (hf : ∀ st x st', f st x = .ok st' → q st' = q st) :
    ∀ (xs : List α) (st r : σ), xs.foldlM f st = .ok r → q r = q st := by
  intro xs
  induction xs with
  | nil =>
    intro st r h
    cases h
    rfl
  | cons x xs ih =>
    intro st r h
    rw [List.foldlM_cons] at h
    cases hfx : f st x with
    | error e => rw [hfx] at h; cases h
    | ok st1 =>
      rw [hfx] at h
      rw [ih st1 r h, hf st x st1 hfx]

/-- A loop in the `Except` monad whose body keeps a relation that is reflexive
and transitive keeps it. -/
theorem foldlM_rel {α σ : Type} (f : σ → α → Except Failure σ) (R : σ → σ → Prop)
    (hrefl : ∀ st, R st st) (htrans : ∀ a b c, R a b → R b c → R a c)
    (hf : ∀ st x st', f st x = .ok st' → R st st') :
    ∀ (xs : List α) (st r : σ), xs.foldlM f st = .ok r → R st r := by
  intro xs
  induction xs with
  | nil =>
    intro st r h
    cases h
    exact hrefl st
  | cons x xs ih =>
    intro st r h
    rw [List.foldlM_cons] at h
    cases hfx : f st x with
    | error e => rw [hfx] at h; cases h
    | ok st1 =>
      rw [hfx] at h
      exact htrans _ _ _ (hf st x st1 hfx) (ih st1 r h)

/-- The instruction that `get` finds is an instruction of the module. -/
theorem mem_of_get (m : HloModule) (x : Nat) (i : HloInstruction) (h : m.get x = .ok i) :
    i ∈ m.instructions := by
  unfold HloModule.get at h
  cases hfind : m.instruction? x with
  | none => rw [hfind] at h; cases h
  | some j =>
    rw [hfind] at h
    cases h
    exact List.mem_of_find?_eq_some hfind

/-! ## The instructions that `CreateAllocateBufferForDynamicUpdateSlice` adds -/

theorem SetSubshapeMemorySpace_next_instruction_id (m m1 : HloModule)
    (node : InstructionAndShapeIndex) (color : Int)
    (h : SetSubshapeMemorySpace m node color = .ok m1) :
    m1.next_instruction_id = m.next_instruction_id := by
  unfold SetSubshapeMemorySpace at h
  split at h
  · cases h
  · split at h
    · cases h
    · cases h
      rfl

theorem ReplaceOperandWith_next_instruction_id (m m1 : HloModule) (user n new_operand : Nat)
    (h : m.ReplaceOperandWith user n new_operand = .ok m1) :
    m1.next_instruction_id = m.next_instruction_id := by
  unfold HloModule.ReplaceOperandWith at h
  split at h
  · cases h
  · split at h
    · cases h
      rfl
    · cases h

theorem RemoveInstruction_next_instruction_id (m m1 : HloModule) (id : Nat)
    (h : m.RemoveInstruction id = .ok m1) :
    m1.next_instruction_id = m.next_instruction_id := by
  unfold HloModule.RemoveInstruction at h
  split at h
  · cases h
  · split at h
    · cases h
    · split at h
      · cases h
      · split at h
        · cases h
        · cases h
          rfl

theorem nested_loop_next_instruction_id (u : Collaborators) :
    ∀ (fuel : Nat) (m : HloModule) (nested_queue : List InstructionAndShapeIndex)
      (m' : HloModule),
      CreateAllocateBufferForDynamicUpdateSlice.nested_loop u fuel m nested_queue = .ok m' →
      m'.next_instruction_id = m.next_instruction_id := by
  intro fuel
  induction fuel with
  | zero =>
    intro m nested_queue m' h
    cases nested_queue with
    | nil =>
      simp only [CreateAllocateBufferForDynamicUpdateSlice.nested_loop] at h
      cases h
      rfl
    | cons node nested_queue =>
      simp only [CreateAllocateBufferForDynamicUpdateSlice.nested_loop] at h
      cases h
  | succ fuel ih =>
    intro m nested_queue m' h
    cases nested_queue with
    | nil =>
      simp only [CreateAllocateBufferForDynamicUpdateSlice.nested_loop] at h
      cases h
      rfl
    | cons node nested_queue =>
      rw [CreateAllocateBufferForDynamicUpdateSlice.nested_loop] at h
      split at h
      · cases h
      · split at h
        · cases h
        · split at h
          · cases h
          · rename_i _ m1 hm1
            split at h
            · cases h
            · rw [ih _ _ _ h]
              exact SetSubshapeMemorySpace_next_instruction_id _ _ _ _ hm1

theorem handle_caller_next_instruction_id (u : Collaborators) (fuel : Nat)
    (node : InstructionAndShapeIndex) (instruction : HloInstruction) (m m' : HloModule)
    (caller : HloInstruction)
    (h : CreateAllocateBufferForDynamicUpdateSlice.handle_caller u fuel node instruction m
      caller = .ok m') :
    m'.next_instruction_id = m.next_instruction_id := by
  unfold CreateAllocateBufferForDynamicUpdateSlice.handle_caller at h
  split at h
  · split at h
    · cases h
    · split at h
      · cases h
      · split at h
        · cases h
        · split at h
          · cases h
          · split at h
            · cases h
            · rename_i _ m1 hm1
              rw [nested_loop_next_instruction_id u _ _ _ _ h]
              exact SetSubshapeMemorySpace_next_instruction_id _ _ _ _ hm1
  · cases h
    rfl

/-- The body of the loop over the predecessors adds an instruction exactly when
the predecessor is a broadcast, and sets `found_broadcast` only then. -/
theorem handle_predecessor_next_instruction_id (node : InstructionAndShapeIndex)
    (st st' : HloModule × List InstructionAndShapeIndex × Bool)
    (predecessor : InstructionAndShapeIndex)
    (h : CreateAllocateBufferForDynamicUpdateSlice.handle_predecessor node st predecessor
      = .ok st') :
    ∃ predecessor_instruction, st.1.get predecessor.instruction = .ok predecessor_instruction ∧
      (predecessor_instruction.opcode = HloOpcode.kBroadcast →
        st'.1.next_instruction_id = st.1.next_instruction_id + 1 ∧ st'.2.2 = true) ∧
      (predecessor_instruction.opcode ≠ HloOpcode.kBroadcast →
        st'.1 = st.1 ∧ st'.2.2 = st.2.2) := by
  unfold CreateAllocateBufferForDynamicUpdateSlice.handle_predecessor at h
  split at h
  · cases h
  · rename_i _ predecessor_instruction hget
    refine ⟨predecessor_instruction, hget, ?_, ?_⟩
    · intro hb
      rw [if_pos hb] at h
      simp only at h
      split at h
      · cases h
      · rename_i _ m1 hm1
        have h1 := SetSubshapeMemorySpace_next_instruction_id _ _ _ _ hm1
        split at h
        · cases h
        · split at h
          · cases h
          · rename_i _ m2 hm2
            have h2 : m2.next_instruction_id = m1.next_instruction_id := by
              split at hm2
              · split at hm2
                · cases hm2
                · exact ReplaceOperandWith_next_instruction_id _ _ _ _ _ hm2
              · split at hm2
                · exact ReplaceOperandWith_next_instruction_id _ _ _ _ _ hm2
                · cases hm2
              · cases hm2
            split at h
            · split at h
              · cases h
              · rename_i _ m3 hm3
                cases h
                refine ⟨?_, rfl⟩
                rw [RemoveInstruction_next_instruction_id _ _ _ hm3, h2, h1]
                rfl
            · cases h
              refine ⟨?_, rfl⟩
              rw [h2, h1]
              rfl
    · intro hb
      rw [if_neg hb] at h
      cases h
      exact ⟨rfl, rfl⟩

/-- The loop over the predecessors never removes an added instruction from the
count, and sets `found_broadcast` only when it adds one. -/
theorem handle_predecessors_next_instruction_id (node : InstructionAndShapeIndex)
    (predecessors : List InstructionAndShapeIndex)
    (st st' : HloModule × List InstructionAndShapeIndex × Bool)
    (h : predecessors.foldlM
      (CreateAllocateBufferForDynamicUpdateSlice.handle_predecessor node) st = .ok st') :
    st.1.next_instruction_id ≤ st'.1.next_instruction_id ∧
      (st'.2.2 = true → st.2.2 = true ∨ st.1.next_instruction_id < st'.1.next_instruction_id) := by
  apply foldlM_rel _ (fun (a b : HloModule × List InstructionAndShapeIndex × Bool) =>
    a.1.next_instruction_id ≤ b.1.next_instruction_id ∧
      (b.2.2 = true → a.2.2 = true ∨ a.1.next_instruction_id < b.1.next_instruction_id))
    _ _ _ predecessors st st' h
  · intro a
    exact ⟨le_refl _, fun h => Or.inl h⟩
  · rintro a b c ⟨h1, h2⟩ ⟨h3, h4⟩
    refine ⟨le_trans h1 h3, ?_⟩
    intro hc
    rcases h4 hc with hb | hlt
    · rcases h2 hb with ha | hlt
      · exact Or.inl ha
      · exact Or.inr (lt_of_lt_of_le hlt h3)
    · exact Or.inr (lt_of_le_of_lt h1 hlt)
  · intro a x b hab
    obtain ⟨p, _, hyes, hno⟩ := handle_predecessor_next_instruction_id node a b x hab
    by_cases hb : p.opcode = HloOpcode.kBroadcast
    · obtain ⟨h1, _⟩ := hyes hb
      rw [h1]
      exact ⟨Nat.le_succ _, fun _ => Or.inr (Nat.lt_succ_self _)⟩
    · obtain ⟨h1, h2⟩ := hno hb
      rw [h1, h2]
      exact ⟨le_refl _, fun h => Or.inl h⟩

/-- When the loop of `CreateAllocateBufferForDynamicUpdateSlice` returns OK, a
broadcast had been found before, or the loop has added an instruction, or the
module holds an `AllocateBuffer` custom call. -/
theorem CreateAllocateBuffer_loop_ok (u : Collaborators) (probe_fuel : Nat) (name : String) :
    ∀ (fuel : Nat) (o : HostOffloader) (queue : List InstructionAndShapeIndex)
      (found_broadcast : Bool) (o' : HostOffloader),
      CreateAllocateBufferForDynamicUpdateSlice.loop u probe_fuel name fuel o queue
        found_broadcast = .ok o' →
      o.module.next_instruction_id ≤ o'.module.next_instruction_id ∧
        (found_broadcast = true ∨
          o.module.next_instruction_id < o'.module.next_instruction_id ∨
          ∃ i ∈ o'.module.instructions, i.IsCustomCall "AllocateBuffer" = true) := by
  intro fuel
  induction fuel with
  | zero =>
    intro o queue found_broadcast o' h
    cases queue with
    | nil =>
      simp only [CreateAllocateBufferForDynamicUpdateSlice.loop] at h
      split at h
      · cases h
      · rename_i hfound
        cases h
        exact ⟨le_refl _, Or.inl (by simpa using hfound)⟩
    | cons node queue =>
      simp only [CreateAllocateBufferForDynamicUpdateSlice.loop] at h
      cases h
  | succ fuel ih =>
    intro o queue found_broadcast o' h
    cases queue with
    | nil =>
      simp only [CreateAllocateBufferForDynamicUpdateSlice.loop] at h
      split at h
      · cases h
      · rename_i hfound
        cases h
        exact ⟨le_refl _, Or.inl (by simpa using hfound)⟩
    | cons node queue =>
      rw [CreateAllocateBufferForDynamicUpdateSlice.loop] at h
      split at h
      · cases h
      · rename_i _ m1 hm1
        have hnext1 := SetSubshapeMemorySpace_next_instruction_id _ _ _ _ hm1
        split at h
        · cases h
        · rename_i _ instruction hins
          simp only at h
          split at h
          · cases h
          · -- the walk ends at an `AllocateBuffer` custom call
            rename_i _ o2 hbranch
            cases h
            split at hbranch
            · split at hbranch <;> cases hbranch
            · split at hbranch
              · cases hbranch
              · split at hbranch
                · rename_i hcall
                  cases hbranch
                  exact ⟨le_of_eq hnext1.symm,
                    Or.inr (Or.inr ⟨instruction, mem_of_get _ _ _ hins, hcall⟩)⟩
                · cases hbranch
          · rename_i _ o2 hbranch
            have hnext2 : o2.module.next_instruction_id = o.module.next_instruction_id := by
              split at hbranch
              · split at hbranch
                · cases hbranch
                · rename_i _ m2 hm2
                  cases hbranch
                  have := foldlM_preserves _ (fun m : HloModule => m.next_instruction_id)
                    (fun st x st' hst =>
                      handle_caller_next_instruction_id u probe_fuel node instruction st st' x hst)
                    _ _ _ hm2
                  simp only at this
                  rw [this, hnext1]
              · split at hbranch
                · cases hbranch
                  exact hnext1
                · split at hbranch
                  · cases hbranch
                  · cases hbranch
                    exact hnext1
            split at h
            · cases h
            · rename_i _ st hst
              obtain ⟨h1, h2⟩ := handle_predecessors_next_instruction_id node _ _ _ hst
              obtain ⟨h3, h4⟩ := ih _ _ _ _ h
              simp only at h1 h2 h3 h4
              rw [hnext2] at h1 h2
              refine ⟨le_trans h1 h3, ?_⟩
              rcases h4 with h4 | h4 | h4
              · rcases h2 h4 with h5 | h5
                · exact Or.inl h5
                · exact Or.inr (Or.inl (lt_of_lt_of_le h5 h3))
              · exact Or.inr (Or.inl (lt_of_le_of_lt h1 h4))
              · exact Or.inr (Or.inr h4)

/-- C21, as stated, fails: in `dus(AllocateBuffer, p0, zero)` no instruction is a
broadcast and the dynamic-update-slice is not recorded as allocated, yet
`CreateAllocateBufferForDynamicUpdateSlice` returns OK, without an error and
without adding an instruction. -/
theorem c21_allocate_buffer_counterexample :
    3 ∉ (exampleOffloader exampleAllocatedDusModule).dynamic_update_slices_already_allocated_ ∧
    (∀ i ∈ exampleAllocatedDusModule.instructions, i.opcode ≠ HloOpcode.kBroadcast) ∧
    ∃ o', CreateAllocateBufferForDynamicUpdateSlice exampleFirstOperandCollaborators 10
        (exampleOffloader exampleAllocatedDusModule) 3 = .ok o' ∧
      o'.module.next_instruction_id = exampleAllocatedDusModule.next_instruction_id ∧
      ∀ i ∈ o'.module.instructions, i.opcode ≠ HloOpcode.kBroadcast :=
  ⟨by decide, by decide, _, rfl, rfl, by decide⟩

/-- C21 (amended): for a dynamic-update-slice that is not recorded as allocated,
`CreateAllocateBufferForDynamicUpdateSlice` fails with the invalid-argument
error when its backward walk comes to its end (the queue is empty) without a
broadcast predecessor found, and returns OK there when one was found.  When the
walk comes to an `AllocateBuffer` custom call it returns OK at once, whether a
broadcast was found or not.  So the function returns OK only when it has
replaced a broadcast, which is the one step that adds an instruction to the
module, or when the module holds an `AllocateBuffer` custom call. -/
theorem c21_allocate_buffer_needs_broadcast_or_allocate_buffer (u : Collaborators) (fuel : Nat)
    (o : HostOffloader) (d : Nat)
    (hnot : d ∉ o.dynamic_update_slices_already_allocated_) :
    (∀ (steps : Nat) (o1 : HostOffloader) (name : String),
      CreateAllocateBufferForDynamicUpdateSlice.loop u fuel name steps o1 [] false
        = .error (.InvalidArgument
            ("DynamicUpdateSlice \x22" ++ name ++
              "\x22\x27s first operand is not the result of a broadcast.")) ∧
      CreateAllocateBufferForDynamicUpdateSlice.loop u fuel name steps o1 [] true = .ok o1) ∧
    (∀ (steps : Nat) (o1 : HostOffloader) (name : String) (node : InstructionAndShapeIndex)
        (queue : List InstructionAndShapeIndex) (found_broadcast : Bool) (m1 : HloModule)
        (instruction : HloInstruction),
      SetSubshapeMemorySpace o1.module node kHostMemorySpace = .ok m1 →
      m1.get node.instruction = .ok instruction →
      instruction.IsCustomCall "AllocateBuffer" = true →
      CreateAllocateBufferForDynamicUpdateSlice.loop u fuel name (steps + 1) o1 (node :: queue)
        found_broadcast = .ok { o1 with module := m1 }) ∧
    (∀ (node : InstructionAndShapeIndex)
        (st st' : HloModule × List InstructionAndShapeIndex × Bool)
        (predecessor : InstructionAndShapeIndex),
      CreateAllocateBufferForDynamicUpdateSlice.handle_predecessor node st predecessor
        = .ok st' →
      ∃ predecessor_instruction,
        st.1.get predecessor.instruction = .ok predecessor_instruction ∧
        (predecessor_instruction.opcode = HloOpcode.kBroadcast →
          st'.1.next_instruction_id = st.1.next_instruction_id + 1 ∧ st'.2.2 = true) ∧
        (predecessor_instruction.opcode ≠ HloOpcode.kBroadcast →
          st'.1 = st.1 ∧ st'.2.2 = st.2.2)) ∧
    (∀ o', CreateAllocateBufferForDynamicUpdateSlice u fuel o d = .ok o' →
      o.module.next_instruction_id < o'.module.next_instruction_id ∨
        ∃ i ∈ o'.module.instructions, i.IsCustomCall "AllocateBuffer" = true) := by
  refine ⟨?_, ?_, ?_, ?_⟩
  · intro steps o1 name
    cases steps <;>
      simp [CreateAllocateBufferForDynamicUpdateSlice.loop]
  · intro steps o1 name node queue found_broadcast m1 instruction hm1 hget hcall
    have hopcode : instruction.opcode = HloOpcode.kCustomCall := by
      unfold HloInstruction.IsCustomCall at hcall
      simp only [Bool.and_eq_true, decide_eq_true_eq] at hcall
      exact hcall.1
    rw [CreateAllocateBufferForDynamicUpdateSlice.loop]
    simp only [hm1, hget, hopcode, hcall, if_true]
    rfl
  · exact handle_predecessor_next_instruction_id
  · intro o' h
    unfold CreateAllocateBufferForDynamicUpdateSlice at h
    rw [if_neg hnot] at h
    split at h
    · cases h
    · obtain ⟨_, h2⟩ := CreateAllocateBuffer_loop_ok u fuel _ fuel o _ false o' h
      rcases h2 with h2 | h2
      · cases h2
      · exact h2

/-- Witness for C21 (amended): `dus(broadcast(scalar), p0, zero)`, for which the
broadcast is replaced and the module gains the `AllocateBuffer` custom call. -/
theorem c21_allocate_buffer_needs_broadcast_or_allocate_buffer_witness :
    3 ∉ (exampleOffloader exampleBroadcastDusModule).dynamic_update_slices_already_allocated_ ∧
    ∃ o', CreateAllocateBufferForDynamicUpdateSlice exampleFirstOperandCollaborators 10
        (exampleOffloader exampleBroadcastDusModule) 3 = .ok o' ∧
      ((exampleOffloader exampleBroadcastDusModule).module.next_instruction_id
          < o'.module.next_instruction_id ∨
        ∃ i ∈ o'.module.instructions, i.IsCustomCall "AllocateBuffer" = true) :=
  ⟨by decide, _, rfl,
    (c21_allocate_buffer_needs_broadcast_or_allocate_buffer exampleFirstOperandCollaborators 10
      (exampleOffloader exampleBroadcastDusModule) 3 (by decide)).2.2.2 _ rfl⟩

/-! ## Replacing a broadcast by an `AllocateBuffer` custom call -/

/-- The loop of `CreateAllocateBufferForDynamicUpdateSlice` keeps every slice
that is recorded as allocated. -/
theorem CreateAllocateBuffer_loop_allocated_mono (u : Collaborators) (probe_fuel : Nat)
    (name : String) (x : Nat) :
    ∀ (fuel : Nat) (o : HostOffloader) (queue : List InstructionAndShapeIndex)
      (found_broadcast : Bool) (o' : HostOffloader),
      CreateAllocateBufferForDynamicUpdateSlice.loop u probe_fuel name fuel o queue
        found_broadcast = .ok o' →
      x ∈ o.dynamic_update_slices_already_allocated_ →
      x ∈ o'.dynamic_update_slices_already_allocated_ := by
  intro fuel
  induction fuel with
  | zero =>
    intro o queue found_broadcast o' h hx
    cases queue with
    | nil =>
      simp only [CreateAllocateBufferForDynamicUpdateSlice.loop] at h
      split_ifs at h
      cases h
      exact hx
    | cons node queue =>
      simp only [CreateAllocateBufferForDynamicUpdateSlice.loop] at h
      cases h
  | succ fuel ih =>
    intro o queue found_broadcast o' h hx
    cases queue with
    | nil =>
      simp only [CreateAllocateBufferForDynamicUpdateSlice.loop] at h
      split_ifs at h
      cases h
      exact hx
    | cons node queue =>
      rw [CreateAllocateBufferForDynamicUpdateSlice.loop] at h
      split at h
      · cases h
      · split at h
        · cases h
        · rename_i m1 hm1 instruction hins
          simp only at h
          split at h
          · cases h
          · -- the walk ends at an `AllocateBuffer` custom call
            rename_i o2 hbranch
            cases h
            split_ifs at hbranch
            · split at hbranch <;> cases hbranch
            · cases hbranch
            · cases hbranch
              exact hx
            · cases hbranch
          · rename_i o2 hbranch
            split at h
            · cases h
            · rename_i st hst
              apply ih _ _ _ _ h
              split_ifs at hbranch
              · split at hbranch
                · cases hbranch
                · cases hbranch
                  exact hx
              · cases hbranch
                exact (mem_setInsert _ _ _).2 (Or.inl hx)
              · cases hbranch
              · cases hbranch
                exact hx

/-- C23: `CreateAllocateBufferForDynamicUpdateSlice` is idempotent per
dynamic-update-slice: after a call for the dynamic-update-slice `d` has returned
OK with the pass object `o'`, the slice is in
`dynamic_update_slices_already_allocated_`, and a second call for `d` returns OK
with the same pass object `o'`: the module and the set of allocated slices are
as the first call left them. -/
theorem c23_allocate_buffer_idempotent_per_slice (u : Collaborators) (fuel : Nat)
    (o o' : HostOffloader) (d : Nat) (i : HloInstruction)
    (hget : o.module.get d = .ok i) (hopcode : i.opcode = HloOpcode.kDynamicUpdateSlice)
    (h : CreateAllocateBufferForDynamicUpdateSlice u fuel o d = .ok o') :
    d ∈ o'.dynamic_update_slices_already_allocated_ ∧
      CreateAllocateBufferForDynamicUpdateSlice u fuel o' d = .ok o' := by
  have hmem : d ∈ o'.dynamic_update_slices_already_allocated_ := by
    unfold CreateAllocateBufferForDynamicUpdateSlice at h
    split_ifs at h with hin
    · cases h
      exact hin
    · rw [hget] at h
      simp only at h
      cases fuel with
      | zero =>
        simp only [CreateAllocateBufferForDynamicUpdateSlice.loop] at h
        cases h
      | succ fuel =>
        rw [CreateAllocateBufferForDynamicUpdateSlice.loop] at h
        split at h
        · cases h
        · split at h
          · cases h
          · rename_i _ m1 hm1 _ instruction hins
            obtain ⟨i1, hi1, hop1, hid1, _⟩ := get_SetSubshapeMemorySpace_opcode o.module m1
              ⟨d, []⟩ kHostMemorySpace d i hm1 hget
            simp only at hins
            rw [hi1] at hins
            cases hins
            have hne : ¬ instruction.opcode = HloOpcode.kParameter := by
              rw [hop1, hopcode]; decide
            have heq : instruction.opcode = HloOpcode.kDynamicUpdateSlice := by
              rw [hop1, hopcode]
            simp only [if_neg hne, if_pos heq] at h
            split at h
            · cases h
            · rename_i st hst
              apply CreateAllocateBuffer_loop_allocated_mono u _ _ d _ _ _ _ _ h
              apply (mem_setInsert _ _ _).2
              right
              rw [hid1]
              exact (get_id o.module d i hget).symm
  refine ⟨hmem, ?_⟩
  unfold CreateAllocateBufferForDynamicUpdateSlice
  rw [if_pos hmem]

/-- Witness for C23: `dus(broadcast(scalar), p0, zero)`, for which the first
call replaces the broadcast. -/
theorem c23_allocate_buffer_idempotent_per_slice_witness :
    ∃ o', CreateAllocateBufferForDynamicUpdateSlice exampleFirstOperandCollaborators 10
        (exampleOffloader exampleBroadcastDusModule) 3 = .ok o' ∧
      3 ∈ o'.dynamic_update_slices_already_allocated_ ∧
      CreateAllocateBufferForDynamicUpdateSlice exampleFirstOperandCollaborators 10 o' 3
        = .ok o' :=
  ⟨_, rfl, c23_allocate_buffer_idempotent_per_slice exampleFirstOperandCollaborators 10
    (exampleOffloader exampleBroadcastDusModule) _ 3 exampleBroadcastDus rfl rfl rfl⟩

/-! ## The walk through the condition of a `while` -/

/-- `SetMemorySpace` leaves a shape with the memory space that was asked for. -/
theorem SetMemorySpace_has_memory_space (shape shape' : Shape) (color : Int)
    (h : SetMemorySpace shape color = .ok shape') : shape'.has_memory_space color = true := by
  unfold SetMemorySpace at h
  split at h
  · cases h
    simp [Shape.has_memory_space]
  · cases h

/-- After `UpdateSubshape`, the subshape at the index is the result of the
update on the subshape that was there. -/
theorem GetSubshape_UpdateSubshape (f : Shape → Except Failure Shape) :
    ∀ (index : ShapeIndex) (shape shape' : Shape),
      shape.UpdateSubshape f index = .ok shape' →
      ∃ x y, shape.GetSubshape index = .ok x ∧ f x = .ok y ∧
        shape'.GetSubshape index = .ok y := by
  intro index
  induction index with
  | nil =>
    intro shape shape' h
    cases shape <;>
      (simp only [Shape.UpdateSubshape] at h
       exact ⟨_, shape', by simp only [Shape.GetSubshape], h, by
         cases shape' <;> simp only [Shape.GetSubshape]⟩)
  | cons i rest ih =>
    intro shape shape' h
    cases shape with
    | array t d l =>
      simp only [Shape.UpdateSubshape] at h
      cases h
    | tuple es =>
      simp only [Shape.UpdateSubshape] at h
      cases hes : es[i]? with
      | none =>
        rw [hes] at h
        cases h
      | some e =>
        rw [hes] at h
        simp only at h
        cases he : e.UpdateSubshape f rest with
        | error err =>
          rw [he] at h
          cases h
        | ok e' =>
          rw [he] at h
          cases h
          obtain ⟨x, y, hx, hy, hy'⟩ := ih e e' he
          refine ⟨x, y, ?_, hy, ?_⟩
          · simp only [Shape.GetSubshape, hes]
            exact hx
          · have hlt : i < es.length := by
              rcases List.getElem?_eq_some.1 hes with ⟨hlt, _⟩
              exact hlt
            simp only [Shape.GetSubshape, List.getElem?_set_self hlt]
            exact hy'

/-- After `SetSubshapeMemorySpace`, the subshape of the instruction at the index
of the node has the memory space that was asked for. -/
theorem SetSubshapeMemorySpace_colored (m m1 : HloModule) (node : InstructionAndShapeIndex)
    (color : Int) (h : SetSubshapeMemorySpace m node color = .ok m1) :
    ∃ i shape, m1.get node.instruction = .ok i ∧
      i.shape.GetSubshape node.shape_index = .ok shape ∧
      shape.has_memory_space color = true := by
  unfold SetSubshapeMemorySpace at h
  split at h
  · cases h
  · rename_i _ i hi
    split at h
    · cases h
    · rename_i _ shape' hshape
      cases h
      obtain ⟨x, y, _, hy, hy'⟩ := GetSubshape_UpdateSubshape _ _ _ _ hshape
      refine ⟨{ i with shape := shape' }, y, ?_, hy', SetMemorySpace_has_memory_space x y color hy⟩
      rw [get_update m node.instruction node.instruction (fun i => { i with shape := shape' })
        (fun _ => rfl) i hi, if_pos (get_id m node.instruction i hi)]

/-! ## `DynamifySlice` -/

/-- A start index that an `int32_t` can hold is the value of its constant. -/
theorem wrap_int32_of_fits (x : Int) (hlow : -2147483648 ≤ x) (hhigh : x < 2147483648) :
    wrap_int32 x = x := by
  unfold wrap_int32
  have h : (x + 2 ^ 31) % 2 ^ 32 = x + 2 ^ 31 := by
    apply Int.emod_eq_of_lt
    · norm_num
      omega
    · norm_num
      omega
  rw [h]
  ring

/-- C25, failing input: for the slice `[2147483648:2147483658]` of a
`u8[4294967296]` operand, `DynamifySlice` succeeds and replaces the slice by a
dynamic-slice of size `10` whose start index is the constant `-2147483648`, not
the start index `2147483648` of the slice: the start is narrowed to `int32_t`
when the constant is created. -/
theorem c25_slice_start_narrowed_to_int32 :
    exampleBigSliceModule.get 2 = .ok exampleBigSlice ∧
    exampleBigSlice.slice_starts = [2147483648] ∧
    exampleBigSlice.slice_limits = [2147483658] ∧
    ∃ m', DynamifySlice exampleBigSliceModule 2 = .ok m' ∧
      m'.instruction? 2 = none ∧
      ∃ constant dynamic_slice user,
        m'.get 10 = .ok constant ∧ m'.get 11 = .ok dynamic_slice ∧ m'.get 3 = .ok user ∧
        user.operands = [11] ∧
        dynamic_slice.opcode = HloOpcode.kDynamicSlice ∧
        dynamic_slice.operands = [1, 10] ∧
        dynamic_slice.dynamic_slice_sizes = [10] ∧
        dynamic_slice.shape = exampleBigSlice.shape ∧
        constant.opcode = HloOpcode.kConstant ∧
        constant.literal = some (-2147483648) :=
  ⟨rfl, rfl, rfl, _, rfl, rfl, _, _, _, rfl, rfl, rfl, rfl, rfl, rfl, rfl, rfl, rfl, rfl⟩

/-! ## A `MoveToHost` custom call that is the root of the entry computation -/

/-- C26: when `HandleMoveToHostCustomCall` is called on a `MoveToHost` custom call
that is not in `already_visited_move_to_host_custom_calls_`, has no successors
and is the root of the entry computation (its operand `0` has a shape with a
layout; the id of the next instruction is not in use), the call returns `true`;
the module then holds a copy of the operand whose shape is in host memory
space, the copy is the root of the entry computation, the custom call is no
longer in the module, and it is recorded as visited. -/
theorem c26_root_move_to_host_becomes_host_copy (u : Collaborators) (fuel : Nat)
    (o : HostOffloader) (custom_call_instruction data_to_copy : Nat) (c d : HloInstruction)
    (element_type : Nat) (dimensions : List Int) (layout : Layout)
    (hnew : custom_call_instruction ∉ o.already_visited_move_to_host_custom_calls_)
    (hsuccessors : u.GetSuccessors o.module ⟨custom_call_instruction, []⟩ = .ok [])
    (hroot : (o.module.computation? o.module.entry_computation).map
      (fun computation => computation.root_instruction) = some custom_call_instruction)
    (hget : o.module.get custom_call_instruction = .ok c)
    (hcall : c.IsCustomCall kMoveToHostCustomCallTarget = true)
    (hoperand : c.operand 0 = .ok data_to_copy)
    (hne : data_to_copy ≠ custom_call_instruction)
    (hd : o.module.get data_to_copy = .ok d)
    (hshape : d.shape = .array element_type dimensions (some layout))
    (hfresh : o.module.instruction? o.module.next_instruction_id = none) :
    ∃ o', HandleMoveToHostCustomCall u fuel o custom_call_instruction = .ok (true, o') ∧
      o'.module.get o.module.next_instruction_id
        = .ok { CreateUnary (.array element_type dimensions (some ⟨kHostMemorySpace⟩))
                  HloOpcode.kCopy data_to_copy with
                id := o.module.next_instruction_id, parent := d.parent } ∧
      (o'.module.computation? o'.module.entry_computation).map
        (fun computation => computation.root_instruction)
          = some o.module.next_instruction_id ∧
      o'.module.instruction? custom_call_instruction = none ∧
      custom_call_instruction ∈ o'.already_visited_move_to_host_custom_calls_ := by
  -- names for the steps
  have hcid : c.id = custom_call_instruction := get_id _ _ _ hget
  have hnc : o.module.next_instruction_id ≠ custom_call_instruction := by
    intro h
    rw [h, (get_eq_ok_iff _ _ _).1 hget] at hfresh
    cases hfresh
  have hopcode : c.opcode = HloOpcode.kCustomCall := by
    unfold HloInstruction.IsCustomCall at hcall
    simp only [Bool.and_eq_true, decide_eq_true_eq] at hcall
    exact hcall.1
  -- the starting instructions
  have hstart : GetStartingInstructions u fuel o.module custom_call_instruction = .ok [] := by
    unfold GetStartingInstructions
    rw [hsuccessors]
    cases fuel <;> rfl
  -- the copy to host
  have hadded : (o.module.AddInstruction d.parent
      (CreateUnary d.shape HloOpcode.kCopy data_to_copy)).1.get o.module.next_instruction_id
        = .ok { CreateUnary d.shape HloOpcode.kCopy data_to_copy with
                id := o.module.next_instruction_id, parent := d.parent } :=
    get_AddInstruction_new _ _ _ hfresh
  have hcolor := SetSubshapeMemorySpace_top_eq _ o.module.next_instruction_id _ element_type
    dimensions layout kHostMemorySpace hadded hshape
  have hcopy : HandleMoveToHostCustomCall.copy_root_to_host o.module custom_call_instruction
      = ((o.module.AddInstruction d.parent
          (CreateUnary d.shape HloOpcode.kCopy data_to_copy)).1.update
            o.module.next_instruction_id (fun i =>
              { i with shape := .array element_type dimensions (some ⟨kHostMemorySpace⟩) })
          ).ReplaceAllUsesWith custom_call_instruction o.module.next_instruction_id := by
    unfold HandleMoveToHostCustomCall.copy_root_to_host
    simp only [hget, hoperand, hd]
    have : (o.module.AddInstruction d.parent
        (CreateUnary d.shape HloOpcode.kCopy data_to_copy)).2 = o.module.next_instruction_id := rfl
    rw [this, hcolor]
  obtain ⟨m2, hm2, hnext2, hentry2, hcomputations2, hinstructions2, hfind2⟩ :=
    get_ReplaceAllUsesWith ((o.module.AddInstruction d.parent
      (CreateUnary d.shape HloOpcode.kCopy data_to_copy)).1.update
        o.module.next_instruction_id (fun i =>
          { i with shape := .array element_type dimensions (some ⟨kHostMemorySpace⟩) }))
      custom_call_instruction o.module.next_instruction_id
  rw [hm2] at hcopy
  -- what is found in the module with the copy
  have hfind1 : ∀ x, ((o.module.AddInstruction d.parent
      (CreateUnary d.shape HloOpcode.kCopy data_to_copy)).1.update
        o.module.next_instruction_id (fun i =>
          { i with shape := .array element_type dimensions (some ⟨kHostMemorySpace⟩) })
        ).instruction? x
      = ((o.module.instruction? x).or
          (if o.module.next_instruction_id = x then
            some { CreateUnary d.shape HloOpcode.kCopy data_to_copy with
              id := o.module.next_instruction_id, parent := d.parent }
          else none)).map (fun i =>
            if i.id = o.module.next_instruction_id then
              { i with shape := .array element_type dimensions (some ⟨kHostMemorySpace⟩) }
            else i) := by
    intro x
    rw [instruction?_update _ _ _ (fun i =>
        { i with shape := .array element_type dimensions (some ⟨kHostMemorySpace⟩) })
      (fun _ => rfl), instruction?_AddInstruction]
  have hc2 : m2.get custom_call_instruction
      = .ok { c with operands := c.operands.map (fun x =>
          if x = custom_call_instruction then o.module.next_instruction_id else x) } := by
    rw [get_eq_ok_iff, hfind2, hfind1, (get_eq_ok_iff _ _ _).1 hget]
    simp only [Option.or, Option.map_some', hcid, if_neg (Ne.symm hnc)]
  have hoperand2 : ({ c with operands := c.operands.map (fun x =>
      if x = custom_call_instruction then o.module.next_instruction_id else x) } :
        HloInstruction).operand 0 = .ok data_to_copy := by
    unfold HloInstruction.operand at hoperand ⊢
    simp only [List.getElem?_map]
    cases h0 : c.operands[0]? with
    | none => rw [h0] at hoperand; cases hoperand
    | some a =>
      rw [h0] at hoperand
      cases hoperand
      simp only [Option.map_some', if_neg hne]
  obtain ⟨m3, hm3, hnext3, hentry3, hcomputations3, hinstructions3, hfind3⟩ :=
    get_ReplaceAllUsesWith m2 custom_call_instruction data_to_copy
  have hc3 : ∃ c3, m3.get custom_call_instruction = .ok c3 ∧ c3.id = custom_call_instruction ∧
      c3.opcode = HloOpcode.kCustomCall := by
    have hfound : m3.instruction? custom_call_instruction
        = some { c with
            operands := (c.operands.map (fun x =>
              if x = custom_call_instruction then o.module.next_instruction_id else x)).map
                (fun x => if x = custom_call_instruction then data_to_copy else x) } := by
      rw [hfind3, (get_eq_ok_iff _ _ _).1 hc2]
      rfl
    exact ⟨_, (get_eq_ok_iff _ _ _).2 hfound, hcid, hopcode⟩
  obtain ⟨c3, hc3, hc3id, hc3opcode⟩ := hc3
  have hroot3 : m3.IsRoot c3 = false := by
    apply IsRoot_eq_false
    intro computation hcomputation
    rw [hcomputations3, hcomputations2] at hcomputation
    simp only [List.mem_map] at hcomputation
    obtain ⟨c1, ⟨c0, _, hc0⟩, hc1⟩ := hcomputation
    rw [← hc1, ← hc0, hc3id]
    by_cases hr : c0.root_instruction = custom_call_instruction
    · simp only [hr, if_true, if_neg hnc]
      exact hnc
    · simp only [hr, if_false]
      exact hr
  have husers3 : m3.users custom_call_instruction = [] := by
    apply users_eq_nil
    intro j hj
    rw [hinstructions3, hinstructions2] at hj
    simp only [List.mem_map] at hj
    obtain ⟨j1, ⟨j0, _, hj0⟩, hj1⟩ := hj
    rw [← hj1, ← hj0]
    simp only
    rw [map_replace_of_not_mem _ _ _ (not_mem_map_replace _ _ _ hnc)]
    exact not_mem_map_replace _ _ _ hnc
  have hremove := RemoveInstruction_ok m3 custom_call_instruction c3 hc3 hroot3
    (by rw [hc3opcode]; decide) husers3
  obtain ⟨hinstructions4, hcomputations4, hentry4, _, hfind4⟩ :=
    get_RemoveInstruction m3 _ custom_call_instruction hremove
  refine ⟨{ o with
      module := { m3 with instructions :=
        m3.instructions.filter (fun j => decide (j.id ≠ custom_call_instruction)) }
      already_visited_move_to_host_custom_calls_ :=
        setInsert o.already_visited_move_to_host_custom_calls_ custom_call_instruction },
    ?_, ?_, ?_, ?_, ?_⟩
  · unfold HandleMoveToHostCustomCall
    simp only [if_neg hnew, hstart, hroot, and_self, if_true, hcopy, List.foldlM_nil, pure,
      Except.pure, hc2, hoperand2, hm3, hremove]
  · rw [get_eq_ok_iff, hfind4, if_neg hnc, hfind3, hfind2, hfind1, hfresh]
    simp only [Option.or, if_true, Option.map_some', CreateUnary, List.map_cons, List.map_nil,
      if_neg hne]
  · simp only
    unfold HloModule.computation?
    rw [hcomputations3, hcomputations2, hentry3, hentry2]
    rw [find?_computation_map _ _ (by intro c; split <;> rfl),
      find?_computation_map _ _ (by intro c; split <;> rfl)]
    unfold HloModule.computation? at hroot
    cases hfind : o.module.computations.find?
        (fun c => decide (c.id = o.module.entry_computation)) with
    | none =>
      change (List.find? (fun c => decide (c.id = o.module.entry_computation))
        o.module.computations).map _ = _ at hroot
      rw [hfind] at hroot
      cases hroot
    | some computation =>
      change (List.find? (fun c => decide (c.id = o.module.entry_computation))
        o.module.computations).map _ = _ at hroot
      rw [hfind] at hroot
      simp only [Option.map_some', Option.some.injEq] at hroot
      change (Option.map _ (Option.map _ (List.find? (fun c =>
        decide (c.id = o.module.entry_computation)) o.module.computations))).map _ = _
      rw [hfind]
      simp only [Option.map_some', hroot, if_true, if_neg hnc]
  · exact hfind4 custom_call_instruction |>.trans (if_pos rfl)
  · exact (mem_setInsert _ _ _).2 (Or.inr rfl)

/-- Witness for C26: `MoveToHost(p0)` as the root of the entry computation. -/
theorem c26_root_move_to_host_becomes_host_copy_witness :
    ∃ o', HandleMoveToHostCustomCall exampleCollaborators 10
        (exampleOffloader exampleMoveToHostRootModule) 2 = .ok (true, o') ∧
      o'.module.get 10
        = .ok { CreateUnary (.array 11 [10] (some ⟨kHostMemorySpace⟩)) HloOpcode.kCopy 1 with
                id := 10, parent := 0 } ∧
      (o'.module.computation? o'.module.entry_computation).map
        (fun computation => computation.root_instruction) = some 10 ∧
      o'.module.instruction? 2 = none ∧
      2 ∈ o'.already_visited_move_to_host_custom_calls_ :=
  c26_root_move_to_host_becomes_host_copy exampleCollaborators 10
    (exampleOffloader exampleMoveToHostRootModule) 2 1
    (exampleCustomCall 2 kMoveToHostCustomCallTarget 1) (exampleParameter kDefaultMemorySpace)
    11 [10] ⟨kDefaultMemorySpace⟩ (by decide) rfl rfl rfl rfl rfl (by decide) rfl rfl rfl

/-! ## Clearing the host memory space from all shapes -/

mutual
/-- After `Shape.RemoveHostMemorySpace` the flag is not set again. -/
theorem RemoveHostMemorySpace_flag_cleared : ∀ (s : Shape),
    (Shape.RemoveHostMemorySpace (Shape.RemoveHostMemorySpace s).1).2 = false
  | .array t d (some l) => by
    by_cases h : l.memory_space = kHostMemorySpace
    · simp only [Shape.RemoveHostMemorySpace, h, if_true,
        kDefaultMemorySpace_ne_kHostMemorySpace, if_false]
    · simp only [Shape.RemoveHostMemorySpace, h, if_false]
  | .array t d none => by
    simp only [Shape.RemoveHostMemorySpace]
  | .tuple es => by
    simp only [Shape.RemoveHostMemorySpace]
    exact RemoveHostMemorySpace_of_elements_flag_cleared es
/-- The same for the elements of a tuple shape. -/
theorem RemoveHostMemorySpace_of_elements_flag_cleared : ∀ (es : List Shape),
    (Shape.RemoveHostMemorySpace_of_elements (Shape.RemoveHostMemorySpace_of_elements es).1).2
      = false
  | [] => by
    simp only [Shape.RemoveHostMemorySpace_of_elements]
  | e :: es => by
    simp only [Shape.RemoveHostMemorySpace_of_elements, Bool.or_eq_false_iff]
    exact ⟨RemoveHostMemorySpace_flag_cleared e,
      RemoveHostMemorySpace_of_elements_flag_cleared es⟩
end

/-- Clearing a cleared shape changes nothing. -/
theorem RemoveHostMemorySpace_idempotent (s : Shape) :
    (Shape.RemoveHostMemorySpace (Shape.RemoveHostMemorySpace s).1).1
      = (Shape.RemoveHostMemorySpace s).1 :=
  RemoveHostMemorySpace_unchanged _ (RemoveHostMemorySpace_flag_cleared s)

mutual
/-- The flag of `Shape.RemoveHostMemorySpace` is set only for a shape with a leaf
in host memory space. -/
theorem RemoveHostMemorySpace_flag_only : ∀ (s : Shape),
    (Shape.RemoveHostMemorySpace s).2 = true →
      ∃ p ∈ s.leaves, p.2.has_memory_space kHostMemorySpace = true
  | .array t d (some l), h => by
    by_cases hl : l.memory_space = kHostMemorySpace
    · refine ⟨([], .array t d (some l)), ?_, ?_⟩
      · simp only [Shape.leaves, List.mem_singleton]
      · simp only [Shape.has_memory_space, hl, decide_True]
    · simp only [Shape.RemoveHostMemorySpace, hl, if_false] at h
      cases h
  | .array t d none, h => by
    simp only [Shape.RemoveHostMemorySpace] at h
    cases h
  | .tuple es, h => by
    simp only [Shape.RemoveHostMemorySpace] at h
    simp only [Shape.leaves]
    exact RemoveHostMemorySpace_of_elements_flag_only 0 es h
/-- The same for the elements of a tuple shape. -/
theorem RemoveHostMemorySpace_of_elements_flag_only : ∀ (i : Nat) (es : List Shape),
    (Shape.RemoveHostMemorySpace_of_elements es).2 = true →
      ∃ p ∈ Shape.leaves_of_elements i es, p.2.has_memory_space kHostMemorySpace = true
  | _, [], h => by
    simp only [Shape.RemoveHostMemorySpace_of_elements] at h
    cases h
  | i, e :: es, h => by
    simp only [Shape.RemoveHostMemorySpace_of_elements, Bool.or_eq_true] at h
    simp only [Shape.leaves_of_elements, List.mem_append, List.mem_map]
    rcases h with h | h
    · obtain ⟨p, hp, hhost⟩ := RemoveHostMemorySpace_flag_only e h
      exact ⟨(i :: p.1, p.2), Or.inl ⟨p, hp, rfl⟩, hhost⟩
    · obtain ⟨p, hp, hhost⟩ := RemoveHostMemorySpace_of_elements_flag_only (i + 1) es h
      exact ⟨p, Or.inr hp, hhost⟩
end

mutual
/-- The leaves of a cleared shape: a leaf in host memory space is in the default
memory space, every other leaf is as before. -/
theorem leaves_RemoveHostMemorySpace : ∀ (s : Shape),
    (Shape.RemoveHostMemorySpace s).1.leaves
      = s.leaves.map (fun p =>
          (p.1, if p.2.has_memory_space kHostMemorySpace = true then
                  (match p.2 with
                   | .array t d _ => Shape.array t d (some ⟨kDefaultMemorySpace⟩)
                   | other => other)
                else p.2))
  | .array t d (some l) => by
    by_cases h : l.memory_space = kHostMemorySpace
    · simp only [Shape.RemoveHostMemorySpace, h, if_true, Shape.leaves, List.map_cons,
        List.map_nil, Shape.has_memory_space, decide_True]
    · simp only [Shape.RemoveHostMemorySpace, h, if_false, Shape.leaves, List.map_cons,
        List.map_nil, Shape.has_memory_space, decide_False, Bool.false_eq_true]
  | .array t d none => by
    simp only [Shape.RemoveHostMemorySpace, Shape.leaves, List.map_cons, List.map_nil,
      Shape.has_memory_space, Bool.false_eq_true, if_false]
  | .tuple es => by
    simp only [Shape.RemoveHostMemorySpace, Shape.leaves]
    exact leaves_RemoveHostMemorySpace_of_elements 0 es
/-- The same for the elements of a tuple shape. -/
theorem leaves_RemoveHostMemorySpace_of_elements : ∀ (i : Nat) (es : List Shape),
    Shape.leaves_of_elements i (Shape.RemoveHostMemorySpace_of_elements es).1
      = (Shape.leaves_of_elements i es).map (fun p =>
          (p.1, if p.2.has_memory_space kHostMemorySpace = true then
                  (match p.2 with
                   | .array t d _ => Shape.array t d (some ⟨kDefaultMemorySpace⟩)
                   | other => other)
                else p.2))
  | _, [] => by
    simp only [Shape.RemoveHostMemorySpace_of_elements, Shape.leaves_of_elements, List.map_nil]
  | i, e :: es => by
    simp only [Shape.RemoveHostMemorySpace_of_elements, Shape.leaves_of_elements,
      List.map_append, List.map_map]
    rw [leaves_RemoveHostMemorySpace e, leaves_RemoveHostMemorySpace_of_elements (i + 1) es]
    simp only [List.map_map]
    rfl
end

/-- No leaf of a cleared shape is in host memory space. -/
theorem RemoveHostMemorySpace_no_host_leaf (s : Shape) :
    ∀ p ∈ (Shape.RemoveHostMemorySpace s).1.leaves,
      p.2.has_memory_space kHostMemorySpace = false := by
  intro p hp
  cases hhost : p.2.has_memory_space kHostMemorySpace with
  | false => rfl
  | true =>
    have h := RemoveHostMemorySpace_flag _ ⟨p, hp, hhost⟩
    rw [RemoveHostMemorySpace_flag_cleared] at h
    cases h

/-- The inner loop of `RemoveHostMemorySpaceFromAllShapes` in closed form: the
flag is set when one of the visited instructions sets it, and the instructions
with the id of a visited instruction have their shapes cleared. -/
theorem RemoveHostMemorySpaceFromAllShapes_visit_foldl (instructions : List HloInstruction) :
    ∀ (b : Bool) (m : HloModule),
      instructions.foldl RemoveHostMemorySpaceFromAllShapes.visit (b, m)
        = (b || instructions.any (fun i => (Shape.RemoveHostMemorySpace i.shape).2),
            { m with instructions := m.instructions.map (fun j =>
                if j.id ∈ instructions.map (fun i => i.id) then
                  { j with shape := (Shape.RemoveHostMemorySpace j.shape).1 }
                else j) }) := by
  induction instructions with
  | nil =>
    intro b m
    simp only [List.foldl_nil, List.any_nil, Bool.or_false, List.map_nil, List.not_mem_nil,
      if_false, List.map_id']
  | cons i rest ih =>
    intro b m
    rw [List.foldl_cons]
    have hvisit : RemoveHostMemorySpaceFromAllShapes.visit (b, m) i
        = (b || (Shape.RemoveHostMemorySpace i.shape).2,
            m.update i.id
              (fun i => { i with shape := (Shape.RemoveHostMemorySpace i.shape).1 })) := rfl
    rw [hvisit, ih]
    simp only [List.any_cons, Bool.or_assoc, HloModule.update, List.map_map, List.map_cons,
      List.mem_cons]
    congr 2
    apply List.map_congr_left
    intro j _
    simp only [Function.comp]
    by_cases hji : j.id = i.id
    · by_cases hjr : j.id ∈ rest.map (fun i => i.id)
      · simp only [hji, if_true, true_or] at hjr ⊢
        simp only [hjr, if_true, RemoveHostMemorySpace_idempotent]
      · simp only [hji, if_true, true_or] at hjr ⊢
        simp only [hjr, if_false]
    · by_cases hjr : j.id ∈ rest.map (fun i => i.id)
      · simp only [hji, if_false, false_or, hjr, if_true]
      · simp only [hji, if_false, false_or, hjr]

/-- In a module with unique instruction ids, an instruction of the module has the
id of an instruction of computation `c` only if it is in computation `c`. -/
theorem parent_of_id_mem (m : HloModule)
    (hids : (m.instructions.map (fun i => i.id)).Nodup) (c : Nat) (j : HloInstruction)
    (hj : j ∈ m.instructions)
    (h : ∃ k ∈ m.instructions, k.parent = c ∧ k.id = j.id) : j.parent = c := by
  obtain ⟨k, hk, hparent, hid⟩ := h
  have hkj : k = j := List.inj_on_of_nodup_map hids hk hj hid
  rw [← hkj]
  exact hparent

/-- One computation more is cleared: the instructions that have the id of an
instruction of computation `c` are the instructions of computation `c`. -/
theorem clear_one_more (done ids : List Nat) (c : Nat) (j : HloInstruction)
    (hiff : j.id ∈ ids ↔ j.parent = c) :
    (fun k : HloInstruction =>
        if k.id ∈ ids then { k with shape := (Shape.RemoveHostMemorySpace k.shape).1 } else k)
      ((fun k : HloInstruction =>
        if k.parent ∈ done then { k with shape := (Shape.RemoveHostMemorySpace k.shape).1 }
        else k) j)
      = if j.parent ∈ done ++ [c] then
          { j with shape := (Shape.RemoveHostMemorySpace j.shape).1 }
        else j := by
  by_cases hjd : j.parent ∈ done
  · have hmem : j.parent ∈ done ++ [c] := List.mem_append_left _ hjd
    simp only [if_pos hjd, if_pos hmem]
    by_cases hji : j.id ∈ ids
    · simp only [if_pos hji, RemoveHostMemorySpace_idempotent]
    · simp only [if_neg hji]
  · by_cases hjc : j.parent = c
    · have hmem : j.parent ∈ done ++ [c] :=
        List.mem_append_right _ (List.mem_singleton.2 hjc)
      simp only [if_neg hjd, if_pos hmem, if_pos (hiff.2 hjc)]
    · have hmem : j.parent ∉ done ++ [c] := by
        intro h
        rcases List.mem_append.1 h with h | h
        · exact hjd h
        · exact hjc (List.mem_singleton.1 h)
      simp only [if_neg hjd, if_neg hmem, if_neg (fun h => hjc (hiff.1 h))]

/-- The loop over the computations in `RemoveHostMemorySpaceFromAllShapes`, in
closed form, started from the module in which the shapes of the computations
`done` are cleared. -/
theorem RemoveHostMemorySpaceFromAllShapes_computations (m : HloModule)
    (hids : (m.instructions.map (fun i => i.id)).Nodup) (computations : List HloComputation) :
    ∀ (done : List Nat) (b : Bool),
      (computations.foldl
        (fun (st : Bool × HloModule) (computation : HloComputation) =>
          (st.2.instructions_of computation.id).foldl RemoveHostMemorySpaceFromAllShapes.visit st)
        (b, ({ m with instructions := m.instructions.map (fun j =>
          if j.parent ∈ done then
            { j with shape := (Shape.RemoveHostMemorySpace j.shape).1 }
          else j) } : HloModule))).2
        = ({ m with instructions := m.instructions.map (fun j =>
            if j.parent ∈ done ++ computations.map (fun c => c.id) then
              { j with shape := (Shape.RemoveHostMemorySpace j.shape).1 }
            else j) } : HloModule) ∧
      ((computations.foldl
        (fun (st : Bool × HloModule) (computation : HloComputation) =>
          (st.2.instructions_of computation.id).foldl RemoveHostMemorySpaceFromAllShapes.visit st)
        (b, ({ m with instructions := m.instructions.map (fun j =>
          if j.parent ∈ done then
            { j with shape := (Shape.RemoveHostMemorySpace j.shape).1 }
          else j) } : HloModule))).1 = true ↔
        (b = true ∨ ∃ j ∈ m.instructions, j.parent ∈ computations.map (fun c => c.id) ∧
          j.parent ∉ done ∧ (Shape.RemoveHostMemorySpace j.shape).2 = true)) := by
  induction computations with
  | nil =>
    intro done b
    simp only [List.foldl_nil, List.map_nil, List.append_nil, List.not_mem_nil, false_and,
      and_false, exists_false, or_false, and_self]
  | cons c rest ih =>
    intro done b
    rw [List.foldl_cons]
    simp only []
    rw [RemoveHostMemorySpaceFromAllShapes_visit_foldl]
    -- the module after the inner loop
    have hmodule : ({ ({ m with instructions := m.instructions.map (fun j =>
          if j.parent ∈ done then
            { j with shape := (Shape.RemoveHostMemorySpace j.shape).1 }
          else j) } : HloModule) with
        instructions := ({ m with instructions := m.instructions.map (fun j =>
          if j.parent ∈ done then
            { j with shape := (Shape.RemoveHostMemorySpace j.shape).1 }
          else j) } : HloModule).instructions.map (fun j =>
            if j.id ∈ (({ m with instructions := m.instructions.map (fun j =>
                if j.parent ∈ done then
                  { j with shape := (Shape.RemoveHostMemorySpace j.shape).1 }
                else j) } : HloModule).instructions_of c.id).map (fun i => i.id) then
              { j with shape := (Shape.RemoveHostMemorySpace j.shape).1 }
            else j) } : HloModule)
        = { m with instructions := m.instructions.map (fun j =>
            if j.parent ∈ done ++ [c.id] then
              { j with shape := (Shape.RemoveHostMemorySpace j.shape).1 }
            else j) } := by
      simp only [List.map_map]
      congr 1
      apply List.map_congr_left
      intro j hj
      have hiff : j.id ∈ (({ m with instructions := m.instructions.map (fun j =>
            if j.parent ∈ done then
              { j with shape := (Shape.RemoveHostMemorySpace j.shape).1 }
            else j) } : HloModule).instructions_of c.id).map (fun i => i.id)
          ↔ j.parent = c.id := by
        unfold HloModule.instructions_of
        simp only [List.mem_map, List.mem_filter, decide_eq_true_eq]
        constructor
        · rintro ⟨k1, ⟨⟨k, hk, hk1⟩, hkparent⟩, hkid⟩
          apply parent_of_id_mem m hids c.id j hj
          refine ⟨k, hk, ?_, ?_⟩
          · rw [← hkparent, ← hk1]
            split <;> rfl
          · rw [← hkid, ← hk1]
            split <;> rfl
        · intro hjc
          refine ⟨_, ⟨⟨j, hj, rfl⟩, ?_⟩, ?_⟩
          · rw [← hjc]
            split <;> rfl
          · split <;> rfl
      exact clear_one_more done _ c.id j hiff
    -- the flag after the inner loop
    have hflag : (b || (({ m with instructions := m.instructions.map (fun j =>
          if j.parent ∈ done then
            { j with shape := (Shape.RemoveHostMemorySpace j.shape).1 }
          else j) } : HloModule).instructions_of c.id).any
            (fun i => (Shape.RemoveHostMemorySpace i.shape).2)) = true
        ↔ (b = true ∨ ∃ j ∈ m.instructions, j.parent = c.id ∧ j.parent ∉ done ∧
            (Shape.RemoveHostMemorySpace j.shape).2 = true) := by
      unfold HloModule.instructions_of
      simp only [Bool.or_eq_true, List.any_eq_true, List.mem_filter, List.mem_map,
        decide_eq_true_eq]
      constructor
      · rintro (hb | ⟨k1, ⟨⟨k, hk, hk1⟩, hkparent⟩, hkflag⟩)
        · exact Or.inl hb
        · right
          by_cases hkd : k.parent ∈ done
          · rw [if_pos hkd] at hk1
            rw [← hk1] at hkflag
            simp only [RemoveHostMemorySpace_flag_cleared] at hkflag
            cases hkflag
          · rw [if_neg hkd] at hk1
            rw [← hk1] at hkflag hkparent
            exact ⟨k, hk, hkparent, hkd, hkflag⟩
      · rintro (hb | ⟨k, hk, hkparent, hkd, hkflag⟩)
        · exact Or.inl hb
        · right
          refine ⟨k, ⟨⟨k, hk, ?_⟩, hkparent⟩, hkflag⟩
          rw [if_neg hkd]
    rw [hmodule]
    obtain ⟨ih1, ih2⟩ := ih (done ++ [c.id])
      (b || (({ m with instructions := m.instructions.map (fun j =>
          if j.parent ∈ done then
            { j with shape := (Shape.RemoveHostMemorySpace j.shape).1 }
          else j) } : HloModule).instructions_of c.id).any
            (fun i => (Shape.RemoveHostMemorySpace i.shape).2))
    constructor
    · rw [ih1]
      simp only [List.append_assoc, List.singleton_append, List.map_cons]
    · rw [ih2, hflag]
      simp only [List.map_cons, List.mem_cons, List.mem_append, List.not_mem_nil, or_false,
        not_or]
      constructor
      · rintro ((hb | ⟨j, hj, hjc, hjd, hjflag⟩) | ⟨j, hj, hjr, ⟨hjd, _⟩, hjflag⟩)
        · exact Or.inl hb
        · exact Or.inr ⟨j, hj, Or.inl hjc, hjd, hjflag⟩
        · exact Or.inr ⟨j, hj, Or.inr hjr, hjd, hjflag⟩
      · rintro (hb | ⟨j, hj, hjc | hjr, hjd, hjflag⟩)
        · exact Or.inl (Or.inl hb)
        · exact Or.inl (Or.inr ⟨j, hj, hjc, hjd, hjflag⟩)
        · by_cases hjc : j.parent = c.id
          · exact Or.inl (Or.inr ⟨j, hj, hjc, hjd, hjflag⟩)
          · exact Or.inr ⟨j, hj, hjr, ⟨hjd, hjc⟩, hjflag⟩

/-- `RemoveHostMemorySpaceFromAllShapes` in closed form, for a module with unique
instruction ids. -/
theorem RemoveHostMemorySpaceFromAllShapes_closed_form (m : HloModule)
    (hids : (m.instructions.map (fun i => i.id)).Nodup) :
    (RemoveHostMemorySpaceFromAllShapes m).2
        = { m with instructions := m.instructions.map (fun j =>
            if j.parent ∈ m.computations.map (fun c => c.id) then
              { j with shape := (Shape.RemoveHostMemorySpace j.shape).1 }
            else j) } ∧
      ((RemoveHostMemorySpaceFromAllShapes m).1 = true ↔
        ∃ j ∈ m.instructions, j.parent ∈ m.computations.map (fun c => c.id) ∧
          (Shape.RemoveHostMemorySpace j.shape).2 = true) := by
  have h := RemoveHostMemorySpaceFromAllShapes_computations m hids m.computations [] false
  simp only [List.not_mem_nil, if_false, List.map_id', List.nil_append, Bool.false_eq_true,
    false_or, not_false_eq_true, true_and] at h
  exact h

/-- C27: `RemoveHostMemorySpaceFromAllShapes` on a module with unique instruction
ids. The module afterwards is the module before in which the shape of every
instruction of a computation of the module is cleared, and nothing else is
changed; the leaves of a cleared shape are the leaves before, where a leaf in
host memory space is now in the default memory space and every other leaf is as
it was, and a shape without a leaf in host memory space is not changed at all;
afterwards no leaf of an instruction of a computation of the module is in host
memory space; the result is `true` exactly when an instruction of a computation
of the module had a leaf in host memory space; and a second application returns
`false` and the same module. -/
theorem c27_host_memory_space_removed (m : HloModule)
    (hids : (m.instructions.map (fun i => i.id)).Nodup) :
    (RemoveHostMemorySpaceFromAllShapes m).2
        = { m with instructions := m.instructions.map (fun j =>
            if j.parent ∈ m.computations.map (fun c => c.id) then
              { j with shape := (Shape.RemoveHostMemorySpace j.shape).1 }
            else j) } ∧
      (∀ s : Shape, (Shape.RemoveHostMemorySpace s).1.leaves
        = s.leaves.map (fun p =>
            (p.1, if p.2.has_memory_space kHostMemorySpace = true then
                    (match p.2 with
                     | .array t d _ => Shape.array t d (some ⟨kDefaultMemorySpace⟩)
                     | other => other)
                  else p.2))) ∧
      (∀ s : Shape, (∀ p ∈ s.leaves, p.2.has_memory_space kHostMemorySpace = false) →
        (Shape.RemoveHostMemorySpace s).1 = s) ∧
      (∀ i ∈ (RemoveHostMemorySpaceFromAllShapes m).2.instructions,
        i.parent ∈ (RemoveHostMemorySpaceFromAllShapes m).2.computations.map (fun c => c.id) →
        ∀ p ∈ i.shape.leaves, p.2.has_memory_space kHostMemorySpace = false) ∧
      ((RemoveHostMemorySpaceFromAllShapes m).1 = true ↔
        ∃ i ∈ m.instructions, i.parent ∈ m.computations.map (fun c => c.id) ∧
          ∃ p ∈ i.shape.leaves, p.2.has_memory_space kHostMemorySpace = true) ∧
      RemoveHostMemorySpaceFromAllShapes (RemoveHostMemorySpaceFromAllShapes m).2
        = (false, (RemoveHostMemorySpaceFromAllShapes m).2) := by
  obtain ⟨hmodule, hflag⟩ := RemoveHostMemorySpaceFromAllShapes_closed_form m hids
  refine ⟨hmodule, leaves_RemoveHostMemorySpace, ?_, ?_, ?_, ?_⟩
  · intro s hs
    apply RemoveHostMemorySpace_unchanged
    cases hf : (Shape.RemoveHostMemorySpace s).2 with
    | false => rfl
    | true =>
      obtain ⟨p, hp, hhost⟩ := RemoveHostMemorySpace_flag_only s hf
      rw [hs p hp] at hhost
      cases hhost
  · rw [hmodule]
    intro i hi hparent p hp
    obtain ⟨j, _, hj⟩ := List.mem_map.1 hi
    by_cases hjc : j.parent ∈ m.computations.map (fun c => c.id)
    · rw [if_pos hjc] at hj
      rw [← hj] at hp
      exact RemoveHostMemorySpace_no_host_leaf j.shape p hp
    · rw [if_neg hjc] at hj
      rw [← hj] at hparent
      exact absurd hparent hjc
  · rw [hflag]
    constructor
    · rintro ⟨j, hj, hparent, hf⟩
      exact ⟨j, hj, hparent, RemoveHostMemorySpace_flag_only _ hf⟩
    · rintro ⟨j, hj, hparent, hleaf⟩
      exact ⟨j, hj, hparent, RemoveHostMemorySpace_flag _ hleaf⟩
  · have hids2 : ((RemoveHostMemorySpaceFromAllShapes m).2.instructions.map
        (fun i => i.id)).Nodup := by
      rw [hmodule]
      simp only [List.map_map]
      have hsame : (m.instructions.map ((fun i : HloInstruction => i.id) ∘ (fun j =>
          if j.parent ∈ m.computations.map (fun c => c.id) then
            { j with shape := (Shape.RemoveHostMemorySpace j.shape).1 }
          else j))) = m.instructions.map (fun i => i.id) := by
        apply List.map_congr_left
        intro j _
        simp only [Function.comp]
        split <;> rfl
      rw [hsame]
      exact hids
    obtain ⟨hmodule2, hflag2⟩ :=
      RemoveHostMemorySpaceFromAllShapes_closed_form _ hids2
    have h2 : (RemoveHostMemorySpaceFromAllShapes
        (RemoveHostMemorySpaceFromAllShapes m).2).2
        = (RemoveHostMemorySpaceFromAllShapes m).2 := by
      rw [hmodule2]
      rw [hmodule]
      simp only [List.map_map]
      congr 1
      apply List.map_congr_left
      intro j _
      simp only [Function.comp]
      by_cases hjc : j.parent ∈ m.computations.map (fun c => c.id)
      · simp only [if_pos hjc, RemoveHostMemorySpace_idempotent]
      · simp only [if_neg hjc]
    have h1 : (RemoveHostMemorySpaceFromAllShapes
        (RemoveHostMemorySpaceFromAllShapes m).2).1 = false := by
      cases hf : (RemoveHostMemorySpaceFromAllShapes
          (RemoveHostMemorySpaceFromAllShapes m).2).1 with
      | false => rfl
      | true =>
        obtain ⟨i, hi, hparent, hif⟩ := hflag2.1 hf
        rw [hmodule] at hi hparent
        obtain ⟨j, _, hj⟩ := List.mem_map.1 hi
        by_cases hjc : j.parent ∈ m.computations.map (fun c => c.id)
        · rw [if_pos hjc] at hj
          rw [← hj] at hif
          simp only [RemoveHostMemorySpace_flag_cleared] at hif
          cases hif
        · rw [if_neg hjc] at hj
          rw [← hj] at hparent
          exact absurd hparent hjc
    exact Prod.ext h1 h2

/-- Witness for C27: the module `copy(p0)` whose copy is in host memory space. -/
theorem c27_host_memory_space_removed_witness :
    (RemoveHostMemorySpaceFromAllShapes (exampleOffloadedModule kHostMemorySpace)).1 = true ∧
      (∀ i ∈ (RemoveHostMemorySpaceFromAllShapes
          (exampleOffloadedModule kHostMemorySpace)).2.instructions,
        i.parent ∈ (RemoveHostMemorySpaceFromAllShapes
          (exampleOffloadedModule kHostMemorySpace)).2.computations.map (fun c => c.id) →
        ∀ p ∈ i.shape.leaves, p.2.has_memory_space kHostMemorySpace = false) ∧
      RemoveHostMemorySpaceFromAllShapes
          (RemoveHostMemorySpaceFromAllShapes (exampleOffloadedModule kHostMemorySpace)).2
        = (false, (RemoveHostMemorySpaceFromAllShapes
            (exampleOffloadedModule kHostMemorySpace)).2) :=
  ⟨(c27_host_memory_space_removed (exampleOffloadedModule kHostMemorySpace)
      (by decide)).2.2.2.2.1.2
      ⟨exampleCopy kHostMemorySpace, by decide, by decide,
        ([], exampleShape kHostMemorySpace), by decide, by decide⟩,
    (c27_host_memory_space_removed (exampleOffloadedModule kHostMemorySpace)
      (by decide)).2.2.2.1,
    (c27_host_memory_space_removed (exampleOffloadedModule kHostMemorySpace)
      (by decide)).2.2.2.2.2⟩

/-! ## Removing the `MoveToDevice` custom calls -/

/-- An update that keeps the id, the parent and what makes a `MoveToDevice`
custom call brings no such custom call into the module. -/
theorem markers_update (m : HloModule) (id : Nat) (f : HloInstruction → HloInstruction)
    (hid : ∀ i, (f i).id = i.id)
    (hmarker : ∀ i, (f i).IsCustomCall kMoveToDeviceCustomCallTarget
      = i.IsCustomCall kMoveToDeviceCustomCallTarget)
    (hparent : ∀ i, (f i).parent = i.parent) :
    ∀ x i', (m.update id f).instruction? x = some i' →
      i'.IsCustomCall kMoveToDeviceCustomCallTarget = true →
      ∃ i, m.instruction? x = some i ∧
        i.IsCustomCall kMoveToDeviceCustomCallTarget = true ∧ i.parent = i'.parent := by
  intro x i' h hm
  rw [instruction?_update m id x f hid] at h
  cases hfind : m.instruction? x with
  | none => rw [hfind] at h; cases h
  | some i =>
    rw [hfind] at h
    simp only [Option.map_some', Option.some.injEq] at h
    refine ⟨i, rfl, ?_, ?_⟩
    · rw [← h] at hm
      by_cases hi : i.id = id
      · rw [if_pos hi, hmarker] at hm
        exact hm
      · rw [if_neg hi] at hm
        exact hm
    · rw [← h]
      by_cases hi : i.id = id
      · rw [if_pos hi, hparent]
      · rw [if_neg hi]

/-- Adding an instruction that is no `MoveToDevice` custom call brings no such
custom call into the module. -/
theorem markers_AddInstruction (m : HloModule) (parent : Nat) (i0 : HloInstruction)
    (h0 : i0.IsCustomCall kMoveToDeviceCustomCallTarget = false) :
    ∀ x i', (m.AddInstruction parent i0).1.instruction? x = some i' →
      i'.IsCustomCall kMoveToDeviceCustomCallTarget = true →
      ∃ i, m.instruction? x = some i ∧
        i.IsCustomCall kMoveToDeviceCustomCallTarget = true ∧ i.parent = i'.parent := by
  intro x i' h hm
  rw [instruction?_AddInstruction] at h
  cases hfind : m.instruction? x with
  | some i =>
    rw [hfind] at h
    simp only [Option.or, Option.some.injEq] at h
    rw [← h] at hm ⊢
    exact ⟨i, rfl, hm, rfl⟩
  | none =>
    rw [hfind] at h
    simp only [Option.or] at h
    split at h
    · simp only [Option.some.injEq] at h
      rw [← h] at hm
      have : ({ i0 with id := m.next_instruction_id, parent := parent } :
          HloInstruction).IsCustomCall kMoveToDeviceCustomCallTarget
          = i0.IsCustomCall kMoveToDeviceCustomCallTarget := rfl
      rw [this, h0] at hm
      cases hm
    · cases h

/-- `ReplaceAllUsesWith` brings no `MoveToDevice` custom call into the module. -/
theorem markers_ReplaceAllUsesWith (m m' : HloModule) (old new_producer : Nat)
    (h : m.ReplaceAllUsesWith old new_producer = .ok m') :
    ∀ x i', m'.instruction? x = some i' →
      i'.IsCustomCall kMoveToDeviceCustomCallTarget = true →
      ∃ i, m.instruction? x = some i ∧
        i.IsCustomCall kMoveToDeviceCustomCallTarget = true ∧ i.parent = i'.parent := by
  intro x i' hx hm
  obtain ⟨m1, hm1, _, _, _, _, hfind⟩ := get_ReplaceAllUsesWith m old new_producer
  rw [h] at hm1
  cases hm1
  rw [hfind] at hx
  cases hfind0 : m.instruction? x with
  | none => rw [hfind0] at hx; cases hx
  | some i =>
    rw [hfind0] at hx
    simp only [Option.map_some', Option.some.injEq] at hx
    rw [← hx] at hm ⊢
    exact ⟨i, rfl, hm, rfl⟩

/-- `RemoveInstruction` brings no `MoveToDevice` custom call into the module. -/
theorem markers_RemoveInstruction (m m' : HloModule) (c : Nat)
    (h : m.RemoveInstruction c = .ok m') :
    ∀ x i', m'.instruction? x = some i' →
      i'.IsCustomCall kMoveToDeviceCustomCallTarget = true →
      ∃ i, m.instruction? x = some i ∧
        i.IsCustomCall kMoveToDeviceCustomCallTarget = true ∧ i.parent = i'.parent := by
  intro x i' hx hm
  obtain ⟨_, _, _, _, hfind⟩ := get_RemoveInstruction m m' c h
  rw [hfind] at hx
  split at hx
  · cases hx
  · exact ⟨i', hx, hm, rfl⟩

/-- `ReplaceOperandWith` brings no `MoveToDevice` custom call into the module. -/
theorem markers_ReplaceOperandWith (m m' : HloModule) (user n new_operand : Nat)
    (h : m.ReplaceOperandWith user n new_operand = .ok m') :
    ∀ x i', m'.instruction? x = some i' →
      i'.IsCustomCall kMoveToDeviceCustomCallTarget = true →
      ∃ i, m.instruction? x = some i ∧
        i.IsCustomCall kMoveToDeviceCustomCallTarget = true ∧ i.parent = i'.parent := by
  unfold HloModule.ReplaceOperandWith at h
  split at h
  · cases h
  · split at h
    · cases h
      exact markers_update m user
        (fun i => { i with operands := i.operands.set n new_operand })
        (fun _ => rfl) (fun _ => rfl) (fun _ => rfl)
    · cases h

/-- `HandleMoveToDeviceCustomCall` returns `true`, removes the custom call, and
replaces its uses by its operand `0`. -/
theorem HandleMoveToDeviceCustomCall_ok (o : HostOffloader) (c : Nat)
    (r : Bool × HostOffloader) (h : HandleMoveToDeviceCustomCall o c = .ok r) :
    r.1 = true ∧ r.2.module.instruction? c = none ∧
      ∃ i operand0, o.module.get c = .ok i ∧ i.operand 0 = .ok operand0 ∧
        r.2.module.instructions
          = (o.module.instructions.map (fun j =>
              { j with operands := j.operands.map (fun x => if x = c then operand0 else x) })
            ).filter (fun j => decide (j.id ≠ c)) ∧
        r.2.module.computations
          = o.module.computations.map (fun computation =>
              if computation.root_instruction = c then
                { computation with root_instruction := operand0 }
              else computation) ∧
        ∀ x i', r.2.module.instruction? x = some i' →
          i'.IsCustomCall kMoveToDeviceCustomCallTarget = true →
          ∃ i, o.module.instruction? x = some i ∧
            i.IsCustomCall kMoveToDeviceCustomCallTarget = true ∧ i.parent = i'.parent := by
  unfold HandleMoveToDeviceCustomCall at h
  split at h
  · cases h
  · rename_i _ i hi
    split at h
    · cases h
    · rename_i _ operand0 hoperand
      split at h
      · cases h
      · rename_i _ m1 hm1
        split at h
        · cases h
        · rename_i _ m2 hm2
          cases h
          obtain ⟨m1', hm1', _, _, hcomputations1, hinstructions1, _⟩ :=
            get_ReplaceAllUsesWith o.module c operand0
          rw [hm1] at hm1'
          cases hm1'
          obtain ⟨hinstructions2, hcomputations2, _, _, hfind2⟩ :=
            get_RemoveInstruction m1 m2 c hm2
          refine ⟨rfl, ?_, i, operand0, hi, hoperand, ?_, ?_, ?_⟩
          · exact (hfind2 c).trans (if_pos rfl)
          · exact hinstructions2.trans (by rw [hinstructions1])
          · exact hcomputations2.trans hcomputations1
          · intro x i' hx hmarker
            obtain ⟨i1, hi1, hmarker1, hparent1⟩ :=
              markers_RemoveInstruction m1 m2 c hm2 x i' hx hmarker
            obtain ⟨i0, hi0, hmarker0, hparent0⟩ :=
              markers_ReplaceAllUsesWith o.module m1 c operand0 hm1 x i1 hi1 hmarker1
            exact ⟨i0, hi0, hmarker0, hparent0.trans hparent1⟩

/-- One step of the loop of `Run` that removes the `MoveToDevice` custom calls:
no such custom call comes into the module, and none is found under the id that
was visited. -/
theorem remove_move_to_device_step (st st' : Bool × HostOffloader) (x0 : Nat)
    (h : Run.remove_move_to_device st x0 = .ok st') :
    (∀ x i', st'.2.module.instruction? x = some i' →
      i'.IsCustomCall kMoveToDeviceCustomCallTarget = true →
      ∃ i, st.2.module.instruction? x = some i ∧
        i.IsCustomCall kMoveToDeviceCustomCallTarget = true ∧ i.parent = i'.parent) ∧
      ∀ i', st'.2.module.instruction? x0 = some i' →
        i'.IsCustomCall kMoveToDeviceCustomCallTarget = false := by
  unfold Run.remove_move_to_device at h
  split at h
  · cases h
  · rename_i _ i hi
    split at h
    · split at h
      · cases h
      · rename_i _ result o1 hhandle
        cases h
        obtain ⟨_, hnone, _, _, _, _, _, _, hmarkers⟩ :=
          HandleMoveToDeviceCustomCall_ok st.2 x0 (result, o1) hhandle
        refine ⟨hmarkers, ?_⟩
        intro i' hfind
        rw [hnone] at hfind
        cases hfind
    · rename_i hmarker
      cases h
      refine ⟨fun x i' hx hm => ⟨i', hx, hm, rfl⟩, ?_⟩
      intro i' hfind
      rw [(get_eq_ok_iff _ _ _).1 hi] at hfind
      cases hfind
      simpa using hmarker

/-- The inner loop of the removal of the `MoveToDevice` custom calls: no such
custom call comes into the module, and none is found under a visited id. -/
theorem remove_move_to_device_instructions (instructions : List Nat) :
    ∀ (st st' : Bool × HostOffloader),
      instructions.foldlM Run.remove_move_to_device st = .ok st' →
      (∀ x i', st'.2.module.instruction? x = some i' →
        i'.IsCustomCall kMoveToDeviceCustomCallTarget = true →
        ∃ i, st.2.module.instruction? x = some i ∧
          i.IsCustomCall kMoveToDeviceCustomCallTarget = true ∧ i.parent = i'.parent) ∧
        ∀ x ∈ instructions, ∀ i', st'.2.module.instruction? x = some i' →
          i'.IsCustomCall kMoveToDeviceCustomCallTarget = false := by
  induction instructions with
  | nil =>
    intro st st' h
    cases h
    exact ⟨fun x i' hx hm => ⟨i', hx, hm, rfl⟩, fun x hx => absurd hx (List.not_mem_nil x)⟩
  | cons x0 rest ih =>
    intro st st' h
    rw [List.foldlM_cons] at h
    cases hstep : Run.remove_move_to_device st x0 with
    | error e => rw [hstep] at h; cases h
    | ok st1 =>
      rw [hstep] at h
      obtain ⟨hfrom1, hnone1⟩ := remove_move_to_device_step st st1 x0 hstep
      obtain ⟨hfrom2, hnone2⟩ := ih st1 st' h
      refine ⟨?_, ?_⟩
      · intro x i' hx hm
        obtain ⟨i1, hi1, hm1, hp1⟩ := hfrom2 x i' hx hm
        obtain ⟨i0, hi0, hm0, hp0⟩ := hfrom1 x i1 hi1 hm1
        exact ⟨i0, hi0, hm0, hp0.trans hp1⟩
      · intro x hx i' hfind
        rcases List.mem_cons.1 hx with hx | hx
        · cases hmarker : i'.IsCustomCall kMoveToDeviceCustomCallTarget with
          | false => rfl
          | true =>
            obtain ⟨i1, hi1, hm1, _⟩ := hfrom2 x i' hfind hmarker
            rw [hx] at hi1
            rw [hnone1 i1 hi1] at hm1
            cases hm1
        · exact hnone2 x hx i' hfind

/-- The loop of `Run` that removes the `MoveToDevice` custom calls, when the
traversal of a computation lists its instructions: no such custom call comes
into the module, and none is left in a visited computation. -/
theorem remove_move_to_device_computations (u : Collaborators)
    (hinstructions : ∀ (m : HloModule) (c x : Nat) (i : HloInstruction),
      m.get x = .ok i → i.parent = c → x ∈ u.MakeInstructionPostOrder m c)
    (computations : List Nat) :
    ∀ (st st' : Bool × HostOffloader),
      computations.foldlM
        (fun (st : Bool × HostOffloader) (computation : Nat) =>
          (u.MakeInstructionPostOrder st.2.module computation).foldlM
            Run.remove_move_to_device st) st = .ok st' →
      (∀ x i', st'.2.module.instruction? x = some i' →
        i'.IsCustomCall kMoveToDeviceCustomCallTarget = true →
        ∃ i, st.2.module.instruction? x = some i ∧
          i.IsCustomCall kMoveToDeviceCustomCallTarget = true ∧ i.parent = i'.parent) ∧
        ∀ c ∈ computations, ∀ x i', st'.2.module.instruction? x = some i' →
          i'.parent = c → i'.IsCustomCall kMoveToDeviceCustomCallTarget = false := by
  induction computations with
  | nil =>
    intro st st' h
    cases h
    exact ⟨fun x i' hx hm => ⟨i', hx, hm, rfl⟩, fun c hc => absurd hc (List.not_mem_nil c)⟩
  | cons c0 rest ih =>
    intro st st' h
    rw [List.foldlM_cons] at h
    cases hstep : (u.MakeInstructionPostOrder st.2.module c0).foldlM
        Run.remove_move_to_device st with
    | error e =>
      simp only [hstep] at h
      cases h
    | ok st1 =>
      simp only [hstep] at h
      obtain ⟨hfrom1, hnone1⟩ := remove_move_to_device_instructions _ st st1 hstep
      obtain ⟨hfrom2, hnone2⟩ := ih st1 st' h
      refine ⟨?_, ?_⟩
      · intro x i' hx hm
        obtain ⟨i1, hi1, hm1, hp1⟩ := hfrom2 x i' hx hm
        obtain ⟨i0, hi0, hm0, hp0⟩ := hfrom1 x i1 hi1 hm1
        exact ⟨i0, hi0, hm0, hp0.trans hp1⟩
      · intro c hc x i' hfind hparent
        rcases List.mem_cons.1 hc with hc | hc
        · cases hmarker : i'.IsCustomCall kMoveToDeviceCustomCallTarget with
          | false => rfl
          | true =>
            obtain ⟨i1, hi1, hm1, hp1⟩ := hfrom2 x i' hfind hmarker
            obtain ⟨i0, hi0, _, hp0⟩ := hfrom1 x i1 hi1 hm1
            have hx : x ∈ u.MakeInstructionPostOrder st.2.module c0 :=
              hinstructions st.2.module c0 x i0 ((get_eq_ok_iff _ _ _).2 hi0)
                (by rw [hp0, hp1, hparent, hc])
            rw [hnone1 x hx i1 hi1] at hm1
            cases hm1
        · exact hnone2 c hc x i' hfind hparent

/-- One step of `ApplySchedulingFix` brings no `MoveToDevice` custom call into
the module. -/
theorem markers_ApplySchedulingFix_visit (alias_analysis : HloAliasAnalysis)
    (st st' : Bool × HloModule) (instruction : Nat)
    (h : ApplySchedulingFix.visit alias_analysis st instruction = .ok st') :
    ∀ x i', st'.2.instruction? x = some i' →
      i'.IsCustomCall kMoveToDeviceCustomCallTarget = true →
      ∃ i, st.2.instruction? x = some i ∧
        i.IsCustomCall kMoveToDeviceCustomCallTarget = true ∧ i.parent = i'.parent := by
  unfold ApplySchedulingFix.visit at h
  split at h
  · cases h
  · split at h
    · cases h
      exact fun x i' hx hm => ⟨i', hx, hm, rfl⟩
    · split at h
      · cases h
      · split at h
        · cases h
          exact fun x i' hx hm => ⟨i', hx, hm, rfl⟩
        · split at h
          · cases h
          · split at h
            · cases h
            · simp only [] at h
              split at h
              · split at h
                · cases h
                · rename_i m2 hm2
                  cases h
                  intro x i' hx hm
                  obtain ⟨i1, hi1, hm1, hp1⟩ :=
                    markers_ReplaceOperandWith _ _ _ _ _ hm2 x i' hx hm
                  obtain ⟨i0, hi0, hm0, hp0⟩ :=
                    markers_AddInstruction _ _ (CreateUnary _ HloOpcode.kCopy _) rfl x i1 hi1 hm1
                  exact ⟨i0, hi0, hm0, hp0.trans hp1⟩
              · cases h
                exact fun x i' hx hm => ⟨i', hx, hm, rfl⟩

/-- `ApplySchedulingFix` brings no `MoveToDevice` custom call into the module. -/
theorem markers_ApplySchedulingFix (u : Collaborators) (m : HloModule)
    (execution_threads : List String) (r : Bool × HloModule)
    (h : ApplySchedulingFix u m execution_threads = .ok r) :
    ∀ x i', r.2.instruction? x = some i' →
      i'.IsCustomCall kMoveToDeviceCustomCallTarget = true →
      ∃ i, m.instruction? x = some i ∧
        i.IsCustomCall kMoveToDeviceCustomCallTarget = true ∧ i.parent = i'.parent := by
  unfold ApplySchedulingFix at h
  split at h
  · cases h
  · rename_i _ alias_analysis _
    exact foldlM_rel
      (fun (st : Bool × HloModule) (computation : Nat) =>
        if computation = st.2.entry_computation then .ok st
        else
          (u.MakeInstructionPostOrder st.2 computation).foldlM
            (ApplySchedulingFix.visit alias_analysis) st)
      (fun st st' => ∀ x i', st'.2.instruction? x = some i' →
        i'.IsCustomCall kMoveToDeviceCustomCallTarget = true →
        ∃ i, st.2.instruction? x = some i ∧
          i.IsCustomCall kMoveToDeviceCustomCallTarget = true ∧ i.parent = i'.parent)
      (fun st x i' hx hm => ⟨i', hx, hm, rfl⟩)
      (fun a b c hab hbc x i' hx hm => by
        obtain ⟨i1, hi1, hm1, hp1⟩ := hbc x i' hx hm
        obtain ⟨i0, hi0, hm0, hp0⟩ := hab x i1 hi1 hm1
        exact ⟨i0, hi0, hm0, hp0.trans hp1⟩)
      (fun st computation st' hstep => by
        simp only [] at hstep ⊢
        split at hstep
        · cases hstep
          exact fun x i' hx hm => ⟨i', hx, hm, rfl⟩
        · exact foldlM_rel (ApplySchedulingFix.visit alias_analysis)
            (fun st st' => ∀ x i', st'.2.instruction? x = some i' →
              i'.IsCustomCall kMoveToDeviceCustomCallTarget = true →
              ∃ i, st.2.instruction? x = some i ∧
                i.IsCustomCall kMoveToDeviceCustomCallTarget = true ∧ i.parent = i'.parent)
            (fun st x i' hx hm => ⟨i', hx, hm, rfl⟩)
            (fun a b c hab hbc x i' hx hm => by
              obtain ⟨i1, hi1, hm1, hp1⟩ := hbc x i' hx hm
              obtain ⟨i0, hi0, hm0, hp0⟩ := hab x i1 hi1 hm1
              exact ⟨i0, hi0, hm0, hp0.trans hp1⟩)
            (fun a instruction b hab =>
              markers_ApplySchedulingFix_visit alias_analysis a b instruction hab)
            _ st st' hstep)
      _ (false, m) r h

/-- The id of an instruction that `get` finds is in the list of the ids of the
instructions of its computation. -/
theorem mem_instructions_of_of_get (m : HloModule) (c x : Nat) (i : HloInstruction)
    (h : m.get x = .ok i) (hparent : i.parent = c) :
    x ∈ (m.instructions_of c).map (fun i => i.id) := by
  unfold HloModule.instructions_of
  rw [List.mem_map]
  refine ⟨i, List.mem_filter.2 ⟨mem_of_get m x i h, ?_⟩, get_id m x i h⟩
  simpa using hparent

/-- C28: let the traversal of a computation list every instruction that `get`
finds in it, and let CSE bring no `MoveToDevice` custom call into the module.
A `Run` that succeeds has passed its stages up to `HandleDynamicUpdateSlices`,
which leaves a pass object `o4`; it has then visited the computations that
`MakeComputationPostOrder` lists for the module of `o4` and the selected
execution threads, and after the `Run` no instruction that `get` finds in one
of these computations is a `MoveToDevice` custom call. Whenever
`HandleMoveToDeviceCustomCall` succeeds it returns `true`, the custom call is no
longer in the module, every use of it as an operand or as a root has become a
use of its operand `0`, and nothing else is changed. -/
theorem c28_no_move_to_device_marker_remains (u : Collaborators) (fuel : Nat)
    (o : HostOffloader) (execution_threads : List String) (r : Bool × HostOffloader)
    (hinstructions : ∀ (m : HloModule) (c x : Nat) (i : HloInstruction),
      m.get x = .ok i → i.parent = c → x ∈ u.MakeInstructionPostOrder m c)
    (hcse : ∀ (m m' : HloModule) (b : Bool), u.HloCSE_Run m execution_threads = .ok (b, m') →
      ∀ x i', m'.get x = .ok i' → i'.IsCustomCall kMoveToDeviceCustomCallTarget = true →
        ∃ i, m.get x = .ok i ∧ i.IsCustomCall kMoveToDeviceCustomCallTarget = true ∧
          i.parent = i'.parent)
    (hrun : Run u fuel o execution_threads = .ok r) :
    (∃ (changed1 : Bool) (m1 : HloModule) (input_streaming_changed_module : Bool)
        (o2 : HostOffloader) (changed3 : Bool) (o3 : HostOffloader) (any_dus_changed : Bool)
        (o4 : HostOffloader) (changed5 : Bool) (o5 : HostOffloader),
      (u.MakeNonfusionComputations (RemoveHostMemorySpaceFromAllShapes o.module).2
          execution_threads).foldlM
        (fun st computation =>
          ((st.2.instructions_of computation).map (fun i => i.id)).foldlM
            (Run.handle_async_start u fuel) st)
        (RemoveHostMemorySpaceFromAllShapes o.module) = .ok (changed1, m1) ∧
      HandleInputStreaming u fuel { o with module := m1 } m1.entry_computation
        = .ok (input_streaming_changed_module, o2) ∧
      Run.move_to_host_loop u fuel fuel (changed1 || input_streaming_changed_module, o2)
        = .ok (changed3, o3) ∧
      HandleDynamicUpdateSlices u fuel o3 = .ok (any_dus_changed, o4) ∧
      (u.MakeComputationPostOrder o4.module execution_threads).foldlM
        (fun st computation =>
          (u.MakeInstructionPostOrder st.2.module computation).foldlM
            Run.remove_move_to_device st)
        (changed3 || any_dus_changed, o4) = .ok (changed5, o5) ∧
      ∀ c ∈ u.MakeComputationPostOrder o4.module execution_threads,
        ∀ x i, r.2.module.get x = .ok i → i.parent = c →
          i.IsCustomCall kMoveToDeviceCustomCallTarget = false) ∧
      ∀ (p : HostOffloader) (c : Nat) (q : Bool × HostOffloader),
        HandleMoveToDeviceCustomCall p c = .ok q →
        q.1 = true ∧ q.2.module.instruction? c = none ∧
          ∃ i operand0, p.module.get c = .ok i ∧ i.operand 0 = .ok operand0 ∧
            q.2.module.instructions
              = (p.module.instructions.map (fun j =>
                  { j with
                    operands := j.operands.map (fun x => if x = c then operand0 else x) })
                ).filter (fun j => decide (j.id ≠ c)) ∧
            q.2.module.computations
              = p.module.computations.map (fun computation =>
                  if computation.root_instruction = c then
                    { computation with root_instruction := operand0 }
                  else computation) := by
  constructor
  · unfold Run at hrun
    simp only at hrun
    split at hrun
    · cases hrun
    · rename_i changed1 m1 h1
      split at hrun
      · cases hrun
      · rename_i input_streaming_changed_module o2 h2
        split at hrun
        · cases hrun
        · rename_i changed3 o3 h3
          split at hrun
          · cases hrun
          · rename_i any_dus_changed o4 h4
            split at hrun
            · cases hrun
            · rename_i changed5 o5 h5
              split at hrun
              · cases hrun
              · rename_i applied_scheduling_fix m6 h6
                split at hrun
                · cases hrun
                · rename_i cse_changed m7 h7
                  cases hrun
                  refine ⟨changed1, m1, input_streaming_changed_module, o2, changed3, o3,
                    any_dus_changed, o4, changed5, o5, h1, h2, h3, h4, h5, ?_⟩
                  intro c hc x i hx hparent
                  cases hmarker : i.IsCustomCall kMoveToDeviceCustomCallTarget with
                  | false => rfl
                  | true =>
                    obtain ⟨i6, hi6, hm6, hp6⟩ := hcse m6 m7 cse_changed h7 x i hx hmarker
                    obtain ⟨i5, hi5, hm5, hp5⟩ :=
                      markers_ApplySchedulingFix u o5.module execution_threads
                        (applied_scheduling_fix, m6) h6 x i6
                        ((get_eq_ok_iff _ _ _).1 hi6) hm6
                    obtain ⟨_, hnone⟩ :=
                      remove_move_to_device_computations u hinstructions _ _ _ h5
                    have h := hnone c hc x i5 hi5 (by rw [hp5, hp6]; exact hparent)
                    rw [h] at hm5
                    cases hm5
  · intro p c q h
    obtain ⟨h1, h2, i, operand0, h3, h4, h5, h6, _⟩ := HandleMoveToDeviceCustomCall_ok p c q h
    exact ⟨h1, h2, i, operand0, h3, h4, h5, h6⟩

/-- Witness for C28: `Run` on the module `MoveToDevice(p0)`, with the traversal
that lists the computations of the module it is given: the entry computation
`0` is visited and holds no `MoveToDevice` custom call afterwards. -/
theorem c28_no_move_to_device_marker_remains_witness :
    ∃ r, Run exampleCollaborators 10 (exampleOffloader exampleMoveToDeviceModule) []
        = .ok r ∧
      r.2.move_to_device_custom_calls_to_remove_ = [3] ∧
      ∀ x i, r.2.module.get x = .ok i → i.parent = 0 →
        i.IsCustomCall kMoveToDeviceCustomCallTarget = false := by
  refine ⟨_, rfl, rfl, ?_⟩
  obtain ⟨changed1, m1, input_streaming_changed_module, o2, changed3, o3, any_dus_changed,
      o4, changed5, o5, h1, h2, h3, h4, _, hnone⟩ :=
    (c28_no_move_to_device_marker_remains exampleCollaborators 10
      (exampleOffloader exampleMoveToDeviceModule) [] _
      (fun m c x i h hparent => mem_instructions_of_of_get m c x i h hparent)
      (fun m m' b h x i' hx hmarker => by
        cases h
        exact ⟨i', hx, hmarker, rfl⟩)
      rfl).1
  obtain ⟨rfl, rfl⟩ := Prod.mk.inj (Except.ok.inj (h1.symm.trans
    (rfl : _ = Except.ok (false, exampleMoveToDeviceModule))))
  obtain ⟨rfl, rfl⟩ := Prod.mk.inj (Except.ok.inj (h2.symm.trans
    (rfl : _ = Except.ok (false, exampleOffloader exampleMoveToDeviceModule))))
  obtain ⟨rfl, rfl⟩ := Prod.mk.inj (Except.ok.inj (h3.symm.trans
    (rfl : _ = Except.ok (false, exampleOffloader exampleMoveToDeviceModule))))
  obtain ⟨rfl, rfl⟩ := Prod.mk.inj (Except.ok.inj (h4.symm.trans
    (rfl : _ = Except.ok (false, exampleOffloader exampleMoveToDeviceModule))))
  intro x i hx hparent
  exact hnone 0 (List.mem_singleton.2 rfl) x i hx hparent

/-! ## The leading copy of `WalkDownHostMemoryOffloadPaths` -/

/-- C29, as stated, fails: in `p0 -> MoveToHost -> add(MoveToHost(p0), p0)` the
start node `add` of the walk has two predecessors and a leading copy is asked
for; the walk does not return a value but fails the check
`predecessors.size() == 1`, and so does `Run` on the module: the run does not
go on. -/
theorem c29_leading_copy_counterexample :
    exampleCollaborators.GetPredecessors exampleTwoPredecessorsModule ⟨3, []⟩
      = [⟨2, []⟩, ⟨1, []⟩] ∧
    WalkDownHostMemoryOffloadPaths exampleCollaborators 10
        (exampleOffloader exampleTwoPredecessorsModule) ⟨3, []⟩ true
      = .error (.check_failed "predecessors.size() == 1") ∧
    Run exampleCollaborators 10 (exampleOffloader exampleTwoPredecessorsModule) []
      = .error (.check_failed "predecessors.size() == 1") :=
  ⟨rfl, rfl, rfl⟩

/-- C29 (amended): when `WalkDownHostMemoryOffloadPaths` is asked to insert a
leading copy and the start node does not have exactly one predecessor, the walk
does not return: after its loop has ended and `SetBuffersToMemorySpaceColor` has
colored the saved buffers host, the check `predecessors.size() == 1` fails.
The failure is also the result of the caller `HandleMoveToHostCustomCall`'s walk
step, for a start node that is no dynamic-update-slice. -/
theorem c29_leading_copy_check_fails (u : Collaborators) (fuel : Nat) (o : HostOffloader)
    (start : InstructionAndShapeIndex) (w : WalkState) (set_buffers_changed : Bool)
    (m0 : HloModule)
    (hloop : WalkDownHostMemoryOffloadPaths.loop u fuel start.instruction fuel
      { offloader := o, queue := [start], mth_custom_calls_to_remove := [],
        slices_to_dynamify := [], custom_calls_to_insert_copies_before := [],
        x64_split_instructions := [], buffers_to_set_to_host_memory := [] } = .ok w)
    (hbuffers : SetBuffersToMemorySpaceColor w.offloader.module w.buffers_to_set_to_host_memory
      kHostMemorySpace = .ok (set_buffers_changed, m0))
    (hpredecessors : (u.GetPredecessors m0 start).length ≠ 1) :
    WalkDownHostMemoryOffloadPaths u fuel o start true
      = .error (.check_failed "predecessors.size() == 1") ∧
    ∀ s, o.module.get start.instruction = .ok s → s.opcode ≠ HloOpcode.kDynamicUpdateSlice →
      HandleMoveToHostCustomCall.walk u fuel o start
        = .error (.check_failed "predecessors.size() == 1") := by
  have hwalk : WalkDownHostMemoryOffloadPaths u fuel o start true
      = .error (.check_failed "predecessors.size() == 1") := by
    unfold WalkDownHostMemoryOffloadPaths
    rw [hloop]
    simp only
    unfold WalkDownHostMemoryOffloadPaths.apply_changes
    rw [hbuffers]
    simp only [if_true]
    cases hp : u.GetPredecessors m0 start with
    | nil => rfl
    | cons a rest =>
      cases rest with
      | nil =>
        rw [hp] at hpredecessors
        exact absurd rfl hpredecessors
      | cons b rest => rfl
  refine ⟨hwalk, ?_⟩
  intro s hs hopcode
  unfold HandleMoveToHostCustomCall.walk
  rw [hs]
  simp only [hopcode, ne_eq, not_false_eq_true, decide_True, hwalk]

/-- Witness for C29 (amended): the walk from `add` in
`p0 -> MoveToHost -> add(MoveToHost(p0), p0)`. -/
theorem c29_leading_copy_check_fails_witness :
    ∃ w set_buffers_changed m0,
      WalkDownHostMemoryOffloadPaths.loop exampleCollaborators 10 3 10
        { offloader := exampleOffloader exampleTwoPredecessorsModule, queue := [⟨3, []⟩],
          mth_custom_calls_to_remove := [], slices_to_dynamify := [],
          custom_calls_to_insert_copies_before := [], x64_split_instructions := [],
          buffers_to_set_to_host_memory := [] } = .ok w ∧
      SetBuffersToMemorySpaceColor w.offloader.module w.buffers_to_set_to_host_memory
        kHostMemorySpace = .ok (set_buffers_changed, m0) ∧
      (exampleCollaborators.GetPredecessors m0 ⟨3, []⟩).length ≠ 1 ∧
      WalkDownHostMemoryOffloadPaths exampleCollaborators 10
          (exampleOffloader exampleTwoPredecessorsModule) ⟨3, []⟩ true
        = .error (.check_failed "predecessors.size() == 1") :=
  ⟨_, _, _, rfl, rfl, by decide,
    (c29_leading_copy_check_fails exampleCollaborators 10
      (exampleOffloader exampleTwoPredecessorsModule) ⟨3, []⟩ _ _ _ rfl rfl (by decide)).1⟩

/-! ## The bookkeeping of the pass object -/

/-- C30, as stated, fails: on a pass object whose set of visited `MoveToHost`
custom calls holds the instruction `2`, `Run` on `p0 -> MoveToHost` (root)
leaves the custom call where it is and reports no change, while on a pass
object without marks it replaces the custom call by a copy and reports a
change. -/
theorem c30_bookkeeping_counterexample :
    Run exampleCollaborators 10
        { exampleOffloader exampleMoveToHostRootModule with
          already_visited_move_to_host_custom_calls_ := [2] } []
      = .ok (false,
          { exampleOffloader exampleMoveToHostRootModule with
            already_visited_move_to_host_custom_calls_ := [2] }) ∧
    Run exampleCollaborators 10 (exampleOffloader exampleMoveToHostRootModule) []
      = .ok (true,
          { exampleOffloader (exampleOffloadedModule kHostMemorySpace) with
            already_visited_move_to_host_custom_calls_ := [2] }) :=
  ⟨rfl, rfl⟩

/-- C30 (amended): `Run` does not start from fresh bookkeeping: it works on the
sets as the pass object holds them, and what an earlier `Run` has left in them
decides what a later `Run` on the same object does: a `MoveToHost` custom call
in `already_visited_move_to_host_custom_calls_` is skipped, a
dynamic-update-slice in `dynamic_update_slices_already_allocated_` gets no
`AllocateBuffer`, and before a node in `already_inserted_copy_before_` no copy
is inserted; each time the pass object and the module stay as they are. -/
theorem c30_bookkeeping_marks_are_kept (u : Collaborators) (fuel : Nat) (o : HostOffloader) :
    (∀ custom_call_instruction ∈ o.already_visited_move_to_host_custom_calls_,
      HandleMoveToHostCustomCall u fuel o custom_call_instruction = .ok (false, o)) ∧
    (∀ dynamic_update_slice ∈ o.dynamic_update_slices_already_allocated_,
      CreateAllocateBufferForDynamicUpdateSlice u fuel o dynamic_update_slice = .ok o) ∧
    (∀ instruction_and_index ∈ o.already_inserted_copy_before_,
      ∀ (before : InstructionAndShapeIndex) (changed : Bool),
        InsertCopyBetween.insert_copy before (changed, o) instruction_and_index
          = .ok (changed, o)) := by
  refine ⟨?_, ?_, ?_⟩
  · intro c hc
    unfold HandleMoveToHostCustomCall
    rw [if_pos hc]
  · intro d hd
    unfold CreateAllocateBufferForDynamicUpdateSlice
    rw [if_pos hd]
  · intro node hnode before changed
    unfold InsertCopyBetween.insert_copy
    rw [if_pos hnode]

/-- Witness for C30 (amended): a pass object that holds the instruction `2` in
its set of visited `MoveToHost` custom calls. -/
theorem c30_bookkeeping_marks_are_kept_witness :
    HandleMoveToHostCustomCall exampleCollaborators 10
        { exampleOffloader exampleMoveToHostRootModule with
          already_visited_move_to_host_custom_calls_ := [2] } 2
      = .ok (false,
          { exampleOffloader exampleMoveToHostRootModule with
            already_visited_move_to_host_custom_calls_ := [2] }) :=
  (c30_bookkeeping_marks_are_kept exampleCollaborators 10
    { exampleOffloader exampleMoveToHostRootModule with
      already_visited_move_to_host_custom_calls_ := [2] }).1 2 (by decide)

/-! ## The starting instructions of a `MoveToHost` custom call -/

/-- The loop of `GetStartingInstructions` in terms of paths: when it returns, the
result holds what was in `result` before and the nodes that are reached from a
node of the queue through nodes that the loop passes, and at which it stops. -/
theorem GetStartingInstructions_loop_reaches (u : Collaborators) (m : HloModule) :
    ∀ (fuel : Nat) (queue result r : List InstructionAndShapeIndex),
      GetStartingInstructions.loop u m fuel queue result = .ok r →
      ∀ n, n ∈ r ↔
        (n ∈ result ∨
          ((∃ i, m.get n.instruction = .ok i ∧
              (i.opcode = HloOpcode.kDynamicUpdateSlice ∨
                InstructionIsAllowedBetweenMoveToHostAndDus u m i = .ok false)) ∧
            ∃ q ∈ queue, Relation.ReflTransGen
              (fun a b => (∃ i, m.get a.instruction = .ok i ∧
                  i.opcode ≠ HloOpcode.kDynamicUpdateSlice ∧
                  InstructionIsAllowedBetweenMoveToHostAndDus u m i = .ok true) ∧
                ∃ successors, u.GetSuccessors m a = .ok successors ∧ b ∈ successors)
              q n)) := by
  intro fuel
  induction fuel with
  | zero =>
    intro queue result r h n
    cases queue with
    | nil =>
      unfold GetStartingInstructions.loop at h
      cases h
      constructor
      · exact Or.inl
      · rintro (h | ⟨_, q, hq, _⟩)
        · exact h
        · exact absurd hq (List.not_mem_nil q)
    | cons q0 queue =>
      unfold GetStartingInstructions.loop at h
      cases h
  | succ fuel ih =>
    intro queue result r h n
    cases queue with
    | nil =>
      unfold GetStartingInstructions.loop at h
      cases h
      constructor
      · exact Or.inl
      · rintro (h | ⟨_, q, hq, _⟩)
        · exact h
        · exact absurd hq (List.not_mem_nil q)
    | cons q0 queue =>
      unfold GetStartingInstructions.loop at h
      cases hget : m.get q0.instruction with
      | error e =>
        simp only [hget] at h
        cases h
      | ok current_instruction =>
        simp only [hget] at h
        -- a node at which the loop stops has no edge
        have hstop : (current_instruction.opcode = HloOpcode.kDynamicUpdateSlice ∨
            InstructionIsAllowedBetweenMoveToHostAndDus u m current_instruction = .ok false) →
            GetStartingInstructions.loop u m fuel queue (result ++ [q0]) = .ok r →
            (n ∈ r ↔ (n ∈ result ∨
              ((∃ i, m.get n.instruction = .ok i ∧
                  (i.opcode = HloOpcode.kDynamicUpdateSlice ∨
                    InstructionIsAllowedBetweenMoveToHostAndDus u m i = .ok false)) ∧
                ∃ q ∈ q0 :: queue, Relation.ReflTransGen
                  (fun a b => (∃ i, m.get a.instruction = .ok i ∧
                      i.opcode ≠ HloOpcode.kDynamicUpdateSlice ∧
                      InstructionIsAllowedBetweenMoveToHostAndDus u m i = .ok true) ∧
                    ∃ successors, u.GetSuccessors m a = .ok successors ∧ b ∈ successors)
                  q n))) := by
          intro hfrontier hrest
          rw [ih queue (result ++ [q0]) r hrest n]
          constructor
          · rintro (hn | ⟨hf, q, hq, hpath⟩)
            · rcases List.mem_append.1 hn with hn | hn
              · exact Or.inl hn
              · rw [List.mem_singleton.1 hn]
                exact Or.inr ⟨⟨current_instruction, hget, hfrontier⟩, q0,
                  List.mem_cons_self _ _, Relation.ReflTransGen.refl⟩
            · exact Or.inr ⟨hf, q, List.mem_cons_of_mem _ hq, hpath⟩
          · rintro (hn | ⟨hf, q, hq, hpath⟩)
            · exact Or.inl (List.mem_append_left _ hn)
            · rcases List.mem_cons.1 hq with hq | hq
              · rw [hq] at hpath
                rcases Relation.ReflTransGen.cases_head hpath with heq | ⟨b, hedge, _⟩
                · rw [← heq]
                  exact Or.inl (List.mem_append_right _ (List.mem_singleton_self _))
                · obtain ⟨⟨i, hi, hnot, hallowed⟩, _⟩ := hedge
                  rw [hget] at hi
                  cases hi
                  rcases hfrontier with hd | hd
                  · exact absurd hd hnot
                  · rw [hd] at hallowed
                    cases hallowed
              · exact Or.inr ⟨hf, q, hq, hpath⟩
        by_cases hdus : current_instruction.opcode = HloOpcode.kDynamicUpdateSlice
        · rw [if_pos hdus] at h
          exact hstop (Or.inl hdus) h
        · rw [if_neg hdus] at h
          cases hallowed : InstructionIsAllowedBetweenMoveToHostAndDus u m
              current_instruction with
          | error e =>
            simp only [hallowed] at h
            cases h
          | ok allowed =>
            cases allowed with
            | false =>
              simp only [hallowed] at h
              exact hstop (Or.inr hallowed) h
            | true =>
              simp only [hallowed] at h
              cases hsuccessors : u.GetSuccessors m q0 with
              | error e =>
                simp only [hsuccessors] at h
                cases h
              | ok successors =>
                simp only [hsuccessors] at h
                rw [ih (queue ++ successors) result r h n]
                constructor
                · rintro (hn | ⟨hf, q, hq, hpath⟩)
                  · exact Or.inl hn
                  · rcases List.mem_append.1 hq with hq | hq
                    · exact Or.inr ⟨hf, q, List.mem_cons_of_mem _ hq, hpath⟩
                    · exact Or.inr ⟨hf, q0, List.mem_cons_self _ _,
                        Relation.ReflTransGen.head
                          ⟨⟨current_instruction, hget, hdus, hallowed⟩, successors,
                            hsuccessors, hq⟩ hpath⟩
                · rintro (hn | ⟨hf, q, hq, hpath⟩)
                  · exact Or.inl hn
                  · rcases List.mem_cons.1 hq with hq | hq
                    · rw [hq] at hpath
                      rcases Relation.ReflTransGen.cases_head hpath with heq | ⟨b, hedge, hrest⟩
                      · obtain ⟨i, hi, hfrontier⟩ := hf
                        rw [← heq, hget] at hi
                        cases hi
                        rcases hfrontier with hd | hd
                        · exact absurd hd hdus
                        · rw [hd] at hallowed
                          cases hallowed
                      · obtain ⟨_, successors', hsuccessors', hb⟩ := hedge
                        rw [hsuccessors] at hsuccessors'
                        cases hsuccessors'
                        exact Or.inr ⟨hf, b, List.mem_append_right _ hb, hrest⟩
                    · exact Or.inr ⟨hf, q, List.mem_append_left _ hq, hpath⟩

/-- A result of the loop of `GetStartingInstructions` is its result with more
fuel too. -/
theorem GetStartingInstructions_loop_fuel (u : Collaborators) (m : HloModule) :
    ∀ (fuel : Nat) (queue result r : List InstructionAndShapeIndex),
      GetStartingInstructions.loop u m fuel queue result = .ok r →
      GetStartingInstructions.loop u m (fuel + 1) queue result = .ok r := by
  intro fuel
  induction fuel with
  | zero =>
    intro queue result r h
    cases queue with
    | nil =>
      unfold GetStartingInstructions.loop at h ⊢
      exact h
    | cons q0 queue =>
      unfold GetStartingInstructions.loop at h
      cases h
  | succ fuel ih =>
    intro queue result r h
    cases queue with
    | nil =>
      unfold GetStartingInstructions.loop at h ⊢
      exact h
    | cons q0 queue =>
      rw [GetStartingInstructions.loop] at h ⊢
      cases hget : m.get q0.instruction with
      | error e =>
        simp only [hget] at h
        cases h
      | ok current_instruction =>
        simp only [hget] at h ⊢
        by_cases hdus : current_instruction.opcode = HloOpcode.kDynamicUpdateSlice
        · rw [if_pos hdus] at h ⊢
          exact ih _ _ _ h
        · rw [if_neg hdus] at h ⊢
          cases hallowed : InstructionIsAllowedBetweenMoveToHostAndDus u m
              current_instruction with
          | error e =>
            simp only [hallowed] at h
            cases h
          | ok allowed =>
            cases allowed with
            | false =>
              simp only [hallowed] at h ⊢
              exact ih _ _ _ h
            | true =>
              simp only [hallowed] at h ⊢
              cases hsuccessors : u.GetSuccessors m q0 with
              | error e =>
                simp only [hsuccessors] at h
                cases h
              | ok successors =>
                simp only [hsuccessors] at h ⊢
                exact ih _ _ _ h

/-- What `GetStartingInstructions` returns when it returns: the returned nodes are
exactly the nodes at which the walk stops and that are reached from a successor
of the custom call through nodes that the walk passes; no returned node is an
accepted instruction other than a dynamic-update-slice; without successors the
result is the empty list for every bound; and a result is the result for every
larger bound. -/
theorem GetStartingInstructions_returns_frontier (u : Collaborators) (fuel : Nat)
    (m : HloModule) (custom_call_instruction : Nat)
    (successors_of_custom_call result : List InstructionAndShapeIndex)
    (hsuccessors : u.GetSuccessors m ⟨custom_call_instruction, []⟩
      = .ok successors_of_custom_call)
    (h : GetStartingInstructions u fuel m custom_call_instruction = .ok result) :
    (∀ n, n ∈ result ↔
      ((∃ i, m.get n.instruction = .ok i ∧
          (i.opcode = HloOpcode.kDynamicUpdateSlice ∨
            InstructionIsAllowedBetweenMoveToHostAndDus u m i = .ok false)) ∧
        ∃ q ∈ successors_of_custom_call, Relation.ReflTransGen
          (fun a b => (∃ i, m.get a.instruction = .ok i ∧
              i.opcode ≠ HloOpcode.kDynamicUpdateSlice ∧
              InstructionIsAllowedBetweenMoveToHostAndDus u m i = .ok true) ∧
            ∃ successors, u.GetSuccessors m a = .ok successors ∧ b ∈ successors)
          q n)) ∧
      (∀ n ∈ result, ∀ i, m.get n.instruction = .ok i →
        i.opcode ≠ HloOpcode.kDynamicUpdateSlice →
        InstructionIsAllowedBetweenMoveToHostAndDus u m i = .ok false) ∧
      (successors_of_custom_call = [] →
        result = [] ∧
          ∀ bound, GetStartingInstructions u bound m custom_call_instruction = .ok []) ∧
      ∀ more, GetStartingInstructions u (fuel + more) m custom_call_instruction = .ok result := by
  unfold GetStartingInstructions at h
  simp only [hsuccessors] at h
  have hreach := GetStartingInstructions_loop_reaches u m fuel successors_of_custom_call [] result h
  have hiff : ∀ n, n ∈ result ↔
      ((∃ i, m.get n.instruction = .ok i ∧
          (i.opcode = HloOpcode.kDynamicUpdateSlice ∨
            InstructionIsAllowedBetweenMoveToHostAndDus u m i = .ok false)) ∧
        ∃ q ∈ successors_of_custom_call, Relation.ReflTransGen
          (fun a b => (∃ i, m.get a.instruction = .ok i ∧
              i.opcode ≠ HloOpcode.kDynamicUpdateSlice ∧
              InstructionIsAllowedBetweenMoveToHostAndDus u m i = .ok true) ∧
            ∃ successors, u.GetSuccessors m a = .ok successors ∧ b ∈ successors)
          q n) := by
    intro n
    rw [hreach n]
    constructor
    · rintro (hn | hn)
      · exact absurd hn (List.not_mem_nil n)
      · exact hn
    · exact Or.inr
  refine ⟨hiff, ?_, ?_, ?_⟩
  · intro n hn i hi hnot
    obtain ⟨⟨j, hj, hfrontier⟩, _⟩ := (hiff n).1 hn
    rw [hi] at hj
    cases hj
    rcases hfrontier with hd | hd
    · exact absurd hd hnot
    · exact hd
  · intro hnil
    rw [hnil] at h hsuccessors
    constructor
    · cases fuel with
      | zero =>
        unfold GetStartingInstructions.loop at h
        cases h
        rfl
      | succ fuel =>
        unfold GetStartingInstructions.loop at h
        cases h
        rfl
    · intro bound
      unfold GetStartingInstructions
      simp only [hsuccessors]
      cases bound with
      | zero => unfold GetStartingInstructions.loop; rfl
      | succ bound => unfold GetStartingInstructions.loop; rfl
  · intro more
    unfold GetStartingInstructions
    simp only [hsuccessors]
    induction more with
    | zero => exact h
    | succ more ih => exact GetStartingInstructions_loop_fuel u m _ _ _ _ ih

/-- A node costs at least one iteration. -/
theorem GetStartingInstructions_iterations_pos (u : Collaborators) (m : HloModule)
    (depth : Nat) (a : InstructionAndShapeIndex) :
    1 ≤ GetStartingInstructions.iterations u m depth a := by
  cases depth with
  | zero => unfold GetStartingInstructions.iterations; exact le_refl 1
  | succ depth =>
    unfold GetStartingInstructions.iterations
    split
    · exact le_refl 1
    · split
      · exact le_refl 1
      · split
        · split
          · exact Nat.le_add_right 1 _
          · exact le_refl 1
        · exact le_refl 1

/-- The loop of `GetStartingInstructions` returns when the iterations that the
queued nodes cost are within the bound: here every node of the set `S` is an
instruction of the module at which the walk stops or whose successors are known
and in `S`, with a smaller rank. -/
theorem GetStartingInstructions_loop_returns (u : Collaborators) (m : HloModule)
    (S : InstructionAndShapeIndex → Prop) (rank : InstructionAndShapeIndex → Nat)
    (hclosed : ∀ a, S a → ∃ i, m.get a.instruction = .ok i ∧
      (i.opcode = HloOpcode.kDynamicUpdateSlice ∨
        InstructionIsAllowedBetweenMoveToHostAndDus u m i = .ok false ∨
        (InstructionIsAllowedBetweenMoveToHostAndDus u m i = .ok true ∧
          ∃ successors, u.GetSuccessors m a = .ok successors ∧
            ∀ s ∈ successors, S s ∧ rank s < rank a))) :
    ∀ (fuel : Nat) (queue : List (Nat × InstructionAndShapeIndex))
      (result : List InstructionAndShapeIndex),
      (∀ p ∈ queue, S p.2 ∧ rank p.2 ≤ p.1) →
      (queue.map (fun p => GetStartingInstructions.iterations u m p.1 p.2)).sum ≤ fuel →
      ∃ r, GetStartingInstructions.loop u m fuel (queue.map Prod.snd) result = .ok r := by
  intro fuel
  induction fuel with
  | zero =>
    intro queue result hq hsum
    cases queue with
    | nil => exact ⟨result, by unfold GetStartingInstructions.loop; rfl⟩
    | cons p rest =>
      simp only [List.map_cons, List.sum_cons] at hsum
      have := GetStartingInstructions_iterations_pos u m p.1 p.2
      omega
  | succ fuel ih =>
    intro queue result hq hsum
    cases queue with
    | nil => exact ⟨result, by unfold GetStartingInstructions.loop; rfl⟩
    | cons p rest =>
      obtain ⟨d, a⟩ := p
      simp only [List.map_cons, List.sum_cons] at hsum
      have hpos := GetStartingInstructions_iterations_pos u m d a
      have hrest : ∀ p ∈ rest, S p.2 ∧ rank p.2 ≤ p.1 :=
        fun p hp => hq p (List.mem_cons_of_mem _ hp)
      obtain ⟨hS, hrank0⟩ := hq (d, a) (List.mem_cons_self _ _)
      have hrank : rank a ≤ d := hrank0
      clear hrank0
      obtain ⟨i, hget, hcases⟩ := hclosed a hS
      simp only [List.map_cons]
      unfold GetStartingInstructions.loop
      simp only [hget]
      by_cases hdus : i.opcode = HloOpcode.kDynamicUpdateSlice
      · simp only [hdus, if_true]
        exact ih rest _ hrest (by omega)
      · simp only [hdus, if_false]
        rcases hcases with h1 | h1 | ⟨h1, successors, hsucc, hall⟩
        · exact absurd h1 hdus
        · simp only [h1]
          exact ih rest _ hrest (by omega)
        · simp only [h1, hsucc]
          have hmap : rest.map Prod.snd ++ successors
              = (rest ++ successors.map (fun s => (d - 1, s))).map Prod.snd := by
            rw [List.map_append, List.map_map]
            congr 1
            exact (List.map_id _).symm
          rw [hmap]
          apply ih
          · intro p hp
            rcases List.mem_append.1 hp with hp | hp
            · exact hrest p hp
            · obtain ⟨s, hs, rfl⟩ := List.mem_map.1 hp
              obtain ⟨hSs, hlt⟩ := hall s hs
              exact ⟨hSs, by show rank s ≤ d - 1; omega⟩
          · rw [List.map_append, List.sum_append, List.map_map]
            cases d with
            | zero =>
              have hnil : successors = [] := by
                cases successors with
                | nil => rfl
                | cons s _ =>
                  have := (hall s (List.mem_cons_self _ _)).2
                  omega
              subst hnil
              simp only [List.map_nil, List.sum_nil]
              omega
            | succ d =>
              have hcost : GetStartingInstructions.iterations u m (d + 1) a
                  = 1 + (successors.map (GetStartingInstructions.iterations u m d)).sum := by
                rw [GetStartingInstructions.iterations]
                simp only [hget, hdus, if_false, h1, hsucc]
              rw [hcost] at hsum
              have hsame : (List.map ((fun p : Nat × InstructionAndShapeIndex =>
                    GetStartingInstructions.iterations u m p.1 p.2) ∘ fun s => (d + 1 - 1, s))
                  successors).sum
                  = (successors.map (GetStartingInstructions.iterations u m d)).sum := rfl
              rw [hsame]
              omega

/-- A result of the loop of `GetStartingInstructions` is its result with any
larger bound. -/
theorem GetStartingInstructions_loop_fuel_add (u : Collaborators) (m : HloModule)
    (fuel : Nat) (queue result r : List InstructionAndShapeIndex)
    (h : GetStartingInstructions.loop u m fuel queue result = .ok r) (more : Nat) :
    GetStartingInstructions.loop u m (fuel + more) queue result = .ok r := by
  induction more with
  | zero => exact h
  | succ more ih => exact GetStartingInstructions_loop_fuel u m _ _ _ _ ih

/-- C31: let every node of a set `S` be an instruction of the module that is a
dynamic-update-slice, or that `InstructionIsAllowedBetweenMoveToHostAndDus`
rejects, or that it accepts and whose successors are known, in `S` and of a
smaller rank (the graph has no cycle), and let the successors of the custom call
be in `S`. Then `GetStartingInstructions` returns: there is a bound on the
number of iterations from which on it returns one and the same list, and any
list it returns is that list. The returned nodes are exactly the nodes at which
the walk stops (a dynamic-update-slice, or an instruction that
`InstructionIsAllowedBetweenMoveToHostAndDus` rejects) and that are reached
from a successor of the custom call through nodes that the walk passes (no
dynamic-update-slice, accepted by `InstructionIsAllowedBetweenMoveToHostAndDus`),
each step going to a successor. So no returned node is an accepted instruction
other than a dynamic-update-slice, and for a custom call without successors the
function returns the empty list. -/
theorem c31_returns_the_frontier (u : Collaborators) (m : HloModule)
    (custom_call_instruction : Nat)
    (successors_of_custom_call : List InstructionAndShapeIndex)
    (S : InstructionAndShapeIndex → Prop) (rank : InstructionAndShapeIndex → Nat)
    (hsuccessors : u.GetSuccessors m ⟨custom_call_instruction, []⟩
      = .ok successors_of_custom_call)
    (hstart : ∀ s ∈ successors_of_custom_call, S s)
    (hclosed : ∀ a, S a → ∃ i, m.get a.instruction = .ok i ∧
      (i.opcode = HloOpcode.kDynamicUpdateSlice ∨
        InstructionIsAllowedBetweenMoveToHostAndDus u m i = .ok false ∨
        (InstructionIsAllowedBetweenMoveToHostAndDus u m i = .ok true ∧
          ∃ successors, u.GetSuccessors m a = .ok successors ∧
            ∀ s ∈ successors, S s ∧ rank s < rank a))) :
    ∃ (bound : Nat) (result : List InstructionAndShapeIndex),
      (∀ fuel, bound ≤ fuel →
        GetStartingInstructions u fuel m custom_call_instruction = .ok result) ∧
      (∀ fuel r, GetStartingInstructions u fuel m custom_call_instruction = .ok r →
        r = result) ∧
      (∀ n, n ∈ result ↔
        ((∃ i, m.get n.instruction = .ok i ∧
            (i.opcode = HloOpcode.kDynamicUpdateSlice ∨
              InstructionIsAllowedBetweenMoveToHostAndDus u m i = .ok false)) ∧
          ∃ q ∈ successors_of_custom_call, Relation.ReflTransGen
            (fun a b => (∃ i, m.get a.instruction = .ok i ∧
                i.opcode ≠ HloOpcode.kDynamicUpdateSlice ∧
                InstructionIsAllowedBetweenMoveToHostAndDus u m i = .ok true) ∧
              ∃ successors, u.GetSuccessors m a = .ok successors ∧ b ∈ successors)
            q n)) ∧
      (∀ n ∈ result, ∀ i, m.get n.instruction = .ok i →
        i.opcode ≠ HloOpcode.kDynamicUpdateSlice →
        InstructionIsAllowedBetweenMoveToHostAndDus u m i = .ok false) ∧
      (successors_of_custom_call = [] → result = []) := by
  obtain ⟨result, hresult⟩ := GetStartingInstructions_loop_returns u m S rank hclosed
    ((successors_of_custom_call.map (fun s => (rank s, s))).map (fun p =>
      GetStartingInstructions.iterations u m p.1 p.2)).sum
    (successors_of_custom_call.map (fun s => (rank s, s))) []
    (by
      intro p hp
      obtain ⟨s, hs, rfl⟩ := List.mem_map.1 hp
      exact ⟨hstart s hs, le_refl _⟩)
    (le_refl _)
  have hqueue : (successors_of_custom_call.map (fun s => (rank s, s))).map Prod.snd
      = successors_of_custom_call := by
    rw [List.map_map]
    exact List.map_id _
  rw [hqueue] at hresult
  have hrun : ∀ fuel, GetStartingInstructions u fuel m custom_call_instruction
      = GetStartingInstructions.loop u m fuel successors_of_custom_call [] := by
    intro fuel
    unfold GetStartingInstructions
    simp only [hsuccessors]
  have hbound : ∀ fuel,
      ((successors_of_custom_call.map (fun s => (rank s, s))).map (fun p =>
        GetStartingInstructions.iterations u m p.1 p.2)).sum ≤ fuel →
      GetStartingInstructions u fuel m custom_call_instruction = .ok result := by
    intro fuel hle
    obtain ⟨more, rfl⟩ := Nat.exists_eq_add_of_le hle
    rw [hrun]
    exact GetStartingInstructions_loop_fuel_add u m _ _ _ _ hresult more
  have hfrontier := GetStartingInstructions_returns_frontier u _ m custom_call_instruction
    successors_of_custom_call result hsuccessors (hbound _ (le_refl _))
  refine ⟨_, result, hbound, ?_, hfrontier.1, hfrontier.2.1, fun h => (hfrontier.2.2.1 h).1⟩
  intro fuel r hr
  rw [hrun] at hr
  have h1 := GetStartingInstructions_loop_fuel_add u m _ _ _ _ hr
    ((successors_of_custom_call.map (fun s => (rank s, s))).map (fun p =>
      GetStartingInstructions.iterations u m p.1 p.2)).sum
  have h2 := hbound (fuel +
    ((successors_of_custom_call.map (fun s => (rank s, s))).map (fun p =>
      GetStartingInstructions.iterations u m p.1 p.2)).sum) (Nat.le_add_left _ _)
  rw [hrun, h1] at h2
  cases h2
  rfl

/-- Witness for C31: in `p0 -> MoveToHost -> (bitcast, copy) -> add` the walk
from the custom call passes the bitcast and the copy and stops at the `add`,
which it reaches twice. -/
theorem c31_returns_the_frontier_witness :
    ∃ bound, ∀ fuel, bound ≤ fuel →
      GetStartingInstructions exampleCollaborators fuel exampleMoveToHostDiamondModule 2
        = .ok [⟨5, []⟩, ⟨5, []⟩] := by
  obtain ⟨bound, result, hbound, hsame, _⟩ :=
    c31_returns_the_frontier exampleCollaborators exampleMoveToHostDiamondModule 2
      [⟨3, []⟩, ⟨4, []⟩]
      (fun n => n = ⟨3, []⟩ ∨ n = ⟨4, []⟩ ∨ n = ⟨5, []⟩)
      (fun n => if n.instruction = 5 then 0 else 1)
      rfl
      (by
        intro s hs
        rcases List.mem_cons.1 hs with h | h
        · exact Or.inl h
        · exact Or.inr (Or.inl (List.mem_singleton.1 h)))
      (by
        intro a ha
        rcases ha with rfl | rfl | rfl
        · refine ⟨_, rfl, Or.inr (Or.inr ⟨rfl, [⟨5, []⟩], rfl, ?_⟩)⟩
          intro s hs
          rw [List.mem_singleton.1 hs]
          exact ⟨Or.inr (Or.inr rfl), by decide⟩
        · refine ⟨_, rfl, Or.inr (Or.inr ⟨rfl, [⟨5, []⟩], rfl, ?_⟩)⟩
          intro s hs
          rw [List.mem_singleton.1 hs]
          exact ⟨Or.inr (Or.inr rfl), by decide⟩
        · exact ⟨_, rfl, Or.inr (Or.inl rfl)⟩)
  have hresult := hsame 10 [⟨5, []⟩, ⟨5, []⟩] rfl
  exact ⟨bound, fun fuel h => hresult ▸ hbound fuel h⟩

/-! ## One iteration of the loop of `WalkDownHostMemoryOffloadPaths` -/

/-- When the chain of `if`s ends with `continue`, the pass object, the queue and
the saved buffers are as before. -/
theorem classify_next_node (u : Collaborators) (fuel : Nat) (starting_instruction : Nat)
    (w : WalkState) (node : InstructionAndShapeIndex) (instruction : HloInstruction)
    (w' : WalkState)
    (h : WalkDownHostMemoryOffloadPaths.classify u fuel starting_instruction w node instruction
      = .ok (.next_node w')) :
    w'.offloader = w.offloader ∧ w'.queue = w.queue ∧
      w'.buffers_to_set_to_host_memory = w.buffers_to_set_to_host_memory ∧
      w'.mth_custom_calls_to_remove = w.mth_custom_calls_to_remove ∧
      w'.x64_split_instructions = w.x64_split_instructions := by
  unfold WalkDownHostMemoryOffloadPaths.classify at h
  simp only at h
  split_ifs at h
  all_goals first
    | (cases h; exact ⟨rfl, rfl, rfl, rfl, rfl⟩)
    | cases h
    | (split at h <;> first | (cases h; exact ⟨rfl, rfl, rfl, rfl, rfl⟩) | cases h)

/-- The chain of `if`s changes the pass object only in its set of visited
`MoveToHost` custom calls and its two lists of dynamic-update-slices. -/
theorem classify_rest_of_body_fields (u : Collaborators) (fuel : Nat)
    (starting_instruction : Nat) (w : WalkState) (node : InstructionAndShapeIndex)
    (instruction : HloInstruction) (w' : WalkState) (already_saved_buffer need_to_wrap : Bool)
    (h : WalkDownHostMemoryOffloadPaths.classify u fuel starting_instruction w node instruction
      = .ok (.rest_of_body w' already_saved_buffer need_to_wrap)) :
    w'.offloader.module = w.offloader.module ∧ w'.queue = w.queue ∧
      w'.offloader.already_inserted_copy_before_ = w.offloader.already_inserted_copy_before_ ∧
      w'.offloader.copies_created_after_ = w.offloader.copies_created_after_ ∧
      w'.x64_split_instructions = w.x64_split_instructions ∧
      w'.slices_to_dynamify = w.slices_to_dynamify ∧
      w'.custom_calls_to_insert_copies_before = w.custom_calls_to_insert_copies_before := by
  unfold WalkDownHostMemoryOffloadPaths.classify at h
  simp only at h
  split_ifs at h
  all_goals first
    | (cases h; exact ⟨rfl, rfl, rfl, rfl, rfl, rfl, rfl⟩)
    | cases h
    | (split at h <;> first | (cases h; exact ⟨rfl, rfl, rfl, rfl, rfl, rfl, rfl⟩) | cases h)

/-- The flag `need_to_wrap_instruction_as_host_compute` is set only for an
instruction that is no dynamic-update-slice, with `already_saved_buffer` not
set, and nothing else is changed by the chain of `if`s then. -/
theorem classify_need_to_wrap (u : Collaborators) (fuel : Nat) (starting_instruction : Nat)
    (w : WalkState) (node : InstructionAndShapeIndex) (instruction : HloInstruction)
    (w' : WalkState) (already_saved_buffer : Bool)
    (h : WalkDownHostMemoryOffloadPaths.classify u fuel starting_instruction w node instruction
      = .ok (.rest_of_body w' already_saved_buffer true)) :
    w' = w ∧ already_saved_buffer = false ∧
      instruction.opcode ≠ HloOpcode.kDynamicUpdateSlice := by
  unfold WalkDownHostMemoryOffloadPaths.classify at h
  simp only at h
  split_ifs at h
  all_goals first
    | (cases h; exact ⟨rfl, rfl, by assumption⟩)
    | cases h
    | (split at h <;> first | (cases h; exact ⟨rfl, rfl, by assumption⟩) | cases h)

/-- The chain of `if`s for a dynamic-update-slice: it is recorded as seen, and as
seen with annotation if it is the starting instruction; the two flags are not
set. -/
theorem classify_dynamic_update_slice (u : Collaborators) (fuel : Nat)
    (starting_instruction : Nat) (w : WalkState) (node : InstructionAndShapeIndex)
    (instruction : HloInstruction)
    (hopcode : instruction.opcode = HloOpcode.kDynamicUpdateSlice) :
    WalkDownHostMemoryOffloadPaths.classify u fuel starting_instruction w node instruction
      = .ok (.rest_of_body
          { w with
            offloader := { w.offloader with
              dynamic_update_slices_seen_ :=
                setInsert w.offloader.dynamic_update_slices_seen_ instruction.id
              dynamic_update_slices_seen_with_annotation_ :=
                if instruction.id = starting_instruction then
                  setInsert w.offloader.dynamic_update_slices_seen_with_annotation_
                    instruction.id
                else
                  w.offloader.dynamic_update_slices_seen_with_annotation_ } }
          false false) := by
  unfold WalkDownHostMemoryOffloadPaths.classify
  simp only [hopcode, reduceCtorEq, false_and, if_false, if_true]

/-- The chain of `if`s for an instruction that is no dynamic-update-slice leaves
the two lists of dynamic-update-slices as they are. -/
theorem classify_not_dynamic_update_slice (u : Collaborators) (fuel : Nat)
    (starting_instruction : Nat) (w : WalkState) (node : InstructionAndShapeIndex)
    (instruction : HloInstruction)
    (hopcode : instruction.opcode ≠ HloOpcode.kDynamicUpdateSlice) :
    (∀ w', WalkDownHostMemoryOffloadPaths.classify u fuel starting_instruction w node
        instruction = .ok (.next_node w') →
      w'.offloader.dynamic_update_slices_seen_ = w.offloader.dynamic_update_slices_seen_ ∧
        w'.offloader.dynamic_update_slices_seen_with_annotation_
          = w.offloader.dynamic_update_slices_seen_with_annotation_) ∧
    ∀ w' already_saved_buffer need_to_wrap,
      WalkDownHostMemoryOffloadPaths.classify u fuel starting_instruction w node
        instruction = .ok (.rest_of_body w' already_saved_buffer need_to_wrap) →
      w'.offloader.dynamic_update_slices_seen_ = w.offloader.dynamic_update_slices_seen_ ∧
        w'.offloader.dynamic_update_slices_seen_with_annotation_
          = w.offloader.dynamic_update_slices_seen_with_annotation_ := by
  constructor
  · intro w' h
    rw [(classify_next_node u fuel starting_instruction w node instruction w' h).1]
    exact ⟨rfl, rfl⟩
  · intro w' already_saved_buffer need_to_wrap h
    unfold WalkDownHostMemoryOffloadPaths.classify at h
    simp only [hopcode, if_false] at h
    split_ifs at h
    all_goals first
      | (cases h; exact ⟨rfl, rfl⟩)
      | cases h
      | (split at h <;> first | (cases h; exact ⟨rfl, rfl⟩) | cases h)

/-- The body of the loop after the chain of `if`s, when it succeeds: the module
is tagged if `need_to_wrap_instruction_as_host_compute` is set and is not
changed otherwise, the node is saved as a buffer unless `already_saved_buffer`
is set or the instruction is a dynamic-update-slice, and the rest of the pass
object is as before. -/
theorem rest_of_body_ok (u : Collaborators) (starting_instruction : Nat) (w w' : WalkState)
    (node : InstructionAndShapeIndex) (instruction : HloInstruction)
    (already_saved_buffer need_to_wrap : Bool)
    (h : WalkDownHostMemoryOffloadPaths.rest_of_body u starting_instruction w node instruction
      already_saved_buffer need_to_wrap = .ok w') :
    w'.offloader = { w.offloader with
        module := if need_to_wrap = true then
          SetHostComputeFrontendAttribute w.offloader.module instruction.id
        else w.offloader.module } ∧
      w'.buffers_to_set_to_host_memory
        = (if ¬ already_saved_buffer = true ∧
              instruction.opcode ≠ HloOpcode.kDynamicUpdateSlice then
            w.buffers_to_set_to_host_memory ++ [node]
          else w.buffers_to_set_to_host_memory) ∧
      w'.mth_custom_calls_to_remove = w.mth_custom_calls_to_remove ∧
      w'.slices_to_dynamify = w.slices_to_dynamify ∧
      w'.custom_calls_to_insert_copies_before = w.custom_calls_to_insert_copies_before := by
  unfold WalkDownHostMemoryOffloadPaths.rest_of_body at h
  by_cases hsave : (¬ already_saved_buffer = true ∧
      instruction.opcode ≠ HloOpcode.kDynamicUpdateSlice)
  · rw [if_pos hsave]
    cases need_to_wrap <;>
      (simp only [if_pos hsave, if_true, if_false, Bool.false_eq_true] at h ⊢
       (repeat' split at h) <;>
        first
        | (cases h; exact ⟨rfl, rfl, rfl, rfl, rfl⟩)
        | cases h)
  · rw [if_neg hsave]
    cases need_to_wrap <;>
      (simp only [if_neg hsave, if_true, if_false, Bool.false_eq_true] at h ⊢
       (repeat' split at h) <;>
        first
        | (cases h; exact ⟨rfl, rfl, rfl, rfl, rfl⟩)
        | cases h)

/-- The chain of `if`s removes no saved buffer. -/
theorem classify_buffers_mono (u : Collaborators) (fuel : Nat) (starting_instruction : Nat)
    (w : WalkState) (node : InstructionAndShapeIndex) (instruction : HloInstruction)
    (w' : WalkState) (already_saved_buffer need_to_wrap : Bool)
    (h : WalkDownHostMemoryOffloadPaths.classify u fuel starting_instruction w node instruction
      = .ok (.rest_of_body w' already_saved_buffer need_to_wrap)) :
    ∀ b ∈ w.buffers_to_set_to_host_memory, b ∈ w'.buffers_to_set_to_host_memory := by
  unfold WalkDownHostMemoryOffloadPaths.classify at h
  simp only at h
  split_ifs at h
  all_goals first
    | (cases h; exact fun b hb => hb)
    | (cases h; exact fun b hb => List.mem_append_left _ hb)
    | cases h
    | (split at h <;> first
        | (cases h; exact fun b hb => hb)
        | (cases h; exact fun b hb => List.mem_append_left _ hb)
        | cases h)

/-- One iteration of the loop changes the module at most by tagging the visited
instruction for host compute. -/
theorem visit_module (u : Collaborators) (fuel : Nat) (starting_instruction : Nat)
    (w w' : WalkState) (node : InstructionAndShapeIndex)
    (h : WalkDownHostMemoryOffloadPaths.visit u fuel starting_instruction w node = .ok w') :
    w'.offloader.module = w.offloader.module ∨
      w'.offloader.module = SetHostComputeFrontendAttribute w.offloader.module node.instruction := by
  unfold WalkDownHostMemoryOffloadPaths.visit at h
  cases hget : w.offloader.module.get node.instruction with
  | error e =>
    simp only [hget] at h
    cases h
  | ok instruction =>
    simp only [hget] at h
    have hid : instruction.id = node.instruction := get_id _ _ _ hget
    cases hclass : WalkDownHostMemoryOffloadPaths.classify u fuel starting_instruction w node
        instruction with
    | error e =>
      simp only [hclass] at h
      cases h
    | ok c =>
      cases c with
      | next_node w1 =>
        simp only [hclass] at h
        cases h
        left
        rw [(classify_next_node u fuel starting_instruction w node instruction _ hclass).1]
      | rest_of_body w1 already_saved_buffer need_to_wrap =>
        simp only [hclass] at h
        obtain ⟨hoffloader, _⟩ := rest_of_body_ok u starting_instruction w1 w' node instruction
          already_saved_buffer need_to_wrap h
        have hmodule := (classify_rest_of_body_fields u fuel starting_instruction w node
          instruction w1 already_saved_buffer need_to_wrap hclass).1
        rw [hoffloader]
        cases need_to_wrap with
        | false =>
          left
          simp only [Bool.false_eq_true, if_false]
          exact hmodule
        | true =>
          right
          simp only [if_true]
          rw [hmodule, hid]

/-- One iteration of the loop removes no saved buffer. -/
theorem visit_buffers_mono (u : Collaborators) (fuel : Nat) (starting_instruction : Nat)
    (w w' : WalkState) (node : InstructionAndShapeIndex)
    (h : WalkDownHostMemoryOffloadPaths.visit u fuel starting_instruction w node = .ok w') :
    ∀ b ∈ w.buffers_to_set_to_host_memory, b ∈ w'.buffers_to_set_to_host_memory := by
  unfold WalkDownHostMemoryOffloadPaths.visit at h
  cases hget : w.offloader.module.get node.instruction with
  | error e =>
    simp only [hget] at h
    cases h
  | ok instruction =>
    simp only [hget] at h
    cases hclass : WalkDownHostMemoryOffloadPaths.classify u fuel starting_instruction w node
        instruction with
    | error e =>
      simp only [hclass] at h
      cases h
    | ok c =>
      cases c with
      | next_node w1 =>
        simp only [hclass] at h
        cases h
        rw [(classify_next_node u fuel starting_instruction w node instruction _ hclass).2.2.1]
        exact fun b hb => hb
      | rest_of_body w1 already_saved_buffer need_to_wrap =>
        simp only [hclass] at h
        obtain ⟨_, hbuffers, _⟩ := rest_of_body_ok u starting_instruction w1 w' node instruction
          already_saved_buffer need_to_wrap h
        intro b hb
        have hb1 := classify_buffers_mono u fuel starting_instruction w node instruction w1
          already_saved_buffer need_to_wrap hclass b hb
        rw [hbuffers]
        split
        · exact List.mem_append_left _ hb1
        · exact hb1

/-- The loop of `WalkDownHostMemoryOffloadPaths` changes the module only by
tagging instructions for host compute: the module after the loop is the module
before it with the tag set on some instructions. -/
theorem loop_module (u : Collaborators) (probe_fuel : Nat) (starting_instruction : Nat) :
    ∀ (fuel : Nat) (w w' : WalkState),
      WalkDownHostMemoryOffloadPaths.loop u probe_fuel starting_instruction fuel w = .ok w' →
      ∃ tagged : List Nat,
        w'.offloader.module = tagged.foldl SetHostComputeFrontendAttribute w.offloader.module := by
  intro fuel
  induction fuel with
  | zero =>
    intro w w' h
    unfold WalkDownHostMemoryOffloadPaths.loop at h
    split at h
    · cases h
      exact ⟨[], rfl⟩
    · cases h
  | succ fuel ih =>
    intro w w' h
    unfold WalkDownHostMemoryOffloadPaths.loop at h
    split at h
    · cases h
      exact ⟨[], rfl⟩
    · rename_i node queue _
      cases hvisit : WalkDownHostMemoryOffloadPaths.visit u probe_fuel starting_instruction
          { w with queue := queue } node with
      | error e =>
        simp only [hvisit] at h
        cases h
      | ok w1 =>
        simp only [hvisit] at h
        obtain ⟨tagged, htagged⟩ := ih w1 w' h
        rcases visit_module u probe_fuel starting_instruction _ w1 node hvisit with h1 | h1
        · exact ⟨tagged, by rw [htagged, h1]⟩
        · exact ⟨node.instruction :: tagged, by rw [htagged, h1]; rfl⟩

/-- The loop of `WalkDownHostMemoryOffloadPaths` removes no saved buffer. -/
theorem loop_buffers_mono (u : Collaborators) (probe_fuel : Nat) (starting_instruction : Nat) :
    ∀ (fuel : Nat) (w w' : WalkState),
      WalkDownHostMemoryOffloadPaths.loop u probe_fuel starting_instruction fuel w = .ok w' →
      ∀ b ∈ w.buffers_to_set_to_host_memory, b ∈ w'.buffers_to_set_to_host_memory := by
  intro fuel
  induction fuel with
  | zero =>
    intro w w' h
    unfold WalkDownHostMemoryOffloadPaths.loop at h
    split at h
    · cases h
      exact fun b hb => hb
    · cases h
  | succ fuel ih =>
    intro w w' h
    unfold WalkDownHostMemoryOffloadPaths.loop at h
    split at h
    · cases h
      exact fun b hb => hb
    · rename_i node queue _
      cases hvisit : WalkDownHostMemoryOffloadPaths.visit u probe_fuel starting_instruction
          { w with queue := queue } node with
      | error e =>
        simp only [hvisit] at h
        cases h
      | ok w1 =>
        simp only [hvisit] at h
        intro b hb
        exact ih w1 w' h b
          (visit_buffers_mono u probe_fuel starting_instruction _ w1 node hvisit b hb)

/-- Tagging instructions for host compute changes an instruction that is found
at most in its tag. -/
theorem instruction?_tagged (tagged : List Nat) :
    ∀ (m : HloModule) (x : Nat),
      ((tagged.foldl SetHostComputeFrontendAttribute m).instruction? x).map
          (fun i => { i with host_compute := false })
        = (m.instruction? x).map (fun i => { i with host_compute := false }) := by
  induction tagged with
  | nil => intro m x; rfl
  | cons t tagged ih =>
    intro m x
    rw [List.foldl_cons, ih]
    unfold SetHostComputeFrontendAttribute
    rw [instruction?_update m t x (fun i => { i with host_compute := true }) (fun _ => rfl)]
    cases m.instruction? x with
    | none => rfl
    | some i =>
      simp only [Option.map_some']
      split <;> rfl

/-- Tagging instructions for host compute changes nothing but the instructions
of the module, and these only in their tags. -/
theorem tagged_module (tagged : List Nat) :
    ∀ (m : HloModule),
      (tagged.foldl SetHostComputeFrontendAttribute m).computations = m.computations ∧
      (tagged.foldl SetHostComputeFrontendAttribute m).entry_computation = m.entry_computation ∧
      (tagged.foldl SetHostComputeFrontendAttribute m).entry_computation_layout
        = m.entry_computation_layout ∧
      (tagged.foldl SetHostComputeFrontendAttribute m).next_instruction_id
        = m.next_instruction_id ∧
      (tagged.foldl SetHostComputeFrontendAttribute m).instructions.map
          (fun i => { i with host_compute := false })
        = m.instructions.map (fun i => { i with host_compute := false }) := by
  induction tagged with
  | nil => intro m; exact ⟨rfl, rfl, rfl, rfl, rfl⟩
  | cons t tagged ih =>
    intro m
    rw [List.foldl_cons]
    obtain ⟨h1, h2, h3, h4, h5⟩ := ih (SetHostComputeFrontendAttribute m t)
    refine ⟨h1, h2, h3, h4, ?_⟩
    rw [h5]
    unfold SetHostComputeFrontendAttribute HloModule.update
    simp only [List.map_map]
    apply List.map_congr_left
    intro i _
    simp only [Function.comp]
    split <;> rfl

/-! ## Coloring the saved buffers -/

/-- Setting the memory space of a subshape keeps every subshape that has that
memory space already. -/
theorem UpdateSubshape_keeps_colored (color : Int) :
    ∀ (index index' : ShapeIndex) (shape shape' t : Shape),
      shape.UpdateSubshape (fun s => SetMemorySpace s color) index = .ok shape' →
      shape.GetSubshape index' = .ok t → t.has_memory_space color = true →
      ∃ t', shape'.GetSubshape index' = .ok t' ∧ t'.has_memory_space color = true := by
  intro index
  induction index with
  | nil =>
    intro index' shape shape' t h hget hcolor
    cases shape with
    | tuple es =>
      simp only [Shape.UpdateSubshape, SetMemorySpace] at h
      cases h
    | array t0 d l =>
      cases index' with
      | cons j r =>
        simp only [Shape.GetSubshape] at hget
        cases hget
      | nil =>
        refine ⟨shape', by cases shape' <;> simp only [Shape.GetSubshape], ?_⟩
        simp only [Shape.UpdateSubshape] at h
        exact SetMemorySpace_has_memory_space _ _ color h
  | cons i rest ih =>
    intro index' shape shape' t h hget hcolor
    cases shape with
    | array t0 d l =>
      simp only [Shape.UpdateSubshape] at h
      cases h
    | tuple es =>
      simp only [Shape.UpdateSubshape] at h
      cases hes : es[i]? with
      | none =>
        rw [hes] at h
        cases h
      | some e =>
        rw [hes] at h
        simp only at h
        cases he : e.UpdateSubshape (fun s => SetMemorySpace s color) rest with
        | error err =>
          rw [he] at h
          cases h
        | ok e' =>
          rw [he] at h
          cases h
          cases index' with
          | nil =>
            simp only [Shape.GetSubshape] at hget
            cases hget
            simp only [Shape.has_memory_space] at hcolor
            cases hcolor
          | cons j r =>
            simp only [Shape.GetSubshape] at hget ⊢
            by_cases hji : j = i
            · rw [hji] at hget ⊢
              rw [hes] at hget
              simp only at hget
              have hlt : i < es.length := by
                rcases List.getElem?_eq_some_iff.1 hes with ⟨hlt, _⟩
                exact hlt
              rw [List.getElem?_set_self hlt]
              exact ih r e e' t he hget hcolor
            · rw [List.getElem?_set_ne (fun h => hji h.symm)]
              cases hej : es[j]? with
              | none =>
                rw [hej] at hget
                cases hget
              | some ej =>
                rw [hej] at hget
                simp only at hget ⊢
                exact ⟨t, hget, hcolor⟩

/-- Coloring the subshape at one node keeps every node that is colored
already. -/
theorem SetSubshapeMemorySpace_keeps_colored (m m1 : HloModule)
    (node node' : InstructionAndShapeIndex) (color : Int)
    (h : SetSubshapeMemorySpace m node color = .ok m1)
    (hcolored : ∃ i shape, m.get node'.instruction = .ok i ∧
      i.shape.GetSubshape node'.shape_index = .ok shape ∧
      shape.has_memory_space color = true) :
    ∃ i shape, m1.get node'.instruction = .ok i ∧
      i.shape.GetSubshape node'.shape_index = .ok shape ∧
      shape.has_memory_space color = true := by
  obtain ⟨i', t, hi', ht, hcolor⟩ := hcolored
  unfold SetSubshapeMemorySpace at h
  split at h
  · cases h
  · rename_i _ i hi
    split at h
    · cases h
    · rename_i _ shape' hshape
      cases h
      have hfound := get_update m node.instruction node'.instruction
        (fun i => { i with shape := shape' }) (fun _ => rfl) i' hi'
      by_cases hsame : i'.id = node.instruction
      · rw [if_pos hsame] at hfound
        have heq : i' = i := by
          have h1 : node'.instruction = node.instruction := by
            rw [← get_id _ _ _ hi', hsame]
          rw [h1, hi] at hi'
          cases hi'
          rfl
        rw [heq] at ht
        obtain ⟨t', ht', hcolor'⟩ := UpdateSubshape_keeps_colored color node.shape_index
          node'.shape_index i.shape shape' t hshape ht hcolor
        exact ⟨_, t', hfound, ht', hcolor'⟩
      · rw [if_neg hsame] at hfound
        exact ⟨i', t, hfound, ht, hcolor⟩

/-- After `SetBuffersToMemorySpaceColor`, every buffer of the list has the
memory space that was asked for. -/
theorem SetBuffersToMemorySpaceColor_colored (color : Int) :
    ∀ (buffers : List InstructionAndShapeIndex) (m m0 : HloModule) (changed : Bool),
      SetBuffersToMemorySpaceColor m buffers color = .ok (changed, m0) →
      (∀ node' : InstructionAndShapeIndex, (∃ i shape, m.get node'.instruction = .ok i ∧
          i.shape.GetSubshape node'.shape_index = .ok shape ∧
          shape.has_memory_space color = true) →
        ∃ i shape, m0.get node'.instruction = .ok i ∧
          i.shape.GetSubshape node'.shape_index = .ok shape ∧
          shape.has_memory_space color = true) ∧
      ∀ node ∈ buffers, ∃ i shape, m0.get node.instruction = .ok i ∧
        i.shape.GetSubshape node.shape_index = .ok shape ∧
        shape.has_memory_space color = true := by
  intro buffers
  induction buffers with
  | nil =>
    intro m m0 changed h
    unfold SetBuffersToMemorySpaceColor at h
    cases h
    exact ⟨fun _ hc => hc, fun node hn => absurd hn (List.not_mem_nil node)⟩
  | cons b rest ih =>
    intro m m0 changed h
    unfold SetBuffersToMemorySpaceColor at h
    cases hb : SetSubshapeMemorySpace m b color with
    | error e =>
      simp only [hb] at h
      cases h
    | ok m1 =>
      simp only [hb] at h
      cases hrest : SetBuffersToMemorySpaceColor m1 rest color with
      | error e =>
        simp only [hrest] at h
        cases h
      | ok r =>
        simp only [hrest] at h
        cases h
        obtain ⟨hkeep, hall⟩ := ih m1 r.2 r.1 hrest
        refine ⟨?_, ?_⟩
        · intro node' hcolored
          exact hkeep node' (SetSubshapeMemorySpace_keeps_colored m m1 b node' color hb hcolored)
        · intro node hn
          rcases List.mem_cons.1 hn with hn | hn
          · rw [hn]
            exact hkeep b (SetSubshapeMemorySpace_colored m m1 b color hb)
          · exact hall node hn

/-- `SetBuffersToMemorySpaceColor` keeps every instruction that `get` finds, up
to its shape. -/
theorem get_SetBuffersToMemorySpaceColor (color : Int) :
    ∀ (buffers : List InstructionAndShapeIndex) (m m0 : HloModule) (changed : Bool),
      SetBuffersToMemorySpaceColor m buffers color = .ok (changed, m0) →
      ∀ x i, m.get x = .ok i → ∃ shape, m0.get x = .ok { i with shape := shape } := by
  intro buffers
  induction buffers with
  | nil =>
    intro m m0 changed h x i hx
    unfold SetBuffersToMemorySpaceColor at h
    cases h
    exact ⟨i.shape, hx⟩
  | cons b rest ih =>
    intro m m0 changed h x i hx
    unfold SetBuffersToMemorySpaceColor at h
    cases hb : SetSubshapeMemorySpace m b color with
    | error e =>
      simp only [hb] at h
      cases h
    | ok m1 =>
      simp only [hb] at h
      cases hrest : SetBuffersToMemorySpaceColor m1 rest color with
      | error e =>
        simp only [hrest] at h
        cases h
      | ok r =>
        simp only [hrest] at h
        cases h
        obtain ⟨shape1, h1⟩ := get_SetSubshapeMemorySpace m m1 b color x i hb hx
        by_cases hid : i.id = b.instruction
        · rw [if_pos hid] at h1
          obtain ⟨shape2, h2⟩ := ih m1 r.2 r.1 hrest x _ h1
          exact ⟨shape2, h2⟩
        · rw [if_neg hid] at h1
          exact ih m1 r.2 r.1 hrest x i h1

/-! ## The walk through the condition of a while -/

/-- Tagging instructions for host compute keeps an instruction that `get` finds,
up to its tag, and never removes a tag. -/
theorem get_tagged (tagged : List Nat) :
    ∀ (m : HloModule) (x : Nat) (i : HloInstruction), m.get x = .ok i →
      ∃ tag : Bool, (tagged.foldl SetHostComputeFrontendAttribute m).get x
          = .ok { i with host_compute := tag } ∧
        (i.host_compute = true → tag = true) := by
  induction tagged with
  | nil =>
    intro m x i h
    exact ⟨i.host_compute, h, fun hc => hc⟩
  | cons t tagged ih =>
    intro m x i h
    rw [List.foldl_cons]
    have h1 := get_update m t x (fun i => { i with host_compute := true }) (fun _ => rfl) i h
    by_cases hid : i.id = t
    · rw [if_pos hid] at h1
      obtain ⟨tag, htag, hkeep⟩ := ih (SetHostComputeFrontendAttribute m t) x _ h1
      exact ⟨tag, htag, fun _ => hkeep rfl⟩
    · rw [if_neg hid] at h1
      exact ih (SetHostComputeFrontendAttribute m t) x i h1

/-- C32, as stated, fails: in `p0 -> add -> bitcast` with the entry result
layout in host memory space, the walk from the `add` classifies it as device
compute on host data (the chain of `if`s sets
`need_to_wrap_instruction_as_host_compute`); the walk tags it for host compute
and also colors its shape host. -/
theorem c32_device_compute_counterexample :
    (∃ add, (exampleComputeBeforeRootModule kHostMemorySpace).get 2 = .ok add ∧
      add.shape = exampleShape kDefaultMemorySpace ∧
      WalkDownHostMemoryOffloadPaths.classify exampleCollaborators 10 2
        { exampleWalkState (exampleOffloader (exampleComputeBeforeRootModule
            kHostMemorySpace)) ⟨2, []⟩ with queue := [] } ⟨2, []⟩ add
        = .ok (.rest_of_body
            { exampleWalkState (exampleOffloader (exampleComputeBeforeRootModule
                kHostMemorySpace)) ⟨2, []⟩ with queue := [] } false true)) ∧
    ∃ o' add', WalkDownHostMemoryOffloadPaths exampleCollaborators 10
        (exampleOffloader (exampleComputeBeforeRootModule kHostMemorySpace)) ⟨2, []⟩ false
        = .ok (true, o') ∧
      o'.module.get 2 = .ok add' ∧ add'.host_compute = true ∧
      add'.shape = exampleShape kHostMemorySpace :=
  ⟨⟨_, rfl, rfl, rfl⟩, _, _, rfl, rfl, rfl, rfl⟩

/-- C32 (amended): for a node that the chain of `if`s of
`WalkDownHostMemoryOffloadPaths` classifies as device compute on host data
(`need_to_wrap_instruction_as_host_compute` is set), an iteration that succeeds
tags the instruction for host compute and saves the node as a buffer to be set
to host memory.  The node is still saved when the loop ends, and after
`SetBuffersToMemorySpaceColor` the instruction has the tag and its subshape at
the index of the node is in host memory space. -/
theorem c32_device_compute_tagged_and_colored (u : Collaborators) (probe_fuel : Nat)
    (starting_instruction : Nat) (w w1 w' : WalkState) (node : InstructionAndShapeIndex)
    (instruction : HloInstruction) (already_saved_buffer : Bool)
    (hget : w.offloader.module.get node.instruction = .ok instruction)
    (hclass : WalkDownHostMemoryOffloadPaths.classify u probe_fuel starting_instruction w node
      instruction = .ok (.rest_of_body w1 already_saved_buffer true))
    (hvisit : WalkDownHostMemoryOffloadPaths.visit u probe_fuel starting_instruction w node
      = .ok w') :
    w'.offloader.module.get node.instruction = .ok { instruction with host_compute := true } ∧
      w'.buffers_to_set_to_host_memory = w.buffers_to_set_to_host_memory ++ [node] ∧
      ∀ (fuel : Nat) (w'' : WalkState),
        WalkDownHostMemoryOffloadPaths.loop u probe_fuel starting_instruction fuel w'
          = .ok w'' →
        node ∈ w''.buffers_to_set_to_host_memory ∧
        ∀ (changed : Bool) (m0 : HloModule),
          SetBuffersToMemorySpaceColor w''.offloader.module w''.buffers_to_set_to_host_memory
            kHostMemorySpace = .ok (changed, m0) →
          ∃ i shape, m0.get node.instruction = .ok i ∧ i.host_compute = true ∧
            i.shape.GetSubshape node.shape_index = .ok shape ∧
            shape.has_memory_space kHostMemorySpace = true := by
  obtain ⟨hw1, hsaved, hopcode⟩ := classify_need_to_wrap u probe_fuel starting_instruction w
    node instruction w1 already_saved_buffer hclass
  rw [hw1] at hclass
  rw [hsaved] at hclass
  unfold WalkDownHostMemoryOffloadPaths.visit at hvisit
  simp only [hget, hclass] at hvisit
  obtain ⟨hoffloader, hbuffers, _⟩ := rest_of_body_ok u starting_instruction w w' node
    instruction false true hvisit
  have hid : instruction.id = node.instruction := get_id _ _ _ hget
  have htagged : w'.offloader.module.get node.instruction
      = .ok { instruction with host_compute := true } := by
    have hm : SetHostComputeFrontendAttribute w.offloader.module instruction.id
        = SetHostComputeFrontendAttribute w.offloader.module node.instruction := by rw [hid]
    rw [hoffloader]
    simp only [if_true]
    rw [hm]
    exact get_SetHostComputeFrontendAttribute w.offloader.module node.instruction instruction hget
  have hbuffers' : w'.buffers_to_set_to_host_memory
      = w.buffers_to_set_to_host_memory ++ [node] := by
    rw [hbuffers, if_pos ⟨by simp, hopcode⟩]
  refine ⟨htagged, hbuffers', ?_⟩
  intro fuel w'' hloop
  have hmem : node ∈ w''.buffers_to_set_to_host_memory :=
    loop_buffers_mono u probe_fuel starting_instruction fuel w' w'' hloop node
      (by rw [hbuffers']; exact List.mem_append_right _ (List.mem_singleton_self _))
  refine ⟨hmem, ?_⟩
  intro changed m0 hset
  obtain ⟨tagged, hmodule⟩ := loop_module u probe_fuel starting_instruction fuel w' w'' hloop
  obtain ⟨tag, htag, hkeep⟩ := get_tagged tagged w'.offloader.module node.instruction _ htagged
  rw [← hmodule] at htag
  have htrue : tag = true := hkeep rfl
  rw [htrue] at htag
  obtain ⟨_, hall⟩ := SetBuffersToMemorySpaceColor_colored kHostMemorySpace
    w''.buffers_to_set_to_host_memory w''.offloader.module m0 changed hset
  obtain ⟨i, shape, hi, hshape, hcolor⟩ := hall node hmem
  obtain ⟨shape0, h0⟩ := get_SetBuffersToMemorySpaceColor kHostMemorySpace
    w''.buffers_to_set_to_host_memory w''.offloader.module m0 changed hset node.instruction _ htag
  rw [h0] at hi
  cases hi
  exact ⟨_, shape, h0, rfl, hshape, hcolor⟩

/-- Witness for C32 (amended): the iteration for the `add` in
`p0 -> add -> bitcast`. -/
theorem c32_device_compute_tagged_and_colored_witness :
    ∃ w', WalkDownHostMemoryOffloadPaths.visit exampleCollaborators 10 2
        { exampleWalkState (exampleOffloader (exampleComputeBeforeRootModule
            kHostMemorySpace)) ⟨2, []⟩ with queue := [] } ⟨2, []⟩ = .ok w' ∧
      w'.offloader.module.get 2
        = .ok { id := 2, name := "add", opcode := HloOpcode.kOther 1,
                shape := exampleShape kDefaultMemorySpace, operands := [1], parent := 0,
                host_compute := true } ∧
      w'.buffers_to_set_to_host_memory = [] ++ [⟨2, []⟩] :=
  ⟨_, rfl,
    (c32_device_compute_tagged_and_colored exampleCollaborators 10 2
      { exampleWalkState (exampleOffloader (exampleComputeBeforeRootModule kHostMemorySpace))
          ⟨2, []⟩ with queue := [] }
      _ _ ⟨2, []⟩
      { id := 2, name := "add", opcode := HloOpcode.kOther 1,
        shape := exampleShape kDefaultMemorySpace, operands := [1], parent := 0 }
      false rfl rfl rfl).1,
    (c32_device_compute_tagged_and_colored exampleCollaborators 10 2
      { exampleWalkState (exampleOffloader (exampleComputeBeforeRootModule kHostMemorySpace))
          ⟨2, []⟩ with queue := [] }
      _ _ ⟨2, []⟩
      { id := 2, name := "add", opcode := HloOpcode.kOther 1,
        shape := exampleShape kDefaultMemorySpace, operands := [1], parent := 0 }
      false rfl rfl rfl).2.1⟩

/-! ## Nodes that are reached along several paths -/

/-- The loop over the successors puts on the queue exactly the successors whose
subshape is not in host memory space in the module. -/
theorem push_successors_eq_filter (m : HloModule) :
    ∀ (successors queue q : List InstructionAndShapeIndex),
      WalkDownHostMemoryOffloadPaths.push_successors m queue successors = .ok q →
      q = queue ++ successors.filter (fun successor =>
        match m.get successor.instruction with
        | .ok s =>
          match s.shape.GetSubshape successor.shape_index with
          | .ok successor_shape => ! successor_shape.has_memory_space kHostMemorySpace
          | .error _ => false
        | .error _ => false) := by
  intro successors
  induction successors with
  | nil =>
    intro queue q h
    unfold WalkDownHostMemoryOffloadPaths.push_successors at h
    cases h
    simp only [List.filter_nil, List.append_nil]
  | cons successor rest ih =>
    intro queue q h
    unfold WalkDownHostMemoryOffloadPaths.push_successors at h
    cases hget : m.get successor.instruction with
    | error e =>
      simp only [hget] at h
      cases h
    | ok s =>
      simp only [hget] at h
      cases hshape : s.shape.GetSubshape successor.shape_index with
      | error e =>
        simp only [hshape] at h
        cases h
      | ok successor_shape =>
        simp only [hshape] at h
        cases hcolor : successor_shape.has_memory_space kHostMemorySpace with
        | true =>
          simp only [hcolor, if_true] at h
          rw [ih queue q h]
          simp only [List.filter_cons, hget, hshape, hcolor, Bool.not_true, Bool.false_eq_true,
            if_false]
        | false =>
          simp only [hcolor, Bool.false_eq_true, if_false] at h
          rw [ih (queue ++ [successor]) q h]
          simp only [List.filter_cons, hget, hshape, hcolor, Bool.not_false, if_true,
            List.append_assoc, List.singleton_append]

/-- C33, as stated, fails: in the walk from the bitcast `2` of
`exampleDiamondModule`, the root `add` reads both successors of the start node;
the iterations for the two successors each put the node of the `add` on the
queue, which then holds it twice, and the walk processes it twice: it is saved
twice as a buffer to be set to host memory. -/
theorem c33_visited_twice_counterexample :
    ∃ w1 w2 w3 w,
      WalkDownHostMemoryOffloadPaths.visit exampleCollaborators 10 2
        { exampleWalkState (exampleOffloader exampleDiamondModule) ⟨2, []⟩ with queue := [] }
        ⟨2, []⟩ = .ok w1 ∧
      w1.queue = [⟨3, []⟩, ⟨4, []⟩] ∧
      WalkDownHostMemoryOffloadPaths.visit exampleCollaborators 10 2
        { w1 with queue := [⟨4, []⟩] } ⟨3, []⟩ = .ok w2 ∧
      w2.queue = [⟨4, []⟩, ⟨5, []⟩] ∧
      WalkDownHostMemoryOffloadPaths.visit exampleCollaborators 10 2
        { w2 with queue := [⟨5, []⟩] } ⟨4, []⟩ = .ok w3 ∧
      w3.queue = [⟨5, []⟩, ⟨5, []⟩] ∧
      WalkDownHostMemoryOffloadPaths.loop exampleCollaborators 10 2 10
          (exampleWalkState (exampleOffloader exampleDiamondModule) ⟨2, []⟩)
        = WalkDownHostMemoryOffloadPaths.loop exampleCollaborators 10 2 7 w3 ∧
      WalkDownHostMemoryOffloadPaths.loop exampleCollaborators 10 2 7 w3 = .ok w ∧
      w.buffers_to_set_to_host_memory
        = [⟨2, []⟩, ⟨3, []⟩, ⟨4, []⟩, ⟨5, []⟩, ⟨5, []⟩] :=
  ⟨_, _, _, _, rfl, rfl, rfl, rfl, rfl, rfl, rfl, rfl, rfl⟩

/-- C33 (amended): the walk keeps no set of visited nodes.  A successor is left
off the queue exactly when its subshape is in host memory space in the module,
and the loop of the walk colors no shape (the saved buffers are colored after
it), so the shapes that the test reads are the shapes from before the walk: the
test skips nodes that were colored before the walk began, and a node that is
reached along several paths is put on the queue once for each of them. -/
theorem c33_successor_skipped_iff_colored (u : Collaborators) (probe_fuel fuel : Nat)
    (starting_instruction : Nat) (w w' : WalkState)
    (h : WalkDownHostMemoryOffloadPaths.loop u probe_fuel starting_instruction fuel w = .ok w') :
    (∀ x, (w'.offloader.module.instruction? x).map (fun i => i.shape)
      = (w.offloader.module.instruction? x).map (fun i => i.shape)) ∧
    ∀ (m : HloModule) (successors queue q : List InstructionAndShapeIndex),
      WalkDownHostMemoryOffloadPaths.push_successors m queue successors = .ok q →
      q = queue ++ successors.filter (fun successor =>
        match m.get successor.instruction with
        | .ok s =>
          match s.shape.GetSubshape successor.shape_index with
          | .ok successor_shape => ! successor_shape.has_memory_space kHostMemorySpace
          | .error _ => false
        | .error _ => false) := by
  refine ⟨?_, fun m successors queue q hq => push_successors_eq_filter m successors queue q hq⟩
  intro x
  obtain ⟨tagged, htagged⟩ := loop_module u probe_fuel starting_instruction fuel w w' h
  have hkey := instruction?_tagged tagged w.offloader.module x
  rw [← htagged] at hkey
  have hmap := congrArg (Option.map (fun i : HloInstruction => i.shape)) hkey
  simp only [Option.map_map] at hmap
  exact hmap

/-- Witness for C33 (amended): the loop of the walk from the bitcast `2` of
`exampleDiamondModule` leaves every shape as it was. -/
theorem c33_successor_skipped_iff_colored_witness :
    ∃ w', WalkDownHostMemoryOffloadPaths.loop exampleCollaborators 10 2 10
        (exampleWalkState (exampleOffloader exampleDiamondModule) ⟨2, []⟩) = .ok w' ∧
      ∀ x, (w'.offloader.module.instruction? x).map (fun i => i.shape)
        = (exampleDiamondModule.instruction? x).map (fun i => i.shape) :=
  ⟨_, rfl,
    (c33_successor_skipped_iff_colored exampleCollaborators 10 10 2
      (exampleWalkState (exampleOffloader exampleDiamondModule) ⟨2, []⟩) _ rfl).1⟩

/-! ## What the loop of `WalkDownHostMemoryOffloadPaths` changes in the module -/

/-- C34, as stated, fails: in `p0 -> add -> bitcast` (the bitcast is the root
and the entry result layout is in device memory space) the walk from the `add`
returns the invalid-argument error of the entry output; the iteration for the
`add` has by then tagged the instruction for host compute, and the error is
raised by the next iteration, which works on the tagged module. -/
theorem c34_tagged_before_error_counterexample :
    (∃ message, WalkDownHostMemoryOffloadPaths exampleCollaborators 10
        (exampleOffloader (exampleComputeBeforeRootModule kDefaultMemorySpace)) ⟨2, []⟩ false
      = .error (.InvalidArgument message)) ∧
    ∃ add w1 tagged_add,
      (exampleComputeBeforeRootModule kDefaultMemorySpace).get 2 = .ok add ∧
      add.host_compute = false ∧
      WalkDownHostMemoryOffloadPaths.visit exampleCollaborators 10 2
        { exampleWalkState (exampleOffloader (exampleComputeBeforeRootModule
            kDefaultMemorySpace)) ⟨2, []⟩ with queue := [] } ⟨2, []⟩ = .ok w1 ∧
      w1.queue = [⟨3, []⟩] ∧
      w1.offloader.module.get 2 = .ok tagged_add ∧
      tagged_add.host_compute = true ∧
      ∃ message, WalkDownHostMemoryOffloadPaths.visit exampleCollaborators 10 2
        { w1 with queue := [] } ⟨3, []⟩ = .error (.InvalidArgument message) :=
  ⟨⟨_, rfl⟩, _, _, _, rfl, rfl, rfl, rfl, rfl, rfl, _, rfl⟩

/-- C34 (amended): the loop of `WalkDownHostMemoryOffloadPaths` is not read-only
on the module, but all that it changes there is the host-compute tag: an
iteration leaves the module as it is or tags the visited instruction, and the
module after the loop is the module before it with the tag set on some
instructions, so that the computations, the entry computation and its layout
and the instructions (their presence, shapes, operands and everything but the
tag) are as before.  Saved buffers are colored, copies inserted and custom calls
removed only after the loop. -/
theorem c34_walk_loop_only_tags (u : Collaborators) (probe_fuel fuel : Nat)
    (starting_instruction : Nat) (w w' : WalkState)
    (h : WalkDownHostMemoryOffloadPaths.loop u probe_fuel starting_instruction fuel w = .ok w') :
    (∃ tagged : List Nat,
      w'.offloader.module
        = tagged.foldl SetHostComputeFrontendAttribute w.offloader.module) ∧
      w'.offloader.module.computations = w.offloader.module.computations ∧
      w'.offloader.module.entry_computation = w.offloader.module.entry_computation ∧
      w'.offloader.module.entry_computation_layout
        = w.offloader.module.entry_computation_layout ∧
      w'.offloader.module.next_instruction_id = w.offloader.module.next_instruction_id ∧
      w'.offloader.module.instructions.map (fun i => { i with host_compute := false })
        = w.offloader.module.instructions.map (fun i => { i with host_compute := false }) ∧
      (∀ x, (w'.offloader.module.instruction? x).map (fun i => { i with host_compute := false })
        = (w.offloader.module.instruction? x).map (fun i => { i with host_compute := false })) ∧
      ∀ (w0 w1 : WalkState) (node : InstructionAndShapeIndex),
        WalkDownHostMemoryOffloadPaths.visit u probe_fuel starting_instruction w0 node
          = .ok w1 →
        w1.offloader.module = w0.offloader.module ∨
          w1.offloader.module
            = SetHostComputeFrontendAttribute w0.offloader.module node.instruction := by
  obtain ⟨tagged, htagged⟩ := loop_module u probe_fuel starting_instruction fuel w w' h
  obtain ⟨h1, h2, h3, h4, h5⟩ := tagged_module tagged w.offloader.module
  rw [← htagged] at h1 h2 h3 h4 h5
  refine ⟨⟨tagged, htagged⟩, h1, h2, h3, h4, h5, ?_, ?_⟩
  · intro x
    rw [htagged]
    exact instruction?_tagged tagged w.offloader.module x
  · intro w0 w1 node hvisit
    exact visit_module u probe_fuel starting_instruction w0 w1 node hvisit

/-- Witness for C34 (amended): the loop of the walk from the `add` in
`p0 -> add -> bitcast` with the entry result layout in host memory space. -/
theorem c34_walk_loop_only_tags_witness :
    ∃ w', WalkDownHostMemoryOffloadPaths.loop exampleCollaborators 10 2 10
        (exampleWalkState (exampleOffloader (exampleComputeBeforeRootModule kHostMemorySpace))
          ⟨2, []⟩) = .ok w' ∧
      w'.offloader.module.instructions.map (fun i => { i with host_compute := false })
        = (exampleComputeBeforeRootModule kHostMemorySpace).instructions.map
            (fun i => { i with host_compute := false }) :=
  ⟨_, rfl,
    (c34_walk_loop_only_tags exampleCollaborators 10 10 2
      (exampleWalkState (exampleOffloader (exampleComputeBeforeRootModule kHostMemorySpace))
        ⟨2, []⟩) _ rfl).2.2.2.2.2.1⟩

/-! ## The copy before the start node of a walk -/

/-- C35, as stated, fails: in the walk from the bitcast `3` of
`exampleOffloadToRootModule`, with a copy asked for before the start node, the
bitcast has exactly one predecessor, the custom call `2`; the one copy of the
custom call that is placed before the bitcast has its shape in host memory
space, not in the default memory space of the device. -/
theorem c35_leading_copy_counterexample :
    exampleCollaborators.GetPredecessors (exampleOffloadToRootModule kHostMemorySpace) ⟨3, []⟩
      = [⟨2, []⟩] ∧
    ∃ changed o,
      WalkDownHostMemoryOffloadPaths exampleCollaborators 10
        (exampleOffloader (exampleOffloadToRootModule kHostMemorySpace)) ⟨3, []⟩ true
        = .ok (changed, o) ∧
      o.module.instruction? 10
        = some { id := 10, name := "copy", opcode := HloOpcode.kCopy,
                 shape := exampleShape kHostMemorySpace, operands := [2], parent := 0 } ∧
      (exampleShape kHostMemorySpace).has_memory_space kDefaultMemorySpace = false ∧
      (o.module.instruction? 3).map (fun i => i.operands) = some [10] ∧
      (o.module.instructions.filter (fun i => decide (i.opcode = HloOpcode.kCopy))).length = 1 :=
  ⟨rfl, _, _, rfl, rfl, rfl, rfl, rfl⟩

/-- The module after `InsertCopyBetween` created a copy of `before` and made it
operand `n` of `x`: one more instruction, the copy, in host memory space. -/
theorem InsertCopyBetween_new_copy (m m1 m2 : HloModule) (before x n : Nat)
    (d a : HloInstruction)
    (hfresh : m.instruction? m.next_instruction_id = none)
    (ha : m.get x = .ok a)
    (hcolor : SetSubshapeMemorySpace
        (m.AddInstruction d.parent (CreateUnary d.shape HloOpcode.kCopy before)).1
        ⟨(m.AddInstruction d.parent (CreateUnary d.shape HloOpcode.kCopy before)).2, []⟩
        kHostMemorySpace = .ok m1)
    (hreplace : m1.ReplaceOperandWith x n
        (m.AddInstruction d.parent (CreateUnary d.shape HloOpcode.kCopy before)).2 = .ok m2) :
    m2.instructions.length = m.instructions.length + 1 ∧
    (∃ copy, m2.get m.next_instruction_id = .ok copy ∧
      copy.opcode = HloOpcode.kCopy ∧ copy.operands = [before] ∧
      copy.parent = d.parent ∧
      SetMemorySpace d.shape kHostMemorySpace = .ok copy.shape ∧
      copy.shape.has_memory_space kHostMemorySpace = true ∧
      copy.shape.has_memory_space kDefaultMemorySpace = false) ∧
    m2.get x = .ok { a with operands := a.operands.set n m.next_instruction_id } ∧
    (∀ y j, y ≠ x → m.get y = .ok j → m2.get y = .ok j) := by
  have hne : a.id ≠ m.next_instruction_id := by
    intro heq
    rw [get_id _ _ _ ha] at heq
    rw [heq, get_eq_ok_iff, hfresh] at ha
    cases ha
  have hne1 : x ≠ m.next_instruction_id := by
    rw [← get_id _ _ _ ha]
    exact hne
  have hadded : (m.AddInstruction d.parent (CreateUnary d.shape HloOpcode.kCopy before)).1.get
        (m.AddInstruction d.parent (CreateUnary d.shape HloOpcode.kCopy before)).2
      = .ok { CreateUnary d.shape HloOpcode.kCopy before with
              id := m.next_instruction_id, parent := d.parent } :=
    get_AddInstruction_new m d.parent (CreateUnary d.shape HloOpcode.kCopy before) hfresh
  have hstart1 := get_AddInstruction_of_get m d.parent x
    (CreateUnary d.shape HloOpcode.kCopy before) a ha
  unfold SetSubshapeMemorySpace at hcolor
  simp only [hadded, Shape.UpdateSubshape] at hcolor
  cases hset : SetMemorySpace (CreateUnary d.shape HloOpcode.kCopy before).shape
      kHostMemorySpace with
  | error e =>
    simp only [hset] at hcolor
    cases hcolor
  | ok shape =>
    simp only [hset] at hcolor
    have hm1 := (Except.ok.inj hcolor).symm
    have hstart2 : m1.get x = .ok a := by
      have hupdate := get_update
        (m.AddInstruction d.parent (CreateUnary d.shape HloOpcode.kCopy before)).1
        (m.AddInstruction d.parent (CreateUnary d.shape HloOpcode.kCopy before)).2
        x (fun i => { i with shape := shape }) (fun _ => rfl) a hstart1
      rw [if_neg (show ¬ a.id
        = (m.AddInstruction d.parent (CreateUnary d.shape HloOpcode.kCopy before)).2
        from hne)] at hupdate
      rw [hm1]
      exact hupdate
    have hcopy : m1.get m.next_instruction_id
        = .ok { id := m.next_instruction_id, name := "copy", opcode := HloOpcode.kCopy,
                shape := shape, operands := [before], parent := d.parent } := by
      have hupdate := get_update
        (m.AddInstruction d.parent (CreateUnary d.shape HloOpcode.kCopy before)).1
        (m.AddInstruction d.parent (CreateUnary d.shape HloOpcode.kCopy before)).2
        (m.AddInstruction d.parent (CreateUnary d.shape HloOpcode.kCopy before)).2
        (fun i => { i with shape := shape }) (fun _ => rfl) _ hadded
      rw [if_pos (show m.next_instruction_id
        = (m.AddInstruction d.parent (CreateUnary d.shape HloOpcode.kCopy before)).2
        from rfl)] at hupdate
      rw [hm1]
      exact hupdate
    have hother : ∀ y j, y ≠ m.next_instruction_id → m.get y = .ok j → m1.get y = .ok j := by
      intro y j hy hj
      have hupdate := get_update
        (m.AddInstruction d.parent (CreateUnary d.shape HloOpcode.kCopy before)).1
        (m.AddInstruction d.parent (CreateUnary d.shape HloOpcode.kCopy before)).2
        y (fun i => { i with shape := shape }) (fun _ => rfl) j
        (get_AddInstruction_of_get m d.parent y _ j hj)
      rw [if_neg (show ¬ j.id
        = (m.AddInstruction d.parent (CreateUnary d.shape HloOpcode.kCopy before)).2
        from by rw [get_id _ _ _ hj]; exact hy)] at hupdate
      rw [hm1]
      exact hupdate
    have hlength : m1.instructions.length = m.instructions.length + 1 := by
      rw [hm1]
      simp only [HloModule.update, HloModule.AddInstruction, List.length_map,
        List.length_append, List.length_singleton]
    unfold HloModule.ReplaceOperandWith at hreplace
    simp only [hstart2] at hreplace
    split at hreplace
    · have hm2 := (Except.ok.inj hreplace).symm
      simp only [CreateUnary] at hset
      have hshape : shape.has_memory_space kHostMemorySpace = true ∧
          shape.has_memory_space kDefaultMemorySpace = false := by
        unfold SetMemorySpace at hset
        split at hset
        · cases hset
          exact ⟨by simp only [Shape.has_memory_space, decide_True], by
            simp only [Shape.has_memory_space]; decide⟩
        · cases hset
      refine ⟨?_, ⟨{ id := m.next_instruction_id, name := "copy", opcode := HloOpcode.kCopy,
                     shape := shape, operands := [before], parent := d.parent },
        ?_, rfl, rfl, rfl, hset, hshape.1, hshape.2⟩, ?_, ?_⟩
      · rw [hm2]
        simp only [HloModule.update, List.length_map]
        exact hlength
      · rw [hm2]
        have hupdate := get_update m1 x m.next_instruction_id
          (fun i => { i with operands := i.operands.set n m.next_instruction_id }) (fun _ => rfl) _ hcopy
        rw [if_neg (fun heq => hne1 heq.symm)] at hupdate
        exact hupdate
      · rw [hm2]
        have hupdate := get_update m1 x x
          (fun i => { i with operands := i.operands.set n m.next_instruction_id }) (fun _ => rfl) _ hstart2
        rw [if_pos (get_id _ _ _ ha)] at hupdate
        exact hupdate
      · intro y j hy hj
        have hy1 : y ≠ m.next_instruction_id := by
          intro heq
          rw [heq, get_eq_ok_iff, hfresh] at hj
          cases hj
        rw [hm2]
        have hupdate := get_update m1 x y
          (fun i => { i with operands := i.operands.set n m.next_instruction_id }) (fun _ => rfl) _ (hother y j hy1 hj)
        rw [if_neg (by rw [get_id _ _ _ hj]; exact hy)] at hupdate
        exact hupdate
    · cases hreplace

/-- C35 (amended): the copy that `InsertCopyBetween` places before the start
node is a copy to host.  For a start node that is not a parameter and has no
copy before it yet, and a predecessor of which no copy was created yet, when
`InsertCopyBetween` succeeds it reports a change, the module has exactly one
more instruction, the copy of the predecessor, whose shape is the shape of the
predecessor set to host memory space, the operand of the start node at the
operand index is the copy, every other instruction is as it was, and the copy
and the start node are recorded. -/
theorem c35_leading_copy_is_copy_to_host (o : HostOffloader)
    (predecessor start : InstructionAndShapeIndex) (d a : HloInstruction)
    (r : Bool × HostOffloader)
    (hfresh : o.module.instruction? o.module.next_instruction_id = none)
    (hd : o.module.get predecessor.instruction = .ok d)
    (ha : o.module.get start.instruction = .ok a)
    (hparameter : a.opcode ≠ HloOpcode.kParameter)
    (hnew : start ∉ o.already_inserted_copy_before_)
    (hnone : o.copies_created_after_.find? (fun p => decide (p.1 = predecessor.instruction))
      = none)
    (h : InsertCopyBetween o predecessor start = .ok r) :
    r.1 = true ∧
    r.2.module.instructions.length = o.module.instructions.length + 1 ∧
    (∃ copy, r.2.module.get o.module.next_instruction_id = .ok copy ∧
      copy.opcode = HloOpcode.kCopy ∧ copy.operands = [predecessor.instruction] ∧
      copy.parent = d.parent ∧
      SetMemorySpace d.shape kHostMemorySpace = .ok copy.shape ∧
      copy.shape.has_memory_space kHostMemorySpace = true ∧
      copy.shape.has_memory_space kDefaultMemorySpace = false) ∧
    r.2.module.get start.instruction
      = .ok { a with
              operands := a.operands.set (start.shape_index.headD 0)
                            o.module.next_instruction_id } ∧
    (∀ x j, x ≠ start.instruction → o.module.get x = .ok j → r.2.module.get x = .ok j) ∧
    r.2.copies_created_after_
      = o.copies_created_after_ ++ [(predecessor.instruction, o.module.next_instruction_id)] ∧
    r.2.already_inserted_copy_before_ = o.already_inserted_copy_before_ ++ [start] := by
  have hinsert : setInsert o.already_inserted_copy_before_ start
      = o.already_inserted_copy_before_ ++ [start] := by
    unfold setInsert
    rw [if_neg hnew]
  unfold InsertCopyBetween at h
  simp only [ha, if_neg hparameter, List.foldlM_cons, List.foldlM_nil] at h
  unfold InsertCopyBetween.insert_copy at h
  simp only [if_neg hnew, hnone, hd] at h
  cases hcolor : SetSubshapeMemorySpace
      (o.module.AddInstruction d.parent
        (CreateUnary d.shape HloOpcode.kCopy predecessor.instruction)).1
      ⟨(o.module.AddInstruction d.parent
        (CreateUnary d.shape HloOpcode.kCopy predecessor.instruction)).2, []⟩
      kHostMemorySpace with
  | error e =>
    simp only [hcolor] at h
    cases h
  | ok m1 =>
    simp only [hcolor] at h
    obtain ⟨start_instruction, start_index⟩ := start
    cases start_index with
    | nil =>
      simp only [] at h ha
      cases hreplace : m1.ReplaceOperandWith start_instruction 0
          (o.module.AddInstruction d.parent
            (CreateUnary d.shape HloOpcode.kCopy predecessor.instruction)).2 with
      | error e =>
        simp only [hreplace] at h
        cases h
      | ok m2 =>
        simp only [hreplace] at h
        cases h
        obtain ⟨h1, h2, h3, h4⟩ := InsertCopyBetween_new_copy o.module m1 m2
          predecessor.instruction start_instruction 0 d a hfresh ha hcolor hreplace
        exact ⟨rfl, h1, h2, h3, h4, rfl, hinsert⟩
    | cons front rest =>
      simp only [] at h ha
      cases hreplace : m1.ReplaceOperandWith start_instruction front
          (o.module.AddInstruction d.parent
            (CreateUnary d.shape HloOpcode.kCopy predecessor.instruction)).2 with
      | error e =>
        simp only [hreplace] at h
        cases h
      | ok m2 =>
        simp only [hreplace] at h
        cases h
        obtain ⟨h1, h2, h3, h4⟩ := InsertCopyBetween_new_copy o.module m1 m2
          predecessor.instruction start_instruction front d a hfresh ha hcolor hreplace
        exact ⟨rfl, h1, h2, h3, h4, rfl, hinsert⟩

/-- Witness for C35 (amended): the copy before the bitcast `3` of
`exampleOffloadToRootModule`, whose predecessor is the custom call `2`. -/
theorem c35_leading_copy_is_copy_to_host_witness :
    ∃ r, InsertCopyBetween (exampleOffloader (exampleOffloadToRootModule kHostMemorySpace))
        ⟨2, []⟩ ⟨3, []⟩ = .ok r ∧
      r.1 = true ∧ r.2.module.instructions.length = 4 :=
  ⟨_, rfl,
    (c35_leading_copy_is_copy_to_host
      (exampleOffloader (exampleOffloadToRootModule kHostMemorySpace)) ⟨2, []⟩ ⟨3, []⟩
      (exampleCustomCall 2 kMoveToHostCustomCallTarget 1)
      { id := 3, name := "bitcast", opcode := HloOpcode.kBitcast,
        shape := exampleShape kDefaultMemorySpace, operands := [2], parent := 0 }
      _ rfl rfl rfl (by decide) (by decide) rfl rfl).1,
    (c35_leading_copy_is_copy_to_host
      (exampleOffloader (exampleOffloadToRootModule kHostMemorySpace)) ⟨2, []⟩ ⟨3, []⟩
      (exampleCustomCall 2 kMoveToHostCustomCallTarget 1)
      { id := 3, name := "bitcast", opcode := HloOpcode.kBitcast,
        shape := exampleShape kDefaultMemorySpace, operands := [2], parent := 0 }
      _ rfl rfl rfl (by decide) (by decide) rfl rfl).2.1⟩

/-! ## Output indices of a host computation that are not kept on host -/

/-- The loop over the successors of a node in `HandleRedundantCopiesBackToHost`:
`host_only` is never set again once it is unset, a successor that is not valid
during pure memory offload or fails the extra check unsets it, the successors
that the loop pushes are appended to `host_instrs`, and `entry_compute_output`
is set only for a pushed successor that is the root of the entry
computation. -/
theorem visit_successors_flags (u : Collaborators) (m : HloModule)
    (entry_computation_shape : Shape) :
    ∀ (successors : List InstructionAndShapeIndex) (w w' : RedundantCopiesWalk),
      HandleRedundantCopiesBackToHost.visit_successors u m entry_computation_shape w successors
        = .ok w' →
      (w.host_only = false → w'.host_only = false) ∧
      (∀ s ∈ successors, ∀ i, m.get s.instruction = .ok i →
        (u.IsValidDuringPureMemoryOffload m i = false ∨
          ExtraCheckForValidUsageOnHostForHostOffloadedOutputs m entry_computation_shape s i
            = .ok false) →
        w'.host_only = false) ∧
      ∃ pushed, w'.host_instrs = w.host_instrs ++ pushed ∧
        (w'.entry_compute_output = true →
          w.entry_compute_output = true ∨
            ∃ s ∈ pushed, ∃ i, m.get s.instruction = .ok i ∧ m.IsRoot i = true ∧
              m.IsEntryComputation i.parent = true) := by
  intro successors
  induction successors with
  | nil =>
    intro w w' h
    unfold HandleRedundantCopiesBackToHost.visit_successors at h
    cases h
    exact ⟨fun hw => hw, fun s hs => absurd hs (List.not_mem_nil s),
      [], (List.append_nil _).symm, fun he => Or.inl he⟩
  | cons successor rest ih =>
    intro w w' h
    unfold HandleRedundantCopiesBackToHost.visit_successors at h
    cases hget : m.get successor.instruction with
    | error e =>
      simp only [hget] at h
      cases h
    | ok s0 =>
      simp only [hget] at h
      cases hvalid : u.IsValidDuringPureMemoryOffload m s0 with
      | false =>
        simp only [hvalid, Bool.false_eq_true, not_false_eq_true, if_true] at h
        cases h
        exact ⟨fun _ => rfl, fun _ _ _ _ _ => rfl, [], (List.append_nil _).symm,
          fun he => Or.inl he⟩
      | true =>
        simp only [hvalid, not_true_eq_false, if_false] at h
        cases hextra : ExtraCheckForValidUsageOnHostForHostOffloadedOutputs m
            entry_computation_shape successor s0 with
        | error e =>
          simp only [hextra] at h
          cases h
        | ok extra =>
          cases extra with
          | false =>
            simp only [hextra] at h
            cases h
            exact ⟨fun _ => rfl, fun _ _ _ _ _ => rfl, [], (List.append_nil _).symm,
              fun he => Or.inl he⟩
          | true =>
            simp only [hextra] at h
            obtain ⟨i1, i2, pushed, i3, i4⟩ := ih _ w' h
            refine ⟨fun hw => i1 hw, ?_, successor :: pushed, ?_, ?_⟩
            · intro s hs i hi hbad
              rcases List.mem_cons.1 hs with hs1 | hs1
              · rw [hs1, hget] at hi
                cases hi
                rcases hbad with hbad | hbad
                · rw [hvalid] at hbad
                  cases hbad
                · rw [hs1, hextra] at hbad
                  cases hbad
              · exact i2 s hs1 i hi hbad
            · rw [i3]
              simp only [List.append_assoc, List.singleton_append]
            · intro he
              rcases i4 he with he1 | ⟨s, hs, hroot⟩
              · simp only [Bool.or_eq_true, Bool.and_eq_true] at he1
                rcases he1 with he1 | he1
                · exact Or.inl he1
                · exact Or.inr ⟨successor, List.mem_cons_self _ _, s0, hget, he1.1, he1.2⟩
              · exact Or.inr ⟨s, List.mem_cons_of_mem _ hs, hroot⟩

/-- The loop of `HandleRedundantCopiesBackToHost` ends at once when `host_only`
is unset. -/
theorem redundant_copies_loop_stops (u : Collaborators) (m : HloModule)
    (entry_computation_shape : Shape) (fuel : Nat) (w : RedundantCopiesWalk)
    (h : w.host_only = false) :
    HandleRedundantCopiesBackToHost.loop u m entry_computation_shape fuel w = .ok w := by
  cases fuel with
  | zero =>
    unfold HandleRedundantCopiesBackToHost.loop
    split
    · rfl
    · simp only [h, Bool.false_eq_true, if_false]
  | succ fuel =>
    unfold HandleRedundantCopiesBackToHost.loop
    split
    · rfl
    · simp only [h, Bool.false_eq_true, not_false_eq_true, if_true]

/-- The loop of `HandleRedundantCopiesBackToHost` appends the successors that it
pushes to `host_instrs`, and sets `entry_compute_output` only for a pushed
successor that is the root of the entry computation. -/
theorem redundant_copies_loop_output (u : Collaborators) (m : HloModule)
    (entry_computation_shape : Shape) :
    ∀ (fuel : Nat) (w w' : RedundantCopiesWalk),
      HandleRedundantCopiesBackToHost.loop u m entry_computation_shape fuel w = .ok w' →
      ∃ pushed, w'.host_instrs = w.host_instrs ++ pushed ∧
        (w'.entry_compute_output = true →
          w.entry_compute_output = true ∨
            ∃ s ∈ pushed, ∃ i, m.get s.instruction = .ok i ∧ m.IsRoot i = true ∧
              m.IsEntryComputation i.parent = true) := by
  intro fuel
  induction fuel with
  | zero =>
    intro w w' h
    unfold HandleRedundantCopiesBackToHost.loop at h
    split at h
    · cases h
      exact ⟨[], (List.append_nil _).symm, fun he => Or.inl he⟩
    · split at h
      · cases h
      · cases h
        exact ⟨[], (List.append_nil _).symm, fun he => Or.inl he⟩
  | succ fuel ih =>
    intro w w' h
    unfold HandleRedundantCopiesBackToHost.loop at h
    split at h
    · cases h
      exact ⟨[], (List.append_nil _).symm, fun he => Or.inl he⟩
    · rename_i node queue _
      split at h
      · cases h
        exact ⟨[], (List.append_nil _).symm, fun he => Or.inl he⟩
      · split at h
        · cases h
        · rename_i i hget
          simp only at h
          split at h
          · cases h
          · rename_i successors hsuccessors
            split at h
            · cases h
            · rename_i w1 hvisit
              obtain ⟨_, _, pushed1, j1, j2⟩ := visit_successors_flags u m
                entry_computation_shape successors _ w1 hvisit
              obtain ⟨pushed2, k1, k2⟩ := ih w1 w' h
              refine ⟨pushed1 ++ pushed2, ?_, ?_⟩
              · rw [k1, j1]
                simp only [List.append_assoc]
              · intro he
                rcases k2 he with he1 | ⟨s, hs, hroot⟩
                · rcases j2 he1 with he2 | ⟨s, hs, hroot⟩
                  · exact Or.inl he2
                  · exact Or.inr ⟨s, List.mem_append_left _ hs, hroot⟩
                · exact Or.inr ⟨s, List.mem_append_right _ hs, hroot⟩

/-- One iteration of the loop of `HandleRedundantCopiesBackToHost` at a node
with an async-start user, or with a successor that is not valid during pure
memory offload or fails the extra check: the loop ends with `host_only`
unset. -/
theorem redundant_copies_loop_bails (u : Collaborators) (m : HloModule)
    (entry_computation_shape : Shape) (fuel : Nat) (w w' : RedundantCopiesWalk)
    (node : InstructionAndShapeIndex) (queue : List InstructionAndShapeIndex)
    (i : HloInstruction)
    (hqueue : w.queue = node :: queue)
    (hget : m.get node.instruction = .ok i)
    (h : HandleRedundantCopiesBackToHost.loop u m entry_computation_shape (fuel + 1) w
      = .ok w') :
    ((m.users i.id).any (fun user => decide (user.opcode = HloOpcode.kAsyncStart)) = true →
      w'.host_only = false) ∧
    ∀ successors, u.GetSuccessors m node = .ok successors →
      ∀ s ∈ successors, ∀ j, m.get s.instruction = .ok j →
        (u.IsValidDuringPureMemoryOffload m j = false ∨
          ExtraCheckForValidUsageOnHostForHostOffloadedOutputs m entry_computation_shape s j
            = .ok false) →
        w'.host_only = false := by
  unfold HandleRedundantCopiesBackToHost.loop at h
  rw [hqueue] at h
  simp only at h
  cases hhost : w.host_only with
  | false =>
    simp only [hhost, Bool.false_eq_true, not_false_eq_true, if_true] at h
    cases h
    exact ⟨fun _ => hhost, fun _ _ _ _ _ _ _ => hhost⟩
  | true =>
    simp only [hhost, not_true_eq_false, if_false, hget] at h
    cases hsuccessors : u.GetSuccessors m node with
    | error e =>
      simp only [hsuccessors] at h
      cases h
    | ok successors =>
      simp only [hsuccessors] at h
      split at h
      · cases h
      · rename_i w1 hvisit
        obtain ⟨j1, j2, _⟩ := visit_successors_flags u m entry_computation_shape successors
          _ w1 hvisit
        constructor
        · intro hasync
          have hw1 : w1.host_only = false := by
            apply j1
            simp only [hasync, not_true_eq_false, decide_False]
          rw [redundant_copies_loop_stops u m entry_computation_shape fuel w1 hw1] at h
          cases h
          exact hw1
        · intro successors' hs' s hs j hj hbad
          cases hs'
          have hw1 : w1.host_only = false := j2 s hs j hj hbad
          rw [redundant_copies_loop_stops u m entry_computation_shape fuel w1 hw1] at h
          cases h
          exact hw1

/-- The callback of `UpdateMemorySpaceForHostOffloadedOutputs` does nothing on
tree elements that are empty. -/
theorem visit_element_of_empty (root : Nat) :
    ∀ (host_instrs_tree : HostInstrsTree) (st : HloModule × List InstructionAndShapeIndex),
      (∀ e ∈ host_instrs_tree, e.2 = []) →
      host_instrs_tree.foldlM (UpdateMemorySpaceForHostOffloadedOutputs.visit_element root) st
        = .ok st := by
  intro host_instrs_tree
  induction host_instrs_tree with
  | nil =>
    intro st _
    rfl
  | cons e rest ih =>
    intro st hempty
    rw [List.foldlM_cons]
    have he : e.2 = [] := hempty e (List.mem_cons_self _ _)
    have hstep : UpdateMemorySpaceForHostOffloadedOutputs.visit_element root st e = .ok st := by
      unfold UpdateMemorySpaceForHostOffloadedOutputs.visit_element
      rw [he]
      rfl
    rw [hstep]
    exact ih st (fun e' he' => hempty e' (List.mem_cons_of_mem _ he'))

/-- C36: an output index of the host computation at which the walk of
`HandleRedundantCopiesBackToHost` ends with `host_only` unset or
`entry_compute_output` not set is left alone.  The callback for its leaf clears
the tree element of the index; the callbacks for the leaves at other indices
leave it as it is; on an empty element the callback of
`UpdateMemorySpaceForHostOffloadedOutputs` colors no shape (not of the call
start, the call done, the root of the called computation or a successor) and
saves no `MoveToHost` custom call to be replaced, and on a tree of empty
elements the module stays as it is.  The walk ends so: in every state of its
loop, an async-start user of the node, or a successor that is not valid during
pure memory offload or fails the extra check, unsets `host_only`, with which
the loop ends at once; and `entry_compute_output` is set only when a successor
that the loop pushes is the root of the entry computation. -/
theorem c36_bailed_output_index_is_left_alone (u : Collaborators) (fuel : Nat)
    (m : HloModule) (call_start call_done : Nat) (entry_computation_shape : Shape)
    (host_instrs_tree : HostInstrsTree) (leaf : ShapeIndex × Shape) (w : RedundantCopiesWalk)
    (hloop : HandleRedundantCopiesBackToHost.loop u m entry_computation_shape fuel
      { host_only := true, entry_compute_output := false,
        queue := [⟨call_done, leaf.1⟩],
        host_instrs :=
          (host_instrs_tree.filter (fun e => decide (e.1 = leaf.1))).flatMap (fun e => e.2)
            ++ [⟨call_start, 1 :: leaf.1⟩, ⟨call_done, leaf.1⟩] } = .ok w)
    (hbail : w.host_only = false ∨ w.entry_compute_output = false) :
    HandleRedundantCopiesBackToHost.visit_leaf u fuel m call_start call_done
        entry_computation_shape host_instrs_tree leaf
      = .ok (host_instrs_tree.map (fun e => if e.1 = leaf.1 then (e.1, []) else e)) ∧
    (∀ (other : ShapeIndex × Shape) (tree tree' : HostInstrsTree), other.1 ≠ leaf.1 →
      HandleRedundantCopiesBackToHost.visit_leaf u fuel m call_start call_done
        entry_computation_shape tree other = .ok tree' →
      tree'.filter (fun e => decide (e.1 = leaf.1))
        = tree.filter (fun e => decide (e.1 = leaf.1))) ∧
    (∀ (root : Nat) (st : HloModule × List InstructionAndShapeIndex),
      UpdateMemorySpaceForHostOffloadedOutputs.visit_element root st (leaf.1, []) = .ok st) ∧
    (∀ (root : Nat) (tree : HostInstrsTree) (st : HloModule × List InstructionAndShapeIndex),
      (∀ e ∈ tree, e.2 = []) →
      tree.foldlM (UpdateMemorySpaceForHostOffloadedOutputs.visit_element root) st = .ok st) ∧
    (∀ (bound : Nat) (w0 : RedundantCopiesWalk), w0.host_only = false →
      HandleRedundantCopiesBackToHost.loop u m entry_computation_shape bound w0 = .ok w0) ∧
    (∀ (bound : Nat) (w0 w1 : RedundantCopiesWalk) (node : InstructionAndShapeIndex)
        (queue : List InstructionAndShapeIndex) (i : HloInstruction),
      w0.queue = node :: queue → m.get node.instruction = .ok i →
      HandleRedundantCopiesBackToHost.loop u m entry_computation_shape (bound + 1) w0
        = .ok w1 →
      ((m.users i.id).any (fun user => decide (user.opcode = HloOpcode.kAsyncStart)) = true →
        w1.host_only = false) ∧
      ∀ successors, u.GetSuccessors m node = .ok successors →
        ∀ s ∈ successors, ∀ j, m.get s.instruction = .ok j →
          (u.IsValidDuringPureMemoryOffload m j = false ∨
            ExtraCheckForValidUsageOnHostForHostOffloadedOutputs m entry_computation_shape s j
              = .ok false) →
          w1.host_only = false) ∧
    ∃ pushed,
      w.host_instrs
        = (host_instrs_tree.filter (fun e => decide (e.1 = leaf.1))).flatMap (fun e => e.2)
            ++ [⟨call_start, 1 :: leaf.1⟩, ⟨call_done, leaf.1⟩] ++ pushed ∧
      ((∀ s ∈ pushed, ∀ i, m.get s.instruction = .ok i →
          ¬ (m.IsRoot i = true ∧ m.IsEntryComputation i.parent = true)) →
        w.entry_compute_output = false) := by
  refine ⟨?_, ?_, ?_, ?_, ?_, ?_, ?_⟩
  · unfold HandleRedundantCopiesBackToHost.visit_leaf
    simp only [hloop]
    have hclear : (¬ w.host_only = true ∨ ¬ w.entry_compute_output = true) := by
      rcases hbail with hb | hb
      · exact Or.inl (by rw [hb]; decide)
      · exact Or.inr (by rw [hb]; decide)
    rw [if_pos hclear]
  · intro other tree tree' hother h
    unfold HandleRedundantCopiesBackToHost.visit_leaf at h
    simp only at h
    split at h
    · cases h
    · cases h
      rw [List.filter_map]
      have hfilter : ∀ (l : HostInstrsTree) (f : ShapeIndex × List InstructionAndShapeIndex →
          ShapeIndex × List InstructionAndShapeIndex),
          (∀ e, (f e).1 = e.1) → (∀ e, e.1 = leaf.1 → f e = e) →
          (l.filter ((fun e => decide (e.1 = leaf.1)) ∘ f)).map f
            = l.filter (fun e => decide (e.1 = leaf.1)) := by
        intro l f hf1 hf2
        induction l with
        | nil => rfl
        | cons e rest ih =>
          by_cases he : e.1 = leaf.1
          · rw [List.filter_cons_of_pos (by simp only [Function.comp, hf1, he, decide_True]),
              List.filter_cons_of_pos (by simp only [he, decide_True]), List.map_cons, ih,
              hf2 e he]
          · rw [List.filter_cons_of_neg (by simp only [Function.comp, hf1, he, decide_False,
                Bool.false_eq_true, not_false_eq_true]),
              List.filter_cons_of_neg (by simp only [he, decide_False, Bool.false_eq_true,
                not_false_eq_true]), ih]
      apply hfilter
      · intro e
        split <;> rfl
      · intro e he
        rw [if_neg]
        rw [he]
        exact fun heq => hother heq.symm
  · intro root st
    rfl
  · intro root tree st hempty
    exact visit_element_of_empty root tree st hempty
  · intro bound w0 h0
    exact redundant_copies_loop_stops u m entry_computation_shape bound w0 h0
  · intro bound w0 w1 node queue i hqueue hget h
    exact redundant_copies_loop_bails u m entry_computation_shape bound w0 w1 node queue i
      hqueue hget h
  · obtain ⟨pushed, h1, h2⟩ := redundant_copies_loop_output u m entry_computation_shape fuel
      _ w hloop
    refine ⟨pushed, h1, ?_⟩
    intro hnone
    cases he : w.entry_compute_output with
    | false => rfl
    | true =>
      rcases h2 he with h3 | ⟨s, hs, i, hi, hroot, hentry⟩
      · cases h3
      · exact absurd ⟨hroot, hentry⟩ (hnone s hs i hi)

/-- Witness for C36: in `exampleHostComputeModule` with the entry result in
device memory, the walk from the async-done `3` ends with `host_only` unset, and
`HandleRedundantCopiesBackToHost` leaves the module as it is. -/
theorem c36_bailed_output_index_is_left_alone_witness :
    ∃ w, HandleRedundantCopiesBackToHost.loop exampleCollaborators
        (exampleHostComputeModule kDefaultMemorySpace)
        (exampleHostComputeModule kDefaultMemorySpace).entry_computation_layout.result_shape 10
        { host_only := true, entry_compute_output := false, queue := [⟨3, []⟩],
          host_instrs := [⟨2, [1]⟩, ⟨3, []⟩] } = .ok w ∧
      w.host_only = false ∧
      HandleRedundantCopiesBackToHost.visit_leaf exampleCollaborators 10
          (exampleHostComputeModule kDefaultMemorySpace) 2 3
          (exampleHostComputeModule kDefaultMemorySpace).entry_computation_layout.result_shape
          [([], [])] ([], exampleShape kDefaultMemorySpace)
        = .ok [([], [])] ∧
      HandleRedundantCopiesBackToHost exampleCollaborators 10
          (exampleHostComputeModule kDefaultMemorySpace) 2
        = .ok (false, exampleHostComputeModule kDefaultMemorySpace) :=
  ⟨_, rfl, rfl,
    (c36_bailed_output_index_is_left_alone exampleCollaborators 10
      (exampleHostComputeModule kDefaultMemorySpace) 2 3
      (exampleHostComputeModule kDefaultMemorySpace).entry_computation_layout.result_shape
      [([], [])] ([], exampleShape kDefaultMemorySpace) _ rfl (Or.inl rfl)).1,
    rfl⟩

/-! ## The bookkeeping of the dynamic-update-slices -/

/-- Inserting into a set without duplicates gives a set without duplicates. -/
theorem nodup_setInsert {α : Type} [DecidableEq α] (set : List α) (x : α) (h : set.Nodup) :
    (setInsert set x).Nodup := by
  unfold setInsert
  split_ifs with hx
  · exact h
  · rw [List.nodup_append]
    refine ⟨h, List.nodup_singleton x, ?_⟩
    intro a ha hb
    rw [List.mem_singleton] at hb
    rw [hb] at ha
    exact hx ha

/-- One iteration of the loop of the walk changes the two lists of
dynamic-update-slices only at a dynamic-update-slice: it is inserted into the
list of those seen, and, if it is the starting instruction, into the list of
those seen with annotation; the saved buffers and the module are as before
then. -/
theorem visit_dynamic_update_slices (u : Collaborators) (fuel : Nat)
    (starting_instruction : Nat) (w w' : WalkState) (node : InstructionAndShapeIndex)
    (h : WalkDownHostMemoryOffloadPaths.visit u fuel starting_instruction w node = .ok w') :
    ∃ instruction, w.offloader.module.get node.instruction = .ok instruction ∧
      w'.offloader.dynamic_update_slices_seen_
        = (if instruction.opcode = HloOpcode.kDynamicUpdateSlice then
            setInsert w.offloader.dynamic_update_slices_seen_ node.instruction
          else w.offloader.dynamic_update_slices_seen_) ∧
      w'.offloader.dynamic_update_slices_seen_with_annotation_
        = (if instruction.opcode = HloOpcode.kDynamicUpdateSlice ∧
              node.instruction = starting_instruction then
            setInsert w.offloader.dynamic_update_slices_seen_with_annotation_ node.instruction
          else w.offloader.dynamic_update_slices_seen_with_annotation_) ∧
      (instruction.opcode = HloOpcode.kDynamicUpdateSlice →
        w'.buffers_to_set_to_host_memory = w.buffers_to_set_to_host_memory ∧
          w'.offloader.module = w.offloader.module) := by
  unfold WalkDownHostMemoryOffloadPaths.visit at h
  cases hget : w.offloader.module.get node.instruction with
  | error e =>
    simp only [hget] at h
    cases h
  | ok instruction =>
    simp only [hget] at h
    have hid : instruction.id = node.instruction := get_id _ _ _ hget
    refine ⟨instruction, rfl, ?_⟩
    by_cases hopcode : instruction.opcode = HloOpcode.kDynamicUpdateSlice
    · rw [classify_dynamic_update_slice u fuel starting_instruction w node instruction hopcode]
        at h
      simp only at h
      obtain ⟨hoffloader, hbuffers, _⟩ := rest_of_body_ok u starting_instruction _ w' node
        instruction false false h
      rw [hoffloader, hbuffers]
      simp only [hopcode, if_true, true_and, Bool.false_eq_true, if_false, ne_eq,
        not_true_eq_false, and_false, hid, not_false_eq_true, implies_true]
    · obtain ⟨hnext, hrest⟩ := classify_not_dynamic_update_slice u fuel starting_instruction w
        node instruction hopcode
      simp only [hopcode, false_and, if_false]
      cases hclass : WalkDownHostMemoryOffloadPaths.classify u fuel starting_instruction w node
          instruction with
      | error e =>
        simp only [hclass] at h
        cases h
      | ok c =>
        cases c with
        | next_node w1 =>
          simp only [hclass] at h
          cases h
          obtain ⟨h1, h2⟩ := hnext _ hclass
          exact ⟨h1, h2, fun hc => hc.elim⟩
        | rest_of_body w1 already_saved_buffer need_to_wrap =>
          simp only [hclass] at h
          obtain ⟨h1, h2⟩ := hrest _ _ _ hclass
          obtain ⟨hoffloader, _⟩ := rest_of_body_ok u starting_instruction w1 w' node
            instruction already_saved_buffer need_to_wrap h
          rw [hoffloader]
          exact ⟨h1, h2, fun hc => hc.elim⟩

/-- One iteration of the loop of the walk keeps the opcode of every
instruction. -/
theorem visit_opcode (u : Collaborators) (fuel : Nat) (starting_instruction : Nat)
    (w w' : WalkState) (node : InstructionAndShapeIndex)
    (h : WalkDownHostMemoryOffloadPaths.visit u fuel starting_instruction w node = .ok w') :
    ∀ x, (w'.offloader.module.instruction? x).map (fun i => i.opcode)
      = (w.offloader.module.instruction? x).map (fun i => i.opcode) := by
  intro x
  rcases visit_module u fuel starting_instruction w w' node h with h1 | h1
  · rw [h1]
  · rw [h1]
    have hkey := instruction?_tagged [node.instruction] w.offloader.module x
    have hmap := congrArg (Option.map (fun i : HloInstruction => i.opcode)) hkey
    simp only [Option.map_map] at hmap
    exact hmap

/-- The loop of the walk keeps the two lists of dynamic-update-slices well
formed: no duplicate comes into the list of those seen, nothing leaves either
list, what is seen with annotation is seen, and what comes into the lists is a
dynamic-update-slice, which is the starting instruction if it comes into the
list of those seen with annotation. -/
theorem loop_dynamic_update_slices (u : Collaborators) (probe_fuel : Nat)
    (starting_instruction : Nat) :
    ∀ (fuel : Nat) (w w' : WalkState),
      WalkDownHostMemoryOffloadPaths.loop u probe_fuel starting_instruction fuel w = .ok w' →
      (w.offloader.dynamic_update_slices_seen_.Nodup →
        w'.offloader.dynamic_update_slices_seen_.Nodup) ∧
      (∀ x ∈ w.offloader.dynamic_update_slices_seen_,
        x ∈ w'.offloader.dynamic_update_slices_seen_) ∧
      (∀ x ∈ w.offloader.dynamic_update_slices_seen_with_annotation_,
        x ∈ w'.offloader.dynamic_update_slices_seen_with_annotation_) ∧
      ((∀ x ∈ w.offloader.dynamic_update_slices_seen_with_annotation_,
          x ∈ w.offloader.dynamic_update_slices_seen_) →
        ∀ x ∈ w'.offloader.dynamic_update_slices_seen_with_annotation_,
          x ∈ w'.offloader.dynamic_update_slices_seen_) ∧
      (∀ x ∈ w'.offloader.dynamic_update_slices_seen_with_annotation_,
        x ∈ w.offloader.dynamic_update_slices_seen_with_annotation_ ∨
          (x = starting_instruction ∧
            (w.offloader.module.instruction? x).map (fun i => i.opcode)
              = some HloOpcode.kDynamicUpdateSlice)) ∧
      (∀ x ∈ w'.offloader.dynamic_update_slices_seen_,
        x ∈ w.offloader.dynamic_update_slices_seen_ ∨
          (w.offloader.module.instruction? x).map (fun i => i.opcode)
            = some HloOpcode.kDynamicUpdateSlice) := by
  intro fuel
  induction fuel with
  | zero =>
    intro w w' h
    unfold WalkDownHostMemoryOffloadPaths.loop at h
    split at h
    · cases h
      exact ⟨fun hn => hn, fun x hx => hx, fun x hx => hx, fun hs => hs, fun x hx => Or.inl hx,
        fun x hx => Or.inl hx⟩
    · cases h
  | succ fuel ih =>
    intro w w' h
    unfold WalkDownHostMemoryOffloadPaths.loop at h
    split at h
    · cases h
      exact ⟨fun hn => hn, fun x hx => hx, fun x hx => hx, fun hs => hs, fun x hx => Or.inl hx,
        fun x hx => Or.inl hx⟩
    · rename_i node queue _
      cases hvisit : WalkDownHostMemoryOffloadPaths.visit u probe_fuel starting_instruction
          { w with queue := queue } node with
      | error e =>
        simp only [hvisit] at h
        cases h
      | ok w1 =>
        simp only [hvisit] at h
        obtain ⟨i1, i2, i3, i4, i5, i6⟩ := ih w1 w' h
        obtain ⟨instruction, hget, hseen, hannotated, _⟩ :=
          visit_dynamic_update_slices u probe_fuel starting_instruction _ w1 node hvisit
        have hopcodes := visit_opcode u probe_fuel starting_instruction _ w1 node hvisit
        simp only at hget hseen hannotated hopcodes
        have hfound : (w.offloader.module.instruction? node.instruction).map (fun i => i.opcode)
            = some instruction.opcode := by
          rw [(get_eq_ok_iff _ _ _).1 hget]
          rfl
        have s1 : w.offloader.dynamic_update_slices_seen_.Nodup →
            w1.offloader.dynamic_update_slices_seen_.Nodup := by
          intro hn
          rw [hseen]
          split
          · exact nodup_setInsert _ _ hn
          · exact hn
        have s2 : ∀ x ∈ w.offloader.dynamic_update_slices_seen_,
            x ∈ w1.offloader.dynamic_update_slices_seen_ := by
          intro x hx
          rw [hseen]
          split
          · exact (mem_setInsert _ _ _).2 (Or.inl hx)
          · exact hx
        have s3 : ∀ x ∈ w.offloader.dynamic_update_slices_seen_with_annotation_,
            x ∈ w1.offloader.dynamic_update_slices_seen_with_annotation_ := by
          intro x hx
          rw [hannotated]
          split
          · exact (mem_setInsert _ _ _).2 (Or.inl hx)
          · exact hx
        have s5 : ∀ x ∈ w1.offloader.dynamic_update_slices_seen_with_annotation_,
            x ∈ w.offloader.dynamic_update_slices_seen_with_annotation_ ∨
              (x = starting_instruction ∧
                (w.offloader.module.instruction? x).map (fun i => i.opcode)
                  = some HloOpcode.kDynamicUpdateSlice) := by
          intro x hx
          rw [hannotated] at hx
          split at hx
          · rename_i hc
            rcases (mem_setInsert _ _ _).1 hx with hx1 | hx1
            · exact Or.inl hx1
            · right
              rw [hx1, hfound, hc.1]
              exact ⟨hc.2, rfl⟩
          · exact Or.inl hx
        have s6 : ∀ x ∈ w1.offloader.dynamic_update_slices_seen_,
            x ∈ w.offloader.dynamic_update_slices_seen_ ∨
              (w.offloader.module.instruction? x).map (fun i => i.opcode)
                = some HloOpcode.kDynamicUpdateSlice := by
          intro x hx
          rw [hseen] at hx
          split at hx
          · rename_i hc
            rcases (mem_setInsert _ _ _).1 hx with hx1 | hx1
            · exact Or.inl hx1
            · right
              rw [hx1, hfound, hc]
          · exact Or.inl hx
        have s4 : (∀ x ∈ w.offloader.dynamic_update_slices_seen_with_annotation_,
              x ∈ w.offloader.dynamic_update_slices_seen_) →
            ∀ x ∈ w1.offloader.dynamic_update_slices_seen_with_annotation_,
              x ∈ w1.offloader.dynamic_update_slices_seen_ := by
          intro hs x hx
          rw [hannotated] at hx
          split at hx
          · rename_i hc
            rw [hseen, if_pos hc.1]
            rcases (mem_setInsert _ _ _).1 hx with hx1 | hx1
            · exact (mem_setInsert _ _ _).2 (Or.inl (hs x hx1))
            · exact (mem_setInsert _ _ _).2 (Or.inr hx1)
          · exact s2 x (hs x hx)
        refine ⟨fun hn => i1 (s1 hn), fun x hx => i2 x (s2 x hx), fun x hx => i3 x (s3 x hx),
          fun hs => i4 (s4 hs), ?_, ?_⟩
        · intro x hx
          rcases i5 x hx with hx1 | ⟨hx1, hx2⟩
          · exact s5 x hx1
          · right
            rw [hopcodes] at hx2
            exact ⟨hx1, hx2⟩
        · intro x hx
          rcases i6 x hx with hx1 | hx1
          · exact s6 x hx1
          · right
            rw [hopcodes] at hx1
            exact hx1

/-- A walk that starts at a dynamic-update-slice records it as seen with
annotation. -/
theorem loop_records_start (u : Collaborators) (probe_fuel : Nat)
    (starting_instruction_and_index : InstructionAndShapeIndex) (fuel : Nat) (w w' : WalkState)
    (rest : List InstructionAndShapeIndex) (d : HloInstruction)
    (hqueue : w.queue = starting_instruction_and_index :: rest)
    (hget : w.offloader.module.get starting_instruction_and_index.instruction = .ok d)
    (hopcode : d.opcode = HloOpcode.kDynamicUpdateSlice)
    (h : WalkDownHostMemoryOffloadPaths.loop u probe_fuel
      starting_instruction_and_index.instruction fuel w = .ok w') :
    starting_instruction_and_index.instruction
      ∈ w'.offloader.dynamic_update_slices_seen_with_annotation_ := by
  cases fuel with
  | zero =>
    unfold WalkDownHostMemoryOffloadPaths.loop at h
    rw [hqueue] at h
    cases h
  | succ fuel =>
    unfold WalkDownHostMemoryOffloadPaths.loop at h
    rw [hqueue] at h
    simp only at h
    cases hvisit : WalkDownHostMemoryOffloadPaths.visit u probe_fuel
        starting_instruction_and_index.instruction { w with queue := rest }
        starting_instruction_and_index with
    | error e =>
      simp only [hvisit] at h
      cases h
    | ok w1 =>
      simp only [hvisit] at h
      obtain ⟨_, _, i3, _⟩ := loop_dynamic_update_slices u probe_fuel
        starting_instruction_and_index.instruction fuel w1 w' h
      obtain ⟨instruction, hget1, _, hannotated, _⟩ :=
        visit_dynamic_update_slices u probe_fuel starting_instruction_and_index.instruction
          _ w1 starting_instruction_and_index hvisit
      have hget2 : w.offloader.module.get starting_instruction_and_index.instruction
          = .ok instruction := hget1
      rw [hget] at hget2
      cases hget2
      apply i3
      rw [hannotated, if_pos ⟨hopcode, rfl⟩]
      exact (mem_setInsert _ _ _).2 (Or.inr rfl)

/-- `InsertCopyBetween` leaves the two lists of dynamic-update-slices as they
are. -/
theorem InsertCopyBetween_keeps_lists (o o' : HostOffloader)
    (before after : InstructionAndShapeIndex) (changed : Bool)
    (h : InsertCopyBetween o before after = .ok (changed, o')) :
    o'.dynamic_update_slices_seen_ = o.dynamic_update_slices_seen_ ∧
      o'.dynamic_update_slices_seen_with_annotation_
        = o.dynamic_update_slices_seen_with_annotation_ := by
  have hstep : ∀ (st : Bool × HostOffloader) (node : InstructionAndShapeIndex)
      (st' : Bool × HostOffloader),
      InsertCopyBetween.insert_copy before st node = .ok st' →
      (st'.2.dynamic_update_slices_seen_, st'.2.dynamic_update_slices_seen_with_annotation_)
        = (st.2.dynamic_update_slices_seen_, st.2.dynamic_update_slices_seen_with_annotation_) := by
    intro st node st' hs
    unfold InsertCopyBetween.insert_copy at hs
    simp only at hs
    split at hs
    · cases hs
      rfl
    · split at hs
      · cases hs
      · rename_i o1 copy_to_host hcreated
        have hlists : (o1.dynamic_update_slices_seen_,
            o1.dynamic_update_slices_seen_with_annotation_)
            = (st.2.dynamic_update_slices_seen_,
                st.2.dynamic_update_slices_seen_with_annotation_) := by
          repeat' split at hcreated
          all_goals first
            | (cases hcreated; rfl)
            | cases hcreated
        split at hs
        · cases hs
        · cases hs
          exact hlists
  unfold InsertCopyBetween at h
  split at h
  · cases h
  · have hkeep := foldlM_preserves (InsertCopyBetween.insert_copy before)
      (fun st : Bool × HostOffloader =>
        (st.2.dynamic_update_slices_seen_, st.2.dynamic_update_slices_seen_with_annotation_))
      hstep _ _ _ h
    simp only [Prod.mk.injEq] at hkeep
    exact hkeep

/-- The changes that the walk makes after its loop leave the two lists of
dynamic-update-slices as they are. -/
theorem apply_changes_keeps_lists (u : Collaborators) (w : WalkState)
    (starting_instruction_and_index : InstructionAndShapeIndex) (insert_copy_before : Bool)
    (changed : Bool) (o' : HostOffloader)
    (h : WalkDownHostMemoryOffloadPaths.apply_changes u w starting_instruction_and_index
      insert_copy_before = .ok (changed, o')) :
    o'.dynamic_update_slices_seen_ = w.offloader.dynamic_update_slices_seen_ ∧
      o'.dynamic_update_slices_seen_with_annotation_
        = w.offloader.dynamic_update_slices_seen_with_annotation_ := by
  unfold WalkDownHostMemoryOffloadPaths.apply_changes at h
  split at h
  · cases h
  · rename_i set_buffers_changed m0 _
    simp only at h
    split at h
    · cases h
    · rename_i changed1 o1 hcopied
      have hlists : o1.dynamic_update_slices_seen_ = w.offloader.dynamic_update_slices_seen_ ∧
          o1.dynamic_update_slices_seen_with_annotation_
            = w.offloader.dynamic_update_slices_seen_with_annotation_ := by
        split at hcopied
        · split at hcopied
          · rename_i predecessor _
            split at hcopied
            · cases hcopied
            · rename_i inserted_copy o2 hinsert
              cases hcopied
              exact InsertCopyBetween_keeps_lists { w.offloader with module := m0 } _ _ _ _ hinsert
          · cases hcopied
        · cases hcopied
          exact ⟨rfl, rfl⟩
      repeat' split at h
      all_goals first
        | (cases h; exact hlists)
        | cases h

/-- The buffers that the chain of `if`s saves: index `{1}` of operand `0` of an
async-done, and async-start callers of the computation of a parameter. -/
theorem classify_new_buffers (u : Collaborators) (fuel : Nat) (starting_instruction : Nat)
    (w : WalkState) (node : InstructionAndShapeIndex) (instruction : HloInstruction)
    (w' : WalkState) (already_saved_buffer need_to_wrap : Bool)
    (h : WalkDownHostMemoryOffloadPaths.classify u fuel starting_instruction w node instruction
      = .ok (.rest_of_body w' already_saved_buffer need_to_wrap)) :
    ∀ b ∈ w'.buffers_to_set_to_host_memory,
      b ∈ w.buffers_to_set_to_host_memory ∨
      (∃ i ∈ w.offloader.module.instructions,
        i.id = b.instruction ∧ i.opcode = HloOpcode.kAsyncStart) ∨
      (instruction.opcode = HloOpcode.kAsyncDone ∧ instruction.operand 0 = .ok b.instruction) := by
  unfold WalkDownHostMemoryOffloadPaths.classify at h
  simp only at h
  split_ifs at h
  all_goals first
    | (cases h; exact fun b hb => Or.inl hb)
    | (cases h; done)
    | (split at h <;> first
        | (cases h; exact fun b hb => Or.inl hb)
        | (cases h; done)
        | skip)
    | skip
  · rename_i hdone _ async_start hoperand
    cases h
    intro b hb
    simp only [List.mem_append, List.mem_singleton] at hb
    rcases hb with hb | hb
    · exact Or.inl hb
    · right
      right
      rw [hb]
      exact ⟨hdone, hoperand⟩
  · cases h
    intro b hb
    simp only [List.mem_append] at hb
    rcases hb with hb | hb
    · exact Or.inl hb
    · right
      left
      obtain ⟨caller, hcaller, hb1⟩ := List.mem_map.1 hb
      rw [List.mem_filter] at hcaller
      obtain ⟨hmem, hstart⟩ := hcaller
      unfold HloModule.GetComputationCallers at hmem
      rw [List.mem_filter] at hmem
      refine ⟨caller, hmem.1, ?_, by simpa using hstart⟩
      rw [← hb1]

/-- An instruction of the module after one iteration of the loop of the walk is
an instruction of the module before it, up to the tag for host compute. -/
theorem visit_instructions (u : Collaborators) (fuel : Nat) (starting_instruction : Nat)
    (w w' : WalkState) (node : InstructionAndShapeIndex)
    (h : WalkDownHostMemoryOffloadPaths.visit u fuel starting_instruction w node = .ok w') :
    ∀ i' ∈ w'.offloader.module.instructions, ∃ i ∈ w.offloader.module.instructions,
      i.id = i'.id ∧ i.opcode = i'.opcode ∧ i.operands = i'.operands := by
  intro i' hi'
  rcases visit_module u fuel starting_instruction w w' node h with h1 | h1
  · rw [h1] at hi'
    exact ⟨i', hi', rfl, rfl, rfl⟩
  · rw [h1] at hi'
    unfold SetHostComputeFrontendAttribute HloModule.update at hi'
    obtain ⟨i, hi, heq⟩ := List.mem_map.1 hi'
    refine ⟨i, hi, ?_⟩
    rw [← heq]
    split <;> exact ⟨rfl, rfl, rfl⟩

/-- The buffers that one iteration of the loop of the walk saves: the node, if
its instruction is no dynamic-update-slice, an async-start caller of the
computation of a parameter, and operand `0` of an async-done. -/
theorem visit_new_buffers (u : Collaborators) (fuel : Nat) (starting_instruction : Nat)
    (w w' : WalkState) (node : InstructionAndShapeIndex)
    (h : WalkDownHostMemoryOffloadPaths.visit u fuel starting_instruction w node = .ok w') :
    ∀ b ∈ w'.buffers_to_set_to_host_memory,
      b ∈ w.buffers_to_set_to_host_memory ∨
      (∃ i ∈ w.offloader.module.instructions,
        i.id = b.instruction ∧ i.opcode ≠ HloOpcode.kDynamicUpdateSlice) ∨
      (∃ i ∈ w.offloader.module.instructions,
        i.opcode = HloOpcode.kAsyncDone ∧ i.operand 0 = .ok b.instruction) := by
  unfold WalkDownHostMemoryOffloadPaths.visit at h
  cases hget : w.offloader.module.get node.instruction with
  | error e =>
    simp only [hget] at h
    cases h
  | ok instruction =>
    simp only [hget] at h
    have hid : instruction.id = node.instruction := get_id _ _ _ hget
    have hmem := mem_of_get _ _ _ hget
    cases hclass : WalkDownHostMemoryOffloadPaths.classify u fuel starting_instruction w node
        instruction with
    | error e =>
      simp only [hclass] at h
      cases h
    | ok c =>
      cases c with
      | next_node w1 =>
        simp only [hclass] at h
        cases h
        rw [(classify_next_node u fuel starting_instruction w node instruction _ hclass).2.2.1]
        exact fun b hb => Or.inl hb
      | rest_of_body w1 already_saved_buffer need_to_wrap =>
        simp only [hclass] at h
        obtain ⟨_, hbuffers, _⟩ := rest_of_body_ok u starting_instruction w1 w' node instruction
          already_saved_buffer need_to_wrap h
        have hclassified : ∀ b ∈ w1.buffers_to_set_to_host_memory,
            b ∈ w.buffers_to_set_to_host_memory ∨
            (∃ i ∈ w.offloader.module.instructions,
              i.id = b.instruction ∧ i.opcode ≠ HloOpcode.kDynamicUpdateSlice) ∨
            (∃ i ∈ w.offloader.module.instructions,
              i.opcode = HloOpcode.kAsyncDone ∧ i.operand 0 = .ok b.instruction) := by
          intro b hb
          rcases classify_new_buffers u fuel starting_instruction w node instruction w1
            already_saved_buffer need_to_wrap hclass b hb with hb1 | ⟨i, hi, hi1, hi2⟩ | hb1
          · exact Or.inl hb1
          · exact Or.inr (Or.inl ⟨i, hi, hi1, by rw [hi2]; decide⟩)
          · exact Or.inr (Or.inr ⟨instruction, hmem, hb1⟩)
        intro b hb
        rw [hbuffers] at hb
        split at hb
        · rename_i hsave
          rcases List.mem_append.1 hb with hb1 | hb1
          · exact hclassified b hb1
          · rw [List.mem_singleton] at hb1
            rw [hb1]
            exact Or.inr (Or.inl ⟨instruction, hmem, hid, hsave.2⟩)
        · exact hclassified b hb

/-- The buffers that the loop of the walk saves: nodes whose instruction is no
dynamic-update-slice, and operand `0` of an async-done. -/
theorem loop_new_buffers (u : Collaborators) (probe_fuel : Nat) (starting_instruction : Nat) :
    ∀ (fuel : Nat) (w w' : WalkState),
      WalkDownHostMemoryOffloadPaths.loop u probe_fuel starting_instruction fuel w = .ok w' →
      ∀ b ∈ w'.buffers_to_set_to_host_memory,
        b ∈ w.buffers_to_set_to_host_memory ∨
        (∃ i ∈ w.offloader.module.instructions,
          i.id = b.instruction ∧ i.opcode ≠ HloOpcode.kDynamicUpdateSlice) ∨
        (∃ i ∈ w.offloader.module.instructions,
          i.opcode = HloOpcode.kAsyncDone ∧ i.operand 0 = .ok b.instruction) := by
  intro fuel
  induction fuel with
  | zero =>
    intro w w' h
    unfold WalkDownHostMemoryOffloadPaths.loop at h
    split at h
    · cases h
      exact fun b hb => Or.inl hb
    · cases h
  | succ fuel ih =>
    intro w w' h
    unfold WalkDownHostMemoryOffloadPaths.loop at h
    split at h
    · cases h
      exact fun b hb => Or.inl hb
    · rename_i node queue _
      cases hvisit : WalkDownHostMemoryOffloadPaths.visit u probe_fuel starting_instruction
          { w with queue := queue } node with
      | error e =>
        simp only [hvisit] at h
        cases h
      | ok w1 =>
        simp only [hvisit] at h
        have hinstructions := visit_instructions u probe_fuel starting_instruction _ w1 node
          hvisit
        intro b hb
        rcases ih w1 w' h b hb with hb1 | ⟨i', hi', h1, h2⟩ | ⟨i', hi', h1, h2⟩
        · exact visit_new_buffers u probe_fuel starting_instruction _ w1 node hvisit b hb1
        · obtain ⟨i, hi, e1, e2, _⟩ := hinstructions i' hi'
          exact Or.inr (Or.inl ⟨i, hi, by rw [e1]; exact h1, by rw [e2]; exact h2⟩)
        · obtain ⟨i, hi, _, e2, e3⟩ := hinstructions i' hi'
          refine Or.inr (Or.inr ⟨i, hi, by rw [e2]; exact h1, ?_⟩)
          unfold HloInstruction.operand at h2 ⊢
          rw [e3]
          exact h2

/-- `SetBuffersToMemorySpaceColor` leaves an instruction that is the instruction
of no buffer as it is. -/
theorem SetBuffersToMemorySpaceColor_other (color : Int) :
    ∀ (buffers : List InstructionAndShapeIndex) (m m0 : HloModule) (changed : Bool),
      SetBuffersToMemorySpaceColor m buffers color = .ok (changed, m0) →
      ∀ x, (∀ b ∈ buffers, b.instruction ≠ x) → m0.instruction? x = m.instruction? x := by
  intro buffers
  induction buffers with
  | nil =>
    intro m m0 changed h x _
    unfold SetBuffersToMemorySpaceColor at h
    cases h
    rfl
  | cons b rest ih =>
    intro m m0 changed h x hx
    unfold SetBuffersToMemorySpaceColor at h
    cases hb : SetSubshapeMemorySpace m b color with
    | error e =>
      simp only [hb] at h
      cases h
    | ok m1 =>
      simp only [hb] at h
      cases hrest : SetBuffersToMemorySpaceColor m1 rest color with
      | error e =>
        simp only [hrest] at h
        cases h
      | ok r =>
        simp only [hrest] at h
        cases h
        rw [ih m1 r.2 r.1 hrest x (fun b' hb' => hx b' (List.mem_cons_of_mem _ hb'))]
        unfold SetSubshapeMemorySpace at hb
        split at hb
        · cases hb
        · split at hb
          · cases hb
          · rename_i shape _
            cases hb
            rw [instruction?_update m b.instruction x (fun i => { i with shape := shape })
              (fun _ => rfl)]
            cases hfind : m.instruction? x with
            | none => rfl
            | some i =>
              have hid := get_id m x i ((get_eq_ok_iff m x i).2 hfind)
              simp only [Option.map_some', Option.some.injEq]
              rw [if_neg]
              rw [hid]
              exact fun heq => hx b (List.mem_cons_self _ _) heq.symm

/-- C37: every walk keeps the bookkeeping of the dynamic-update-slices well
formed.  When `WalkDownHostMemoryOffloadPaths` returns on a pass object whose
list of dynamic-update-slices seen has no duplicate and holds every one seen
with annotation, the same is true of the pass object that it returns; nothing
has left the two lists; what has come into them is a dynamic-update-slice, and
into the list of those seen with annotation only the starting instruction of the
walk, which is there if it is a dynamic-update-slice.  An iteration of the loop
of the walk at a dynamic-update-slice saves no buffer and leaves the module as
it is; the buffers that the loop saves are nodes whose instruction is no
dynamic-update-slice and operand `0` of an async-done, so
`SetBuffersToMemorySpaceColor` leaves the shape of a dynamic-update-slice that
is not the operand of an async-done as it was.  `HandleDynamicUpdateSlices` is
the loop of `HandleDynamicUpdateSlices.visit` over the list of those seen, in
which every one occurs once. -/
theorem c37_dynamic_update_slices_well_formed (u : Collaborators) (fuel : Nat)
    (o o' : HostOffloader) (starting_instruction_and_index : InstructionAndShapeIndex)
    (insert_copy_before changed : Bool)
    (hnodup : o.dynamic_update_slices_seen_.Nodup)
    (hsubset : ∀ x ∈ o.dynamic_update_slices_seen_with_annotation_,
      x ∈ o.dynamic_update_slices_seen_)
    (h : WalkDownHostMemoryOffloadPaths u fuel o starting_instruction_and_index
      insert_copy_before = .ok (changed, o')) :
    o'.dynamic_update_slices_seen_.Nodup ∧
    (∀ x ∈ o'.dynamic_update_slices_seen_with_annotation_,
      x ∈ o'.dynamic_update_slices_seen_) ∧
    (∀ x ∈ o.dynamic_update_slices_seen_, x ∈ o'.dynamic_update_slices_seen_) ∧
    (∀ x ∈ o.dynamic_update_slices_seen_with_annotation_,
      x ∈ o'.dynamic_update_slices_seen_with_annotation_) ∧
    (∀ x ∈ o'.dynamic_update_slices_seen_,
      x ∈ o.dynamic_update_slices_seen_ ∨
        (o.module.instruction? x).map (fun i => i.opcode)
          = some HloOpcode.kDynamicUpdateSlice) ∧
    (∀ x ∈ o'.dynamic_update_slices_seen_with_annotation_,
      x ∈ o.dynamic_update_slices_seen_with_annotation_ ∨
        (x = starting_instruction_and_index.instruction ∧
          (o.module.instruction? x).map (fun i => i.opcode)
            = some HloOpcode.kDynamicUpdateSlice)) ∧
    ((o.module.instruction? starting_instruction_and_index.instruction).map (fun i => i.opcode)
        = some HloOpcode.kDynamicUpdateSlice →
      starting_instruction_and_index.instruction
        ∈ o'.dynamic_update_slices_seen_with_annotation_) ∧
    (∀ (w w1 : WalkState) (node : InstructionAndShapeIndex) (d : HloInstruction),
      w.offloader.module.get node.instruction = .ok d →
      d.opcode = HloOpcode.kDynamicUpdateSlice →
      WalkDownHostMemoryOffloadPaths.visit u fuel starting_instruction_and_index.instruction
        w node = .ok w1 →
      w1.buffers_to_set_to_host_memory = w.buffers_to_set_to_host_memory ∧
        w1.offloader.module = w.offloader.module) ∧
    (∃ w set_buffers_changed m0,
      WalkDownHostMemoryOffloadPaths.loop u fuel starting_instruction_and_index.instruction
        fuel
        { offloader := o, queue := [starting_instruction_and_index],
          mth_custom_calls_to_remove := [], slices_to_dynamify := [],
          custom_calls_to_insert_copies_before := [], x64_split_instructions := [],
          buffers_to_set_to_host_memory := [] } = .ok w ∧
      SetBuffersToMemorySpaceColor w.offloader.module w.buffers_to_set_to_host_memory
        kHostMemorySpace = .ok (set_buffers_changed, m0) ∧
      (∀ b ∈ w.buffers_to_set_to_host_memory,
        (∃ i ∈ o.module.instructions,
          i.id = b.instruction ∧ i.opcode ≠ HloOpcode.kDynamicUpdateSlice) ∨
        (∃ i ∈ o.module.instructions,
          i.opcode = HloOpcode.kAsyncDone ∧ i.operand 0 = .ok b.instruction)) ∧
      ∀ x, (∀ i ∈ o.module.instructions, i.id = x → i.opcode = HloOpcode.kDynamicUpdateSlice) →
        (∀ i ∈ o.module.instructions, i.opcode = HloOpcode.kAsyncDone → i.operand 0 ≠ .ok x) →
        (m0.instruction? x).map (fun i => i.shape)
          = (o.module.instruction? x).map (fun i => i.shape)) ∧
    HandleDynamicUpdateSlices u fuel o'
      = o'.dynamic_update_slices_seen_.foldlM (HandleDynamicUpdateSlices.visit u fuel)
          (false, o') ∧
    ∀ x ∈ o'.dynamic_update_slices_seen_, o'.dynamic_update_slices_seen_.count x = 1 := by
  unfold WalkDownHostMemoryOffloadPaths at h
  cases hloop : WalkDownHostMemoryOffloadPaths.loop u fuel
      starting_instruction_and_index.instruction fuel
      { offloader := o, queue := [starting_instruction_and_index],
        mth_custom_calls_to_remove := [], slices_to_dynamify := [],
        custom_calls_to_insert_copies_before := [], x64_split_instructions := [],
        buffers_to_set_to_host_memory := [] } with
  | error e =>
    simp only [hloop] at h
    cases h
  | ok w =>
    simp only [hloop] at h
    obtain ⟨k1, k2⟩ := apply_changes_keeps_lists u w starting_instruction_and_index
      insert_copy_before changed o' h
    obtain ⟨i1, i2, i3, i4, i5, i6⟩ := loop_dynamic_update_slices u fuel
      starting_instruction_and_index.instruction fuel _ w hloop
    simp only at i1 i2 i3 i4 i5 i6
    have hnodup' : o'.dynamic_update_slices_seen_.Nodup := by
      rw [k1]
      exact i1 hnodup
    have hbuffers := loop_new_buffers u fuel starting_instruction_and_index.instruction fuel
      _ w hloop
    simp only [List.not_mem_nil, false_or] at hbuffers
    refine ⟨hnodup', ?_, ?_, ?_, ?_, ?_, ?_, ?_, ?_, rfl, ?_⟩
    · rw [k1, k2]
      exact i4 hsubset
    · rw [k1]
      exact i2
    · rw [k2]
      exact i3
    · rw [k1]
      exact i6
    · rw [k2]
      exact i5
    · intro hstart
      rw [k2]
      cases hfind : o.module.instruction? starting_instruction_and_index.instruction with
      | none =>
        rw [hfind] at hstart
        cases hstart
      | some d =>
        rw [hfind] at hstart
        simp only [Option.map_some', Option.some.injEq] at hstart
        exact loop_records_start u fuel starting_instruction_and_index fuel _ w [] d rfl
          ((get_eq_ok_iff _ _ _).2 hfind) hstart hloop
    · intro w0 w1 node d hget hopcode hvisit
      obtain ⟨instruction, hget1, _, _, hkeep⟩ := visit_dynamic_update_slices u fuel
        starting_instruction_and_index.instruction w0 w1 node hvisit
      rw [hget] at hget1
      cases hget1
      exact hkeep hopcode
    · unfold WalkDownHostMemoryOffloadPaths.apply_changes at h
      cases hset : SetBuffersToMemorySpaceColor w.offloader.module
          w.buffers_to_set_to_host_memory kHostMemorySpace with
      | error e =>
        simp only [hset] at h
        cases h
      | ok r =>
        refine ⟨w, r.1, r.2, rfl, hset, hbuffers, ?_⟩
        intro x hx hasync
        have hnone : ∀ b ∈ w.buffers_to_set_to_host_memory, b.instruction ≠ x := by
          intro b hb heq
          rcases hbuffers b hb with ⟨i, hi, h1, h2⟩ | ⟨i, hi, h1, h2⟩
          · exact h2 (hx i hi (by rw [h1, heq]))
          · rw [heq] at h2
            exact hasync i hi h1 h2
        rw [SetBuffersToMemorySpaceColor_other kHostMemorySpace _ _ r.2 r.1 hset x hnone]
        obtain ⟨tagged, htagged⟩ := loop_module u fuel
          starting_instruction_and_index.instruction fuel _ w hloop
        have hkey := instruction?_tagged tagged o.module x
        simp only at htagged
        rw [← htagged] at hkey
        have hmap := congrArg (Option.map (fun i : HloInstruction => i.shape)) hkey
        simp only [Option.map_map] at hmap
        exact hmap
    · intro x hx
      exact List.count_eq_one_of_mem hnodup' hx

/-- Witness for C37: the walk from the dynamic-update-slice `3` of
`exampleDusToDeviceModule`, on a pass object that has not run yet, records the
dynamic-update-slice in both lists. -/
theorem c37_dynamic_update_slices_well_formed_witness :
    ∃ o', WalkDownHostMemoryOffloadPaths exampleCollaborators 10
        (exampleOffloader exampleDusToDeviceModule) ⟨3, []⟩ false = .ok (true, o') ∧
      o'.dynamic_update_slices_seen_ = [3] ∧
      o'.dynamic_update_slices_seen_with_annotation_ = [3] ∧
      o'.dynamic_update_slices_seen_.Nodup :=
  ⟨_, rfl, rfl, rfl,
    (c37_dynamic_update_slices_well_formed exampleCollaborators 10
      (exampleOffloader exampleDusToDeviceModule) _ ⟨3, []⟩ false true
      List.nodup_nil (fun x hx => absurd hx (List.not_mem_nil x)) rfl).1⟩

/-! ## The loop of `Run` over the `MoveToHost` custom calls -/

theorem NoNewMoveToHost_refl (m : HloModule) : NoNewMoveToHost m m :=
  ⟨Nat.le_refl _, fun _ i hi hm => Or.inl ⟨i, hi, hm⟩⟩

theorem NoNewMoveToHost_trans (m1 m2 m3 : HloModule) (h12 : NoNewMoveToHost m1 m2)
    (h23 : NoNewMoveToHost m2 m3) : NoNewMoveToHost m1 m3 := by
  refine ⟨Nat.le_trans h23.1 h12.1, ?_⟩
  intro c i hi hm
  rcases h12.2 c i hi hm with ⟨i', hi', hm'⟩ | hlt
  · rcases h23.2 c i' hi' hm' with hkept | hlt
    · exact Or.inl hkept
    · exact Or.inr (Nat.lt_of_lt_of_le hlt h12.1)
  · exact Or.inr (Nat.lt_of_le_of_lt h23.1 hlt)

/-- An update that keeps the id and what makes a `MoveToHost` custom call brings
no such custom call into the module and takes none out of it. -/
theorem NoNewMoveToHost_update (m : HloModule) (id : Nat) (f : HloInstruction → HloInstruction)
    (hid : ∀ i, (f i).id = i.id)
    (hmarker : ∀ i, (f i).IsCustomCall kMoveToHostCustomCallTarget
      = i.IsCustomCall kMoveToHostCustomCallTarget) :
    NoNewMoveToHost m (m.update id f) := by
  have hcount : (m.update id f).move_to_host_count = m.move_to_host_count := by
    unfold HloModule.move_to_host_count HloModule.update
    simp only
    rw [List.filter_map, List.length_map]
    congr 1
    apply List.filter_congr
    intro i _
    simp only [Function.comp]
    split
    · exact hmarker i
    · rfl
  refine ⟨Nat.le_of_eq hcount, ?_⟩
  intro c i hi hm
  left
  rw [instruction?_update m id c f hid, hi]
  refine ⟨_, rfl, ?_⟩
  simp only []
  split
  · rw [hmarker]
    exact hm
  · exact hm

/-- Adding an instruction that is no `MoveToHost` custom call brings no such
custom call into the module. -/
theorem NoNewMoveToHost_AddInstruction (m : HloModule) (parent : Nat) (i0 : HloInstruction)
    (h0 : i0.IsCustomCall kMoveToHostCustomCallTarget = false) :
    NoNewMoveToHost m (m.AddInstruction parent i0).1 := by
  have hcount : (m.AddInstruction parent i0).1.move_to_host_count = m.move_to_host_count := by
    unfold HloModule.move_to_host_count HloModule.AddInstruction
    simp only
    rw [List.filter_append, List.length_append]
    have hnew : ({ i0 with id := m.next_instruction_id, parent := parent } :
        HloInstruction).IsCustomCall kMoveToHostCustomCallTarget = false := h0
    rw [List.filter_cons_of_neg (by rw [hnew]; decide)]
    rfl
  refine ⟨Nat.le_of_eq hcount, ?_⟩
  intro c i hi hm
  left
  rw [instruction?_AddInstruction, hi]
  exact ⟨i, rfl, hm⟩

/-- `ReplaceAllUsesWith` brings no `MoveToHost` custom call into the module and
takes none out of it. -/
theorem NoNewMoveToHost_ReplaceAllUsesWith (m m' : HloModule) (old new_producer : Nat)
    (h : m.ReplaceAllUsesWith old new_producer = .ok m') : NoNewMoveToHost m m' := by
  obtain ⟨m1, hm1, _, _, _, hinstructions, hfind⟩ := get_ReplaceAllUsesWith m old new_producer
  rw [h] at hm1
  cases hm1
  have hcount : m'.move_to_host_count = m.move_to_host_count := by
    unfold HloModule.move_to_host_count
    rw [hinstructions, List.filter_map, List.length_map]
    rfl
  refine ⟨Nat.le_of_eq hcount, ?_⟩
  intro c i hi hm
  left
  rw [hfind, hi]
  exact ⟨_, rfl, hm⟩

/-- `RemoveInstruction` brings no `MoveToHost` custom call into the module, and
the number of them goes down when it removes one. -/
theorem NoNewMoveToHost_RemoveInstruction (m m' : HloModule) (x : Nat)
    (h : m.RemoveInstruction x = .ok m') :
    NoNewMoveToHost m m' ∧
      ∀ i, m.instruction? x = some i → i.IsCustomCall kMoveToHostCustomCallTarget = true →
        m'.move_to_host_count < m.move_to_host_count := by
  obtain ⟨hinstructions, _, _, _, hfind⟩ := get_RemoveInstruction m m' x h
  have hfilter : (m'.instructions.filter
        (fun i => i.IsCustomCall kMoveToHostCustomCallTarget))
      = (m.instructions.filter (fun i => i.IsCustomCall kMoveToHostCustomCallTarget)).filter
          (fun j => decide (j.id ≠ x)) := by
    rw [hinstructions, List.filter_filter, List.filter_filter]
    apply List.filter_congr
    intro i _
    exact Bool.and_comm _ _
  have hle : m'.move_to_host_count ≤ m.move_to_host_count := by
    unfold HloModule.move_to_host_count
    rw [hfilter]
    exact List.length_filter_le _ _
  have hlt : ∀ i, m.instruction? x = some i →
      i.IsCustomCall kMoveToHostCustomCallTarget = true →
      m'.move_to_host_count < m.move_to_host_count := by
    intro i hi hm
    unfold HloModule.move_to_host_count
    rw [hfilter]
    have hmem : i ∈ m.instructions := List.mem_of_find?_eq_some hi
    have hid : i.id = x := get_id m x i ((get_eq_ok_iff m x i).2 hi)
    apply List.length_filter_lt_length_iff_exists.2
    exact ⟨i, List.mem_filter.2 ⟨hmem, hm⟩, by simp only [hid, ne_eq, not_true_eq_false,
      decide_False, Bool.false_eq_true, not_false_eq_true]⟩
  refine ⟨⟨hle, ?_⟩, hlt⟩
  intro c i hi hm
  by_cases hc : c = x
  · right
    rw [hc] at hi
    exact hlt i hi hm
  · left
    rw [hfind, if_neg hc]
    exact ⟨i, hi, hm⟩

theorem NoNewMoveToHost_ReplaceOperandWith (m m' : HloModule) (user n new_operand : Nat)
    (h : m.ReplaceOperandWith user n new_operand = .ok m') : NoNewMoveToHost m m' := by
  unfold HloModule.ReplaceOperandWith at h
  split at h
  · cases h
  · split at h
    · cases h
      exact NoNewMoveToHost_update m user
        (fun i => { i with operands := i.operands.set n new_operand })
        (fun _ => rfl) (fun _ => rfl)
    · cases h

theorem NoNewMoveToHost_SetSubshapeMemorySpace (m m' : HloModule)
    (node : InstructionAndShapeIndex) (color : Int)
    (h : SetSubshapeMemorySpace m node color = .ok m') : NoNewMoveToHost m m' := by
  unfold SetSubshapeMemorySpace at h
  split at h
  · cases h
  · split at h
    · cases h
    · rename_i shape _
      cases h
      exact NoNewMoveToHost_update m node.instruction (fun i => { i with shape := shape })
        (fun _ => rfl) (fun _ => rfl)

theorem NoNewMoveToHost_tagged (tagged : List Nat) :
    ∀ m : HloModule, NoNewMoveToHost m (tagged.foldl SetHostComputeFrontendAttribute m) := by
  induction tagged with
  | nil => exact fun m => NoNewMoveToHost_refl m
  | cons t tagged ih =>
    intro m
    rw [List.foldl_cons]
    exact NoNewMoveToHost_trans _ _ _
      (NoNewMoveToHost_update m t (fun i => { i with host_compute := true })
        (fun _ => rfl) (fun _ => rfl))
      (ih _)

theorem NoNewMoveToHost_SetBuffersToMemorySpaceColor (color : Int) :
    ∀ (buffers : List InstructionAndShapeIndex) (m : HloModule) (r : Bool × HloModule),
      SetBuffersToMemorySpaceColor m buffers color = .ok r → NoNewMoveToHost m r.2 := by
  intro buffers
  induction buffers with
  | nil =>
    intro m r h
    unfold SetBuffersToMemorySpaceColor at h
    cases h
    exact NoNewMoveToHost_refl m
  | cons b rest ih =>
    intro m r h
    unfold SetBuffersToMemorySpaceColor at h
    cases hb : SetSubshapeMemorySpace m b color with
    | error e =>
      simp only [hb] at h
      cases h
    | ok m1 =>
      simp only [hb] at h
      cases hrest : SetBuffersToMemorySpaceColor m1 rest color with
      | error e =>
        simp only [hrest] at h
        cases h
      | ok r1 =>
        simp only [hrest] at h
        cases h
        exact NoNewMoveToHost_trans _ _ _ (NoNewMoveToHost_SetSubshapeMemorySpace m m1 b color hb)
          (ih m1 r1 hrest)

/-- A copy is no `MoveToHost` custom call. -/
theorem CreateUnary_copy_not_move_to_host (shape : Shape) (operand : Nat) :
    (CreateUnary shape HloOpcode.kCopy operand).IsCustomCall kMoveToHostCustomCallTarget
      = false := by
  simp only [CreateUnary, HloInstruction.IsCustomCall, reduceCtorEq, decide_False,
    Bool.false_and]

/-- A loop in the `Except` monad whose body brings no `MoveToHost` custom call
into the module brings none into it. -/
theorem NoNewMoveToHost_foldlM {α σ : Type} (f : σ → α → Except Failure σ)
    (q : σ → HloModule)
    (hf : ∀ st x st', f st x = .ok st' → NoNewMoveToHost (q st) (q st')) :
    ∀ (xs : List α) (st r : σ), xs.foldlM f st = .ok r → NoNewMoveToHost (q st) (q r) :=
  foldlM_rel f (fun a b => NoNewMoveToHost (q a) (q b))
    (fun st => NoNewMoveToHost_refl (q st))
    (fun a b c hab hbc => NoNewMoveToHost_trans (q a) (q b) (q c) hab hbc) hf

theorem NoNewMoveToHost_insert_copy (before : InstructionAndShapeIndex)
    (st : Bool × HostOffloader) (node : InstructionAndShapeIndex) (st' : Bool × HostOffloader)
    (h : InsertCopyBetween.insert_copy before st node = .ok st') :
    NoNewMoveToHost st.2.module st'.2.module := by
  unfold InsertCopyBetween.insert_copy at h
  simp only at h
  split at h
  · cases h
    exact NoNewMoveToHost_refl _
  · split at h
    · cases h
    · rename_i o1 copy_to_host hcreated
      have hcreate : NoNewMoveToHost st.2.module o1.module := by
        split at hcreated
        · split at hcreated
          · cases hcreated
          · rename_i d _
            split at hcreated
            · cases hcreated
            · rename_i m1 hcolor
              cases hcreated
              exact NoNewMoveToHost_trans _ _ _
                (NoNewMoveToHost_AddInstruction st.2.module d.parent _
                  (CreateUnary_copy_not_move_to_host _ _))
                (NoNewMoveToHost_SetSubshapeMemorySpace _ _ _ _ hcolor)
        · cases hcreated
          exact NoNewMoveToHost_refl _
      split at h
      · cases h
      · rename_i m2 hreplace
        cases h
        exact NoNewMoveToHost_trans _ _ _ hcreate
          (NoNewMoveToHost_ReplaceOperandWith _ _ _ _ _ hreplace)

theorem NoNewMoveToHost_InsertCopyBetween (o : HostOffloader)
    (before after : InstructionAndShapeIndex) (r : Bool × HostOffloader)
    (h : InsertCopyBetween o before after = .ok r) : NoNewMoveToHost o.module r.2.module := by
  unfold InsertCopyBetween at h
  split at h
  · cases h
  · exact NoNewMoveToHost_foldlM (InsertCopyBetween.insert_copy before)
      (fun st : Bool × HostOffloader => st.2.module)
      (NoNewMoveToHost_insert_copy before) _ (false, o) r h

theorem NoNewMoveToHost_insert_copy_to_device (st : Bool × HloModule) (custom_call : Nat)
    (st' : Bool × HloModule)
    (h : WalkDownHostMemoryOffloadPaths.insert_copy_to_device st custom_call = .ok st') :
    NoNewMoveToHost st.2 st'.2 := by
  unfold WalkDownHostMemoryOffloadPaths.insert_copy_to_device at h
  split at h
  · cases h
  · split at h
    · cases h
    · split at h
      · cases h
      · rename_i d _
        simp only at h
        split at h
        · cases h
        · rename_i m1 hcolor
          split at h
          · cases h
          · rename_i m2 hreplace
            cases h
            exact NoNewMoveToHost_trans _ _ _
              (NoNewMoveToHost_trans _ _ _
                (NoNewMoveToHost_AddInstruction st.2 d.parent _
                  (CreateUnary_copy_not_move_to_host _ _))
                (NoNewMoveToHost_SetSubshapeMemorySpace _ _ _ _ hcolor))
              (NoNewMoveToHost_ReplaceAllUsesWith _ _ _ _ hreplace)

theorem NoNewMoveToHost_insert_copy_before_x64_split (m : HloModule) (x : Nat) (m' : HloModule)
    (h : WalkDownHostMemoryOffloadPaths.insert_copy_before_x64_split m x = .ok m') :
    NoNewMoveToHost m m' := by
  unfold WalkDownHostMemoryOffloadPaths.insert_copy_before_x64_split at h
  split at h
  · cases h
  · split at h
    · cases h
    · split at h
      · cases h
      · rename_i d _
        simp only at h
        split at h
        · cases h
        · rename_i m1 hcolor
          exact NoNewMoveToHost_trans _ _ _
            (NoNewMoveToHost_trans _ _ _
              (NoNewMoveToHost_AddInstruction m d.parent _
                (CreateUnary_copy_not_move_to_host _ _))
              (NoNewMoveToHost_SetSubshapeMemorySpace _ _ _ _ hcolor))
            (NoNewMoveToHost_ReplaceOperandWith _ _ _ _ _ h)

theorem NoNewMoveToHost_remove_move_to_host (st : Bool × HloModule) (custom_call : Nat)
    (st' : Bool × HloModule)
    (h : WalkDownHostMemoryOffloadPaths.remove_move_to_host st custom_call = .ok st') :
    NoNewMoveToHost st.2 st'.2 := by
  unfold WalkDownHostMemoryOffloadPaths.remove_move_to_host at h
  split at h
  · cases h
  · split at h
    · cases h
    · split at h
      · cases h
      · rename_i m1 hreplace
        split at h
        · cases h
        · rename_i m2 hremove
          cases h
          exact NoNewMoveToHost_trans _ _ _
            (NoNewMoveToHost_ReplaceAllUsesWith _ _ _ _ hreplace)
            (NoNewMoveToHost_RemoveInstruction _ _ _ hremove).1

theorem NoNewMoveToHost_add_start_constants (parent : Nat) :
    ∀ (starts : List Int) (m : HloModule),
      NoNewMoveToHost m (DynamifySlice.add_start_constants parent m starts).1 := by
  intro starts
  induction starts with
  | nil =>
    intro m
    exact NoNewMoveToHost_refl m
  | cons start rest ih =>
    intro m
    unfold DynamifySlice.add_start_constants
    simp only
    exact NoNewMoveToHost_trans _ _ _
      (NoNewMoveToHost_AddInstruction m parent _ (by
        simp only [HloInstruction.IsCustomCall, reduceCtorEq, decide_False, Bool.false_and]))
      (ih _)

theorem NoNewMoveToHost_DynamifySlice (m : HloModule) (slice : Nat) (m' : HloModule)
    (h : DynamifySlice m slice = .ok m') : NoNewMoveToHost m m' := by
  unfold DynamifySlice at h
  split at h
  · cases h
  · rename_i s _
    simp only at h
    split at h
    · cases h
    · rename_i operand0 _
      split at h
      · cases h
      · rename_i m1 hreplace
        exact NoNewMoveToHost_trans _ _ _
          (NoNewMoveToHost_trans _ _ _
            (NoNewMoveToHost_trans _ _ _
              (NoNewMoveToHost_add_start_constants s.parent s.slice_starts m)
              (NoNewMoveToHost_AddInstruction _ s.parent _ (by
                simp only [HloInstruction.IsCustomCall, reduceCtorEq, decide_False,
                  Bool.false_and])))
            (NoNewMoveToHost_ReplaceAllUsesWith _ _ _ _ hreplace))
          (NoNewMoveToHost_RemoveInstruction _ _ _ h).1

theorem NoNewMoveToHost_dynamify (st : Bool × HloModule) (slice : Nat) (st' : Bool × HloModule)
    (h : WalkDownHostMemoryOffloadPaths.dynamify st slice = .ok st') :
    NoNewMoveToHost st.2 st'.2 := by
  unfold WalkDownHostMemoryOffloadPaths.dynamify at h
  split at h
  · cases h
  · rename_i m hdynamify
    cases h
    exact NoNewMoveToHost_DynamifySlice _ _ _ hdynamify

theorem NoNewMoveToHost_apply_changes (u : Collaborators) (w : WalkState)
    (starting_instruction_and_index : InstructionAndShapeIndex) (insert_copy_before : Bool)
    (r : Bool × HostOffloader)
    (h : WalkDownHostMemoryOffloadPaths.apply_changes u w starting_instruction_and_index
      insert_copy_before = .ok r) :
    NoNewMoveToHost w.offloader.module r.2.module := by
  unfold WalkDownHostMemoryOffloadPaths.apply_changes at h
  split at h
  · cases h
  · rename_i set_buffers_changed m0 hset
    have h0 : NoNewMoveToHost w.offloader.module m0 :=
      NoNewMoveToHost_SetBuffersToMemorySpaceColor kHostMemorySpace _ _ _ hset
    simp only at h
    split at h
    · cases h
    · rename_i changed1 o1 hcopied
      have h1 : NoNewMoveToHost m0 o1.module := by
        split at hcopied
        · split at hcopied
          · split at hcopied
            · cases hcopied
            · rename_i inserted_copy o2 hinsert
              cases hcopied
              exact NoNewMoveToHost_InsertCopyBetween { w.offloader with module := m0 } _ _ _
                hinsert
          · cases hcopied
        · cases hcopied
          exact NoNewMoveToHost_refl _
      split at h
      · cases h
      · rename_i changed2 m2 hdevice
        have h2 : NoNewMoveToHost o1.module m2 :=
          NoNewMoveToHost_foldlM WalkDownHostMemoryOffloadPaths.insert_copy_to_device
            (fun st : Bool × HloModule => st.2) NoNewMoveToHost_insert_copy_to_device _
            (changed1, o1.module) (changed2, m2) hdevice
        split at h
        · cases h
        · rename_i m3 hx64
          have h3 : NoNewMoveToHost m2 m3 :=
            NoNewMoveToHost_foldlM WalkDownHostMemoryOffloadPaths.insert_copy_before_x64_split
              (fun st : HloModule => st) NoNewMoveToHost_insert_copy_before_x64_split _
              m2 m3 hx64
          split at h
          · cases h
          · rename_i changed4 m4 hremove
            have h4 : NoNewMoveToHost m3 m4 :=
              NoNewMoveToHost_foldlM WalkDownHostMemoryOffloadPaths.remove_move_to_host
                (fun st : Bool × HloModule => st.2) NoNewMoveToHost_remove_move_to_host _
                (changed2, m3) (changed4, m4) hremove
            split at h
            · cases h
            · rename_i changed5 m5 hdynamify
              have h5 : NoNewMoveToHost m4 m5 :=
                NoNewMoveToHost_foldlM WalkDownHostMemoryOffloadPaths.dynamify
                  (fun st : Bool × HloModule => st.2) NoNewMoveToHost_dynamify _
                  (changed4, m4) (changed5, m5) hdynamify
              cases h
              exact NoNewMoveToHost_trans _ _ _ h0
                (NoNewMoveToHost_trans _ _ _ h1
                  (NoNewMoveToHost_trans _ _ _ h2
                    (NoNewMoveToHost_trans _ _ _ h3
                      (NoNewMoveToHost_trans _ _ _ h4 h5))))

/-- `WalkDownHostMemoryOffloadPaths` brings no `MoveToHost` custom call into the
module. -/
theorem NoNewMoveToHost_WalkDownHostMemoryOffloadPaths (u : Collaborators) (fuel : Nat)
    (o : HostOffloader) (starting_instruction_and_index : InstructionAndShapeIndex)
    (insert_copy_before : Bool) (r : Bool × HostOffloader)
    (h : WalkDownHostMemoryOffloadPaths u fuel o starting_instruction_and_index
      insert_copy_before = .ok r) :
    NoNewMoveToHost o.module r.2.module := by
  unfold WalkDownHostMemoryOffloadPaths at h
  split at h
  · cases h
  · rename_i w hloop
    obtain ⟨tagged, htagged⟩ := loop_module u fuel starting_instruction_and_index.instruction
      fuel _ w hloop
    have h1 : NoNewMoveToHost o.module w.offloader.module := by
      rw [htagged]
      exact NoNewMoveToHost_tagged tagged o.module
    exact NoNewMoveToHost_trans _ _ _ h1
      (NoNewMoveToHost_apply_changes u w starting_instruction_and_index insert_copy_before r h)

theorem NoNewMoveToHost_copy_root_to_host (m : HloModule) (custom_call_instruction : Nat)
    (m' : HloModule)
    (h : HandleMoveToHostCustomCall.copy_root_to_host m custom_call_instruction = .ok m') :
    NoNewMoveToHost m m' := by
  unfold HandleMoveToHostCustomCall.copy_root_to_host at h
  split at h
  · cases h
  · split at h
    · cases h
    · split at h
      · cases h
      · rename_i d _
        simp only at h
        split at h
        · cases h
        · rename_i m1 hcolor
          exact NoNewMoveToHost_trans _ _ _
            (NoNewMoveToHost_trans _ _ _
              (NoNewMoveToHost_AddInstruction m d.parent _
                (CreateUnary_copy_not_move_to_host _ _))
              (NoNewMoveToHost_SetSubshapeMemorySpace _ _ _ _ hcolor))
            (NoNewMoveToHost_ReplaceAllUsesWith _ _ _ _ h)

theorem NoNewMoveToHost_walk (u : Collaborators) (fuel : Nat) (o : HostOffloader)
    (starting_instruction_and_shape : InstructionAndShapeIndex) (o' : HostOffloader)
    (h : HandleMoveToHostCustomCall.walk u fuel o starting_instruction_and_shape = .ok o') :
    NoNewMoveToHost o.module o'.module := by
  unfold HandleMoveToHostCustomCall.walk at h
  split at h
  · cases h
  · simp only at h
    split at h
    · cases h
    · rename_i r hwalk
      cases h
      exact NoNewMoveToHost_WalkDownHostMemoryOffloadPaths u fuel o _ _ r hwalk

/-- `HandleMoveToHostCustomCall` returns `false` only for a custom call that was
visited before, and leaves the pass object as it is then; when it returns
`true` for a `MoveToHost` custom call of the module, the module holds fewer
`MoveToHost` custom calls than before. -/
theorem HandleMoveToHostCustomCall_removes (u : Collaborators) (fuel : Nat)
    (o : HostOffloader) (custom_call_instruction : Nat) (r : Bool × HostOffloader)
    (h : HandleMoveToHostCustomCall u fuel o custom_call_instruction = .ok r) :
    (r.1 = false →
      r.2 = o ∧ custom_call_instruction ∈ o.already_visited_move_to_host_custom_calls_) ∧
    (r.1 = true →
      custom_call_instruction ∉ o.already_visited_move_to_host_custom_calls_ ∧
      r.2.module.instruction? custom_call_instruction = none ∧
      NoNewMoveToHost o.module r.2.module ∧
      ∀ i, o.module.get custom_call_instruction = .ok i →
        i.IsCustomCall kMoveToHostCustomCallTarget = true →
        r.2.module.move_to_host_count < o.module.move_to_host_count) := by
  unfold HandleMoveToHostCustomCall at h
  split at h
  · rename_i hvisited
    cases h
    exact ⟨fun _ => ⟨rfl, hvisited⟩, fun hc => by cases hc⟩
  · rename_i hvisited
    split at h
    · cases h
    · rename_i starting hstarting
      simp only at h
      split at h
      · cases h
      · rename_i m0 hcopied
        have h0 : NoNewMoveToHost o.module m0 := by
          split at hcopied
          · exact NoNewMoveToHost_copy_root_to_host _ _ _ hcopied
          · cases hcopied
            exact NoNewMoveToHost_refl _
        split at h
        · cases h
        · rename_i o1 hwalks
          have h1 : NoNewMoveToHost m0 o1.module :=
            NoNewMoveToHost_foldlM (HandleMoveToHostCustomCall.walk u fuel)
              (fun st : HostOffloader => st.module) (NoNewMoveToHost_walk u fuel) _
              { o with module := m0 } o1 hwalks
          split at h
          · cases h
          · rename_i c hget
            split at h
            · cases h
            · rename_i operand0 _
              split at h
              · cases h
              · rename_i m1 hreplace
                split at h
                · cases h
                · rename_i m2 hremove
                  cases h
                  have h2 : NoNewMoveToHost o1.module m1 :=
                    NoNewMoveToHost_ReplaceAllUsesWith _ _ _ _ hreplace
                  obtain ⟨h3, hlt⟩ := NoNewMoveToHost_RemoveInstruction _ _ _ hremove
                  have h01 : NoNewMoveToHost o.module m1 :=
                    NoNewMoveToHost_trans _ _ _ h0 (NoNewMoveToHost_trans _ _ _ h1 h2)
                  constructor
                  · intro hc
                    cases hc
                  · intro _
                    refine ⟨hvisited, ?_, NoNewMoveToHost_trans _ _ _ h01 h3, ?_⟩
                    · show m2.instruction? custom_call_instruction = none
                      rw [(get_RemoveInstruction _ _ _ hremove).2.2.2.2, if_pos rfl]
                    · intro i hi hmarker
                      show m2.move_to_host_count < o.module.move_to_host_count
                      rcases h01.2 custom_call_instruction i ((get_eq_ok_iff _ _ _).1 hi)
                        hmarker with ⟨i', hi', hmarker'⟩ | hless
                      · exact Nat.lt_of_lt_of_le (hlt i' hi' hmarker') h01.1
                      · exact Nat.lt_of_le_of_lt h3.1 hless

/-- The loop over the called computations in `ProcessNextMoveToHostInstr`, for a
recursive call that leaves the pass object as it is when it returns `false` and
removes a `MoveToHost` custom call when it returns `true`. -/
theorem over_called_computations_removes
    (recurse : HostOffloader → Nat → Except Failure (Bool × HostOffloader))
    (hrecurse : ∀ o c r, recurse o c = .ok r →
      (r.1 = false → r.2 = o) ∧
      (r.1 = true → r.2.module.move_to_host_count < o.module.move_to_host_count)) :
    ∀ (called_computations : List Nat) (o : HostOffloader) (r : Bool × HostOffloader),
      ProcessNextMoveToHostInstr.over_called_computations recurse o called_computations
        = .ok r →
      (r.1 = false → r.2 = o) ∧
      (r.1 = true → r.2.module.move_to_host_count < o.module.move_to_host_count) := by
  intro called_computations
  induction called_computations with
  | nil =>
    intro o r h
    unfold ProcessNextMoveToHostInstr.over_called_computations at h
    cases h
    exact ⟨fun _ => rfl, fun hc => by cases hc⟩
  | cons called_comp rest ih =>
    intro o r h
    unfold ProcessNextMoveToHostInstr.over_called_computations at h
    cases hcall : recurse o called_comp with
    | error e =>
      simp only [hcall] at h
      cases h
    | ok r1 =>
      obtain ⟨changed1, o1⟩ := r1
      obtain ⟨hfalse, htrue⟩ := hrecurse o called_comp _ hcall
      cases changed1 with
      | true =>
        simp only [hcall] at h
        cases h
        exact ⟨fun hc => (by cases hc), fun _ => htrue rfl⟩
      | false =>
        simp only [hcall] at h
        have ho1 : o1 = o := hfalse rfl
        rw [ho1] at h
        exact ih o r h

/-- The loop over the instructions in `ProcessNextMoveToHostInstr`, for a
recursive call as above. -/
theorem over_instructions_removes (u : Collaborators) (fuel : Nat)
    (recurse : HostOffloader → Nat → Except Failure (Bool × HostOffloader))
    (hrecurse : ∀ o c r, recurse o c = .ok r →
      (r.1 = false → r.2 = o) ∧
      (r.1 = true → r.2.module.move_to_host_count < o.module.move_to_host_count)) :
    ∀ (instructions : List Nat) (o : HostOffloader) (r : Bool × HostOffloader),
      ProcessNextMoveToHostInstr.over_instructions u fuel recurse o instructions = .ok r →
      (r.1 = false → r.2 = o) ∧
      (r.1 = true → r.2.module.move_to_host_count < o.module.move_to_host_count) := by
  intro instructions
  induction instructions with
  | nil =>
    intro o r h
    unfold ProcessNextMoveToHostInstr.over_instructions at h
    cases h
    exact ⟨fun _ => rfl, fun hc => by cases hc⟩
  | cons instruction rest ih =>
    intro o r h
    unfold ProcessNextMoveToHostInstr.over_instructions at h
    cases hget : o.module.get instruction with
    | error e =>
      simp only [hget] at h
      cases h
    | ok i =>
      simp only [hget] at h
      have hhandled : ∀ r1, (if i.IsCustomCall kMoveToHostCustomCallTarget = true then
            HandleMoveToHostCustomCall u fuel o instruction
          else .ok (false, o)) = .ok r1 →
          (r1.1 = false → r1.2 = o) ∧
          (r1.1 = true → r1.2.module.move_to_host_count < o.module.move_to_host_count) := by
        intro r1 h1
        split at h1
        · rename_i hmarker
          obtain ⟨hfalse, htrue⟩ := HandleMoveToHostCustomCall_removes u fuel o instruction r1 h1
          exact ⟨fun hc => (hfalse hc).1, fun hc => (htrue hc).2.2.2 i hget hmarker⟩
        · cases h1
          exact ⟨fun _ => rfl, fun hc => by cases hc⟩
      cases hhandle : (if i.IsCustomCall kMoveToHostCustomCallTarget = true then
            HandleMoveToHostCustomCall u fuel o instruction
          else .ok (false, o)) with
      | error e =>
        simp only [hhandle] at h
        cases h
      | ok r1 =>
        obtain ⟨changed1, o1⟩ := r1
        obtain ⟨hfalse, htrue⟩ := hhandled _ hhandle
        cases changed1 with
        | true =>
          simp only [hhandle] at h
          cases h
          exact ⟨fun hc => (by cases hc), fun _ => htrue rfl⟩
        | false =>
          simp only [hhandle] at h
          have ho1 : o1 = o := hfalse rfl
          rw [ho1] at h
          cases hcalled : ProcessNextMoveToHostInstr.over_called_computations recurse o
              i.called_computations with
          | error e =>
            simp only [hcalled] at h
            cases h
          | ok r2 =>
            obtain ⟨changed2, o2⟩ := r2
            obtain ⟨hfalse2, htrue2⟩ := over_called_computations_removes recurse hrecurse
              i.called_computations o _ hcalled
            cases changed2 with
            | true =>
              simp only [hcalled] at h
              cases h
              exact ⟨fun hc => (by cases hc), fun _ => htrue2 rfl⟩
            | false =>
              simp only [hcalled] at h
              have ho2 : o2 = o := hfalse2 rfl
              rw [ho2] at h
              exact ih o r h

/-- `ProcessNextMoveToHostInstr` leaves the pass object as it is when it returns
`false`, and has removed a `MoveToHost` custom call from the module when it
returns `true`. -/
theorem ProcessNextMoveToHostInstr_removes (u : Collaborators) (fuel : Nat) :
    ∀ (depth : Nat) (o : HostOffloader) (computation : Nat) (r : Bool × HostOffloader),
      ProcessNextMoveToHostInstr u fuel depth o computation = .ok r →
      (r.1 = false → r.2 = o) ∧
      (r.1 = true → r.2.module.move_to_host_count < o.module.move_to_host_count) := by
  intro depth
  induction depth with
  | zero =>
    intro o computation r h
    unfold ProcessNextMoveToHostInstr at h
    cases h
  | succ depth ih =>
    intro o computation r h
    unfold ProcessNextMoveToHostInstr at h
    exact over_instructions_removes u fuel (ProcessNextMoveToHostInstr u fuel depth) ih _ o r h

/-- The loop of `Run` brings no `MoveToHost` custom call into the module. -/
theorem move_to_host_loop_count (u : Collaborators) (fuel : Nat) :
    ∀ (iterations : Nat) (st r : Bool × HostOffloader),
      Run.move_to_host_loop u fuel iterations st = .ok r →
      r.2.module.move_to_host_count ≤ st.2.module.move_to_host_count := by
  intro iterations
  induction iterations with
  | zero =>
    intro st r h
    unfold Run.move_to_host_loop at h
    cases h
  | succ iterations ih =>
    intro st r h
    unfold Run.move_to_host_loop at h
    cases hnext : ProcessNextMoveToHostInstr u fuel fuel st.2 st.2.module.entry_computation with
    | error e =>
      simp only [hnext] at h
      cases h
    | ok r1 =>
      obtain ⟨changed1, o1⟩ := r1
      obtain ⟨hfalse, htrue⟩ := ProcessNextMoveToHostInstr_removes u fuel fuel st.2 _ _ hnext
      cases changed1 with
      | true =>
        simp only [hnext] at h
        exact Nat.le_trans (ih _ r h) (Nat.le_of_lt (htrue rfl))
      | false =>
        simp only [hnext] at h
        cases h
        have ho1 : o1 = st.2 := hfalse rfl
        exact Nat.le_of_eq (congrArg (fun x : HostOffloader => x.module.move_to_host_count) ho1)

/-- The loop of `Run` uses no more iterations than there are `MoveToHost` custom
calls in the module, and one: with a bound above their number, the result is the
result with any higher bound. -/
theorem move_to_host_loop_bound (u : Collaborators) (fuel : Nat) :
    ∀ (iterations : Nat) (st : Bool × HostOffloader),
      st.2.module.move_to_host_count < iterations →
      ∀ more, Run.move_to_host_loop u fuel (iterations + more) st
        = Run.move_to_host_loop u fuel iterations st := by
  intro iterations
  induction iterations with
  | zero =>
    intro st h
    exact absurd h (Nat.not_lt_zero _)
  | succ iterations ih =>
    intro st h more
    rw [Nat.add_right_comm]
    unfold Run.move_to_host_loop
    cases hnext : ProcessNextMoveToHostInstr u fuel fuel st.2 st.2.module.entry_computation with
    | error e => rfl
    | ok r1 =>
      obtain ⟨changed1, o1⟩ := r1
      obtain ⟨_, htrue⟩ := ProcessNextMoveToHostInstr_removes u fuel fuel st.2 _ _ hnext
      cases changed1 with
      | true =>
        simp only
        exact ih (true, o1)
          (Nat.lt_of_lt_of_le (htrue rfl) (Nat.le_of_lt_succ h)) more
      | false => rfl

/-- With a bound above the number of `MoveToHost` custom calls in the module,
the loop of `Run` returns, or fails with the failure of a call of
`ProcessNextMoveToHostInstr`: it does not end for lack of iterations. -/
theorem move_to_host_loop_ends (u : Collaborators) (fuel : Nat) :
    ∀ (iterations : Nat) (st : Bool × HostOffloader),
      st.2.module.move_to_host_count < iterations →
      (∃ r, Run.move_to_host_loop u fuel iterations st = .ok r) ∨
      ∃ o e, o.module.move_to_host_count ≤ st.2.module.move_to_host_count ∧
        ProcessNextMoveToHostInstr u fuel fuel o o.module.entry_computation = .error e ∧
        Run.move_to_host_loop u fuel iterations st = .error e := by
  intro iterations
  induction iterations with
  | zero =>
    intro st h
    exact absurd h (Nat.not_lt_zero _)
  | succ iterations ih =>
    intro st h
    unfold Run.move_to_host_loop
    cases hnext : ProcessNextMoveToHostInstr u fuel fuel st.2 st.2.module.entry_computation with
    | error e => exact Or.inr ⟨st.2, e, Nat.le_refl _, hnext, rfl⟩
    | ok r1 =>
      obtain ⟨changed1, o1⟩ := r1
      obtain ⟨_, htrue⟩ := ProcessNextMoveToHostInstr_removes u fuel fuel st.2 _ _ hnext
      cases changed1 with
      | true =>
        simp only
        rcases ih (true, o1) (Nat.lt_of_lt_of_le (htrue rfl) (Nat.le_of_lt_succ h)) with
          hok | ⟨o, e, hle, herror, hloop⟩
        · exact Or.inl hok
        · exact Or.inr ⟨o, e, Nat.le_trans hle (Nat.le_of_lt (htrue rfl)), herror, hloop⟩
      | false => exact Or.inl ⟨_, rfl⟩

/-- The loop over the called computations gives the same result for two
recursive calls that agree on the called computations. -/
theorem over_called_computations_congr
    (recurse recurse' : HostOffloader → Nat → Except Failure (Bool × HostOffloader))
    (hrecurse : ∀ o c r, recurse o c = .ok r →
      (r.1 = false → r.2 = o) ∧
      (r.1 = true → r.2.module.move_to_host_count < o.module.move_to_host_count)) :
    ∀ (called_computations : List Nat) (o : HostOffloader),
      (∀ c ∈ called_computations, recurse o c = recurse' o c) →
      ProcessNextMoveToHostInstr.over_called_computations recurse o called_computations
        = ProcessNextMoveToHostInstr.over_called_computations recurse' o
            called_computations := by
  intro called_computations
  induction called_computations with
  | nil =>
    intro o _
    unfold ProcessNextMoveToHostInstr.over_called_computations
    rfl
  | cons called_comp rest ih =>
    intro o hagree
    unfold ProcessNextMoveToHostInstr.over_called_computations
    rw [← hagree called_comp (List.mem_cons_self _ _)]
    cases hcall : recurse o called_comp with
    | error e => rfl
    | ok r1 =>
      obtain ⟨changed1, o1⟩ := r1
      cases changed1 with
      | true => rfl
      | false =>
        simp only
        have ho1 : o1 = o := (hrecurse o called_comp _ hcall).1 rfl
        rw [ho1]
        exact ih o (fun c hc => hagree c (List.mem_cons_of_mem _ hc))

/-- The loop over the instructions gives the same result for two recursive calls
that agree on the computations that the instructions call. -/
theorem over_instructions_congr (u : Collaborators) (fuel : Nat)
    (recurse recurse' : HostOffloader → Nat → Except Failure (Bool × HostOffloader))
    (hrecurse : ∀ o c r, recurse o c = .ok r →
      (r.1 = false → r.2 = o) ∧
      (r.1 = true → r.2.module.move_to_host_count < o.module.move_to_host_count)) :
    ∀ (instructions : List Nat) (o : HostOffloader),
      (∀ x ∈ instructions, ∀ i, o.module.get x = .ok i →
        ∀ c ∈ i.called_computations, recurse o c = recurse' o c) →
      ProcessNextMoveToHostInstr.over_instructions u fuel recurse o instructions
        = ProcessNextMoveToHostInstr.over_instructions u fuel recurse' o instructions := by
  intro instructions
  induction instructions with
  | nil =>
    intro o _
    unfold ProcessNextMoveToHostInstr.over_instructions
    rfl
  | cons instruction rest ih =>
    intro o hagree
    unfold ProcessNextMoveToHostInstr.over_instructions
    cases hget : o.module.get instruction with
    | error e => rfl
    | ok i =>
      simp only
      cases hhandle : (if i.IsCustomCall kMoveToHostCustomCallTarget = true then
            HandleMoveToHostCustomCall u fuel o instruction
          else .ok (false, o)) with
      | error e => rfl
      | ok r1 =>
        obtain ⟨changed1, o1⟩ := r1
        cases changed1 with
        | true => rfl
        | false =>
          simp only
          have ho1 : o1 = o := by
            split at hhandle
            · exact ((HandleMoveToHostCustomCall_removes u fuel o instruction _ hhandle).1
                rfl).1
            · cases hhandle
              rfl
          rw [ho1, ← over_called_computations_congr recurse recurse' hrecurse
            i.called_computations o
            (hagree instruction (List.mem_cons_self _ _) i hget)]
          cases hcalled : ProcessNextMoveToHostInstr.over_called_computations recurse o
              i.called_computations with
          | error e => rfl
          | ok r2 =>
            obtain ⟨changed2, o2⟩ := r2
            cases changed2 with
            | true => rfl
            | false =>
              simp only
              have ho2 : o2 = o := (over_called_computations_removes recurse hrecurse
                i.called_computations o _ hcalled).1 rfl
              rw [ho2]
              exact ih o (fun x hx => hagree x (List.mem_cons_of_mem _ hx))

/-- On a module whose computations have a rank that goes down along every call,
`ProcessNextMoveToHostInstr` uses no more depth than the rank of the
computation, and one. -/
theorem ProcessNextMoveToHostInstr_depth (u : Collaborators) (fuel : Nat) (o : HostOffloader)
    (rank : Nat → Nat)
    (hacyclic : ∀ computation, ∀ x ∈ u.MakeInstructionPostOrder o.module computation,
      ∀ i, o.module.get x = .ok i → ∀ c ∈ i.called_computations, rank c < rank computation) :
    ∀ (depth computation : Nat), rank computation < depth →
      ∀ more, ProcessNextMoveToHostInstr u fuel (depth + more) o computation
        = ProcessNextMoveToHostInstr u fuel depth o computation := by
  intro depth
  induction depth with
  | zero =>
    intro computation h
    exact absurd h (Nat.not_lt_zero _)
  | succ depth ih =>
    intro computation h more
    rw [Nat.add_right_comm]
    unfold ProcessNextMoveToHostInstr
    apply over_instructions_congr u fuel _ _
      (ProcessNextMoveToHostInstr_removes u fuel (depth + more))
    intro x hx i hi c hc
    exact ih c (Nat.lt_of_lt_of_le (hacyclic computation x hx i hi c hc)
      (Nat.le_of_lt_succ h)) more

/-- C39: the loop of `Run` over the `MoveToHost` custom calls ends.
`HandleMoveToHostCustomCall`, called for a `MoveToHost` custom call of the
module, returns `true` only with the custom call removed and with fewer
`MoveToHost` custom calls in the module, and leaves the pass object as it is
when it returns `false`; so does `ProcessNextMoveToHostInstr`.  No walk and no
iteration of the loop brings a `MoveToHost` custom call into the module.  So for
a module with `k` of them, the loop uses at most `k + 1` iterations: every bound
above `k` gives the result of the bound `k + 1`, which is a value or the failure
of a call of `ProcessNextMoveToHostInstr`.  On a module whose computations have
a rank that goes down along every call, the recursion of
`ProcessNextMoveToHostInstr` into a computation uses at most the depth of its
rank and one. -/
theorem c39_move_to_host_loop_terminates (u : Collaborators) (fuel : Nat)
    (st : Bool × HostOffloader) :
    (∀ (o : HostOffloader) (custom_call_instruction : Nat) (r : Bool × HostOffloader)
        (i : HloInstruction),
      HandleMoveToHostCustomCall u fuel o custom_call_instruction = .ok r →
      o.module.get custom_call_instruction = .ok i →
      i.IsCustomCall kMoveToHostCustomCallTarget = true →
      (r.1 = true →
        r.2.module.instruction? custom_call_instruction = none ∧
          r.2.module.move_to_host_count < o.module.move_to_host_count) ∧
      (r.1 = false → r.2 = o)) ∧
    (∀ (depth : Nat) (o : HostOffloader) (computation : Nat) (r : Bool × HostOffloader),
      ProcessNextMoveToHostInstr u fuel depth o computation = .ok r →
      (r.1 = true → r.2.module.move_to_host_count < o.module.move_to_host_count) ∧
      (r.1 = false → r.2 = o)) ∧
    (∀ (o : HostOffloader) (starting_instruction_and_index : InstructionAndShapeIndex)
        (insert_copy_before : Bool) (r : Bool × HostOffloader),
      WalkDownHostMemoryOffloadPaths u fuel o starting_instruction_and_index
        insert_copy_before = .ok r →
      r.2.module.move_to_host_count ≤ o.module.move_to_host_count) ∧
    (∀ (iterations : Nat) (r : Bool × HostOffloader),
      Run.move_to_host_loop u fuel iterations st = .ok r →
      r.2.module.move_to_host_count ≤ st.2.module.move_to_host_count) ∧
    (∀ iterations, st.2.module.move_to_host_count < iterations →
      Run.move_to_host_loop u fuel iterations st
        = Run.move_to_host_loop u fuel (st.2.module.move_to_host_count + 1) st) ∧
    ((∃ r, Run.move_to_host_loop u fuel (st.2.module.move_to_host_count + 1) st = .ok r) ∨
      ∃ o e, o.module.move_to_host_count ≤ st.2.module.move_to_host_count ∧
        ProcessNextMoveToHostInstr u fuel fuel o o.module.entry_computation = .error e ∧
        Run.move_to_host_loop u fuel (st.2.module.move_to_host_count + 1) st = .error e) ∧
    ∀ (o : HostOffloader) (rank : Nat → Nat),
      (∀ computation, ∀ x ∈ u.MakeInstructionPostOrder o.module computation,
        ∀ i, o.module.get x = .ok i →
          ∀ c ∈ i.called_computations, rank c < rank computation) →
      ∀ (depth computation : Nat), rank computation < depth →
        ProcessNextMoveToHostInstr u fuel depth o computation
          = ProcessNextMoveToHostInstr u fuel (rank computation + 1) o computation := by
  refine ⟨?_, ?_, ?_, ?_, ?_, ?_, ?_⟩
  · intro o c r i h hget hmarker
    obtain ⟨hfalse, htrue⟩ := HandleMoveToHostCustomCall_removes u fuel o c r h
    exact ⟨fun hc => ⟨(htrue hc).2.1, (htrue hc).2.2.2 i hget hmarker⟩, fun hc => (hfalse hc).1⟩
  · intro depth o computation r h
    obtain ⟨hfalse, htrue⟩ := ProcessNextMoveToHostInstr_removes u fuel depth o computation r h
    exact ⟨htrue, hfalse⟩
  · intro o start insert_copy_before r h
    exact (NoNewMoveToHost_WalkDownHostMemoryOffloadPaths u fuel o start insert_copy_before r
      h).1
  · intro iterations r h
    exact move_to_host_loop_count u fuel iterations st r h
  · intro iterations h
    have hsplit : iterations
        = (st.2.module.move_to_host_count + 1)
          + (iterations - (st.2.module.move_to_host_count + 1)) := by
      omega
    rw [hsplit]
    exact move_to_host_loop_bound u fuel (st.2.module.move_to_host_count + 1) st
      (Nat.lt_succ_self _) _
  · exact move_to_host_loop_ends u fuel (st.2.module.move_to_host_count + 1) st
      (Nat.lt_succ_self _)
  · intro o rank hacyclic depth computation h
    have hsplit : depth = (rank computation + 1) + (depth - (rank computation + 1)) := by
      omega
    rw [hsplit]
    exact ProcessNextMoveToHostInstr_depth u fuel o rank hacyclic (rank computation + 1)
      computation (Nat.lt_succ_self _) _

/-- Witness for C39: `exampleMoveToHostRootModule` holds one `MoveToHost` custom
call, and the loop of `Run` with a bound of five iterations gives the result of
two iterations, a module without `MoveToHost` custom calls. -/
theorem c39_move_to_host_loop_terminates_witness :
    exampleMoveToHostRootModule.move_to_host_count = 1 ∧
    (∃ r, Run.move_to_host_loop exampleCollaborators 10 2
        (false, exampleOffloader exampleMoveToHostRootModule) = .ok r ∧
      r.2.module.move_to_host_count = 0) ∧
    Run.move_to_host_loop exampleCollaborators 10 5
        (false, exampleOffloader exampleMoveToHostRootModule)
      = Run.move_to_host_loop exampleCollaborators 10 2
          (false, exampleOffloader exampleMoveToHostRootModule) :=
  ⟨rfl, ⟨_, rfl, rfl⟩,
    (c39_move_to_host_loop_terminates exampleCollaborators 10
      (false, exampleOffloader exampleMoveToHostRootModule)).2.2.2.2.1 5 (by decide)⟩

end HostOffload
